import Mathlib

/-! # Arena core of the Memory Pool System: allocation policy

A shallow embedding of `code/arena.c` (arena allocation policy, allocation
from the free land, page allocation for the CBS block pool) together with
theorems about it.

Machine words are natural numbers; where the C code can wrap around, the
arithmetic is reduced modulo `2 ^ W` explicitly, `W` being `MPS_WORD_WIDTH`.
Functions of the repository that `arena.c` calls but that live in other files
(`LandFindInZones`, `LandInsert`, `LandDelete`, `MFSExtend`, the arena class
methods) are parameters of the embedding, collected in `Env`.
-/

namespace MPS

/-! ## Basic types -/

/-- Result codes (`Res` in `mpmtypes.h`). -/
inductive Res where
  | OK | FAIL | RESOURCE | MEMORY | LIMIT | UNIMPL | COMMIT_LIMIT
  deriving DecidableEq, Repr

/- `Addr`, `Size`, `Index`, `Count`, `Shift` and `Word` are natural numbers; a
`ZoneSet` is the natural number of its bit pattern; a `Pool` is an opaque
identity, a natural number too. -/

/-- `RangeStruct`: the half-open interval `[base, limit)`. -/
structure Range where
  base : Nat
  limit : Nat
  deriving DecidableEq, Repr

/-- `RangeInit`. -/
def RangeInit (base limit : Nat) : Range := ⟨base, limit⟩

/-- `RangeSize`. -/
def RangeSize (r : Range) : Nat := r.limit - r.base

/-- `WordIsAligned(w, a)`, used by `SizeIsAligned` and `AddrIsAligned`:
`((w) & ((a) - 1)) == 0`. -/
def WordIsAligned (w a : Nat) : Bool := (w &&& (a - 1)) == 0

/-- `RangeIsAligned`. -/
def RangeIsAligned (r : Range) (a : Nat) : Bool :=
  WordIsAligned r.base a && WordIsAligned r.limit a

/-! ## Zone sets: bit sets in one word of width `W` -/

/-- `ZoneSetEMPTY`. -/
def ZoneSetEMPTY : Nat := 0

/-- `ZoneSetUNIV`: all `W` bits set. -/
def ZoneSetUNIV (W : Nat) : Nat := 2 ^ W - 1

/-- `ZoneSetUnion` = `BS_UNION`: bitwise or. -/
def ZoneSetUnion (a b : Nat) : Nat := a ||| b

/-- `ZoneSetDiff` = `BS_DIFF(s1, s2)`, that is `s1 & ~s2` in a `W`-bit word. -/
def ZoneSetDiff (W : Nat) (a b : Nat) : Nat := a &&& (ZoneSetUNIV W ^^^ b)

/-- `ZoneSetIsMember` = `BS_IS_MEMBER`: bit `z` of the set. -/
def ZoneSetIsMember (zs : Nat) (z : Nat) : Bool := zs.testBit z

/-- `AddrZone(arena, addr)`:
`((Word)(addr) >> (arena)->zoneShift) & (MPS_WORD_WIDTH - 1)`. -/
def AddrZone (W : Nat) (zoneShift : Nat) (addr : Nat) : Nat :=
  (addr >>> zoneShift) &&& (W - 1)

/-! ## Chunks and tracts -/

/-- The part of `ChunkStruct` the arena core reads.  A chunk is identified by
its base address (the chunk structure lives at the base of its memory). -/
structure Chunk where
  base : Nat
  limit : Nat
  pageSize : Nat
  pageShift : Nat
  pages : Nat
  allocBase : Nat
  allocTable : List Bool
  deriving DecidableEq, Repr

/-- `INDEX_OF_ADDR(chunk, addr)`. -/
def INDEX_OF_ADDR (chunk : Chunk) (addr : Nat) : Nat :=
  (addr - chunk.base) >>> chunk.pageShift

/-- `ChunkSizeToPages(chunk, size)`. -/
def ChunkSizeToPages (chunk : Chunk) (size : Nat) : Nat :=
  size >>> chunk.pageShift

/-- `PageIndexBase(chunk, i)`. -/
def PageIndexBase (chunk : Chunk) (i : Nat) : Nat :=
  chunk.base + (i <<< chunk.pageShift)

/-- A `Tract` is a pointer to a page descriptor: the chunk (by base) and the
page index in the chunk's page table. -/
structure Tract where
  chunk : Nat
  index : Nat
  deriving DecidableEq, Repr

/-- `PageTract(ChunkPage(chunk, pi))`. -/
def PageTract (chunk : Chunk) (pi : Nat) : Tract := ⟨chunk.base, pi⟩

/-- `SegPrefStruct`: the locus preference. -/
structure SegPref where
  high : Bool
  zones : Nat
  avoid : Nat
  deriving DecidableEq, Repr

/-- The CBS block pool (an MFS pool): the pages it holds and its spare units. -/
structure MFS where
  tracts : List Nat
  freeUnits : Nat
  deriving DecidableEq, Repr

/-- The free land with the block pool that stores its nodes. -/
structure Land where
  ranges : List Range
  blockPool : MFS
  deriving DecidableEq, Repr

/-- The fields of `ArenaStruct` used by the arena core. -/
structure Arena where
  committed : Nat
  commitLimit : Nat
  spareCommitted : Nat
  spareCommitLimit : Nat
  alignment : Nat
  zoneShift : Nat
  zoned : Bool
  freeZones : Nat
  lastTract : Option Tract
  lastTractBase : Nat
  hasFreeLand : Bool
  poolReady : Bool
  primary : Option Nat
  chunkTree : List Chunk
  freeLand : Land
  /-- The signature word `arena->sig`. -/
  sig : Nat
  deriving DecidableEq, Repr

/-! ## Events -/

/-- The plans of `arenaAllocPolicy`; `CA` and `CB` are the retries of plans A
and B after the arena was grown in plan C. -/
inductive Plan where
  | A | B | CA | CB | D | E
  deriving DecidableEq, Repr

/-- What a run of the arena code does to its collaborators, in order. -/
inductive Event where
  /-- `arenaAllocPolicy` calls `arenaAllocFromLand` for a plan. -/
  | planBegin (p : Plan) (zones : Nat) (high : Bool) (size : Nat)
  /-- That call returned. -/
  | planEnd (p : Plan) (res : Res)
  /-- The class `grow` method was called and returned `res`. -/
  | grow (res : Res)
  /-- `LandFindInZones` was called and returned. -/
  | find (size : Nat) (zones : Nat) (high : Bool) (res : Res) (found : Bool)
      (range : Range)
  /-- The class `pagesMarkAllocated` method was called and returned `res`. -/
  | mark (chunk : Nat) (baseIndex : Nat) (pages : Nat) (pool : Nat) (res : Res)
  /-- `LandInsert` was called and returned. -/
  | landInsert (range : Range) (res : Res) (ret : Range)
  /-- `LandDelete` was called and returned `res`. -/
  | landDelete (range : Range) (res : Res)
  /-- `MFSExtend` was called on the CBS block pool. -/
  | mfsExtend (base : Nat) (size : Nat)
  /-- The class `free` method was called. -/
  | free (base : Nat) (size : Nat) (pool : Nat)
  /-- The class `purgeSpare` method was called and returned `purged`. -/
  | purgeSpare (size : Nat) (purged : Nat)
  /-- `ReservoirEnsureFull` was called and returned `res`. -/
  | reservoirEnsureFull (res : Res)
  /-- `ReservoirDeposit` was called on `(base, size)` and returned `more`,
  leaving `(base', size')` to the caller. -/
  | reservoirDeposit (base : Nat) (size : Nat) (more : Bool) (base' : Nat) (size' : Nat)
  /-- `ReservoirWithdraw` was called and returned `res`. -/
  | reservoirWithdraw (size : Nat) (pool : Nat) (res : Res)
  /-- `ReservoirSetLimit` was called. -/
  | reservoirSetLimit (limit : Nat)
  /-- The tract of the page at `pageBase` was finished and initialised anew
  for the CBS block pool. -/
  | tractSteal (pageBase : Nat)
  /-- The class `init` method was called and returned `res`. -/
  | classInit (res : Res)
  /-- The class `finish` method was called. -/
  | classFinish
  /-- `PoolInit` was called on the control pool and returned `res`. -/
  | controlPoolInit (res : Res)
  /-- `PoolFinish` was called on the control pool. -/
  | controlPoolFinish
  /-- `GlobalsCompleteCreate` was called and returned `res`. -/
  | globalsCompleteCreate (res : Res)
  /-- `GlobalsPrepareToDestroy` was called. -/
  | globalsPrepareToDestroy
  /-- `LandFinish` was called on the free land. -/
  | landFinish
  deriving DecidableEq, Repr

/-- Events logged by `arenaAllocPolicy` itself (not by its callees). -/
def Event.isPolicy : Event → Bool
  | .planBegin .. => true
  | .planEnd .. => true
  | .grow .. => true
  | _ => false

/-! ## Runs: state, event log, assertion failure -/

/-- The outcome of running a piece of arena code: the events it produced and,
unless an assertion failed, its value and the arena state it leaves. -/
structure Run (α : Type) where
  evs : List Event
  out : Option (α × Arena)

/-- Arena code: a function of the arena state. -/
structure M (α : Type) where
  run : Arena → Run α

def M.pure {α : Type} (x : α) : M α := ⟨fun a => ⟨[], some (x, a)⟩⟩

def M.bind {α β : Type} (m : M α) (f : α → M β) : M β :=
  ⟨fun a =>
    match (m.run a).out with
    | none => ⟨(m.run a).evs, none⟩
    | some (x, a') => ⟨(m.run a).evs ++ ((f x).run a').evs, ((f x).run a').out⟩⟩

instance : Monad M where
  pure := M.pure
  bind := M.bind

/-- Log one event. -/
def emit (e : Event) : M Unit := ⟨fun a => ⟨[e], some ((), a)⟩⟩

/-- Read the arena. -/
def getArena : M Arena := ⟨fun a => ⟨[], some (a, a)⟩⟩

/-- Replace the arena. -/
def setArena (a : Arena) : M Unit := ⟨fun _ => ⟨[], some ((), a)⟩⟩

/-- An assertion failure: the run stops. -/
def abort {α : Type} : M α := ⟨fun _ => ⟨[], none⟩⟩

/-- `AVER(cond)`: in a checking variety a false condition stops the run; in a
non-checking variety it is not evaluated. -/
def AVER (checking : Bool) (cond : Bool) : M Unit :=
  if checking && !cond then abort else M.pure ()

/-! ## The collaborators of `arena.c` -/

/-- The methods of `ArenaClassStruct` called by the code embedded here.  A
method may change the arena in any way. -/
structure ArenaClass where
  grow : Arena → SegPref → Nat → Res × Arena
  pagesMarkAllocated : Arena → Chunk → Nat → Nat → Nat → Res × Arena
  free : Arena → Nat → Nat → Nat → Arena
  purgeSpare : Arena → Nat → Nat × Arena
  reserved : Arena → Nat

/-- What `arena.c` is linked with: the platform word width, the variety
(whether `AVER` checks), the arena class, and the land and MFS functions of
`land.c`, `cbs.c` and `poolmfs.c`. -/
structure Env where
  W : Nat
  checking : Bool
  cls : ArenaClass
  /-- `ArenaCBSBlockPool(arena)` as a pool identity. -/
  cbsBlockPool : Nat
  /-- Returns `(res, found, range, oldRange, land)`. -/
  LandFindInZones : Arena → Nat → Nat → Bool → Res × Bool × Range × Range × Land
  /-- Returns `(res, rangeReturn, land)`. -/
  LandInsert : Arena → Range → Res × Range × Land
  /-- Returns `(res, rangeReturn, land)`. -/
  LandDelete : Arena → Range → Res × Range × Land
  MFSExtend : MFS → Nat → Nat → MFS
  /-- `ZoneSetOfRange(arena, base, limit)` of `ref.c`. -/
  ZoneSetOfRange : Arena → Nat → Nat → Nat

/-- Call `LandFindInZones` on `ArenaFreeLand(arena)`. -/
def landFindInZones (env : Env) (size : Nat) (zones : Nat) (high : Bool) :
    M (Res × Bool × Range × Range) :=
  ⟨fun a =>
    let r := env.LandFindInZones a size zones high
    ⟨[Event.find size zones high r.1 r.2.1 r.2.2.1],
     some ((r.1, r.2.1, r.2.2.1, r.2.2.2.1), { a with freeLand := r.2.2.2.2 })⟩⟩

/-- Call `LandInsert` on `ArenaFreeLand(arena)`. -/
def landInsert (env : Env) (range : Range) : M (Res × Range) :=
  ⟨fun a =>
    let r := env.LandInsert a range
    ⟨[Event.landInsert range r.1 r.2.1],
     some ((r.1, r.2.1), { a with freeLand := r.2.2 })⟩⟩

/-- Call `LandDelete` on `ArenaFreeLand(arena)`. -/
def landDelete (env : Env) (range : Range) : M (Res × Range) :=
  ⟨fun a =>
    let r := env.LandDelete a range
    ⟨[Event.landDelete range r.1],
     some ((r.1, r.2.1), { a with freeLand := r.2.2 })⟩⟩

/-- Call `MFSExtend` on `ArenaCBSBlockPool(arena)`. -/
def mfsExtend (env : Env) (base : Nat) (size : Nat) : M Unit :=
  ⟨fun a =>
    ⟨[Event.mfsExtend base size],
     some ((), { a with freeLand :=
        { a.freeLand with blockPool := env.MFSExtend a.freeLand.blockPool base size } })⟩⟩

/-- Call `arena->class->pagesMarkAllocated`. -/
def classPagesMarkAllocated (env : Env) (chunk : Chunk) (baseIndex : Nat)
    (pages : Nat) (pool : Nat) : M Res :=
  ⟨fun a =>
    let r := env.cls.pagesMarkAllocated a chunk baseIndex pages pool
    ⟨[Event.mark chunk.base baseIndex pages pool r.1], some (r.1, r.2)⟩⟩

/-- Call `arena->class->grow`. -/
def classGrow (env : Env) (pref : SegPref) (size : Nat) : M Res :=
  ⟨fun a =>
    let r := env.cls.grow a pref size
    ⟨[Event.grow r.1], some (r.1, r.2)⟩⟩

/-- `ChunkOfAddr`: the chunk of the chunk tree whose interval holds `addr`. -/
def ChunkOfAddr (arena : Arena) (addr : Nat) : Option Chunk :=
  arena.chunkTree.find? (fun c => decide (c.base ≤ addr) && decide (addr < c.limit))

/-- The chunk structure at address `base`. -/
def chunkAt (arena : Arena) (base : Nat) : Option Chunk :=
  arena.chunkTree.find? (fun c => c.base == base)

/-! ## arenaAllocPage: one page for the CBS block pool -/

/-- Modelled from the spec: `BTFindShortResRange` of `bt.c` for a run of one
grain, "finds a run of N free grains": the lowest index in
`[searchBase, searchLimit)` whose bit is reset, with the index after it. -/
def BTFindShortResRange (bt : List Bool) (searchBase searchLimit : Nat) :
    Option (Nat × Nat) :=
  match (List.range' searchBase (searchLimit - searchBase)).find?
      (fun i => !(bt.getD i true)) with
  | some i => some (i, i + 1)
  | none => none

/-- `ArenaAllocPageClosureStruct` (the arena is the state of the run; a null
`base` or `avoid` is `0` or `none`). -/
structure ArenaAllocPageClosure where
  pool : Nat
  base : Nat
  avoid : Option Nat
  res : Res
  deriving DecidableEq, Repr

/-- `arenaAllocPageInChunk`: the tree visitor; the chunk is given by its base.
Returns the visitor's boolean (`TRUE`: carry on) and the updated closure. -/
def arenaAllocPageInChunk (env : Env) (chunkBase : Nat) (cl : ArenaAllocPageClosure) :
    M (Bool × ArenaAllocPageClosure) := do
  let arena ← getArena
  match chunkAt arena chunkBase with
  | none => abort
  | some chunk =>
    /- Already searched in arenaAllocPage. -/
    if cl.avoid = some chunk.base then
      pure (true, { cl with res := Res.RESOURCE })
    else
      match BTFindShortResRange chunk.allocTable chunk.allocBase chunk.pages with
      | none => pure (true, { cl with res := Res.RESOURCE })
      | some (basePageIndex, _) =>
        let res ← classPagesMarkAllocated env chunk basePageIndex 1 cl.pool
        if res ≠ Res.OK then
          pure (true, { cl with res := res })
        else
          pure (false, { cl with base := PageIndexBase chunk basePageIndex })

/-- `TreeTraverse` over the chunk tree in key order: visit until the visitor
returns `FALSE`; `TRUE` when every node was visited. -/
def TreeTraverse (visit : Nat → ArenaAllocPageClosure → M (Bool × ArenaAllocPageClosure)) :
    List Nat → ArenaAllocPageClosure → M (Bool × ArenaAllocPageClosure)
  | [], cl => pure (true, cl)
  | c :: cs, cl => do
    let r ← visit c cl
    if r.1 then TreeTraverse visit cs r.2 else pure (false, r.2)

/-- `arenaAllocPage`: returns the result code and `*baseReturn` (written only
on `ResOK`).  The entry assertions `AVERT(Arena, arena)` and `AVERT(Pool, pool)`
are not embedded: the function is static and its callers have checked the
arena. -/
def arenaAllocPage (env : Env) (pool : Nat) : M (Res × Option Nat) := do
  let arena ← getArena
  let closure : ArenaAllocPageClosure := { pool := pool, base := 0, avoid := none, res := Res.OK }
  match arena.primary with
  | none => abort
  | some primary =>
    let r ← arenaAllocPageInChunk env primary closure
    if !r.1 then
      AVER env.checking (r.2.base != 0)
      pure (Res.OK, some r.2.base)
    else
      let closure := { r.2 with avoid := some primary }
      let arena ← getArena
      let r ← TreeTraverse (arenaAllocPageInChunk env) (arena.chunkTree.map (·.base)) closure
      if !r.1 then
        AVER env.checking (r.2.base != 0)
        pure (Res.OK, some r.2.base)
      else
        AVER env.checking (r.2.res != Res.OK)
        pure (r.2.res, none)

/-- `arenaExtendCBSBlockPool`: returns the result code and, on `ResOK`, the
page's range. -/
def arenaExtendCBSBlockPool (env : Env) : M (Res × Option Range) := do
  let r ← arenaAllocPage env env.cbsBlockPool
  if r.1 ≠ Res.OK then
    pure (r.1, none)
  else
    let arena ← getArena
    let pageBase := r.2.getD 0
    mfsExtend env pageBase arena.alignment
    pure (Res.OK, some (RangeInit pageBase (pageBase + arena.alignment)))

/-- `arenaExcludePage`. -/
def arenaExcludePage (env : Env) (pageRange : Range) : M Unit := do
  let r ← landDelete env pageRange
  AVER env.checking (r.1 == Res.OK)

/-- `arenaLandInsert`: returns the result code and `*rangeReturn` as last
written by `LandInsert`.  The entry assertions `AVER(rangeReturn != NULL)`,
`AVERT(Arena, arena)` and `AVERT(Range, range)` are not embedded: the function
is static and its callers have checked the arena. -/
def arenaLandInsert (env : Env) (range : Range) : M (Res × Range) := do
  let r ← landInsert env range
  if r.1 = Res.LIMIT then
    let e ← arenaExtendCBSBlockPool env
    if e.1 ≠ Res.OK then
      pure (e.1, r.2)
    else
      /- .insert.exclude: insert before exclude. -/
      let r ← landInsert env range
      AVER env.checking (r.1 == Res.OK)
      arenaExcludePage env (e.2.getD ⟨0, 0⟩)
      pure (Res.OK, r.2)
  else
    pure (Res.OK, r.2)

/-! ## arenaAllocFromLand -/

/-- `arenaAllocFromLand`: returns the result code and `*tractReturn` (written
only on `ResOK`). -/
def arenaAllocFromLand (env : Env) (zones : Nat) (high : Bool) (size : Nat)
    (pool : Nat) : M (Res × Option Tract) := do
  AVER env.checking (decide (size > 0))
  let arena ← getArena
  AVER env.checking (WordIsAligned size arena.alignment)
  let zones := if !arena.zoned then ZoneSetUNIV env.W else zones
  /- Step 1. Find a range of address space. -/
  let mut f ← landFindInZones env size zones high
  if f.1 = Res.LIMIT then /- found block, but couldn't store info -/
    let e ← arenaExtendCBSBlockPool env
    if e.1 ≠ Res.OK then /- disastrously short on memory -/
      return (e.1, none)
    arenaExcludePage env (e.2.getD ⟨0, 0⟩)
    f ← landFindInZones env size zones high
    AVER env.checking (f.1 != Res.LIMIT)
  AVER env.checking (f.1 == Res.OK) /- unexpected error from ZoneCBS -/
  if f.1 ≠ Res.OK then /- defensive return -/
    return (f.1, none)
  if !f.2.1 then /- out of address space -/
    return (Res.RESOURCE, none)
  /- Step 2. Make memory available in the address space range. -/
  let range := f.2.2.1
  let arena ← getArena
  match ChunkOfAddr arena range.base with
  | none => abort
  | some chunk =>
    AVER env.checking (RangeIsAligned range chunk.pageSize)
    let baseIndex := INDEX_OF_ADDR chunk range.base
    let pages := ChunkSizeToPages chunk (RangeSize range)
    let res ← classPagesMarkAllocated env chunk baseIndex pages pool
    if res ≠ Res.OK then
      /- failMark -/
      let ins ← arenaLandInsert env range
      AVER env.checking (ins.1 == Res.OK) /- We only just deleted it. -/
      return (res, none)
    let arena ← getArena
    let zs := env.ZoneSetOfRange arena range.base range.limit
    setArena { arena with freeZones := ZoneSetDiff env.W arena.freeZones zs }
    return (Res.OK, some (PageTract chunk baseIndex))

/-! ### arenaAllocFromLand step by step

The same control flow as one definition per step; `arenaAllocFromLand_eq_steps`
proves that the two agree. -/

/-- Step 2 of `arenaAllocFromLand`: make memory available in `range`. -/
def allocFromLandMark (env : Env) (range : Range) (pool : Nat) : M (Res × Option Tract) := do
  let arena ← getArena
  match ChunkOfAddr arena range.base with
  | none => abort
  | some chunk =>
    AVER env.checking (RangeIsAligned range chunk.pageSize)
    let res ← classPagesMarkAllocated env chunk (INDEX_OF_ADDR chunk range.base)
      (ChunkSizeToPages chunk (RangeSize range)) pool
    if res ≠ Res.OK then do
      let ins ← arenaLandInsert env range
      AVER env.checking (ins.1 == Res.OK)
      pure (res, none)
    else do
      let arena ← getArena
      let zs := env.ZoneSetOfRange arena range.base range.limit
      setArena { arena with freeZones := ZoneSetDiff env.W arena.freeZones zs }
      pure (Res.OK, some (PageTract chunk (INDEX_OF_ADDR chunk range.base)))

/-- What `arenaAllocFromLand` does with the outcome `f` of the land search. -/
def allocFromLandFound (env : Env) (f : Res × Bool × Range × Range) (pool : Nat) :
    M (Res × Option Tract) := do
  AVER env.checking (f.1 == Res.OK)
  if f.1 ≠ Res.OK then pure (f.1, none)
  else if !f.2.1 then pure (Res.RESOURCE, none)
  else allocFromLandMark env f.2.2.1 pool

/-- The zone set `arenaAllocFromLand` hands to the land. -/
def searchZones (env : Env) (arena : Arena) (zones : Nat) : Nat :=
  if !arena.zoned then ZoneSetUNIV env.W else zones

/-- `arenaAllocFromLand` as search, block pool extension and steps. -/
def allocFromLandSteps (env : Env) (zones : Nat) (high : Bool) (size : Nat) (pool : Nat) :
    M (Res × Option Tract) := do
  AVER env.checking (decide (size > 0))
  let arena ← getArena
  AVER env.checking (WordIsAligned size arena.alignment)
  let f ← landFindInZones env size (searchZones env arena zones) high
  if f.1 = Res.LIMIT then do
    let e ← arenaExtendCBSBlockPool env
    if e.1 ≠ Res.OK then pure (e.1, none)
    else do
      arenaExcludePage env (e.2.getD ⟨0, 0⟩)
      let f ← landFindInZones env size (searchZones env arena zones) high
      AVER env.checking (f.1 != Res.LIMIT)
      allocFromLandFound env f pool
  else allocFromLandFound env f pool

/-! ## arenaAllocPolicy -/

/-- The pre-flight test of `arenaAllocPolicy`: the request would definitely
exceed the commit limit.  `Size` arithmetic is modulo `2 ^ W`. -/
def commitLimitExceeded (W : Nat) (arena : Arena) (size : Nat) : Bool :=
  if arena.spareCommitted < size then
    let necessaryCommitIncrease := (size - arena.spareCommitted) % 2 ^ W
    decide ((arena.committed + necessaryCommitIncrease) % 2 ^ W > arena.commitLimit)
      || decide ((arena.committed + necessaryCommitIncrease) % 2 ^ W < arena.committed)
  else
    false

/-- One call of `arenaAllocFromLand` by the policy, bracketed in the log. -/
def tryPlan (env : Env) (p : Plan) (zones : Nat) (high : Bool) (size : Nat)
    (pool : Nat) : M (Res × Option Tract) := do
  emit (Event.planBegin p zones high size)
  let r ← arenaAllocFromLand env zones high size pool
  emit (Event.planEnd p r.1)
  pure r

/-- `arenaAllocPolicy`: returns the result code and `*tractReturn` (written
only on `ResOK`). -/
def arenaAllocPolicy (env : Env) (pref : SegPref) (size : Nat) (pool : Nat) :
    M (Res × Option Tract) := do
  AVER env.checking (decide (size > 0))
  let arena ← getArena
  /- Don't attempt to allocate if doing so would definitely exceed the
     commit limit. -/
  if commitLimitExceeded env.W arena size then
    return (Res.COMMIT_LIMIT, none)
  /- Plan A: allocate from the free Land in the requested zones -/
  let mut zones := ZoneSetDiff env.W pref.zones pref.avoid
  if zones ≠ ZoneSetEMPTY then
    let r ← tryPlan env Plan.A zones pref.high size pool
    if r.1 = Res.OK then
      return (Res.OK, r.2)
  /- Plan B: add free zones that aren't blacklisted -/
  let arena ← getArena
  let moreZones := ZoneSetUnion pref.zones (ZoneSetDiff env.W arena.freeZones pref.avoid)
  if moreZones ≠ zones then
    let r ← tryPlan env Plan.B moreZones pref.high size pool
    if r.1 = Res.OK then
      return (Res.OK, r.2)
  /- Plan C: Extend the arena, then try A and B again. -/
  if moreZones ≠ ZoneSetEMPTY then
    let res ← classGrow env pref size
    if res ≠ Res.OK then
      return (res, none)
    if zones ≠ ZoneSetEMPTY then
      let r ← tryPlan env Plan.CA zones pref.high size pool
      if r.1 = Res.OK then
        return (Res.OK, r.2)
    if moreZones ≠ zones then
      let arena ← getArena
      zones := ZoneSetUnion zones (ZoneSetDiff env.W arena.freeZones pref.avoid)
      let r ← tryPlan env Plan.CB moreZones pref.high size pool
      if r.1 = Res.OK then
        return (Res.OK, r.2)
  /- Plan D: add every zone that isn't blacklisted. -/
  let evenMoreZones := ZoneSetDiff env.W (ZoneSetUNIV env.W) pref.avoid
  if evenMoreZones ≠ moreZones then
    let r ← tryPlan env Plan.D evenMoreZones pref.high size pool
    if r.1 = Res.OK then
      return (Res.OK, r.2)
  /- Last resort: try anywhere. -/
  let r ← tryPlan env Plan.E (ZoneSetUNIV env.W) pref.high size pool
  if r.1 = Res.OK then
    return (Res.OK, r.2)
  /- Uh oh. -/
  return (r.1, none)

/-! ### The policy plan by plan

`arenaAllocPolicy` above follows the C text line by line.  The same control
flow is spelt out below as one definition per plan, each ending in the plans
that follow it; `arenaAllocPolicy_eq_plans` proves that the two agree. -/

/-- Last resort (plan E) and the final `return res`. -/
def policyPlanE (env : Env) (pref : SegPref) (size pool : Nat) : M (Res × Option Tract) := do
  let r ← tryPlan env Plan.E (ZoneSetUNIV env.W) pref.high size pool
  if r.1 = Res.OK then pure (Res.OK, r.2) else pure (r.1, none)

/-- Plan D and what follows. -/
def policyPlanD (env : Env) (pref : SegPref) (size pool : Nat) (moreZones : Nat) :
    M (Res × Option Tract) :=
  if ZoneSetDiff env.W (ZoneSetUNIV env.W) pref.avoid ≠ moreZones then do
    let r ← tryPlan env Plan.D (ZoneSetDiff env.W (ZoneSetUNIV env.W) pref.avoid)
      pref.high size pool
    if r.1 = Res.OK then pure (Res.OK, r.2) else policyPlanE env pref size pool
  else policyPlanE env pref size pool

/-- Plan C, second retry (plan B's zones) and what follows. -/
def policyPlanCB (env : Env) (pref : SegPref) (size pool : Nat) (zones moreZones : Nat) :
    M (Res × Option Tract) :=
  if moreZones ≠ zones then do
    let r ← tryPlan env Plan.CB moreZones pref.high size pool
    if r.1 = Res.OK then pure (Res.OK, r.2) else policyPlanD env pref size pool moreZones
  else policyPlanD env pref size pool moreZones

/-- Plan C, first retry (plan A's zones) and what follows. -/
def policyPlanCA (env : Env) (pref : SegPref) (size pool : Nat) (zones moreZones : Nat) :
    M (Res × Option Tract) :=
  if zones ≠ ZoneSetEMPTY then do
    let r ← tryPlan env Plan.CA zones pref.high size pool
    if r.1 = Res.OK then pure (Res.OK, r.2)
    else policyPlanCB env pref size pool zones moreZones
  else policyPlanCB env pref size pool zones moreZones

/-- Plan C (grow the arena) and what follows. -/
def policyPlanC (env : Env) (pref : SegPref) (size pool : Nat) (zones moreZones : Nat) :
    M (Res × Option Tract) :=
  if moreZones ≠ ZoneSetEMPTY then do
    let res ← classGrow env pref size
    if res ≠ Res.OK then pure (res, none)
    else policyPlanCA env pref size pool zones moreZones
  else policyPlanD env pref size pool moreZones

/-- The zone set of plan B, computed from the arena when plan B starts. -/
def planBZones (env : Env) (pref : SegPref) (arena : Arena) : Nat :=
  ZoneSetUnion pref.zones (ZoneSetDiff env.W arena.freeZones pref.avoid)

/-- Plan B and what follows. -/
def policyPlanB (env : Env) (pref : SegPref) (size pool : Nat) (zones : Nat) :
    M (Res × Option Tract) := do
  let arena ← getArena
  if planBZones env pref arena ≠ zones then do
    let r ← tryPlan env Plan.B (planBZones env pref arena) pref.high size pool
    if r.1 = Res.OK then pure (Res.OK, r.2)
    else policyPlanC env pref size pool zones (planBZones env pref arena)
  else policyPlanC env pref size pool zones (planBZones env pref arena)

/-- Plan A and what follows. -/
def policyPlanA (env : Env) (pref : SegPref) (size pool : Nat) : M (Res × Option Tract) :=
  if ZoneSetDiff env.W pref.zones pref.avoid ≠ ZoneSetEMPTY then do
    let r ← tryPlan env Plan.A (ZoneSetDiff env.W pref.zones pref.avoid) pref.high size pool
    if r.1 = Res.OK then pure (Res.OK, r.2)
    else policyPlanB env pref size pool (ZoneSetDiff env.W pref.zones pref.avoid)
  else policyPlanB env pref size pool (ZoneSetDiff env.W pref.zones pref.avoid)

/-- The policy as pre-flight check followed by the plans. -/
def policyPlans (env : Env) (pref : SegPref) (size pool : Nat) : M (Res × Option Tract) := do
  AVER env.checking (decide (size > 0))
  let arena ← getArena
  if commitLimitExceeded env.W arena size then pure (Res.COMMIT_LIMIT, none)
  else policyPlanA env pref size pool

/-! ## A small concrete free land and arena class

The theorems below hold for every `Env`.  To run the code on concrete inputs
a simple land is provided, written after the contracts of spec section 4.4. -/

/-- Every stripe met by `[base, limit)` has its zone in `zones`. -/
def rangeInZones (W : Nat) (zoneShift : Nat) (zones : Nat) (base limit : Nat) : Bool :=
  (List.range' (base >>> zoneShift) (((limit - 1) >>> zoneShift) + 1 - (base >>> zoneShift))).all
    (fun k => ZoneSetIsMember zones (k &&& (W - 1)))

/-- Modelled from the spec: `delete(range)` of the free land (`cbs.c` is not in
src): "removes `range`, which must be entirely covered by one existing free
range; splits if in the interior.  Returns `LIMIT` similarly.  Returns the
pre-existing range that contained it."  A split takes a node from the block
pool; deleting a whole range gives one back. -/
def simpleLandDelete (land : Land) (range : Range) : Res × Range × Land :=
  match land.ranges.find? (fun r => decide (r.base ≤ range.base) && decide (range.limit ≤ r.limit)) with
  | none => (Res.FAIL, range, land)
  | some r =>
    let others := land.ranges.filter (fun x => x ≠ r)
    if r.base = range.base ∧ r.limit = range.limit then
      (Res.OK, r, { ranges := others,
                    blockPool := { land.blockPool with freeUnits := land.blockPool.freeUnits + 1 } })
    else if r.base = range.base then
      (Res.OK, r, { land with ranges := ⟨range.limit, r.limit⟩ :: others })
    else if r.limit = range.limit then
      (Res.OK, r, { land with ranges := ⟨r.base, range.base⟩ :: others })
    else if land.blockPool.freeUnits = 0 then
      (Res.LIMIT, range, land)
    else
      (Res.OK, r, { ranges := ⟨r.base, range.base⟩ :: ⟨range.limit, r.limit⟩ :: others,
                    blockPool := { land.blockPool with freeUnits := land.blockPool.freeUnits - 1 } })

/-- Modelled from the spec: `insert(range)` of the free land: "if `range` is
adjacent to an existing range, coalesce; otherwise add.  Returns the resulting
coalesced range.  Returns `LIMIT` if a new tree node would be required and
none is available." -/
def simpleLandInsert (land : Land) (range : Range) : Res × Range × Land :=
  let left := land.ranges.find? (fun r => r.limit = range.base)
  let right := land.ranges.find? (fun r => r.base = range.limit)
  match left, right with
  | some l, some r =>
    let others := land.ranges.filter (fun x => x ≠ l ∧ x ≠ r)
    (Res.OK, ⟨l.base, r.limit⟩,
      { ranges := ⟨l.base, r.limit⟩ :: others,
        blockPool := { land.blockPool with freeUnits := land.blockPool.freeUnits + 1 } })
  | some l, none =>
    (Res.OK, ⟨l.base, range.limit⟩,
      { land with ranges := ⟨l.base, range.limit⟩ :: land.ranges.filter (fun x => x ≠ l) })
  | none, some r =>
    (Res.OK, ⟨range.base, r.limit⟩,
      { land with ranges := ⟨range.base, r.limit⟩ :: land.ranges.filter (fun x => x ≠ r) })
  | none, none =>
    if land.blockPool.freeUnits = 0 then
      (Res.LIMIT, range, land)
    else
      (Res.OK, range,
        { ranges := range :: land.ranges,
          blockPool := { land.blockPool with freeUnits := land.blockPool.freeUnits - 1 } })

/-- The grain-aligned candidate ranges of `size` bytes inside the free ranges
whose every address lies in `zones`. -/
def simpleCandidates (W : Nat) (arena : Arena) (size : Nat) (zones : Nat) : List Range :=
  arena.freeLand.ranges.flatMap (fun r =>
    ((List.range ((r.limit - r.base) / arena.alignment)).map
        (fun i => (⟨r.base + i * arena.alignment, r.base + i * arena.alignment + size⟩ : Range))).filter
      (fun c => decide (c.limit ≤ r.limit) &&
        rangeInZones W arena.zoneShift zones c.base c.limit))

/-- Modelled from the spec: `findInZones(size, zones, high)` of the free land:
"finds an aligned range of the given size whose every address lies in
`zones`", the candidate of lowest address or with `high` of highest address; "returns
`found=false` if no such range exists; returns `LIMIT` if the search succeeded
but a split would have been needed and no node is available".  The range
found is deleted from the land. -/
def simpleLandFindInZones (W : Nat) (arena : Arena) (size : Nat) (zones : Nat)
    (high : Bool) : Res × Bool × Range × Range × Land :=
  let cands := simpleCandidates W arena size zones
  match cands.foldl (fun best c =>
      match best with
      | none => some c
      | some b => if (if high then b.base < c.base else c.base < b.base) then some c else some b)
    none with
  | none => (Res.OK, false, ⟨0, 0⟩, ⟨0, 0⟩, arena.freeLand)
  | some c =>
    let d := simpleLandDelete arena.freeLand c
    if d.1 = Res.OK then (Res.OK, true, c, d.2.1, d.2.2)
    else (d.1, false, c, d.2.1, arena.freeLand)

/-- Modelled from the spec: `MFSExtend` of `poolmfs.c`, "hands the page to the
block pool": the pool records the page and gains `unitsPerPage` nodes. -/
def simpleMFSExtend (unitsPerPage : Nat) (mfs : MFS) (base : Nat) (_size : Nat) : MFS :=
  { tracts := base :: mfs.tracts, freeUnits := mfs.freeUnits + unitsPerPage }

/-- Set `n` bits of an allocation table from index `i`. -/
def BTSetRange (bt : List Bool) (i n : Nat) : List Bool :=
  (List.range bt.length).map (fun k => if i ≤ k ∧ k < i + n then true else bt.getD k false)

/-- A class method `pagesMarkAllocated` after the client arena: marks the
pages in the chunk's allocation table and commits them, failing with
`ResMEMORY` when the commit limit would be passed. -/
def simplePagesMarkAllocated (arena : Arena) (chunk : Chunk) (baseIndex : Nat)
    (pages : Nat) (_pool : Nat) : Res × Arena :=
  if arena.committed + pages * chunk.pageSize > arena.commitLimit then
    (Res.MEMORY, arena)
  else
    (Res.OK, { arena with
      committed := arena.committed + pages * chunk.pageSize
      chunkTree := arena.chunkTree.map (fun c =>
        if c.base = chunk.base then
          { c with allocTable := BTSetRange c.allocTable baseIndex pages }
        else c) })

/-- `ArenaNoGrow`, as a class method: a function of the arena.  Its entry
assertions `AVERT(Arena, arena)` and `AVERT(SegPref, pref)` are not embedded. -/
def ArenaNoGrow (arena : Arena) (_pref : SegPref) (_size : Nat) : Res × Arena :=
  (Res.RESOURCE, arena)

/-- `ArenaNoPurgeSpare`, "used by arenas which don't use spare committed
memory", as a class method: a function of the arena.  Its entry assertion
`AVERT(Arena, arena)` is not embedded. -/
def ArenaNoPurgeSpare (arena : Arena) (_size : Nat) : Nat × Arena :=
  (0, arena)

/-- Modelled from the spec: `ZoneSetOfRange` of `ref.c`, "the set of zones any
address in `[base, limit)` may belong to; for ranges larger than
`W << zoneShift` this is `UNIV`". -/
def simpleZoneSetOfRange (W : Nat) (arena : Arena) (base limit : Nat) : Nat :=
  if limit - base > W <<< arena.zoneShift then ZoneSetUNIV W
  else
    (List.range' (base >>> arena.zoneShift)
        (((limit - 1) >>> arena.zoneShift) + 1 - (base >>> arena.zoneShift))).foldl
      (fun zs k => zs ||| (1 <<< (k &&& (W - 1)))) 0

/-- An arena class without `grow` and without spare memory. -/
def simpleClass : ArenaClass where
  grow := ArenaNoGrow
  pagesMarkAllocated := simplePagesMarkAllocated
  free := fun a _ _ _ => a
  purgeSpare := ArenaNoPurgeSpare
  reserved := fun a => (a.chunkTree.map (fun c => c.limit - c.base)).sum

/-- A 64-bit platform, checking variety, the simple class and land; pool `0`
is the CBS block pool. -/
def simpleEnv : Env where
  W := 64
  checking := true
  cls := simpleClass
  cbsBlockPool := 0
  LandFindInZones := fun a size zones high => simpleLandFindInZones 64 a size zones high
  LandInsert := fun a r => simpleLandInsert a.freeLand r
  LandDelete := fun a r => simpleLandDelete a.freeLand r
  MFSExtend := simpleMFSExtend 64
  ZoneSetOfRange := simpleZoneSetOfRange 64

/-- A zoned arena with 4 KiB grains and 64 KiB stripes, one chunk
`[0x100000, 0x140000)` of 64 pages whose first page holds the chunk's own
tables, the rest of it free, and `n` spare nodes in the block pool. -/
def simpleArena (n : Nat) : Arena where
  committed := 4096
  commitLimit := 2 ^ 64 - 1
  spareCommitted := 0
  spareCommitLimit := 0
  alignment := 4096
  zoneShift := 16
  zoned := true
  freeZones := ZoneSetUNIV 64 ^^^ 0xF
  lastTract := none
  lastTractBase := 0
  hasFreeLand := true
  poolReady := true
  primary := some 0x100000
  chunkTree := [{ base := 0x100000, limit := 0x140000, pageSize := 4096, pageShift := 12,
                  pages := 64, allocBase := 1,
                  allocTable := true :: List.replicate 63 false }]
  freeLand := { ranges := [⟨0x101000, 0x140000⟩], blockPool := { tracts := [], freeUnits := n } }
  sig := 0x519A6E4A

/-! ## Vocabulary for the theorems -/

/-- Every event of every run of `m` satisfies `P`. -/
def EvsAll {α : Type} (P : Event → Prop) (m : M α) : Prop :=
  ∀ a, ∀ e ∈ (m.run a).evs, P e

/-- Events of the code below the policy: land, block pool and
`pagesMarkAllocated` calls. -/
def Event.isLow (e : Event) : Prop := e.isPolicy = false

/-- The policy-level events of a log. -/
def policyEvents (evs : List Event) : List Event := evs.filter Event.isPolicy

/-- The place of a plan in the text of `arenaAllocPolicy`. -/
def Plan.rank : Plan → Nat
  | .A => 0
  | .B => 2
  | .CA => 5
  | .CB => 7
  | .D => 9
  | .E => 11

/-- The place of a policy event in the text of `arenaAllocPolicy`: a plan's
call, then its return; `grow` sits between plan B and the retries. -/
def Event.rank : Event → Nat
  | .planBegin p _ _ _ => p.rank
  | .planEnd p _ => p.rank + 1
  | .grow _ => 4
  | _ => 0

/-- The policy calls `arenaAllocFromLand` or `grow`. -/
def Event.isStart : Event → Bool
  | .planBegin .. => true
  | .grow .. => true
  | _ => false

/-- A policy event after which `arenaAllocPolicy` carries on: a plan that was
begun and returned, a plan that returned a failure, a `grow` that returned
`ResOK`. -/
def Passable (P : List Event) : Event → Prop
  | .planEnd _ r => r ≠ Res.OK
  | .grow r => r = Res.OK
  | .planBegin p _ _ _ => ∃ r, Event.planEnd p r ∈ P
  | _ => True

/-- The zone set each plan searches, in terms of plan A's set `zA`, plan B's
set `mz`, plan D's set `zD` and the universal set `U`, with the test that
guards the plan. -/
def zoneSpec (zA mz zD U : Nat) : Plan → Nat → Prop
  | .A, z => z = zA ∧ zA ≠ ZoneSetEMPTY
  | .B, z => z = mz ∧ mz ≠ zA
  | .CA, z => z = zA ∧ zA ≠ ZoneSetEMPTY
  | .CB, z => z = mz ∧ mz ≠ zA
  | .D, z => z = zD ∧ zD ≠ mz
  | .E, z => z = U

/-- The test that guards the step of the policy at rank `j`. -/
def stageCond (zA mz zD : Nat) (j : Nat) : Prop :=
  (j = 0 ∧ zA ≠ ZoneSetEMPTY) ∨ (j = 2 ∧ mz ≠ zA) ∨ (j = 4 ∧ mz ≠ ZoneSetEMPTY) ∨
  (j = 5 ∧ mz ≠ ZoneSetEMPTY ∧ zA ≠ ZoneSetEMPTY) ∨ (j = 7 ∧ mz ≠ ZoneSetEMPTY ∧ mz ≠ zA) ∨
  (j = 9 ∧ zD ≠ mz) ∨ j = 11

/-- What holds of the policy-level events `P` of a run of the policy from the
step of rank `k` on. -/
structure PolicyInv (high : Bool) (size zA mz zD U : Nat) (k : Nat) (P : List Event) : Prop where
  /-- Only policy events, of this step or later ones. -/
  rank_ge : ∀ e ∈ P, e.isPolicy = true ∧ k ≤ e.rank
  /-- In the order of the program text, each at most once. -/
  sorted : P.Pairwise (fun x y => x.rank < y.rank)
  /-- An event that is followed by another one did not end the policy. -/
  passed : ∀ e ∈ P, ∀ e' ∈ P, e.rank < e'.rank → Passable P e
  /-- A plan that returned was begun. -/
  paired : ∀ p r, Event.planEnd p r ∈ P → ∃ z h s, Event.planBegin p z h s ∈ P
  /-- Each plan searches its zone set. -/
  zones : ∀ p z h s, Event.planBegin p z h s ∈ P →
    h = high ∧ s = size ∧ zoneSpec zA mz zD U p z
  /-- The arena is grown only when plan B's zone set is not empty. -/
  grown : ∀ r, Event.grow r ∈ P → mz ≠ ZoneSetEMPTY
  /-- A step whose guard holds is taken once everything before it is passed. -/
  progress : ∀ j, k ≤ j → stageCond zA mz zD j → (∀ e ∈ P, e.rank < j → Passable P e) →
    ∃ e ∈ P, e.isStart = true ∧ e.rank = j

/-- The arena in which plan B starts: the one plan A's search left, or the
initial one when plan A is skipped. -/
def planBEntry (env : Env) (pref : SegPref) (size pool : Nat) (a : Arena) : Arena :=
  if ZoneSetDiff env.W pref.zones pref.avoid ≠ ZoneSetEMPTY then
    match ((arenaAllocFromLand env (ZoneSetDiff env.W pref.zones pref.avoid) pref.high
        size pool).run a).out with
    | some (_, a') => a'
    | none => a
  else a

/-- The event is a call of the class `grow` method. -/
def Event.isGrow : Event → Bool
  | .grow _ => true
  | _ => false

/-- A class method `grow` after the VM arena: it adds, once, a second chunk
`[0x200000, 0x240000)` whose first page holds the chunk's tables, and inserts
the rest of it into the free land. -/
def simpleGrow (arena : Arena) (_pref : SegPref) (_size : Nat) : Res × Arena :=
  if arena.chunkTree.any (fun c => c.base == 0x200000) then
    (Res.RESOURCE, arena)
  else
    let ins := simpleLandInsert arena.freeLand ⟨0x201000, 0x240000⟩
    if ins.1 ≠ Res.OK then (Res.RESOURCE, arena)
    else
      (Res.OK, { arena with
        committed := arena.committed + 4096
        chunkTree := arena.chunkTree ++
          [{ base := 0x200000, limit := 0x240000, pageSize := 4096, pageShift := 12,
             pages := 64, allocBase := 1, allocTable := true :: List.replicate 63 false }]
        freeLand := ins.2.2 })

/-- The simple class with `simpleGrow`. -/
def growClass : ArenaClass := { simpleClass with grow := simpleGrow }

/-- The simple environment with `growClass`. -/
def growEnv : Env := { simpleEnv with cls := growClass }

/-- Every run of `m` that returns satisfies `Q` of the initial arena, the
value and the final arena. -/
def Post {α : Type} (Q : Arena → α → Arena → Prop) (m : M α) : Prop :=
  ∀ a x a', (m.run a).out = some (x, a') → Q a x a'

/-- The projection `f` of the arena is not changed by the land and block
pool functions nor by the class method `pagesMarkAllocated`. -/
structure Frame {β : Type} (env : Env) (f : Arena → β) : Prop where
  land : ∀ a l, f { a with freeLand := l } = f a
  mark : ∀ a c i n p, f (env.cls.pagesMarkAllocated a c i n p).2 = f a

/-- The run reaches plan E: its log ends with the log of plan E's call of
`arenaAllocFromLand`, begun in some arena `a₁`, and its outcome is the outcome
of that call. -/
def ReachesPlanE (env : Env) (pref : SegPref) (size pool : Nat)
    (r : Run (Res × Option Tract)) : Prop :=
  ∃ a₁ pre,
    r.evs = pre ++ ((tryPlan env Plan.E (ZoneSetUNIV env.W) pref.high size pool).run a₁).evs ∧
    r.out = ((tryPlan env Plan.E (ZoneSetUNIV env.W) pref.high size pool).run a₁).out ∧
    ∀ e ∈ pre, e.isPolicy = true → e.rank < 11

/-- What `arenaAllocFromLand` returns: a tract exactly with `ResOK`. -/
def TractIffOK (r : Res × Option Tract) : Prop :=
  (r.1 = Res.OK → r.2.isSome = true) ∧ (r.1 ≠ Res.OK → r.2 = none)

/-- All policy events before plan E are passed. -/
def AllPassed (evs : List Event) : Prop :=
  ∀ e ∈ policyEvents evs, e.rank < 11 → Passable (policyEvents evs) e

/-- The ways a run of the policy ends: in plan E, in an assertion failure,
with `ResOK`, or with the failure of `grow`. -/
def Ends (env : Env) (pref : SegPref) (size pool : Nat) (r : Run (Res × Option Tract)) : Prop :=
  ReachesPlanE env pref size pool r ∨ r.out = none ∨
    (∃ t a', r.out = some ((Res.OK, t), a')) ∨
    (∃ res a', res ≠ Res.OK ∧ Event.grow res ∈ r.evs ∧ r.out = some ((res, none), a'))

/-- The event is a call of `LandFindInZones`. -/
def Event.isFind : Event → Bool
  | .find .. => true
  | _ => false

/-- The event, if it is a call of `pagesMarkAllocated`, is for one page for
the CBS block pool: a call made by `arenaAllocPage`. -/
def Event.markIsForBlockPool (env : Env) : Event → Prop
  | .mark _ _ n p _ => p = env.cbsBlockPool ∧ n = 1
  | _ => True

/-- Modelled from the spec: the contract of the free land's `findInZones`
(`cbs.c` is not in src), "finds an aligned range of the given size whose every
address lies in `zones`" and "the finder may not return addresses outside
`zones`": when the search reports a range, every address of the range has its
zone, taken with the arena's `zoneShift`, in the zone set searched. -/
def FindInZonesContract (env : Env) : Prop :=
  ∀ a size zones high,
    (env.LandFindInZones a size zones high).1 = Res.OK →
    (env.LandFindInZones a size zones high).2.1 = true →
    ∀ addr, (env.LandFindInZones a size zones high).2.2.1.base ≤ addr →
      addr < (env.LandFindInZones a size zones high).2.2.1.limit →
      ZoneSetIsMember zones (AddrZone env.W a.zoneShift addr) = true

/-- An event of `arenaAllocFromLand` before the land search whose outcome it
uses: not a search that returned `ResOK`, and if a call of
`pagesMarkAllocated`, one made for the CBS block pool. -/
def Event.isBeforeSearch (env : Env) (e : Event) : Prop :=
  e.markIsForBlockPool env ∧ ∀ s z h fd rg, e ≠ Event.find s z h Res.OK fd rg

/-- The run of `arenaAllocFromLand` from `a` gets to use the outcome of a
land search: the search is made in arena `a₀` after the events `pre`, and
what follows is what `allocFromLandFound` does with its outcome. -/
def UsesSearch (env : Env) (zones : Nat) (high : Bool) (size pool : Nat) (a : Arena)
    (pre : List Event) (a₀ : Arena) : Prop :=
  ((arenaAllocFromLand env zones high size pool).run a).evs =
      pre ++ Event.find size (searchZones env a zones) high
          (env.LandFindInZones a₀ size (searchZones env a zones) high).1
          (env.LandFindInZones a₀ size (searchZones env a zones) high).2.1
          (env.LandFindInZones a₀ size (searchZones env a zones) high).2.2.1 ::
        ((allocFromLandFound env
            ((env.LandFindInZones a₀ size (searchZones env a zones) high).1,
             (env.LandFindInZones a₀ size (searchZones env a zones) high).2.1,
             (env.LandFindInZones a₀ size (searchZones env a zones) high).2.2.1,
             (env.LandFindInZones a₀ size (searchZones env a zones) high).2.2.2.1) pool).run
          { a₀ with freeLand :=
              (env.LandFindInZones a₀ size (searchZones env a zones) high).2.2.2.2 }).evs ∧
    ((arenaAllocFromLand env zones high size pool).run a).out =
      ((allocFromLandFound env
            ((env.LandFindInZones a₀ size (searchZones env a zones) high).1,
             (env.LandFindInZones a₀ size (searchZones env a zones) high).2.1,
             (env.LandFindInZones a₀ size (searchZones env a zones) high).2.2.1,
             (env.LandFindInZones a₀ size (searchZones env a zones) high).2.2.2.1) pool).run
          { a₀ with freeLand :=
              (env.LandFindInZones a₀ size (searchZones env a zones) high).2.2.2.2 }).out ∧
    (env.checking = true → 0 < size ∧ WordIsAligned size a.alignment = true)

/-- The run of `arenaAllocFromLand` ends before it can use the outcome of a
land search: an assertion failed or the block pool could not be extended. -/
def EndsBeforeSearch (env : Env) (zones : Nat) (high : Bool) (size pool : Nat) (a : Arena)
    (pre : List Event) : Prop :=
  ((arenaAllocFromLand env zones high size pool).run a).evs = pre ∧
    (((arenaAllocFromLand env zones high size pool).run a).out = none ∨
      ∃ r a', r ≠ Res.OK ∧
        ((arenaAllocFromLand env zones high size pool).run a).out = some ((r, none), a'))

/-- The arena `simpleArena 1` after its first two free pages were allocated. -/
def simpleArenaAllocated : Arena :=
  { simpleArena 1 with
    committed := 12288
    freeZones := ZoneSetUNIV 64 ^^^ 0x1000F
    chunkTree := [{ base := 0x100000, limit := 0x140000, pageSize := 4096, pageShift := 12,
                    pages := 64, allocBase := 1,
                    allocTable := true :: true :: true :: List.replicate 61 false }]
    freeLand := { ranges := [⟨0x103000, 0x140000⟩],
                  blockPool := { tracts := [], freeUnits := 1 } } }

/-- The two arenas have the same zone layout. -/
def SameZoning (a₁ a : Arena) : Prop :=
  a₁.zoned = a.zoned ∧ a₁.zoneShift = a.zoneShift

/-- The land, `pagesMarkAllocated` and `grow` leave the fields `zoned` and
`zoneShift` of the arena alone. -/
structure KeepsZoning (env : Env) : Prop where
  zoned : Frame env Arena.zoned
  zoneShift : Frame env Arena.zoneShift
  grow : ∀ a pref size, SameZoning (env.cls.grow a pref size).2 a

/-- A run `R` of (a part of) the policy that returns `ResOK` ends with a plan
whose call of `arenaAllocFromLand`, made in an arena `a₁` of the zone layout of
`a`, returned `ResOK`, the tract and the arena being those of that call. -/
def SucceedsBy (env : Env) (high : Bool) (size pool : Nat) (a : Arena)
    (R : Run (Res × Option Tract)) : Prop :=
  ∀ t a', R.out = some ((Res.OK, t), a') → ∃ pre p zs a₁,
    R.evs = pre ++ Event.planBegin p zs high size ::
      (((arenaAllocFromLand env zs high size pool).run a₁).evs ++ [Event.planEnd p Res.OK]) ∧
    ((arenaAllocFromLand env zs high size pool).run a₁).out = some ((Res.OK, t), a') ∧
    SameZoning a₁ a

/-! ## The rest of the memory pool manager

`arena.c` also calls the reservoir, the globals, the tract table, the control
pool and the checking functions of other modules.  They are parameters of the
embedding, collected in `Sys`, like the land and the class methods in `Env`. -/

/-- `ResIsAllocFailure` of `mpm.c`: the result codes of a failed allocation. -/
def ResIsAllocFailure (res : Res) : Bool :=
  res == Res.MEMORY || res == Res.RESOURCE || res == Res.COMMIT_LIMIT

/-- `ShiftCheck` of `mpm.c`: a shift is less than the word width. -/
def ShiftCheck (W : Nat) (shift : Nat) : Bool := decide (shift < W)

/-- `AlignCheck` of `mpm.c`: an alignment is a power of two. -/
def AlignCheck (align : Nat) : Bool :=
  decide (align > 0) && (align &&& (align - 1)) == 0

/-- `RangesEqual`. -/
def RangesEqual (r s : Range) : Bool := r.base == s.base && r.limit == s.limit

/-- The keyword arguments picked by `arena.c`. -/
structure ArgList where
  /-- `MPS_KEY_ARENA_ZONED`. -/
  arenaZoned : Option Bool
  /-- `MPS_KEY_ARENA_SIZE`. -/
  arenaSize : Option Nat
  deriving DecidableEq, Repr

/-- What `arena.c` is linked with besides `Env`: signatures and configuration
constants, the `init` and `finish` methods of the arena class, and the
functions of `reserv.c`, `tract.c`, `global.c`, `locus.c`, `pool.c` and
`land.c` that it calls.  A function may change the arena in any way. -/
structure Sys where
  ArenaSig : Nat
  SigInvalid : Nat
  MPS_PF_ALIGN : Nat
  ARENA_DEFAULT_ZONED : Bool
  ARENA_INIT_SPARE_COMMIT_LIMIT : Nat
  ARENA_ZONESHIFT : Nat
  /-- `class->init`: returns the result code and the arena it made. -/
  classInit : ArgList → Res × Arena
  /-- `class->finish`. -/
  classFinish : Arena → Arena
  GlobalsCheck : Arena → Bool
  ArenaClassCheck : Arena → Bool
  MVCheck : Arena → Bool
  ReservoirCheck : Arena → Bool
  /-- `ChunkCheck` of the chunk at the given base. -/
  ChunkCheck : Arena → Nat → Bool
  TreeCheck : Arena → Bool
  LocusCheck : Arena → Bool
  LandCheck : Arena → Bool
  /-- `ReservoirPool(reservoir)` as a pool identity. -/
  reservoirPool : Nat
  ReservoirInit : Arena → Res × Arena
  ReservoirFinish : Arena → Arena
  ReservoirEnsureFull : Arena → Res × Arena
  /-- Returns the boolean and the updated `*baseIO` and `*sizeIO`. -/
  ReservoirDeposit : Arena → Nat → Nat → Bool × Nat × Nat × Arena
  /-- Returns `(res, *baseReturn, *tractReturn, arena)`. -/
  ReservoirWithdraw : Arena → Nat → Nat → Res × Nat × Option Tract × Arena
  ReservoirSetLimit : Arena → Nat → Arena
  /-- `TractBase(tract)`. -/
  TractBase : Arena → Tract → Nat
  /-- `TractFinish` then `TractInit(tract, ArenaCBSBlockPool(arena), pageBase)`
  on `TractOfBaseAddr(arena, pageBase)`. -/
  TractSteal : Arena → Nat → Arena
  GlobalsInit : Arena → Res × Arena
  GlobalsFinish : Arena → Arena
  GlobalsCompleteCreate : Arena → Res × Arena
  GlobalsPrepareToDestroy : Arena → Arena
  LocusInit : Arena → Arena
  LocusFinish : Arena → Arena
  /-- `PoolInit` of the CBS block pool (class MFS). -/
  BlockPoolInit : Arena → Res × Arena
  /-- `PoolFinish` of the CBS block pool. -/
  BlockPoolFinish : Arena → Arena
  LandInit : Arena → Res × Arena
  LandFinish : Arena → Arena
  /-- `PoolInit` of the control pool (class MV). -/
  ControlPoolInit : Arena → Res × Arena
  /-- `PoolFinish` of the control pool. -/
  ControlPoolFinish : Arena → Arena

/-- Call a function that returns a result code, logging `ev res`. -/
def callRes (f : Arena → Res × Arena) (ev : Res → List Event) : M Res :=
  ⟨fun a => ⟨ev (f a).1, some ((f a).1, (f a).2)⟩⟩

/-- Call a function that returns nothing, logging `ev`. -/
def callVoid (f : Arena → Arena) (ev : List Event) : M Unit :=
  ⟨fun a => ⟨ev, some ((), f a)⟩⟩

/-- Assign to fields of the arena. -/
def modifyArena (f : Arena → Arena) : M Unit := ⟨fun a => ⟨[], some ((), f a)⟩⟩

/-- Call `arena->class->free`. -/
def classFree (env : Env) (base size pool : Nat) : M Unit :=
  callVoid (fun a => env.cls.free a base size pool) [Event.free base size pool]

/-- Call `arena->class->purgeSpare`. -/
def classPurgeSpare (env : Env) (size : Nat) : M Nat :=
  ⟨fun a => ⟨[Event.purgeSpare size (env.cls.purgeSpare a size).1],
    some ((env.cls.purgeSpare a size).1, (env.cls.purgeSpare a size).2)⟩⟩

/-- `ArenaCheck`. -/
def ArenaCheck (env : Env) (sys : Sys) (arena : Arena) : Bool :=
  arena.sig == sys.ArenaSig
  && sys.GlobalsCheck arena
  && sys.ArenaClassCheck arena
  && (if arena.poolReady then sys.MVCheck arena && sys.ReservoirCheck arena else true)
  && decide (arena.committed ≤ arena.commitLimit)
  && decide (arena.spareCommitted ≤ arena.committed)
  && ShiftCheck env.W arena.zoneShift
  && AlignCheck arena.alignment
  /- Tract allocation must be platform-aligned. -/
  && decide (arena.alignment ≥ sys.MPS_PF_ALIGN)
  /- Stripes can't be smaller than pages. -/
  && decide ((1 <<< arena.zoneShift) % 2 ^ env.W ≥ arena.alignment)
  && (match arena.lastTract with
      | none => arena.lastTractBase == 0
      | some t => sys.TractBase arena t == arena.lastTractBase)
  && (match arena.primary with
      | none => true
      | some c => sys.ChunkCheck arena c)
  && sys.TreeCheck arena
  && sys.LocusCheck arena
  && (if arena.hasFreeLand then sys.LandCheck arena else true)

/-- `AVERT(Arena, arena)`. -/
def AVERT_Arena (env : Env) (sys : Sys) : M Unit := do
  let arena ← getArena
  AVER env.checking (ArenaCheck env sys arena)

/-! ## The commit limits -/

/-- `ArenaSetSpareCommitLimit`. -/
def ArenaSetSpareCommitLimit (env : Env) (sys : Sys) (limit : Nat) : M Unit := do
  AVERT_Arena env sys
  /- Can't check limit, as all possible values are allowed. -/
  modifyArena (fun arena => { arena with spareCommitLimit := limit })
  let arena ← getArena
  if arena.spareCommitLimit < arena.spareCommitted then
    let excess := arena.spareCommitted - arena.spareCommitLimit
    let _ ← classPurgeSpare env excess
    pure ()
  else
    pure ()

/-- Subtraction of `Size` values, modulo `2 ^ W`. -/
def SizeSub (W : Nat) (a b : Nat) : Nat := (a + 2 ^ W - b) % 2 ^ W

/-- `ArenaSetCommitLimit`. -/
def ArenaSetCommitLimit (env : Env) (sys : Sys) (limit : Nat) : M Res := do
  AVERT_Arena env sys
  let arena ← getArena
  AVER env.checking (decide (arena.committed ≤ arena.commitLimit))
  let committed := arena.committed
  if limit < committed then
    /- Attempt to set the limit below current committed -/
    if limit ≥ SizeSub env.W committed arena.spareCommitted then
      let excess := committed - limit
      let _ ← classPurgeSpare env excess
      let arena ← getArena
      AVER env.checking (decide (limit ≥ arena.committed))
      modifyArena (fun arena => { arena with commitLimit := limit })
      pure Res.OK
    else
      pure Res.FAIL
  else
    modifyArena (fun arena => { arena with commitLimit := limit })
    pure Res.OK

/-! ## A small concrete system for the witnesses -/

/-- A class method `purgeSpare` that gives back spare committed memory: as much
as asked for, or all there is. -/
def simplePurgeSpare (arena : Arena) (size : Nat) : Nat × Arena :=
  (min size arena.spareCommitted,
    { arena with
      committed := arena.committed - min size arena.spareCommitted
      spareCommitted := arena.spareCommitted - min size arena.spareCommitted })

/-- The simple class with `simplePurgeSpare`. -/
def spareClass : ArenaClass := { simpleClass with purgeSpare := simplePurgeSpare }

/-- The simple environment with `spareClass`. -/
def spareEnv : Env := { simpleEnv with cls := spareClass }

/-- The address of the page of a tract, from the chunk's tables. -/
def simpleTractBase (arena : Arena) (t : Tract) : Nat :=
  match chunkAt arena t.chunk with
  | some c => PageIndexBase c t.index
  | none => 0

/-- A system whose checks pass, whose reservoir is always full and keeps
nothing, and whose other functions leave the arena alone; the class `init`
method yields the sample arena before its land and control pool are set up. -/
def simpleSys : Sys where
  ArenaSig := 0x519A6E4A
  SigInvalid := 0x51915BAD
  MPS_PF_ALIGN := 8
  ARENA_DEFAULT_ZONED := true
  ARENA_INIT_SPARE_COMMIT_LIMIT := 10 * 1024 * 1024
  ARENA_ZONESHIFT := 20
  classInit := fun _ =>
    (Res.OK, { simpleArena 0 with
      hasFreeLand := false
      poolReady := false
      freeLand := { ranges := [], blockPool := { tracts := [], freeUnits := 0 } } })
  classFinish := fun a => { a with sig := 0x51915BAD }
  GlobalsCheck := fun _ => true
  ArenaClassCheck := fun _ => true
  MVCheck := fun _ => true
  ReservoirCheck := fun _ => true
  ChunkCheck := fun _ _ => true
  TreeCheck := fun _ => true
  LocusCheck := fun _ => true
  LandCheck := fun _ => true
  reservoirPool := 2
  ReservoirInit := fun a => (Res.OK, a)
  ReservoirFinish := fun a => a
  ReservoirEnsureFull := fun a => (Res.OK, a)
  ReservoirDeposit := fun a base size => (true, base, size, a)
  ReservoirWithdraw := fun a _ _ => (Res.MEMORY, 0, none, a)
  ReservoirSetLimit := fun a _ => a
  TractBase := simpleTractBase
  TractSteal := fun a _ => a
  GlobalsInit := fun a => (Res.OK, a)
  GlobalsFinish := fun a => a
  GlobalsCompleteCreate := fun a => (Res.OK, a)
  GlobalsPrepareToDestroy := fun a => a
  LocusInit := fun a => a
  LocusFinish := fun a => a
  BlockPoolInit := fun a => (Res.OK, a)
  BlockPoolFinish := fun a => a
  LandInit := fun a => (Res.OK, a)
  LandFinish := fun a => a
  ControlPoolInit := fun a => (Res.OK, a)
  ControlPoolFinish := fun a => a

/-! ## ArenaInit -/

/-- `ArenaInit`: initialise the generic part of the arena; the state of the
run is the memory of the arena structure.  Of the functions it calls only
`LandFinish` is logged. -/
def ArenaInit (env : Env) (sys : Sys) (alignment : Nat) (args : ArgList) : M Res := do
  AVER env.checking (AlignCheck alignment)
  let zoned := match args.arenaZoned with
    | some b => b
    | none => sys.ARENA_DEFAULT_ZONED
  modifyArena (fun arena => { arena with
    committed := 0
    /- commitLimit may be overridden by init -/
    commitLimit := 2 ^ env.W - 1
    spareCommitted := 0
    spareCommitLimit := sys.ARENA_INIT_SPARE_COMMIT_LIMIT
    alignment := alignment
    /- zoneShift is usually overridden by init -/
    zoneShift := sys.ARENA_ZONESHIFT
    poolReady := false
    lastTract := none
    lastTractBase := 0
    hasFreeLand := false
    freeZones := ZoneSetUNIV env.W
    zoned := zoned
    primary := none
    chunkTree := [] })
  callVoid sys.LocusInit []
  let res ← callRes sys.GlobalsInit (fun _ => [])
  if res ≠ Res.OK then
    pure res
  else
    modifyArena (fun arena => { arena with sig := sys.ArenaSig })
    AVERT_Arena env sys
    /- Initialise a pool to hold the arena's CBS blocks. -/
    let res ← callRes sys.BlockPoolInit (fun _ => [])
    AVER env.checking (res == Res.OK)
    if res ≠ Res.OK then
      callVoid sys.GlobalsFinish []
      pure res
    else
      /- Initialise the freeLand. -/
      let res ← callRes sys.LandInit (fun _ => [])
      AVER env.checking (res == Res.OK)
      if res ≠ Res.OK then
        callVoid sys.BlockPoolFinish []
        callVoid sys.GlobalsFinish []
        pure res
      else
        /- initialize the reservoir -/
        let res ← callRes sys.ReservoirInit (fun _ => [])
        if res ≠ Res.OK then
          callVoid sys.LandFinish [Event.landFinish]
          callVoid sys.BlockPoolFinish []
          callVoid sys.GlobalsFinish []
          pure res
        else
          AVERT_Arena env sys
          pure Res.OK

/-- The accounting inequalities of the arena. -/
def Accounting (a : Arena) : Prop :=
  a.committed ≤ a.commitLimit ∧ a.spareCommitted ≤ a.committed ∧
    a.spareCommitted ≤ a.spareCommitLimit

/-- The function leaves the four accounting fields of the arena alone. -/
def KeepsAccounting (f : Arena → Arena) : Prop :=
  ∀ a, (f a).committed = a.committed ∧ (f a).commitLimit = a.commitLimit ∧
    (f a).spareCommitted = a.spareCommitted ∧ (f a).spareCommitLimit = a.spareCommitLimit

/-- The functions of other modules that `ArenaInit` calls leave the accounting
fields alone. -/
structure InitKeepsAccounting (sys : Sys) : Prop where
  locus : KeepsAccounting sys.LocusInit
  globals : KeepsAccounting (fun a => (sys.GlobalsInit a).2)
  blockPool : KeepsAccounting (fun a => (sys.BlockPoolInit a).2)
  land : KeepsAccounting (fun a => (sys.LandInit a).2)
  reservoir : KeepsAccounting (fun a => (sys.ReservoirInit a).2)

/-! ## ArenaFree -/

/-- Call `ReservoirEnsureFull`. -/
def reservoirEnsureFull (sys : Sys) : M Res :=
  callRes sys.ReservoirEnsureFull (fun r => [Event.reservoirEnsureFull r])

/-- Call `ReservoirDeposit`: returns its boolean and the updated `*baseIO` and
`*sizeIO`. -/
def reservoirDeposit (sys : Sys) (base size : Nat) : M (Bool × Nat × Nat) :=
  ⟨fun a =>
    let r := sys.ReservoirDeposit a base size
    ⟨[Event.reservoirDeposit base size r.1 r.2.1 r.2.2.1],
     some ((r.1, r.2.1, r.2.2.1), r.2.2.2)⟩⟩

/-- Call `ReservoirWithdraw`: returns the result code, `*baseReturn` and
`*tractReturn`. -/
def reservoirWithdraw (sys : Sys) (size pool : Nat) : M (Res × Nat × Option Tract) :=
  ⟨fun a =>
    let r := sys.ReservoirWithdraw a size pool
    ⟨[Event.reservoirWithdraw size pool r.1], some ((r.1, r.2.1, r.2.2.1), r.2.2.2)⟩⟩

/-- `arenaLandInsertSteal`: returns `*rangeIO` as it leaves it.  The entry
assertions `AVERT(Arena, arena)` and `AVERT(Range, rangeIO)` are not embedded:
the function is static and `ArenaFree`, its caller, has checked the arena. -/
def arenaLandInsertSteal (env : Env) (sys : Sys) ( rangeIO : Range) : M Range := do
  let r ← arenaLandInsert env rangeIO
  if r.1 ≠ Res.OK then
    AVER env.checking (ResIsAllocFailure r.1)
    /- Steal a page from the memory we're about to free. -/
    let arena ← getArena
    AVER env.checking (decide (RangeSize rangeIO ≥ arena.alignment))
    let pageBase := rangeIO.base
    let rangeIO := RangeInit ((pageBase + arena.alignment) % 2 ^ env.W) rangeIO.limit
    /- Steal the tract from its owning pool. -/
    callVoid (fun a => sys.TractSteal a pageBase) [Event.tractSteal pageBase]
    let arena ← getArena
    mfsExtend env pageBase arena.alignment
    /- Try again. -/
    let r ← landInsert env rangeIO
    AVER env.checking (r.1 == Res.OK)
    AVER env.checking (r.1 == Res.OK)
    pure rangeIO
  else
    AVER env.checking (r.1 == Res.OK)
    pure rangeIO

/-- The end of `ArenaFree`, from the assertion on `limit` on: what is left of
the range after the reservoir took its share goes to the free land and to the
class. -/
def arenaFreeRange (env : Env) (sys : Sys) (limit base size pool : Nat) : M Unit := do
  /- Just in case the shenanigans with the reservoir mucked this up. -/
  AVER env.checking (limit == (base + size) % 2 ^ env.W)
  let range := RangeInit base limit
  let range ← arenaLandInsertSteal env sys range
  classFree env range.base (RangeSize range) pool
  /- Freeing memory might create spare pages, but not more than this. -/
  let arena ← getArena
  AVER env.checking (decide (arena.spareCommitted ≤ arena.spareCommitLimit))

/-- `ArenaFree`. -/
def ArenaFree (env : Env) (sys : Sys) (base size pool : Nat) : M Unit := do
  AVER env.checking (base != 0)
  AVER env.checking (decide (size > 0))
  AVERT_Arena env sys
  let arena ← getArena
  AVER env.checking (sys.ReservoirCheck arena)
  AVER env.checking (WordIsAligned base arena.alignment)
  AVER env.checking (WordIsAligned size arena.alignment)
  /- uncache the tract if in range -/
  let limit := (base + size) % 2 ^ env.W
  if arena.lastTractBase ≥ base ∧ arena.lastTractBase < limit then
    modifyArena (fun arena => { arena with lastTract := none, lastTractBase := 0 })
  if pool ≠ sys.reservoirPool then
    let res ← reservoirEnsureFull sys
    if res ≠ Res.OK then
      AVER env.checking (ResIsAllocFailure res)
      let d ← reservoirDeposit sys base size
      if !d.1 then
        /- allDeposited -/
        pure ()
      else
        arenaFreeRange env sys limit d.2.1 d.2.2 pool
    else
      arenaFreeRange env sys limit base size pool
  else
    arenaFreeRange env sys limit base size pool

/-- The land, `pagesMarkAllocated`, the class method `free`, the reservoir and
the tract table leave the projection `f` of the arena alone. -/
structure FreeFrame {β : Type} (env : Env) (sys : Sys) (f : Arena → β) : Prop where
  frame : Frame env f
  free : ∀ a b s p, f (env.cls.free a b s p) = f a
  ensureFull : ∀ a, f (sys.ReservoirEnsureFull a).2 = f a
  deposit : ∀ a b s, f (sys.ReservoirDeposit a b s).2.2.2 = f a
  steal : ∀ a b, f (sys.TractSteal a b) = f a

/-- The event is a call of the class method `free`. -/
def Event.isFree : Event → Bool
  | .free .. => true
  | _ => false

/-- The event is a call of `LandInsert`. -/
def Event.isLandInsert : Event → Bool
  | .landInsert .. => true
  | _ => false

/-- The event is a call on the free land, the block pool or
`pagesMarkAllocated`: what `arenaLandInsert` and `arenaAllocFromLand` do. -/
def Event.isLandOp : Event → Bool
  | .find .. => true
  | .mark .. => true
  | .landInsert .. => true
  | .landDelete .. => true
  | .mfsExtend .. => true
  | _ => false

/-- The sample arena with every page of its chunk allocated: nothing in the
free land and no spare node in the block pool. -/
def fullArena : Arena :=
  { simpleArena 0 with
    committed := 4096 * 64
    chunkTree := [{ base := 0x100000, limit := 0x140000, pageSize := 4096, pageShift := 12,
                    pages := 64, allocBase := 1, allocTable := List.replicate 64 true }]
    freeLand := { ranges := [], blockPool := { tracts := [], freeUnits := 0 } } }

/-! ## ArenaAlloc -/

/-- The end of `ArenaAlloc`, from `base = TractBase(tract)` on: the tract is
cached and its base returned. -/
def arenaAllocFound (sys : Sys) (tract : Option Tract) : M (Res × Option Nat) := do
  match tract with
  | none => abort
  | some t =>
    let arena ← getArena
    let base := sys.TractBase arena t
    /- cache the tract -/
    modifyArena (fun arena => { arena with lastTract := some t, lastTractBase := base })
    pure (Res.OK, some base)

/-- The part of `ArenaAlloc` from the call of `arenaAllocPolicy` on. -/
def arenaAllocTracts (env : Env) (sys : Sys) (pref : SegPref) (size pool : Nat)
    (withReservoirPermit : Bool) : M (Res × Option Nat) := do
  let r ← arenaAllocPolicy env pref size pool
  if r.1 ≠ Res.OK then
    if withReservoirPermit then
      let w ← reservoirWithdraw sys size pool
      if w.1 ≠ Res.OK then
        /- allocFail -/
        pure (r.1, none)
      else
        arenaAllocFound sys w.2.2
    else
      /- allocFail -/
      pure (r.1, none)
  else
    arenaAllocFound sys r.2

/-- `ArenaAlloc`: returns the result code and `*baseReturn` (written only on
`ResOK`). -/
def ArenaAlloc (env : Env) (sys : Sys) (pref : SegPref) (size pool : Nat)
    (withReservoirPermit : Bool) : M (Res × Option Nat) := do
  AVER env.checking (decide (size > 0))
  AVERT_Arena env sys
  let arena ← getArena
  AVER env.checking (WordIsAligned size arena.alignment)
  AVER env.checking (sys.ReservoirCheck arena)
  if pool ≠ sys.reservoirPool then
    let res ← reservoirEnsureFull sys
    if res ≠ Res.OK then
      AVER env.checking (ResIsAllocFailure res)
      if !withReservoirPermit then
        pure (res, none)
      else
        arenaAllocTracts env sys pref size pool withReservoirPermit
    else
      arenaAllocTracts env sys pref size pool withReservoirPermit
  else
    arenaAllocTracts env sys pref size pool withReservoirPermit

/-- The class methods and the reservoir do not return `ResLIMIT` themselves,
and the land honours its guarantee: a search made right after the block pool
was given a page and the page was deleted from the land does not return
`ResLIMIT`. -/
structure NoLimit (env : Env) (sys : Sys) : Prop where
  mark : ∀ a c i n p, (env.cls.pagesMarkAllocated a c i n p).1 ≠ Res.LIMIT
  grow : ∀ a pref size, (env.cls.grow a pref size).1 ≠ Res.LIMIT
  ensureFull : ∀ a, (sys.ReservoirEnsureFull a).1 ≠ Res.LIMIT
  retry : ∀ (a : Arena) (pb size zones : Nat) (high : Bool),
    (env.LandFindInZones
      { a with freeLand := (env.LandDelete
          { a with freeLand := { a.freeLand with
              blockPool := env.MFSExtend a.freeLand.blockPool pb a.alignment } }
          ⟨pb, pb + a.alignment⟩).2.2 }
      size zones high).1 ≠ Res.LIMIT

/-- The arena `simpleArena 0` after two pages of zone 17 were allocated, the
page at `0x101000` having gone to the block pool on the way. -/
def simpleArenaFed : Arena :=
  { simpleArena 0 with
    committed := 16384
    freeZones := ZoneSetUNIV 64 ^^^ 0x2000F
    lastTract := some ⟨0x100000, 16⟩
    lastTractBase := 0x110000
    chunkTree := [{ base := 0x100000, limit := 0x140000, pageSize := 4096, pageShift := 12,
                    pages := 64, allocBase := 1,
                    allocTable := true :: true :: List.replicate 14 false ++
                      true :: true :: List.replicate 46 false }]
    freeLand := { ranges := [⟨0x102000, 0x110000⟩, ⟨0x112000, 0x140000⟩],
                  blockPool := { tracts := [0x101000], freeUnits := 63 } } }

/-! ## Creation and destruction -/

/-- `ArenaFreeLandInsert`. -/
def ArenaFreeLandInsert (env : Env) (sys : Sys) (base limit : Nat) : M Res := do
  AVERT_Arena env sys
  let range := RangeInit base limit
  let r ← arenaLandInsert env range
  if r.1 ≠ Res.OK then
    pure r.1
  else
    /- .chunk.no-coalesce: Make sure it didn't coalesce. -/
    AVER env.checking (RangesEqual r.2 range)
    pure Res.OK

/-- `ControlInit`. -/
def ControlInit (env : Env) (sys : Sys) : M Res := do
  AVERT_Arena env sys
  let res ← callRes sys.ControlPoolInit (fun r => [Event.controlPoolInit r])
  if res ≠ Res.OK then
    pure res
  else
    modifyArena (fun arena => { arena with poolReady := true })
    pure Res.OK

/-- `ControlFinish`. -/
def ControlFinish (env : Env) (sys : Sys) : M Unit := do
  AVERT_Arena env sys
  modifyArena (fun arena => { arena with poolReady := false })
  callVoid sys.ControlPoolFinish [Event.controlPoolFinish]

/-- Call `class->init`: the state of the run becomes the arena it made. -/
def classInit (sys : Sys) (args : ArgList) : M Res :=
  ⟨fun _ => ⟨[Event.classInit (sys.classInit args).1],
    some ((sys.classInit args).1, (sys.classInit args).2)⟩⟩

/-- Call `class->finish`. -/
def classFinish (sys : Sys) : M Unit :=
  callVoid sys.classFinish [Event.classFinish]

/-- `ArenaCreate`: returns the result code and `*arenaReturn` (written only on
`ResOK`).  The state of the run is the memory of the arena that the class
`init` method makes. -/
def ArenaCreate (env : Env) (sys : Sys) (args : ArgList) : M (Res × Option Arena) := do
  /- Do initialization.  This will call ArenaInit. -/
  let res ← classInit sys args
  if res ≠ Res.OK then
    pure (res, none)
  else
    let arena ← getArena
    /- arena->alignment must have been set up by *class->init() -/
    if arena.alignment > (1 <<< arena.zoneShift) % 2 ^ env.W then
      /- size was too small -/
      classFinish sys
      pure (Res.MEMORY, none)
    else
      /- With the primary chunk initialised we can add page memory to the
         freeLand that describes the free address space in the primary chunk. -/
      match arena.primary.bind (chunkAt arena) with
      | none => abort
      | some primary =>
        let res ← ArenaFreeLandInsert env sys (PageIndexBase primary primary.allocBase)
          primary.limit
        if res ≠ Res.OK then
          classFinish sys
          pure (res, none)
        else
          modifyArena (fun arena => { arena with hasFreeLand := true })
          let res ← ControlInit env sys
          if res ≠ Res.OK then
            classFinish sys
            pure (res, none)
          else
            let res ← callRes sys.GlobalsCompleteCreate
              (fun r => [Event.globalsCompleteCreate r])
            if res ≠ Res.OK then
              ControlFinish env sys
              classFinish sys
              pure (res, none)
            else
              AVERT_Arena env sys
              let arena ← getArena
              pure (Res.OK, some arena)

/-- `ArenaFinish`: finish the generic part of the arena; called by the class
`finish` methods. -/
def ArenaFinish (env : Env) (sys : Sys) : M Unit := do
  callVoid sys.BlockPoolFinish []
  callVoid sys.ReservoirFinish []
  modifyArena (fun arena => { arena with sig := sys.SigInvalid })
  callVoid sys.GlobalsFinish []
  callVoid sys.LocusFinish []
  let arena ← getArena
  AVER env.checking (decide (arena.chunkTree = []))

/-- `arenaFreePage`: free a page allocated by `arenaAllocPage`. -/
def arenaFreePage (env : Env) (sys : Sys) (base pool : Nat) : M Unit := do
  AVERT_Arena env sys
  let arena ← getArena
  classFree env base arena.alignment pool

/-- `arenaMFSPageFreeVisitor`. -/
def arenaMFSPageFreeVisitor (env : Env) (sys : Sys) (pool base size : Nat) : M Unit := do
  let arena ← getArena
  AVER env.checking (size == arena.alignment)
  arenaFreePage env sys base pool

/-- `ArenaDestroy`.  In the source the call of `MFSFinishTracts` on the CBS
block pool with `arenaMFSPageFreeVisitor` stands inside a comment that is
closed only after the next comment's text, so it is no part of the code. -/
def ArenaDestroy (env : Env) (sys : Sys) : M Unit := do
  AVERT_Arena env sys
  callVoid sys.GlobalsPrepareToDestroy [Event.globalsPrepareToDestroy]
  /- Empty the reservoir -/
  callVoid (fun a => sys.ReservoirSetLimit a 0) [Event.reservoirSetLimit 0]
  modifyArena (fun arena => { arena with poolReady := false })
  ControlFinish env sys
  /- We must tear down the freeLand before the chunks, because pages
     containing CBS blocks might be allocated in those chunks. -/
  let arena ← getArena
  AVER env.checking arena.hasFreeLand
  modifyArena (fun arena => { arena with hasFreeLand := false })
  callVoid sys.LandFinish [Event.landFinish]
  /- Call class-specific finishing.  This will call ArenaFinish. -/
  classFinish sys

/-- A sample system whose class `init` makes an arena with stripes of 256
bytes and grains of 4096 bytes. -/
def narrowSys : Sys :=
  { simpleSys with
    classInit := fun _ =>
      (Res.OK, { simpleArena 0 with
        zoneShift := 8
        hasFreeLand := false
        poolReady := false
        freeLand := { ranges := [], blockPool := { tracts := [], freeUnits := 0 } } }) }

/-- The arena that `ArenaCreate` returns in the sample system `simpleSys`: the
first free page of the primary chunk went to the CBS block pool. -/
def simpleArenaCreated : Arena :=
  { simpleArena 0 with
    committed := 8192
    chunkTree := [{ base := 0x100000, limit := 0x140000, pageSize := 4096, pageShift := 12,
                    pages := 64, allocBase := 1,
                    allocTable := true :: true :: List.replicate 62 false }]
    freeLand := { ranges := [⟨0x102000, 0x140000⟩],
                  blockPool := { tracts := [0x101000], freeUnits := 63 } } }

/-- A sample arena that is ready for `ArenaFinish`: its chunk tree is empty. -/
def simpleArenaEmptied : Arena :=
  { simpleArena 0 with chunkTree := [], primary := none }

/-- The sample arena `simpleArenaEmptied` after `ArenaFinish`. -/
def simpleArenaFinished : Arena :=
  { simpleArenaEmptied with sig := 0x51915BAD }

/-! ## The round trip of `ArenaAlloc` and `ArenaFree` -/

/-- The event is no call of the class `grow` method, no call that moves memory
into or out of the reservoir, no extension of the block pool and no theft of a
tract for it, and no call on the land that returned an error. -/
def Event.isQuiet : Event → Bool
  | .grow _ => false
  | .reservoirWithdraw .. => false
  | .reservoirDeposit .. => false
  | .mfsExtend .. => false
  | .tractSteal _ => false
  | .find _ _ _ res _ _ => res == Res.OK
  | .landInsert _ res _ => res == Res.OK
  | .landDelete _ res => res == Res.OK
  | _ => true

/-- The range found by the last search of the log that found one. -/
def lastFound : List Event → Option Range
  | [] => none
  | e :: es =>
    match lastFound es with
    | some r => some r
    | none =>
      match e with
      | .find _ _ _ Res.OK true r => some r
      | _ => none

/-- What the round trip needs of the land, `inv` being an invariant of the
land and `V` what is observed of it: a search that finds nothing leaves the
land as it is observed, and when a search has found (and deleted) a range,
`LandInsert` of that range into the land as the search left it, if it returns
`ResOK`, gives back the land as it was observed before the search. -/
structure LandUndo {β : Type} (env : Env) (inv : Land → Prop) (V : Land → β) : Prop where
  miss : ∀ a size zones high, inv a.freeLand →
    (env.LandFindInZones a size zones high).1 = Res.OK →
    (env.LandFindInZones a size zones high).2.1 = false →
    inv (env.LandFindInZones a size zones high).2.2.2.2 ∧
      V (env.LandFindInZones a size zones high).2.2.2.2 = V a.freeLand
  undo : ∀ a a' size zones high, inv a.freeLand →
    (env.LandFindInZones a size zones high).1 = Res.OK →
    (env.LandFindInZones a size zones high).2.1 = true →
    a'.freeLand = (env.LandFindInZones a size zones high).2.2.2.2 →
    (env.LandInsert a' (env.LandFindInZones a size zones high).2.2.1).1 = Res.OK →
    inv (env.LandInsert a' (env.LandFindInZones a size zones high).2.2.1).2.2 ∧
      V (env.LandInsert a' (env.LandFindInZones a size zones high).2.2.1).2.2 = V a.freeLand

/-- The class methods `pagesMarkAllocated` and `free` and `ReservoirEnsureFull`
leave the free land alone. -/
structure LandFrame (env : Env) (sys : Sys) : Prop where
  mark : ∀ a c i n p, (env.cls.pagesMarkAllocated a c i n p).2.freeLand = a.freeLand
  free : ∀ a b s p, (env.cls.free a b s p).freeLand = a.freeLand
  ensureFull : ∀ a, (sys.ReservoirEnsureFull a).2.freeLand = a.freeLand

/-- `LandInsert` of `r` into the land `l`, if it returns `ResOK`, leaves a land
observed as `v`. -/
def Pending {β : Type} (env : Env) (V : Land → β) (v : β) (l : Land) (r : Range) : Prop :=
  ∀ a : Arena, a.freeLand = l → (env.LandInsert a r).1 = Res.OK →
    V (env.LandInsert a r).2.2 = v

/-- The computation `m`, run without a call that `isQuiet` excludes on a land
observed as `v`: when it returns `ResOK`, a search of its log has found a
range, the last such range being one whose insertion into the land gives back
`v`; when it returns another code the land is observed as `v` again. -/
def Trip {β γ : Type} (env : Env) (inv : Land → Prop) (V : Land → β) (v : β)
    (m : M (Res × Option γ)) : Prop :=
  ∀ a x a', inv a.freeLand → V a.freeLand = v → (m.run a).out = some (x, a') →
    (∀ e ∈ (m.run a).evs, e.isQuiet = true) →
    (x.1 = Res.OK → ∃ r, lastFound (m.run a).evs = some r ∧ Pending env V v a'.freeLand r) ∧
    (x.1 ≠ Res.OK → inv a'.freeLand ∧ V a'.freeLand = v)

/-- The addresses of the ranges of the land. -/
def Land.covers (l : Land) (x : Nat) : Bool :=
  l.ranges.any (fun r => decide (r.base ≤ x) && decide (x < r.limit))

/-- No range of the land has its limit below its base. -/
def Land.ordered (l : Land) : Prop := ∀ r ∈ l.ranges, r.base ≤ r.limit

/-- The arena `simpleArena 1` after `ArenaAlloc` of its first two free pages:
the tract of the first is cached. -/
def simpleArenaServed : Arena :=
  { simpleArenaAllocated with lastTract := some ⟨0x100000, 1⟩, lastTractBase := 0x101000 }

/-- The arena `simpleArenaServed` after `ArenaFree` of the two pages: they are
in the free land again. -/
def simpleArenaReturned : Arena :=
  { simpleArenaAllocated with
    freeLand := { ranges := [⟨0x101000, 0x140000⟩], blockPool := { tracts := [], freeUnits := 1 } } }

/-- The sample arena with every page of its chunk allocated and two spare
nodes in the block pool. -/
def fullArenaSpare : Arena :=
  { fullArena with freeLand := { ranges := [], blockPool := { tracts := [], freeUnits := 2 } } }

/-- A system like `simpleSys` whose reservoir is below its limit and cannot be
filled from the arena: `ReservoirEnsureFull` returns `ResMEMORY`, and
`ReservoirDeposit` keeps every page it is offered. -/
def hungrySys : Sys :=
  { simpleSys with
    ReservoirEnsureFull := fun a => (Res.MEMORY, a)
    ReservoirDeposit := fun a base _ => (false, base, 0, a) }

/-! ## Sizes of the arena -/

/-- `ArenaReserved`. -/
def ArenaReserved (env : Env) (sys : Sys) : M Nat := do
  AVERT_Arena env sys
  let arena ← getArena
  pure (env.cls.reserved arena)

/-- `ArenaAvail`: available memory in the arena; `Size` arithmetic is modulo
`2 ^ W`. -/
def ArenaAvail (env : Env) (sys : Sys) : M Nat := do
  let sSwap ← ArenaReserved env sys
  let arena ← getArena
  let sSwap := if sSwap > arena.commitLimit then arena.commitLimit else sSwap
  pure ((SizeSub env.W sSwap arena.committed + arena.spareCommitted) % 2 ^ env.W)

/-! ## Vocabulary for `arenaAllocPage` and `arenaLandInsert` -/

/-- The event is a call of `LandDelete`. -/
def Event.isLandDelete : Event → Bool
  | .landDelete .. => true
  | _ => false

/-- The event is a call of the class method `pagesMarkAllocated` for one page
for `pool`. -/
def Event.isPageMark (pool : Nat) : Event → Prop
  | .mark _ _ n p _ => n = 1 ∧ p = pool
  | _ => False

/-- What `arenaLandInsert` does after `arenaExtendCBSBlockPool` returned
`ResOK`: the range is inserted again, then the page is deleted. -/
def insertThenExclude (env : Env) (range page : Range) : M (Res × Range) := do
  /- .insert.exclude: insert before exclude. -/
  let r ← landInsert env range
  AVER env.checking (r.1 == Res.OK)
  arenaExcludePage env page
  pure (Res.OK, r.2)

/-- The chunk of a call of `pagesMarkAllocated`. -/
def Event.markChunk : Event → Option Nat
  | .mark c _ _ _ _ => some c
  | _ => none

/-- The log `evs` ends with a call of `pagesMarkAllocated` that returned `ResOK`
for the page of address `base` for `pool`, made in arena `a₀` and leaving
`a'`, the calls before it having failed. -/
def PageMarked (env : Env) (pool : Nat) (evs : List Event) (base : Nat) (a' : Arena) : Prop :=
  ∃ (pre : List Event) (a₀ : Arena) (chunk : Chunk) (i j : Nat),
    evs = pre ++ [Event.mark chunk.base i 1 pool Res.OK] ∧
    (∀ e ∈ pre, ∃ c k res, res ≠ Res.OK ∧ e = Event.mark c k 1 pool res) ∧
    chunkAt a₀ chunk.base = some chunk ∧
    BTFindShortResRange chunk.allocTable chunk.allocBase chunk.pages = some (i, j) ∧
    env.cls.pagesMarkAllocated a₀ chunk i 1 pool = (Res.OK, a') ∧
    base = PageIndexBase chunk i

/-- The range abuts no range of the land: no range of the land ends where it
starts, and none starts where it ends. -/
def Land.abutsNone (l : Land) (r : Range) : Prop :=
  ∀ s ∈ l.ranges, s.limit ≠ r.base ∧ s.base ≠ r.limit

/-- What the arena relies on from `LandInsert` (`cbs.c` is not in src) for a
range that abuts nothing: it returns `ResOK` or `ResLIMIT`; on `ResOK` the range
it reports is the range inserted ("returns the resulting coalesced range");
a `ResLIMIT` leaves the ranges of the land as they were; and an insertion into
a land whose block pool was just extended with a page does not return
`ResLIMIT` ("the retry is guaranteed to find room"). -/
structure InsertContract (env : Env) : Prop where
  codes : ∀ a r, a.freeLand.abutsNone r →
    (env.LandInsert a r).1 = Res.OK ∨ (env.LandInsert a r).1 = Res.LIMIT
  alone : ∀ a r, a.freeLand.abutsNone r → (env.LandInsert a r).1 = Res.OK →
    (env.LandInsert a r).2.1 = r
  limit : ∀ a r, (env.LandInsert a r).1 = Res.LIMIT →
    (env.LandInsert a r).2.2.ranges = a.freeLand.ranges
  fed : ∀ a r mfs base, a.freeLand.blockPool = env.MFSExtend mfs base a.alignment →
    (env.LandInsert a r).1 ≠ Res.LIMIT

/-- The sample arena with an empty free land and no spare node in the block
pool, as when the range of the primary chunk is inserted first. -/
def simpleArenaBare : Arena :=
  { simpleArena 0 with
    freeLand := { ranges := [], blockPool := { tracts := [], freeUnits := 0 } } }

/-- The tract-cache condition of `ArenaCheck`: a null `lastTract` goes with a
null `lastTractBase`, any other with its own base. -/
def TractCacheCheck (sys : Sys) (arena : Arena) : Bool :=
  match arena.lastTract with
  | none => arena.lastTractBase == 0
  | some t => sys.TractBase arena t == arena.lastTractBase

/-- What the tract-cache condition reads of the arena: the two cache fields
and the base of the cached tract. -/
def cacheView (sys : Sys) (a : Arena) : Option Tract × Nat × Option Nat :=
  (a.lastTract, a.lastTractBase, a.lastTract.map (sys.TractBase a))

/-- The function leaves the two cache fields of the arena alone. -/
def KeepsCache (g : Arena → Arena) : Prop :=
  ∀ a, (g a).lastTract = a.lastTract ∧ (g a).lastTractBase = a.lastTractBase

/-- The functions of other modules that `ArenaInit` calls leave the cache
fields alone. -/
structure InitKeepsCache (sys : Sys) : Prop where
  locus : KeepsCache sys.LocusInit
  globals : KeepsCache (fun a => (sys.GlobalsInit a).2)
  blockPool : KeepsCache (fun a => (sys.BlockPoolInit a).2)
  land : KeepsCache (fun a => (sys.LandInit a).2)
  reservoir : KeepsCache (fun a => (sys.ReservoirInit a).2)

/-- The land, `pagesMarkAllocated`, the class method `grow`, the reservoir and
the assignment to `freeZones` leave the projection `f` of the arena alone. -/
structure AllocFrame {β : Type} (env : Env) (sys : Sys) (f : Arena → β) : Prop where
  frame : Frame env f
  zones : ∀ a z, f { a with freeZones := z } = f a
  grow : ∀ a pref size, f (env.cls.grow a pref size).2 = f a
  ensureFull : ∀ a, f (sys.ReservoirEnsureFull a).2 = f a
  withdraw : ∀ a size pool, f (sys.ReservoirWithdraw a size pool).2.2.2 = f a

/-- The relation that `ArenaAlloc` establishes between its result and the
tract cache, `u` being the cache before and `v` the cache after: with `ResOK`
a tract is cached, its base is the cached base and the base returned; with
any other code nothing is returned and the cache is as before. -/
def AllocCache (y : Res × Option Nat) (u v : Option Tract × Nat × Option Nat) : Prop :=
  (y.1 = Res.OK → (∃ t, v.1 = some t) ∧ y.2 = some v.2.1 ∧ v.2.2 = some v.2.1) ∧
  (y.1 ≠ Res.OK → y.2 = none ∧ v = u)

/-- The class method `purgeSpare`, asked in the arena `a` for `size` bytes,
gives back at least that many committed spare bytes, no more than there are,
and leaves the limits alone. -/
def PurgesAt (env : Env) (a : Arena) (size : Nat) : Prop :=
  ∃ p, size ≤ p ∧ p ≤ a.spareCommitted ∧
    (env.cls.purgeSpare a size).2.committed = a.committed - p ∧
    (env.cls.purgeSpare a size).2.spareCommitted = a.spareCommitted - p ∧
    (env.cls.purgeSpare a size).2.commitLimit = a.commitLimit ∧
    (env.cls.purgeSpare a size).2.spareCommitLimit = a.spareCommitLimit

/-- The arena after `MFSExtend` has given the page at `p`, of the size of a
grain, to the block pool of the land. -/
def Arena.withPage (env : Env) (a : Arena) (p : Nat) : Arena :=
  { a with freeLand := { a.freeLand with
      blockPool := env.MFSExtend a.freeLand.blockPool p a.alignment } }

/-! # Theorems -/

/-! ## Running monadic code -/

@[simp] theorem M.run_pure {α : Type} (x : α) (a : Arena) :
    (Pure.pure x : M α).run a = ⟨[], some (x, a)⟩ := rfl

@[simp] theorem M.run_mpure {α : Type} (x : α) (a : Arena) :
    (M.pure x : M α).run a = ⟨[], some (x, a)⟩ := rfl

theorem M.run_bind {α β : Type} (m : M α) (f : α → M β) (a : Arena) :
    (m >>= f).run a =
      match (m.run a).out with
      | none => ⟨(m.run a).evs, none⟩
      | some (x, a') => ⟨(m.run a).evs ++ ((f x).run a').evs, ((f x).run a').out⟩ := rfl

@[simp] theorem M.run_bind_evs {α β : Type} (m : M α) (f : α → M β) (a : Arena) :
    ((m >>= f).run a).evs =
      match (m.run a).out with
      | none => (m.run a).evs
      | some (x, a') => (m.run a).evs ++ ((f x).run a').evs := by
  rw [M.run_bind]; split <;> rfl

@[simp] theorem M.run_bind_out {α β : Type} (m : M α) (f : α → M β) (a : Arena) :
    ((m >>= f).run a).out =
      match (m.run a).out with
      | none => none
      | some (x, a') => ((f x).run a').out := by
  rw [M.run_bind]; split <;> rfl

@[simp] theorem run_emit (e : Event) (a : Arena) : (emit e).run a = ⟨[e], some ((), a)⟩ := rfl

@[simp] theorem run_getArena (a : Arena) : getArena.run a = ⟨[], some (a, a)⟩ := rfl

@[simp] theorem run_setArena (b a : Arena) : (setArena b).run a = ⟨[], some ((), b)⟩ := rfl

@[simp] theorem run_abort {α : Type} (a : Arena) : (abort : M α).run a = ⟨[], none⟩ := rfl

theorem Run.ext_iff' {α : Type} (r s : Run α) : r = s ↔ r.evs = s.evs ∧ r.out = s.out := by
  cases r; cases s; simp

@[simp] theorem run_AVER_true (c : Bool) (cond : Bool) (h : cond = true) (a : Arena) :
    (AVER c cond).run a = ⟨[], some ((), a)⟩ := by
  simp [AVER, h]

theorem run_AVER (c : Bool) (cond : Bool) (a : Arena) :
    (AVER c cond).run a = if c && !cond then ⟨[], none⟩ else ⟨[], some ((), a)⟩ := by
  unfold AVER; split <;> simp

theorem M.ext_run {α : Type} (m n : M α) (h : ∀ a, m.run a = n.run a) : m = n := by
  cases m; cases n; simp at h ⊢; funext a; exact h a

/-! ## The two presentations of the code agree -/

theorem arenaAllocFromLand_eq_steps (env : Env) (zones : Nat) (high : Bool) (size pool : Nat) :
    arenaAllocFromLand env zones high size pool = allocFromLandSteps env zones high size pool := by
  rfl

theorem arenaAllocPolicy_eq_plans (env : Env) (pref : SegPref) (size pool : Nat) :
    arenaAllocPolicy env pref size pool = policyPlans env pref size pool := by
  rfl

theorem commitLimitExceeded_iff (W : Nat) (a : Arena) (size : Nat)
    (hsz : size < 2 ^ W) (hc : a.committed < 2 ^ W) :
    commitLimitExceeded W a size = true ↔
      a.spareCommitted < size ∧
        (a.committed + (size - a.spareCommitted) > a.commitLimit ∨
          2 ^ W ≤ a.committed + (size - a.spareCommitted)) := by
  unfold commitLimitExceeded
  by_cases h : a.spareCommitted < size
  · have hi : size - a.spareCommitted < 2 ^ W := by omega
    simp only [h, if_true, Nat.mod_eq_of_lt hi, Bool.or_eq_true, decide_eq_true_eq, true_and]
    by_cases hw : a.committed + (size - a.spareCommitted) < 2 ^ W
    · rw [Nat.mod_eq_of_lt hw]; omega
    · have h2 : (a.committed + (size - a.spareCommitted)) % 2 ^ W
          = a.committed + (size - a.spareCommitted) - 2 ^ W := by
        rw [Nat.mod_eq_sub_mod (by omega), Nat.mod_eq_of_lt (by omega)]
      rw [h2]; omega
  · simp [h]

theorem evs_bind_ne_nil {α β : Type} (m : M α) (f : α → M β) (a : Arena)
    (h : (m.run a).evs ≠ []) : ((m >>= f).run a).evs ≠ [] := by
  simp only [M.run_bind_evs]
  split
  · exact h
  · simp [h]

/-! ## The pre-flight check -/

/-- The run of `tryPlan` in terms of the run of `arenaAllocFromLand`. -/
theorem tryPlan_run (env : Env) (p : Plan) (zones : Nat) (high : Bool) (size pool : Nat)
    (a : Arena) :
    (tryPlan env p zones high size pool).run a =
      match ((arenaAllocFromLand env zones high size pool).run a).out with
      | none => ⟨Event.planBegin p zones high size ::
                  ((arenaAllocFromLand env zones high size pool).run a).evs, none⟩
      | some (r, a') =>
        ⟨Event.planBegin p zones high size ::
            (((arenaAllocFromLand env zones high size pool).run a).evs ++ [Event.planEnd p r.1]),
          some (r, a')⟩ := by
  rw [Run.ext_iff']
  simp only [tryPlan, M.run_bind_evs, M.run_bind_out, run_emit, M.run_pure]
  split <;> simp_all

theorem tryPlan_evs_ne_nil (env : Env) (p : Plan) (zones : Nat) (high : Bool) (size pool : Nat)
    (a : Arena) : ((tryPlan env p zones high size pool).run a).evs ≠ [] := by
  rw [tryPlan_run]; split <;> simp

theorem policyPlanE_evs_ne_nil (env : Env) (pref : SegPref) (size pool : Nat) (a : Arena) :
    ((policyPlanE env pref size pool).run a).evs ≠ [] :=
  evs_bind_ne_nil _ _ _ (tryPlan_evs_ne_nil _ _ _ _ _ _ _)

theorem policyPlanD_evs_ne_nil (env : Env) (pref : SegPref) (size pool mz : Nat) (a : Arena) :
    ((policyPlanD env pref size pool mz).run a).evs ≠ [] := by
  unfold policyPlanD
  split
  · exact evs_bind_ne_nil _ _ _ (tryPlan_evs_ne_nil _ _ _ _ _ _ _)
  · exact policyPlanE_evs_ne_nil _ _ _ _ _

theorem policyPlanC_evs_ne_nil (env : Env) (pref : SegPref) (size pool z mz : Nat) (a : Arena) :
    ((policyPlanC env pref size pool z mz).run a).evs ≠ [] := by
  unfold policyPlanC
  split
  · exact evs_bind_ne_nil _ _ _ (by simp [classGrow])
  · exact policyPlanD_evs_ne_nil _ _ _ _ _ _

theorem policyPlanB_evs_ne_nil (env : Env) (pref : SegPref) (size pool z : Nat) (a : Arena) :
    ((policyPlanB env pref size pool z).run a).evs ≠ [] := by
  unfold policyPlanB
  simp only [M.run_bind_evs, run_getArena, List.nil_append]
  split
  · exact evs_bind_ne_nil _ _ _ (tryPlan_evs_ne_nil _ _ _ _ _ _ _)
  · exact policyPlanC_evs_ne_nil _ _ _ _ _ _ _

theorem policyPlanA_evs_ne_nil (env : Env) (pref : SegPref) (size pool : Nat) (a : Arena) :
    ((policyPlanA env pref size pool).run a).evs ≠ [] := by
  unfold policyPlanA
  split
  · exact evs_bind_ne_nil _ _ _ (tryPlan_evs_ne_nil _ _ _ _ _ _ _)
  · exact policyPlanB_evs_ne_nil _ _ _ _ _ _

/-- After the checks at its head the policy is the chain of plans. -/
theorem arenaAllocPolicy_run (env : Env) (pref : SegPref) (size pool : Nat) (a : Arena)
    (hs : 0 < size) :
    (arenaAllocPolicy env pref size pool).run a =
      if commitLimitExceeded env.W a size = true then ⟨[], some ((Res.COMMIT_LIMIT, none), a)⟩
      else (policyPlanA env pref size pool).run a := by
  rw [arenaAllocPolicy_eq_plans, Run.ext_iff']
  simp only [policyPlans, M.run_bind_evs, M.run_bind_out, run_AVER_true _ _ (decide_eq_true hs),
    run_getArena, List.nil_append]
  split <;> simp

/-- **C1.** For every arena state and every request size `s > 0` (sizes and
the commit counters being words of width `W`), `arenaAllocPolicy` rejects the
request in its pre-flight check, returning `COMMIT_LIMIT` with no event at all
(no land search, no class method) and the arena unchanged, exactly when
`spareCommitted < s` and `committed + (s - spareCommitted)` exceeds
`commitLimit` or wraps around; when `spareCommitted >= s` it never does. -/
theorem arenaAllocPolicy_preflight (env : Env) (a : Arena) (pref : SegPref) (size pool : Nat)
    (hs : 0 < size) (hsz : size < 2 ^ env.W) (hc : a.committed < 2 ^ env.W) :
    ((arenaAllocPolicy env pref size pool).run a = ⟨[], some ((Res.COMMIT_LIMIT, none), a)⟩ ↔
        a.spareCommitted < size ∧
          (a.committed + (size - a.spareCommitted) > a.commitLimit ∨
            2 ^ env.W ≤ a.committed + (size - a.spareCommitted))) ∧
      (size ≤ a.spareCommitted →
        commitLimitExceeded env.W a size = false ∧
        (arenaAllocPolicy env pref size pool).run a = (policyPlanA env pref size pool).run a ∧
        ((arenaAllocPolicy env pref size pool).run a).evs ≠ []) := by
  have hiff := commitLimitExceeded_iff env.W a size hsz hc
  rw [arenaAllocPolicy_run env pref size pool a hs]
  constructor
  · by_cases h : commitLimitExceeded env.W a size = true
    · simp only [h, if_true, true_iff]; exact hiff.1 h
    · rw [if_neg h]
      constructor
      · intro hrun
        have := policyPlanA_evs_ne_nil env pref size pool a
        rw [hrun] at this; simp at this
      · intro hcond; exact absurd (hiff.2 hcond) h
  · intro hle
    have h : ¬ commitLimitExceeded env.W a size = true := by
      intro h; have := (hiff.1 h).1; omega
    rw [if_neg h]
    exact ⟨by simpa using h, rfl, policyPlanA_evs_ne_nil env pref size pool a⟩

/-- Witness for C1: the commit limit scenario of the spec.  With 200 KiB (and
the chunk's own page) committed and a commit limit of 256 KiB, a request for
100 KiB is rejected before anything else happens. -/
theorem arenaAllocPolicy_preflight_witness :
    (arenaAllocPolicy simpleEnv ⟨false, 1, 0⟩ 102400 1).run
        { simpleArena 1 with committed := 208896, commitLimit := 262144 } =
      ⟨[], some ((Res.COMMIT_LIMIT, none),
        { simpleArena 1 with committed := 208896, commitLimit := 262144 })⟩ :=
  (arenaAllocPolicy_preflight simpleEnv
      { simpleArena 1 with committed := 208896, commitLimit := 262144 }
      ⟨false, 1, 0⟩ 102400 1 (by decide) (by decide) (by decide)).1.2
    ⟨by decide, Or.inl (by decide)⟩

/-! ## Events of the code below the policy -/

theorem EvsAll.evsPure {α : Type} (P : Event → Prop) (x : α) : EvsAll P (Pure.pure x : M α) := by
  intro a e he; simp at he

theorem EvsAll.evsBind {α β : Type} {P : Event → Prop} {m : M α} {f : α → M β}
    (hm : EvsAll P m) (hf : ∀ x, EvsAll P (f x)) : EvsAll P (m >>= f) := by
  intro a e he
  simp only [M.run_bind_evs] at he
  split at he
  · exact hm a e he
  · rename_i x a' _
    rcases List.mem_append.1 he with h | h
    · exact hm a e h
    · exact hf x a' e h

theorem EvsAll.evsMono {α : Type} {P Q : Event → Prop} {m : M α} (h : ∀ e, P e → Q e)
    (hm : EvsAll P m) : EvsAll Q m :=
  fun a e he => h e (hm a e he)

theorem EvsAll.evsGetArena (P : Event → Prop) : EvsAll P getArena := by
  intro a e he; simp at he

theorem EvsAll.setArena (P : Event → Prop) (b : Arena) : EvsAll P (setArena b) := by
  intro a e he; simp at he

theorem EvsAll.evsAbort {α : Type} (P : Event → Prop) : EvsAll P (abort : M α) := by
  intro a e he; simp at he

theorem EvsAll.evsAVER (P : Event → Prop) (c b : Bool) : EvsAll P (AVER c b) := by
  intro a e he; rw [run_AVER] at he; split at he <;> simp at he

theorem EvsAll.emit {P : Event → Prop} {e : Event} (h : P e) : EvsAll P (emit e) := by
  intro a e' he; simp at he; subst he; exact h

theorem EvsAll.landFindInZones {P : Event → Prop} (env : Env) (size zones : Nat) (high : Bool)
    (h : ∀ res found range, P (Event.find size zones high res found range)) :
    EvsAll P (landFindInZones env size zones high) := by
  intro a e he; simp [MPS.landFindInZones] at he; subst he; exact h _ _ _

theorem EvsAll.landInsert {P : Event → Prop} (env : Env) (range : Range)
    (h : ∀ res ret, P (Event.landInsert range res ret)) :
    EvsAll P (landInsert env range) := by
  intro a e he; simp [MPS.landInsert] at he; subst he; exact h _ _

theorem EvsAll.landDelete {P : Event → Prop} (env : Env) (range : Range)
    (h : ∀ res, P (Event.landDelete range res)) :
    EvsAll P (landDelete env range) := by
  intro a e he; simp [MPS.landDelete] at he; subst he; exact h _

theorem EvsAll.mfsExtend {P : Event → Prop} (env : Env) (base size : Nat)
    (h : P (Event.mfsExtend base size)) : EvsAll P (mfsExtend env base size) := by
  intro a e he; simp [MPS.mfsExtend] at he; subst he; exact h

theorem EvsAll.classPagesMarkAllocated {P : Event → Prop} (env : Env) (chunk : Chunk)
    (i n pool : Nat) (h : ∀ res, P (Event.mark chunk.base i n pool res)) :
    EvsAll P (classPagesMarkAllocated env chunk i n pool) := by
  intro a e he; simp [MPS.classPagesMarkAllocated] at he; subst he; exact h _

theorem EvsAll.classGrow {P : Event → Prop} (env : Env) (pref : SegPref) (size : Nat)
    (h : ∀ res, P (Event.grow res)) : EvsAll P (classGrow env pref size) := by
  intro a e he; simp [MPS.classGrow] at he; subst he; exact h _

theorem arenaAllocPageInChunk_low (env : Env) (c : Nat) (cl : ArenaAllocPageClosure) :
    EvsAll Event.isLow (arenaAllocPageInChunk env c cl) := by
  unfold arenaAllocPageInChunk
  refine EvsAll.evsBind (EvsAll.evsGetArena _) (fun arena => ?_)
  split
  · exact EvsAll.evsAbort _
  · split
    · exact EvsAll.evsPure _ _
    · split
      · exact EvsAll.evsPure _ _
      · refine EvsAll.evsBind (EvsAll.classPagesMarkAllocated _ _ _ _ _ (fun _ => rfl)) (fun res => ?_)
        split <;> exact EvsAll.evsPure _ _

theorem TreeTraverse_all {P : Event → Prop}
    (visit : Nat → ArenaAllocPageClosure → M (Bool × ArenaAllocPageClosure))
    (hv : ∀ c cl, EvsAll P (visit c cl)) (cs : List Nat) (cl : ArenaAllocPageClosure) :
    EvsAll P (TreeTraverse visit cs cl) := by
  induction cs generalizing cl with
  | nil => exact EvsAll.evsPure _ _
  | cons c cs ih =>
    unfold TreeTraverse
    refine EvsAll.evsBind (hv c cl) (fun r => ?_)
    split
    · exact ih _
    · exact EvsAll.evsPure _ _

theorem arenaAllocPage_low (env : Env) (pool : Nat) :
    EvsAll Event.isLow (arenaAllocPage env pool) := by
  unfold arenaAllocPage
  refine EvsAll.evsBind (EvsAll.evsGetArena _) (fun arena => ?_)
  split
  · exact EvsAll.evsAbort _
  · refine EvsAll.evsBind (arenaAllocPageInChunk_low _ _ _) (fun r => ?_)
    split
    · exact EvsAll.evsBind (EvsAll.evsAVER _ _ _) (fun _ => EvsAll.evsPure _ _)
    · refine EvsAll.evsBind (EvsAll.evsGetArena _) (fun arena' => ?_)
      refine EvsAll.evsBind (TreeTraverse_all _ (arenaAllocPageInChunk_low env) _ _) (fun r' => ?_)
      split <;> exact EvsAll.evsBind (EvsAll.evsAVER _ _ _) (fun _ => EvsAll.evsPure _ _)

theorem arenaExtendCBSBlockPool_low (env : Env) :
    EvsAll Event.isLow (arenaExtendCBSBlockPool env) := by
  unfold arenaExtendCBSBlockPool
  refine EvsAll.evsBind (arenaAllocPage_low _ _) (fun r => ?_)
  split
  · exact EvsAll.evsPure _ _
  · refine EvsAll.evsBind (EvsAll.evsGetArena _) (fun arena => ?_)
    exact EvsAll.evsBind (EvsAll.mfsExtend _ _ _ rfl) (fun _ => EvsAll.evsPure _ _)

theorem arenaExcludePage_low (env : Env) (r : Range) :
    EvsAll Event.isLow (arenaExcludePage env r) := by
  unfold arenaExcludePage
  exact EvsAll.evsBind (EvsAll.landDelete _ _ (fun _ => rfl)) (fun _ => EvsAll.evsAVER _ _ _)

theorem arenaLandInsert_low (env : Env) (r : Range) :
    EvsAll Event.isLow (arenaLandInsert env r) := by
  unfold arenaLandInsert
  refine EvsAll.evsBind (EvsAll.landInsert _ _ (fun _ _ => rfl)) (fun x => ?_)
  split
  · refine EvsAll.evsBind (arenaExtendCBSBlockPool_low _) (fun e => ?_)
    split
    · exact EvsAll.evsPure _ _
    · refine EvsAll.evsBind (EvsAll.landInsert _ _ (fun _ _ => rfl)) (fun y => ?_)
      refine EvsAll.evsBind (EvsAll.evsAVER _ _ _) (fun _ => ?_)
      exact EvsAll.evsBind (arenaExcludePage_low _ _) (fun _ => EvsAll.evsPure _ _)
  · exact EvsAll.evsPure _ _

theorem allocFromLandMark_low (env : Env) (range : Range) (pool : Nat) :
    EvsAll Event.isLow (allocFromLandMark env range pool) := by
  unfold allocFromLandMark
  refine EvsAll.evsBind (EvsAll.evsGetArena _) (fun arena => ?_)
  split
  · exact EvsAll.evsAbort _
  · refine EvsAll.evsBind (EvsAll.evsAVER _ _ _) (fun _ => ?_)
    refine EvsAll.evsBind (EvsAll.classPagesMarkAllocated _ _ _ _ _ (fun _ => rfl)) (fun res => ?_)
    split
    · refine EvsAll.evsBind (arenaLandInsert_low _ _) (fun _ => ?_)
      exact EvsAll.evsBind (EvsAll.evsAVER _ _ _) (fun _ => EvsAll.evsPure _ _)
    · refine EvsAll.evsBind (EvsAll.evsGetArena _) (fun arena' => ?_)
      exact EvsAll.evsBind (EvsAll.setArena _ _) (fun _ => EvsAll.evsPure _ _)

theorem allocFromLandFound_low (env : Env) (f : Res × Bool × Range × Range) (pool : Nat) :
    EvsAll Event.isLow (allocFromLandFound env f pool) := by
  unfold allocFromLandFound
  refine EvsAll.evsBind (EvsAll.evsAVER _ _ _) (fun _ => ?_)
  split
  · exact EvsAll.evsPure _ _
  · split
    · exact EvsAll.evsPure _ _
    · exact allocFromLandMark_low _ _ _

theorem arenaAllocFromLand_low (env : Env) (zones : Nat) (high : Bool) (size pool : Nat) :
    EvsAll Event.isLow (arenaAllocFromLand env zones high size pool) := by
  rw [arenaAllocFromLand_eq_steps]
  unfold allocFromLandSteps
  refine EvsAll.evsBind (EvsAll.evsAVER _ _ _) (fun _ => ?_)
  refine EvsAll.evsBind (EvsAll.evsGetArena _) (fun arena => ?_)
  refine EvsAll.evsBind (EvsAll.evsAVER _ _ _) (fun _ => ?_)
  refine EvsAll.evsBind (EvsAll.landFindInZones _ _ _ _ (fun _ _ _ => rfl)) (fun f => ?_)
  split
  · refine EvsAll.evsBind (arenaExtendCBSBlockPool_low _) (fun e => ?_)
    split
    · exact EvsAll.evsPure _ _
    · refine EvsAll.evsBind (arenaExcludePage_low _ _) (fun _ => ?_)
      refine EvsAll.evsBind (EvsAll.landFindInZones _ _ _ _ (fun _ _ _ => rfl)) (fun f' => ?_)
      exact EvsAll.evsBind (EvsAll.evsAVER _ _ _) (fun _ => allocFromLandFound_low _ _ _)
  · exact allocFromLandFound_low _ _ _

@[simp] theorem policyEvents_arenaAllocFromLand (env : Env) (zones : Nat) (high : Bool)
    (size pool : Nat) (a : Arena) :
    policyEvents ((arenaAllocFromLand env zones high size pool).run a).evs = [] := by
  unfold policyEvents
  rw [List.filter_eq_nil_iff]
  intro e he
  have := arenaAllocFromLand_low env zones high size pool a e he
  simp [Event.isLow] at this
  simp [this]

/-! ## The order of the plans -/

@[simp] theorem policyEvents_nil : policyEvents [] = [] := rfl

@[simp] theorem policyEvents_append (l₁ l₂ : List Event) :
    policyEvents (l₁ ++ l₂) = policyEvents l₁ ++ policyEvents l₂ := by
  simp [policyEvents]

@[simp] theorem policyEvents_cons_planBegin (p : Plan) (z : Nat) (h : Bool) (s : Nat)
    (l : List Event) :
    policyEvents (Event.planBegin p z h s :: l) = Event.planBegin p z h s :: policyEvents l := by
  simp [policyEvents, Event.isPolicy]

@[simp] theorem policyEvents_cons_planEnd (p : Plan) (r : Res) (l : List Event) :
    policyEvents (Event.planEnd p r :: l) = Event.planEnd p r :: policyEvents l := by
  simp [policyEvents, Event.isPolicy]

@[simp] theorem policyEvents_cons_grow (r : Res) (l : List Event) :
    policyEvents (Event.grow r :: l) = Event.grow r :: policyEvents l := by
  simp [policyEvents, Event.isPolicy]

@[simp] theorem Event.rank_planBegin (p : Plan) (z : Nat) (h : Bool) (s : Nat) :
    (Event.planBegin p z h s).rank = p.rank := rfl

@[simp] theorem Event.rank_planEnd (p : Plan) (r : Res) :
    (Event.planEnd p r).rank = p.rank + 1 := rfl

@[simp] theorem Event.rank_grow (r : Res) : (Event.grow r).rank = 4 := rfl

theorem mem_policyEvents {e : Event} {l : List Event} :
    e ∈ policyEvents l ↔ e ∈ l ∧ e.isPolicy = true := by
  simp [policyEvents]

theorem Passable.weaken {P Q : List Event} (h : ∀ e, e ∈ P → e ∈ Q) {e : Event}
    (hp : Passable P e) : Passable Q e := by
  cases e <;> simp only [Passable] at hp ⊢ <;> try exact hp
  obtain ⟨r, hr⟩ := hp
  exact ⟨r, h _ hr⟩

theorem stageCond_lt_12 {zA mz zD j : Nat} (h : stageCond zA mz zD j) : j < 12 := by
  unfold stageCond at h; omega

theorem stageCond_ne_succ {zA mz zD j : Nat} (h : stageCond zA mz zD j) (p : Plan) :
    j ≠ p.rank + 1 := by
  unfold stageCond at h
  cases p <;> simp only [Plan.rank] <;> omega

theorem PolicyInv.nil (high : Bool) (size zA mz zD U k : Nat) (hk : 12 ≤ k) :
    PolicyInv high size zA mz zD U k [] := by
  refine ⟨by simp, by simp, by simp, by simp, by simp, by simp, ?_⟩
  intro j hj hc _
  have := stageCond_lt_12 hc
  omega

/-- Steps whose guards fail are skipped. -/
theorem PolicyInv.skip {high : Bool} {size zA mz zD U k k' : Nat} {P : List Event}
    (h : PolicyInv high size zA mz zD U k' P) (hk : k ≤ k')
    (hno : ∀ j, k ≤ j → j < k' → ¬ stageCond zA mz zD j) :
    PolicyInv high size zA mz zD U k P := by
  refine ⟨fun e he => ⟨(h.rank_ge e he).1, le_trans hk (h.rank_ge e he).2⟩, h.sorted, h.passed,
    h.paired, h.zones, h.grown, ?_⟩
  intro j hj hc hp
  by_cases hjk : j < k'
  · exact absurd hc (hno j hj hjk)
  · exact h.progress j (by omega) hc hp

/-- A plan in which an assertion failed. -/
theorem PolicyInv.aborted {high : Bool} {size zA mz zD U : Nat} (p : Plan) (z : Nat)
    (hz : zoneSpec zA mz zD U p z) :
    PolicyInv high size zA mz zD U p.rank [Event.planBegin p z high size] := by
  refine ⟨?_, by simp, ?_, by simp, ?_, by simp, ?_⟩
  · simp [Event.isPolicy, Event.rank]
  · intro e he e' he' hlt
    simp only [List.mem_singleton] at he he'
    subst he he'
    omega
  · intro p' z' h' s' hm
    simp only [List.mem_singleton, Event.planBegin.injEq] at hm
    obtain ⟨rfl, rfl, rfl, rfl⟩ := hm
    exact ⟨rfl, rfl, hz⟩
  · intro j hj hc hp
    by_cases hjp : j = p.rank
    · exact ⟨_, List.mem_singleton_self _, rfl, by simp [Event.rank, hjp]⟩
    · have := hp (Event.planBegin p z high size) (List.mem_singleton_self _)
        (by simp only [Event.rank_planBegin, Event.rank_planEnd, Event.rank_grow]; omega)
      simp [Passable] at this

/-- A plan that succeeded. -/
theorem PolicyInv.succeeded {high : Bool} {size zA mz zD U : Nat} (p : Plan) (z : Nat)
    (hz : zoneSpec zA mz zD U p z) :
    PolicyInv high size zA mz zD U p.rank
      [Event.planBegin p z high size, Event.planEnd p Res.OK] := by
  refine ⟨?_, ?_, ?_, ?_, ?_, by simp, ?_⟩
  · simp [Event.isPolicy, Event.rank]
  · simp [Event.rank]
  · intro e he e' he' hlt
    simp only [List.mem_cons, List.mem_singleton, List.not_mem_nil, or_false] at he he'
    rcases he with rfl | rfl
    · exact ⟨Res.OK, by simp⟩
    · rcases he' with rfl | rfl <;> simp [Event.rank] at hlt
  · intro p' r' hm
    simp at hm
    obtain ⟨rfl, rfl⟩ := hm
    exact ⟨z, high, size, List.mem_cons_self _ _⟩
  · intro p' z' h' s' hm
    simp at hm
    obtain ⟨rfl, rfl, rfl, rfl⟩ := hm
    exact ⟨rfl, rfl, hz⟩
  · intro j hj hc hp
    by_cases hjp : j = p.rank
    · exact ⟨_, List.mem_cons_self _ _, rfl, by simp [Event.rank, hjp]⟩
    · have hne := stageCond_ne_succ hc p
      have := hp (Event.planEnd p Res.OK) (by simp) (by simp only [Event.rank_planBegin, Event.rank_planEnd, Event.rank_grow]; omega)
      simp [Passable] at this


/-- A plan that failed, followed by the rest of the policy. -/
theorem PolicyInv.failed {high : Bool} {size zA mz zD U k' : Nat} {P : List Event}
    (p : Plan) (z : Nat) (r : Res)
    (hz : zoneSpec zA mz zD U p z) (hr : r ≠ Res.OK)
    (h : PolicyInv high size zA mz zD U k' P) (hk : p.rank + 1 < k')
    (hno : ∀ j, p.rank < j → j < k' → ¬ stageCond zA mz zD j) :
    PolicyInv high size zA mz zD U p.rank
      (Event.planBegin p z high size :: Event.planEnd p r :: P) := by
  have hP : ∀ e ∈ P, p.rank + 1 < e.rank := fun e he => lt_of_lt_of_le hk (h.rank_ge e he).2
  refine ⟨?_, ?_, ?_, ?_, ?_, ?_, ?_⟩
  · intro e he
    simp only [List.mem_cons] at he
    rcases he with rfl | rfl | he
    · simp [Event.isPolicy, Event.rank]
    · simp [Event.isPolicy, Event.rank]
    · exact ⟨(h.rank_ge e he).1, by have := hP e he; omega⟩
  · simp only [List.pairwise_cons, List.mem_cons]
    refine ⟨?_, ?_, h.sorted⟩
    · rintro y (rfl | hy)
      · simp [Event.rank]
      · have := hP y hy; simp only [Event.rank_planBegin, Event.rank_planEnd, Event.rank_grow]; omega
    · intro y hy
      have := hP y hy; simp only [Event.rank_planBegin, Event.rank_planEnd, Event.rank_grow]; omega
  · intro e he e' he' hlt
    simp only [List.mem_cons] at he
    rcases he with rfl | rfl | he
    · exact ⟨r, by simp⟩
    · exact hr
    · have hle := hP e he
      simp only [List.mem_cons] at he'
      rcases he' with rfl | rfl | he'
      · simp only [Event.rank_planBegin, Event.rank_planEnd, Event.rank_grow] at hlt; omega
      · simp only [Event.rank_planBegin, Event.rank_planEnd, Event.rank_grow] at hlt; omega
      · exact Passable.weaken (fun x hx => by simp [hx]) (h.passed e he e' he' hlt)
  · intro p' r' hm
    simp only [List.mem_cons, reduceCtorEq, false_or, Event.planEnd.injEq] at hm
    rcases hm with ⟨rfl, rfl⟩ | hm
    · exact ⟨z, high, size, List.mem_cons_self _ _⟩
    · obtain ⟨z', h', s', hb⟩ := h.paired p' r' hm
      exact ⟨z', h', s', by simp [hb]⟩
  · intro p' z' h' s' hm
    simp only [List.mem_cons, reduceCtorEq, false_or, Event.planBegin.injEq] at hm
    rcases hm with ⟨rfl, rfl, rfl, rfl⟩ | hm
    · exact ⟨rfl, rfl, hz⟩
    · exact h.zones p' z' h' s' hm
  · intro r' hm
    simp only [List.mem_cons, reduceCtorEq, false_or] at hm
    exact h.grown r' hm
  · intro j hj hc hp
    by_cases hjp : j = p.rank
    · exact ⟨_, List.mem_cons_self _ _, rfl, by simp [Event.rank, hjp]⟩
    · have hjk : k' ≤ j := by
        by_contra hcon
        exact hno j (by omega) (by omega) hc
      obtain ⟨e, he, hs, hrk⟩ := h.progress j hjk hc (by
        intro e he hlt
        have hpe := hp e (by simp [he]) hlt
        have hle := hP e he
        cases e <;> simp only [Passable] at hpe ⊢ <;> try exact hpe
        rename_i p' z' h' s'
        obtain ⟨r', hr'⟩ := hpe
        simp only [List.mem_cons, reduceCtorEq, false_or, Event.planEnd.injEq] at hr'
        rcases hr' with ⟨rfl, rfl⟩ | hr'
        · simp only [Event.rank_planBegin, Event.rank_planEnd, Event.rank_grow] at hle; omega
        · exact ⟨r', hr'⟩)
      exact ⟨e, by simp [he], hs, hrk⟩

/-- A failing `grow` ends the policy. -/
theorem PolicyInv.growFailed {high : Bool} {size zA mz zD U : Nat} (r : Res)
    (hr : r ≠ Res.OK) (hmz : mz ≠ ZoneSetEMPTY) :
    PolicyInv high size zA mz zD U 4 [Event.grow r] := by
  refine ⟨?_, by simp, ?_, by simp, by simp, ?_, ?_⟩
  · simp [Event.isPolicy, Event.rank]
  · intro e he e' he' hlt
    simp only [List.mem_singleton] at he he'
    subst he he'
    omega
  · intro r' _; exact hmz
  · intro j hj hc hp
    by_cases hjp : j = 4
    · exact ⟨_, List.mem_singleton_self _, rfl, by simp [Event.rank, hjp]⟩
    · have := hp (Event.grow r) (List.mem_singleton_self _) (by simp only [Event.rank_planBegin, Event.rank_planEnd, Event.rank_grow]; omega)
      simp only [Passable] at this
      exact absurd this hr

/-- A successful `grow`, followed by the rest of the policy. -/
theorem PolicyInv.growOK {high : Bool} {size zA mz zD U : Nat} {P : List Event}
    (hmz : mz ≠ ZoneSetEMPTY) (h : PolicyInv high size zA mz zD U 5 P) :
    PolicyInv high size zA mz zD U 4 (Event.grow Res.OK :: P) := by
  have hP : ∀ e ∈ P, 5 ≤ e.rank := fun e he => (h.rank_ge e he).2
  refine ⟨?_, ?_, ?_, ?_, ?_, ?_, ?_⟩
  · intro e he
    simp only [List.mem_cons] at he
    rcases he with rfl | he
    · simp [Event.isPolicy, Event.rank]
    · exact ⟨(h.rank_ge e he).1, by have := hP e he; omega⟩
  · simp only [List.pairwise_cons]
    refine ⟨?_, h.sorted⟩
    intro y hy
    have := hP y hy; simp only [Event.rank_planBegin, Event.rank_planEnd, Event.rank_grow]; omega
  · intro e he e' he' hlt
    simp only [List.mem_cons] at he
    rcases he with rfl | he
    · rfl
    · have hle := hP e he
      simp only [List.mem_cons] at he'
      rcases he' with rfl | he'
      · simp only [Event.rank_planBegin, Event.rank_planEnd, Event.rank_grow] at hlt; omega
      · exact Passable.weaken (fun x hx => by simp [hx]) (h.passed e he e' he' hlt)
  · intro p' r' hm
    simp only [List.mem_cons, reduceCtorEq, false_or] at hm
    obtain ⟨z', h', s', hb⟩ := h.paired p' r' hm
    exact ⟨z', h', s', by simp [hb]⟩
  · intro p' z' h' s' hm
    simp only [List.mem_cons, reduceCtorEq, false_or] at hm
    exact h.zones p' z' h' s' hm
  · intro r' _; exact hmz
  · intro j hj hc hp
    by_cases hjp : j = 4
    · exact ⟨_, List.mem_cons_self _ _, rfl, by simp [Event.rank, hjp]⟩
    · obtain ⟨e, he, hs, hrk⟩ := h.progress j (by omega) hc (by
        intro e he hlt
        have hpe := hp e (by simp [he]) hlt
        cases e <;> simp only [Passable] at hpe ⊢ <;> try exact hpe
        obtain ⟨r', hr'⟩ := hpe
        simp only [List.mem_cons, reduceCtorEq, false_or] at hr'
        exact ⟨r', hr'⟩)
      exact ⟨e, by simp [he], hs, hrk⟩


/-- The run of a plan followed by the rest of the policy. -/
theorem planThen_run (env : Env) (p : Plan) (zones : Nat) (high : Bool) (size pool : Nat)
    (next : M (Res × Option Tract)) (a : Arena) :
    (tryPlan env p zones high size pool >>= fun r =>
        if r.1 = Res.OK then pure (Res.OK, r.2) else next).run a =
      match ((arenaAllocFromLand env zones high size pool).run a).out with
      | none => ⟨Event.planBegin p zones high size ::
                  ((arenaAllocFromLand env zones high size pool).run a).evs, none⟩
      | some (r, a') =>
        if r.1 = Res.OK then
          ⟨Event.planBegin p zones high size ::
            (((arenaAllocFromLand env zones high size pool).run a).evs ++ [Event.planEnd p Res.OK]),
            some ((Res.OK, r.2), a')⟩
        else
          ⟨Event.planBegin p zones high size ::
            (((arenaAllocFromLand env zones high size pool).run a).evs ++
              Event.planEnd p r.1 :: (next.run a').evs),
            (next.run a').out⟩ := by
  rw [M.run_bind, tryPlan_run]
  split
  · rename_i h; split at h <;> simp_all
  · rename_i x a' h
    split at h
    · simp_all
    · rename_i r a'' h2
      simp only [Run.mk.injEq, Option.some.injEq, Prod.mk.injEq] at h
      obtain ⟨h3, h4⟩ := h
      subst h3 h4
      simp only [h2]
      split
      · rename_i h5; simp [h5]
      · rename_i h5; simp [h5]

/-- The invariant across a plan followed by the rest of the policy. -/
theorem PolicyInv.planThen {high : Bool} {size zA mz zD U k' : Nat} (env : Env) (p : Plan)
    (z pool : Nat) (next : M (Res × Option Tract)) (a : Arena)
    (hz : zoneSpec zA mz zD U p z) (hk : p.rank + 1 < k')
    (hno : ∀ j, p.rank < j → j < k' → ¬ stageCond zA mz zD j)
    (hnext : ∀ a', PolicyInv high size zA mz zD U k' (policyEvents (next.run a').evs)) :
    PolicyInv high size zA mz zD U p.rank
      (policyEvents ((tryPlan env p z high size pool >>= fun r =>
        if r.1 = Res.OK then pure (Res.OK, r.2) else next).run a).evs) := by
  rw [planThen_run]
  split
  · simpa using PolicyInv.aborted p z hz
  · rename_i r a' _
    split
    · simpa using PolicyInv.succeeded p z hz
    · rename_i hr
      simpa using PolicyInv.failed p z r.1 hz hr (hnext a') hk hno

theorem policyPlanE_inv (env : Env) (pref : SegPref) (size pool zA mz : Nat) (a : Arena) :
    PolicyInv pref.high size zA mz (ZoneSetDiff env.W (ZoneSetUNIV env.W) pref.avoid)
      (ZoneSetUNIV env.W) 11 (policyEvents ((policyPlanE env pref size pool).run a).evs) := by
  unfold policyPlanE
  rw [M.run_bind_evs, tryPlan_run]
  split
  · rename_i h
    split at h
    · simpa using PolicyInv.aborted Plan.E _ rfl
    · simp at h
  · rename_i x a' h
    split at h
    · simp at h
    · rename_i r a'' _
      simp only [Option.some.injEq, Prod.mk.injEq] at h
      obtain ⟨rfl, rfl⟩ := h
      have hnil : ((if r.1 = Res.OK then (pure (Res.OK, r.2) : M (Res × Option Tract))
          else pure (r.1, none)).run a'').evs = [] := by split <;> rfl
      simp only [hnil, List.append_nil]
      by_cases hr : r.1 = Res.OK
      · simpa [hr] using PolicyInv.succeeded Plan.E _ rfl
      · simpa using PolicyInv.failed Plan.E _ r.1 rfl hr (PolicyInv.nil _ _ _ _ _ _ 13 (by omega))
          (by simp [Plan.rank])
          (fun j h1 _ hc => by have := stageCond_lt_12 hc; simp [Plan.rank] at h1; omega)

theorem policyPlanD_inv (env : Env) (pref : SegPref) (size pool zA mz : Nat) (a : Arena) :
    PolicyInv pref.high size zA mz (ZoneSetDiff env.W (ZoneSetUNIV env.W) pref.avoid)
      (ZoneSetUNIV env.W) 9 (policyEvents ((policyPlanD env pref size pool mz).run a).evs) := by
  unfold policyPlanD
  split
  · rename_i hc
    exact PolicyInv.planThen env Plan.D _ pool _ a ⟨rfl, hc⟩ (by simp [Plan.rank])
      (fun j h1 h2 hc => by simp [Plan.rank] at h1; unfold stageCond at hc; omega)
      (fun a' => policyPlanE_inv env pref size pool zA mz a')
  · rename_i hc
    exact (policyPlanE_inv env pref size pool zA mz a).skip (by omega)
      (fun j h1 h2 hs => by unfold stageCond at hs; simp at hc; omega)

theorem policyPlanCB_inv (env : Env) (pref : SegPref) (size pool zA mz : Nat) (a : Arena) :
    PolicyInv pref.high size zA mz (ZoneSetDiff env.W (ZoneSetUNIV env.W) pref.avoid)
      (ZoneSetUNIV env.W) 7 (policyEvents ((policyPlanCB env pref size pool zA mz).run a).evs) := by
  unfold policyPlanCB
  split
  · rename_i hc
    exact PolicyInv.planThen env Plan.CB _ pool _ a ⟨rfl, hc⟩ (by simp [Plan.rank])
      (fun j h1 h2 hc => by simp [Plan.rank] at h1; unfold stageCond at hc; omega)
      (fun a' => policyPlanD_inv env pref size pool zA mz a')
  · rename_i hc
    exact (policyPlanD_inv env pref size pool zA mz a).skip (by omega)
      (fun j h1 h2 hs => by unfold stageCond at hs; simp at hc; omega)

theorem policyPlanCA_inv (env : Env) (pref : SegPref) (size pool zA mz : Nat) (a : Arena) :
    PolicyInv pref.high size zA mz (ZoneSetDiff env.W (ZoneSetUNIV env.W) pref.avoid)
      (ZoneSetUNIV env.W) 5 (policyEvents ((policyPlanCA env pref size pool zA mz).run a).evs) := by
  unfold policyPlanCA
  split
  · rename_i hc
    exact PolicyInv.planThen env Plan.CA _ pool _ a ⟨rfl, hc⟩ (by simp [Plan.rank])
      (fun j h1 h2 hc => by simp [Plan.rank] at h1; unfold stageCond at hc; omega)
      (fun a' => policyPlanCB_inv env pref size pool zA mz a')
  · rename_i hc
    exact (policyPlanCB_inv env pref size pool zA mz a).skip (by omega)
      (fun j h1 h2 hs => by unfold stageCond at hs; simp at hc; omega)

/-- The run of plan C's `grow` followed by the rest of the policy. -/
theorem growThen_run (env : Env) (pref : SegPref) (size : Nat)
    (next : M (Res × Option Tract)) (a : Arena) :
    (classGrow env pref size >>= fun res =>
        if res ≠ Res.OK then pure (res, none) else next).run a =
      if (env.cls.grow a pref size).1 ≠ Res.OK then
        ⟨[Event.grow (env.cls.grow a pref size).1],
          some (((env.cls.grow a pref size).1, none), (env.cls.grow a pref size).2)⟩
      else
        ⟨Event.grow Res.OK :: (next.run (env.cls.grow a pref size).2).evs,
          (next.run (env.cls.grow a pref size).2).out⟩ := by
  rw [M.run_bind]
  simp only [classGrow]
  split
  · rename_i h; simp [h]
  · rename_i h
    simp only [ne_eq, Decidable.not_not] at h
    simp [h]

theorem policyPlanC_inv (env : Env) (pref : SegPref) (size pool zA mz : Nat) (a : Arena) :
    PolicyInv pref.high size zA mz (ZoneSetDiff env.W (ZoneSetUNIV env.W) pref.avoid)
      (ZoneSetUNIV env.W) 4 (policyEvents ((policyPlanC env pref size pool zA mz).run a).evs) := by
  unfold policyPlanC
  split
  · rename_i hc
    rw [growThen_run]
    split
    · rename_i hr
      simpa using PolicyInv.growFailed _ hr hc
    · simpa using PolicyInv.growOK hc (policyPlanCA_inv env pref size pool zA mz _)
  · rename_i hc
    exact (policyPlanD_inv env pref size pool zA mz a).skip (by omega)
      (fun j h1 h2 hs => by unfold stageCond at hs; simp at hc; omega)

theorem policyPlanB_inv (env : Env) (pref : SegPref) (size pool zA : Nat) (a : Arena) :
    PolicyInv pref.high size zA (planBZones env pref a)
      (ZoneSetDiff env.W (ZoneSetUNIV env.W) pref.avoid)
      (ZoneSetUNIV env.W) 2 (policyEvents ((policyPlanB env pref size pool zA).run a).evs) := by
  unfold policyPlanB
  simp only [M.run_bind_evs, run_getArena, List.nil_append]
  split
  · rename_i hc
    exact PolicyInv.planThen env Plan.B _ pool _ a ⟨rfl, hc⟩ (by simp [Plan.rank])
      (fun j h1 h2 hc => by simp [Plan.rank] at h1; unfold stageCond at hc; omega)
      (fun a' => policyPlanC_inv env pref size pool zA _ a')
  · rename_i hc
    exact (policyPlanC_inv env pref size pool zA _ a).skip (by omega)
      (fun j h1 h2 hs => by unfold stageCond at hs; simp at hc; omega)


theorem policyPlanA_inv (env : Env) (pref : SegPref) (size pool : Nat) (a : Arena) :
    PolicyInv pref.high size (ZoneSetDiff env.W pref.zones pref.avoid)
      (planBZones env pref (planBEntry env pref size pool a))
      (ZoneSetDiff env.W (ZoneSetUNIV env.W) pref.avoid)
      (ZoneSetUNIV env.W) 0 (policyEvents ((policyPlanA env pref size pool).run a).evs) := by
  unfold policyPlanA planBEntry
  by_cases hc : ZoneSetDiff env.W pref.zones pref.avoid ≠ ZoneSetEMPTY
  · rw [if_pos hc, if_pos hc, planThen_run]
    rcases hout : ((arenaAllocFromLand env (ZoneSetDiff env.W pref.zones pref.avoid) pref.high
        size pool).run a).out with _ | ⟨r, a'⟩
    · simpa using PolicyInv.aborted Plan.A _ ⟨rfl, hc⟩
    · by_cases hr : r.1 = Res.OK
      · simpa [hr] using PolicyInv.succeeded Plan.A _ ⟨rfl, hc⟩
      · simpa [hr] using PolicyInv.failed Plan.A _ r.1 ⟨rfl, hc⟩ hr
          (policyPlanB_inv env pref size pool _ a') (by simp [Plan.rank])
          (fun j h1 h2 hc => by simp [Plan.rank] at h1; unfold stageCond at hc; omega)
  · rw [if_neg hc, if_neg hc]
    exact (policyPlanB_inv env pref size pool _ a).skip (by omega)
      (fun j h1 h2 hs => by unfold stageCond at hs; simp at hc; omega)

/-- The invariant of the whole policy, once the pre-flight check has passed. -/
theorem arenaAllocPolicy_inv (env : Env) (pref : SegPref) (size pool : Nat) (a : Arena)
    (hs : 0 < size) (hpre : commitLimitExceeded env.W a size = false) :
    PolicyInv pref.high size (ZoneSetDiff env.W pref.zones pref.avoid)
      (planBZones env pref (planBEntry env pref size pool a))
      (ZoneSetDiff env.W (ZoneSetUNIV env.W) pref.avoid)
      (ZoneSetUNIV env.W) 0 (policyEvents ((arenaAllocPolicy env pref size pool).run a).evs) := by
  rw [arenaAllocPolicy_run env pref size pool a hs, hpre]
  exact policyPlanA_inv env pref size pool a

/-! ## Reading the invariant at a point of the log -/

theorem policyEvents_split {pre post : List Event} {e : Event} (he : e.isPolicy = true) :
    policyEvents (pre ++ e :: post) = policyEvents pre ++ e :: policyEvents post := by
  simp [policyEvents, List.filter_cons, he]

theorem sorted_split {pre post : List Event} {e : Event} (he : e.isPolicy = true)
    (hs : (policyEvents (pre ++ e :: post)).Pairwise (fun x y => x.rank < y.rank)) :
    (∀ x ∈ pre, x.isPolicy = true → x.rank < e.rank) ∧
      (∀ y ∈ post, y.isPolicy = true → e.rank < y.rank) := by
  rw [policyEvents_split he, List.pairwise_append] at hs
  obtain ⟨_, h2, h3⟩ := hs
  rw [List.pairwise_cons] at h2
  constructor
  · intro x hx hxp
    exact h3 x (mem_policyEvents.2 ⟨hx, hxp⟩) e (List.mem_cons_self _ _)
  · intro y hy hyp
    exact h2.1 y (mem_policyEvents.2 ⟨hy, hyp⟩)

theorem mem_pre_of_rank_lt {pre post : List Event} {e x : Event} (he : e.isPolicy = true)
    (hs : (policyEvents (pre ++ e :: post)).Pairwise (fun x y => x.rank < y.rank))
    (hx : x ∈ pre ++ e :: post) (hxp : x.isPolicy = true) (hlt : x.rank < e.rank) :
    x ∈ pre := by
  rcases List.mem_append.1 hx with h | h
  · exact h
  · rcases List.mem_cons.1 h with rfl | h
    · omega
    · have := (sorted_split he hs).2 x h hxp
      omega

theorem mem_post_of_rank_gt {pre post : List Event} {e x : Event} (he : e.isPolicy = true)
    (hs : (policyEvents (pre ++ e :: post)).Pairwise (fun x y => x.rank < y.rank))
    (hx : x ∈ pre ++ e :: post) (hxp : x.isPolicy = true) (hlt : e.rank < x.rank) :
    x ∈ post := by
  rcases List.mem_append.1 hx with h | h
  · have := (sorted_split he hs).1 x h hxp
    omega
  · rcases List.mem_cons.1 h with rfl | h
    · omega
    · exact h

theorem Event.isStart_rank_ne {e : Event} (he : e.isStart = true) (p : Plan) :
    e.rank ≠ p.rank + 1 := by
  cases e <;> simp [Event.isStart] at he
  · rename_i q _ _ _
    cases p <;> cases q <;> simp [Plan.rank]
  · cases p <;> simp [Plan.rank]

theorem Event.isStart_isPolicy {e : Event} (he : e.isStart = true) : e.isPolicy = true := by
  cases e <;> simp [Event.isStart] at he <;> rfl

/-- When the policy begins a plan or calls `grow`, everything it did before
has failed: each plan begun has returned, none with `ResOK`, and `grow`, if
it was called, returned `ResOK`; all of it stands earlier in the program
text. -/
theorem PolicyInv.before_start {high : Bool} {size zA mz zD U k : Nat}
    {pre post : List Event} {e : Event}
    (h : PolicyInv high size zA mz zD U k (policyEvents (pre ++ e :: post)))
    (he : e.isStart = true) :
    (∀ x ∈ pre, x.isPolicy = true → x.rank < e.rank) ∧
    (∀ p r, Event.planEnd p r ∈ pre → r ≠ Res.OK) ∧
    (∀ p z h' s, Event.planBegin p z h' s ∈ pre → ∃ r, r ≠ Res.OK ∧ Event.planEnd p r ∈ pre) ∧
    (∀ r, Event.grow r ∈ pre → r = Res.OK) := by
  have hep := Event.isStart_isPolicy he
  have hsp := sorted_split hep h.sorted
  have hmem : ∀ x, x ∈ pre → x.isPolicy = true → x ∈ policyEvents (pre ++ e :: post) :=
    fun x hx hxp => mem_policyEvents.2 ⟨by simp [hx], hxp⟩
  have hemem : e ∈ policyEvents (pre ++ e :: post) := mem_policyEvents.2 ⟨by simp, hep⟩
  refine ⟨hsp.1, ?_, ?_, ?_⟩
  · intro p r hx
    exact h.passed _ (hmem _ hx rfl) e hemem (hsp.1 _ hx rfl)
  · intro p z h' s hx
    have hlt := hsp.1 _ hx rfl
    obtain ⟨r, hr⟩ := h.passed _ (hmem _ hx rfl) e hemem hlt
    have hr' := (mem_policyEvents.1 hr).1
    have hne := Event.isStart_rank_ne he p
    simp only [Event.rank_planBegin] at hlt
    have hpre : Event.planEnd p r ∈ pre :=
      mem_pre_of_rank_lt hep h.sorted hr' rfl (by simp only [Event.rank_planEnd]; omega)
    exact ⟨r, h.passed _ hr e hemem (hsp.1 _ hpre rfl), hpre⟩
  · intro r hx
    exact h.passed _ (hmem _ hx rfl) e hemem (hsp.1 _ hx rfl)

/-! ## Plan A -/

/-- The first thing `arenaAllocFromLand` does, its checks passed, is to
search the land, in the zones given or everywhere in an unzoned arena. -/
theorem arenaAllocFromLand_evs_head (env : Env) (zones : Nat) (high : Bool) (size pool : Nat)
    (a : Arena) (hs : 0 < size) (hal : WordIsAligned size a.alignment = true) :
    ∃ res found range rest,
      ((arenaAllocFromLand env zones high size pool).run a).evs =
        Event.find size (searchZones env a zones) high res found range :: rest := by
  rw [arenaAllocFromLand_eq_steps]
  unfold allocFromLandSteps
  simp only [M.run_bind_evs, run_AVER_true _ _ (decide_eq_true hs), run_getArena,
    run_AVER_true _ _ hal, List.nil_append, landFindInZones]
  exact ⟨_, _, _, _, rfl⟩

/-- **C2.** When the pre-flight check passes, the first thing the policy does
is plan A's search, with the zone set `pref.zones` minus `pref.avoid`, exactly
when that set is not empty: then the log starts with the call of
`arenaAllocFromLand` for plan A with that zone set (followed, the size being
aligned, by the land search itself), and when the set is empty no plan A
search occurs in the log at all.  Every plan A search uses that zone set. -/
theorem arenaAllocPolicy_planA (env : Env) (a : Arena) (pref : SegPref) (size pool : Nat)
    (hs : 0 < size) (hpre : commitLimitExceeded env.W a size = false) :
    (ZoneSetDiff env.W pref.zones pref.avoid ≠ ZoneSetEMPTY →
      (∃ rest, ((arenaAllocPolicy env pref size pool).run a).evs =
        Event.planBegin Plan.A (ZoneSetDiff env.W pref.zones pref.avoid) pref.high size :: rest) ∧
      (WordIsAligned size a.alignment = true →
        ∃ res found range rest, ((arenaAllocPolicy env pref size pool).run a).evs =
          Event.planBegin Plan.A (ZoneSetDiff env.W pref.zones pref.avoid) pref.high size ::
          Event.find size (searchZones env a (ZoneSetDiff env.W pref.zones pref.avoid))
            pref.high res found range :: rest)) ∧
    (ZoneSetDiff env.W pref.zones pref.avoid = ZoneSetEMPTY →
      ∀ z h s, Event.planBegin Plan.A z h s ∉ ((arenaAllocPolicy env pref size pool).run a).evs) ∧
    (∀ z h s, Event.planBegin Plan.A z h s ∈ ((arenaAllocPolicy env pref size pool).run a).evs →
      z = ZoneSetDiff env.W pref.zones pref.avoid ∧ h = pref.high ∧ s = size) := by
  have hinv := arenaAllocPolicy_inv env pref size pool a hs hpre
  have hz : ∀ z h s, Event.planBegin Plan.A z h s ∈
      ((arenaAllocPolicy env pref size pool).run a).evs →
      (z = ZoneSetDiff env.W pref.zones pref.avoid ∧ h = pref.high ∧ s = size) ∧
        ZoneSetDiff env.W pref.zones pref.avoid ≠ ZoneSetEMPTY := by
    intro z h s hm
    obtain ⟨h1, h2, h3, h4⟩ := hinv.zones Plan.A z h s (mem_policyEvents.2 ⟨hm, rfl⟩)
    exact ⟨⟨h3, h1, h2⟩, h4⟩
  refine ⟨fun hne => ?_, fun he z h s hm => (hz z h s hm).2 he, fun z h s hm => (hz z h s hm).1⟩
  have hrun : (arenaAllocPolicy env pref size pool).run a =
      (policyPlanA env pref size pool).run a := by
    rw [arenaAllocPolicy_run env pref size pool a hs, hpre]; rfl
  rw [hrun]
  unfold policyPlanA
  rw [if_pos hne, planThen_run]
  constructor
  · split
    · exact ⟨_, rfl⟩
    · split <;> exact ⟨_, rfl⟩
  · intro hal
    obtain ⟨res, found, range, rest, hh⟩ := arenaAllocFromLand_evs_head env
      (ZoneSetDiff env.W pref.zones pref.avoid) pref.high size pool a hs hal
    refine ⟨res, found, range, ?_⟩
    split
    · exact ⟨rest, by simp [hh]⟩
    · split
      · exact ⟨rest ++ [Event.planEnd Plan.A Res.OK], by simp [hh]⟩
      · exact ⟨_, by simp only [hh, List.cons_append]; rfl⟩


/-- Witness for C2: a request for 8 KiB in zone 0 of the sample arena starts
with plan A's search in zone set `{0}`. -/
theorem arenaAllocPolicy_planA_witness :
    ∃ rest, ((arenaAllocPolicy simpleEnv ⟨false, 1, 0⟩ 8192 1).run (simpleArena 1)).evs =
      Event.planBegin Plan.A 1 false 8192 :: rest :=
  ((arenaAllocPolicy_planA simpleEnv (simpleArena 1) ⟨false, 1, 0⟩ 8192 1
    (by decide) (by decide)).1 (by decide)).1

/-! ## Zone set algebra -/

theorem ZoneSetUNIV_testBit (W k : Nat) : (ZoneSetUNIV W).testBit k = decide (k < W) := by
  unfold ZoneSetUNIV; exact Nat.testBit_two_pow_sub_one W k

theorem ZoneSetDiff_testBit (W a b k : Nat) :
    (ZoneSetDiff W a b).testBit k = (a.testBit k && (decide (k < W) ^^ b.testBit k)) := by
  unfold ZoneSetDiff
  rw [Nat.testBit_and, Nat.testBit_xor, ZoneSetUNIV_testBit]

theorem ZoneSetUnion_testBit (a b k : Nat) :
    (ZoneSetUnion a b).testBit k = (a.testBit k || b.testBit k) := by
  unfold ZoneSetUnion; exact Nat.testBit_or a b k

/-- No zone of `b` is in `ZoneSetDiff W a b`. -/
theorem ZoneSetDiff_avoid (W a b k : Nat) (hk : k < W) (hb : b.testBit k = true) :
    (ZoneSetDiff W a b).testBit k = false := by
  rw [ZoneSetDiff_testBit, hb]
  simp [hk]

/-! ## Plan D -/

/-- **C6.** Whenever the policy, its pre-flight check passed, begins plan D,
the zone set it searches is `UNIV` minus `pref.avoid`: the zones below the
word width that are not avoided, so none of `pref.avoid`.  Plan D is begun
only after plans A to C did not yield a range: every plan begun before it is
one of A, B and the two retries of plan C and has returned a failure, and
`grow`, if it was called, returned `ResOK`. -/
theorem arenaAllocPolicy_planD (env : Env) (a : Arena) (pref : SegPref) (size pool : Nat)
    (hs : 0 < size) (hpre : commitLimitExceeded env.W a size = false)
    (pre post : List Event) (z : Nat) (h : Bool) (s : Nat)
    (hsplit : ((arenaAllocPolicy env pref size pool).run a).evs =
      pre ++ Event.planBegin Plan.D z h s :: post) :
    z = ZoneSetDiff env.W (ZoneSetUNIV env.W) pref.avoid ∧
    (∀ k, z.testBit k = true ↔ k < env.W ∧ pref.avoid.testBit k = false) ∧
    (∀ p z' h' s', Event.planBegin p z' h' s' ∈ pre →
      (p = Plan.A ∨ p = Plan.B ∨ p = Plan.CA ∨ p = Plan.CB) ∧
        ∃ r, r ≠ Res.OK ∧ Event.planEnd p r ∈ pre) ∧
    (∀ p r, Event.planEnd p r ∈ pre → r ≠ Res.OK) ∧
    (∀ r, Event.grow r ∈ pre → r = Res.OK) := by
  have hinv := arenaAllocPolicy_inv env pref size pool a hs hpre
  rw [hsplit] at hinv
  obtain ⟨h1, h2, h3, h4⟩ := hinv.before_start (e := Event.planBegin Plan.D z h s) rfl
  have hzs := hinv.zones Plan.D z h s (mem_policyEvents.2 ⟨by simp, rfl⟩)
  have hz : z = ZoneSetDiff env.W (ZoneSetUNIV env.W) pref.avoid := hzs.2.2.1
  refine ⟨hz, ?_, ?_, h2, h4⟩
  · intro k
    rw [hz, ZoneSetDiff_testBit, ZoneSetUNIV_testBit]
    by_cases hk : k < env.W <;> cases hb : pref.avoid.testBit k <;> simp [hk]
  · intro p z' h' s' hm
    refine ⟨?_, h3 p z' h' s' hm⟩
    have := h1 _ hm rfl
    cases p <;> simp [Plan.rank] at this ⊢

/-- Witness for C6: with no preferred zone, zone 0 avoided and no zone of
the sample arena left unused, the policy goes straight to plan D, which
searches every zone but zone 0. -/
theorem arenaAllocPolicy_planD_witness :
    (18446744073709551614 : Nat) = ZoneSetDiff simpleEnv.W (ZoneSetUNIV simpleEnv.W) 1 ∧
      ∀ k, (18446744073709551614 : Nat).testBit k = true ↔
        k < simpleEnv.W ∧ (1 : Nat).testBit k = false :=
  have h := arenaAllocPolicy_planD simpleEnv { simpleArena 1 with freeZones := 0 } ⟨false, 0, 1⟩
    8192 1 (by decide) (by decide) []
    [Event.find 8192 18446744073709551614 false Res.OK true ⟨1052672, 1060864⟩,
      Event.mark 1048576 1 2 1 Res.OK, Event.planEnd Plan.D Res.OK]
    18446744073709551614 false 8192 (by decide)
  ⟨h.1, h.2.1⟩

/-! ## Plan C -/

theorem sorted_head {l : List Event} {x : Event}
    (hs : l.Pairwise (fun x y => x.rank < y.rank)) (hx : x ∈ l)
    (hmin : ∀ y ∈ l, x.rank ≤ y.rank) : ∃ t, l = x :: t := by
  cases l with
  | nil => simp at hx
  | cons y t =>
    rcases List.mem_cons.1 hx with rfl | hxt
    · exact ⟨t, rfl⟩
    · have h1 := (List.pairwise_cons.1 hs).1 x hxt
      have h2 := hmin y (List.mem_cons_self _ _)
      omega

theorem sorted_unique {l : List Event} {x y : Event}
    (hs : l.Pairwise (fun x y => x.rank < y.rank)) (hx : x ∈ l) (hy : y ∈ l)
    (hr : x.rank = y.rank) : x = y := by
  induction l with
  | nil => simp at hx
  | cons z t ih =>
    rw [List.pairwise_cons] at hs
    rcases List.mem_cons.1 hx with rfl | hxt <;> rcases List.mem_cons.1 hy with rfl | hyt
    · rfl
    · have := hs.1 y hyt; omega
    · have := hs.1 x hxt; omega
    · exact ih hs.2 hxt hyt

theorem sorted_countP_le_one {l : List Event} (hs : l.Pairwise (fun x y => x.rank < y.rank)) :
    l.countP Event.isGrow ≤ 1 := by
  induction l with
  | nil => simp
  | cons z t ih =>
    rw [List.pairwise_cons] at hs
    rw [List.countP_cons]
    by_cases hz : z.isGrow = true
    · have ht : t.countP Event.isGrow = 0 := by
        rw [List.countP_eq_zero]
        intro y hy hyg
        have := hs.1 y hy
        cases z <;> simp [Event.isGrow] at hz
        cases y <;> simp [Event.isGrow] at hyg
        simp at this
      simp [hz, ht]
    · have := ih hs.2
      simp [hz, this]

theorem countP_isGrow_policyEvents (l : List Event) :
    l.countP Event.isGrow = (policyEvents l).countP Event.isGrow := by
  unfold policyEvents
  rw [List.countP_filter]
  congr 1
  funext e
  cases e <;> simp [Event.isGrow, Event.isPolicy]

/-- The step that follows a passed event: when the guard of the step of rank
`j` holds and nothing of a lower rank follows the event, the policy events
that follow begin with that step. -/
theorem PolicyInv.next {high : Bool} {size zA mz zD U : Nat} {pre post : List Event} {e : Event}
    (h : PolicyInv high size zA mz zD U 0 (policyEvents (pre ++ e :: post)))
    (he : e.isPolicy = true) (hpe : Passable (policyEvents (pre ++ e :: post)) e)
    (j : Nat) (hj : e.rank < j) (hc : stageCond zA mz zD j)
    (hbetween : ∀ y ∈ post, y.isPolicy = true → j ≤ y.rank) :
    ∃ x post', x.isStart = true ∧ x.rank = j ∧ x ∈ post ∧ policyEvents post = x :: post' := by
  have hsp := sorted_split he h.sorted
  have hemem : e ∈ policyEvents (pre ++ e :: post) := mem_policyEvents.2 ⟨by simp, he⟩
  obtain ⟨x, hx, hxs, hxr⟩ := h.progress j (Nat.zero_le _) hc (by
    intro y hy hlt
    obtain ⟨hy1, hy2⟩ := mem_policyEvents.1 hy
    rcases List.mem_append.1 hy1 with hp | hp
    · exact h.passed y hy e hemem (hsp.1 y hp hy2)
    · rcases List.mem_cons.1 hp with rfl | hp
      · exact hpe
      · have := hbetween y hp hy2; omega)
  obtain ⟨hx1, hx2⟩ := mem_policyEvents.1 hx
  have hxpost : x ∈ post := mem_post_of_rank_gt he h.sorted hx1 hx2 (by omega)
  have hsorted_post : (policyEvents post).Pairwise (fun x y => x.rank < y.rank) := by
    have := h.sorted
    rw [policyEvents_split he, List.pairwise_append] at this
    exact (List.pairwise_cons.1 this.2.1).2
  obtain ⟨t, ht⟩ := sorted_head hsorted_post (mem_policyEvents.2 ⟨hxpost, hx2⟩) (by
    intro y hy
    obtain ⟨hy1, hy2⟩ := mem_policyEvents.1 hy
    have := hbetween y hy1 hy2; omega)
  exact ⟨x, t, hxs, hxr, hxpost, ht⟩

theorem start_rank_5 {x : Event} (hs : x.isStart = true) (hr : x.rank = 5) :
    ∃ z h s, x = Event.planBegin Plan.CA z h s := by
  cases x <;> simp [Event.isStart] at hs
  · rename_i p z h s
    cases p <;> simp [Plan.rank] at hr
    exact ⟨z, h, s, rfl⟩
  · simp at hr

theorem start_rank_7 {x : Event} (hs : x.isStart = true) (hr : x.rank = 7) :
    ∃ z h s, x = Event.planBegin Plan.CB z h s := by
  cases x <;> simp [Event.isStart] at hs
  · rename_i p z h s
    cases p <;> simp [Plan.rank] at hr
    exact ⟨z, h, s, rfl⟩
  · simp at hr

/-- **C5.** In every run of the policy whose pre-flight check passed, with
`zA` plan A's zone set and `mz` plan B's zone set:
the class `grow` method is called at most once; when it is called, every plan
begun before is plan A or plan B and has returned a failure (so each of them
was skipped or has failed); when it returns `ResOK`, the policy events that
follow begin with the search in `zA` again if `zA` is not empty, and the
search in `mz` comes next (after the failure of the retry in `zA`, or at once
when `zA` is empty) if `mz` differs from `zA`; when a guard fails the retry is
skipped; and all these retries stand before any plan D search. -/
theorem arenaAllocPolicy_grow (env : Env) (a : Arena) (pref : SegPref) (size pool : Nat)
    (hs : 0 < size) (hpre : commitLimitExceeded env.W a size = false)
    (zA mz : Nat) (hzA : zA = ZoneSetDiff env.W pref.zones pref.avoid)
    (hmz : mz = planBZones env pref (planBEntry env pref size pool a)) :
    ((arenaAllocPolicy env pref size pool).run a).evs.countP Event.isGrow ≤ 1 ∧
    (∀ z h s, Event.planBegin Plan.B z h s ∈ ((arenaAllocPolicy env pref size pool).run a).evs →
      z = mz) ∧
    ∀ pre res post, ((arenaAllocPolicy env pref size pool).run a).evs =
        pre ++ Event.grow res :: post →
      (∀ p z h s, Event.planBegin p z h s ∈ pre →
        (p = Plan.A ∨ p = Plan.B) ∧ ∃ r, r ≠ Res.OK ∧ Event.planEnd p r ∈ pre) ∧
      (∀ p r, Event.planEnd p r ∈ pre → r ≠ Res.OK) ∧
      (∀ r, Event.grow r ∉ pre) ∧
      (res = Res.OK →
        (zA ≠ ZoneSetEMPTY → ∃ post',
          policyEvents post = Event.planBegin Plan.CA zA pref.high size :: post') ∧
        (zA = ZoneSetEMPTY → mz ≠ zA → ∃ post',
          policyEvents post = Event.planBegin Plan.CB mz pref.high size :: post') ∧
        (∀ pre₂ r post₂, post = pre₂ ++ Event.planEnd Plan.CA r :: post₂ → r ≠ Res.OK →
          mz ≠ zA → ∃ post',
            policyEvents post₂ = Event.planBegin Plan.CB mz pref.high size :: post') ∧
        (zA = ZoneSetEMPTY → ∀ z h s, Event.planBegin Plan.CA z h s ∉ post) ∧
        (mz = zA → ∀ z h s, Event.planBegin Plan.CB z h s ∉ post) ∧
        (∀ z h s, Event.planBegin Plan.CA z h s ∈ post → z = zA) ∧
        (∀ z h s, Event.planBegin Plan.CB z h s ∈ post → z = mz) ∧
        (∀ pre₃ z h s post₃, post = pre₃ ++ Event.planBegin Plan.D z h s :: post₃ →
          ∀ p z' h' s', Event.planBegin p z' h' s' ∈ post → (p = Plan.CA ∨ p = Plan.CB) →
            Event.planBegin p z' h' s' ∈ pre₃)) := by
  have hinv := arenaAllocPolicy_inv env pref size pool a hs hpre
  rw [← hzA, ← hmz] at hinv
  refine ⟨?_, ?_, ?_⟩
  · rw [countP_isGrow_policyEvents]
    exact sorted_countP_le_one hinv.sorted
  · intro z h s hm
    exact (hinv.zones Plan.B z h s (mem_policyEvents.2 ⟨hm, rfl⟩)).2.2.1
  intro pre res post hsplit
  rw [hsplit] at hinv
  obtain ⟨h1, h2, h3, h4⟩ := hinv.before_start (e := Event.grow res) rfl
  have hmz0 : mz ≠ ZoneSetEMPTY := hinv.grown res (mem_policyEvents.2 ⟨by simp, rfl⟩)
  have hpost := (sorted_split (e := Event.grow res) rfl hinv.sorted).2
  have hmemP : ∀ x, x ∈ post → x.isPolicy = true →
      x ∈ policyEvents (pre ++ Event.grow res :: post) :=
    fun x hx hxp => mem_policyEvents.2 ⟨by simp [hx], hxp⟩
  have hCA : ∀ z h s, Event.planBegin Plan.CA z h s ∈ post → z = zA ∧ zA ≠ ZoneSetEMPTY :=
    fun z h s hm => (hinv.zones Plan.CA z h s (hmemP _ hm rfl)).2.2
  have hCB : ∀ z h s, Event.planBegin Plan.CB z h s ∈ post → z = mz ∧ mz ≠ zA :=
    fun z h s hm => (hinv.zones Plan.CB z h s (hmemP _ hm rfl)).2.2
  refine ⟨?_, h2, ?_, ?_⟩
  · intro p z h s hm
    refine ⟨?_, h3 p z h s hm⟩
    have := h1 _ hm rfl
    cases p <;> simp [Plan.rank] at this ⊢
  · intro r hm
    have := h1 _ hm rfl
    simp at this
  intro hres
  subst hres
  refine ⟨?_, ?_, ?_, fun hz z h s hm => (hCA z h s hm).2 hz,
    fun hz z h s hm => (hCB z h s hm).2 hz, fun z h s hm => (hCA z h s hm).1,
    fun z h s hm => (hCB z h s hm).1, ?_⟩
  · intro hz
    obtain ⟨x, post', hxs, hxr, hxm, hxp⟩ := hinv.next (e := Event.grow Res.OK) rfl rfl 5
      (by simp) (by unfold stageCond; simp [hmz0, hz])
      (fun y hy hyp => by have := hpost y hy hyp; simp at this; omega)
    obtain ⟨z, h, s, rfl⟩ := start_rank_5 hxs hxr
    obtain ⟨hh, hs', hzz, -⟩ := hinv.zones Plan.CA z h s (hmemP _ hxm rfl)
    subst hh hs' hzz
    exact ⟨post', hxp⟩
  · intro hz hne
    obtain ⟨x, post', hxs, hxr, hxm, hxp⟩ := hinv.next (e := Event.grow Res.OK) rfl rfl 7
      (by simp) (by unfold stageCond; simp [hmz0, hne])
      (fun y hy hyp => by
        have hgt := hpost y hy hyp
        simp only [Event.rank_grow] at hgt
        by_contra hlt
        cases y <;> simp [Event.isPolicy] at hyp
        · rename_i p z h s
          have hp : p = Plan.CA := by cases p <;> simp [Plan.rank] at hgt hlt ⊢
          subst hp
          exact (hCA z h s hy).2 hz
        · rename_i p r
          have hp : p = Plan.CA := by cases p <;> simp [Plan.rank] at hgt hlt ⊢
          subst hp
          obtain ⟨z, h, s, hb⟩ := hinv.paired Plan.CA r (hmemP _ hy rfl)
          exact (hinv.zones Plan.CA z h s hb).2.2.2 hz
        · simp at hgt)
    obtain ⟨z, h, s, rfl⟩ := start_rank_7 hxs hxr
    obtain ⟨hh, hs', hzz, -⟩ := hinv.zones Plan.CB z h s (hmemP _ hxm rfl)
    subst hh hs' hzz
    exact ⟨post', hxp⟩
  · intro pre₂ r post₂ hp2 hr hne
    have hsplit2 : pre ++ Event.grow Res.OK :: post =
        (pre ++ Event.grow Res.OK :: pre₂) ++ Event.planEnd Plan.CA r :: post₂ := by
      rw [hp2]; simp
    rw [hsplit2] at hinv
    have hpost2 := (sorted_split (e := Event.planEnd Plan.CA r) rfl hinv.sorted).2
    obtain ⟨x, post', hxs, hxr, hxm, hxp⟩ := hinv.next (e := Event.planEnd Plan.CA r) rfl hr 7
      (by simp [Plan.rank]) (by unfold stageCond; simp [hmz0, hne])
      (fun y hy hyp => by have := hpost2 y hy hyp; simp [Plan.rank] at this; omega)
    obtain ⟨z, h, s, rfl⟩ := start_rank_7 hxs hxr
    obtain ⟨hh, hs', hzz, -⟩ := hinv.zones Plan.CB z h s
      (mem_policyEvents.2 ⟨by simp [hxm], rfl⟩)
    subst hh hs' hzz
    exact ⟨post', hxp⟩
  · intro pre₃ z h s post₃ hp3 p z' h' s' hm hp
    have hsplit3 : pre ++ Event.grow Res.OK :: post =
        (pre ++ Event.grow Res.OK :: pre₃) ++ Event.planBegin Plan.D z h s :: post₃ := by
      rw [hp3]; simp
    rw [hsplit3] at hinv
    have hmem := mem_pre_of_rank_lt (e := Event.planBegin Plan.D z h s)
      (x := Event.planBegin p z' h' s') rfl hinv.sorted
      (by rw [← hsplit3]; simp [hm]) rfl
      (by rcases hp with rfl | rfl <;> simp [Plan.rank])
    rcases List.mem_append.1 hmem with hpre | hmem
    · have := h1 _ hpre rfl
      rcases hp with rfl | rfl <;> simp [Plan.rank] at this
    · rcases List.mem_cons.1 hmem with hcon | hmem
      · simp at hcon
      · exact hmem

/-- Witness for C5: in the sample arena with a class that can grow, a request
for zones 32 and 40 fails in plans A and B, the arena grows by a chunk in
zones 32 to 35, and the retry of plan A comes next. -/
theorem arenaAllocPolicy_grow_witness :
    ∃ post', policyEvents
        [Event.planBegin Plan.CA 1103806595072 false 8192,
          Event.find 8192 1103806595072 false Res.OK true ⟨2101248, 2109440⟩,
          Event.mark 2097152 1 2 1 Res.OK,
          Event.planEnd Plan.CA Res.OK] =
      Event.planBegin Plan.CA 1103806595072 false 8192 :: post' :=
  ((arenaAllocPolicy_grow growEnv { simpleArena 2 with freeZones := 1 }
      ⟨false, 1103806595072, 0⟩ 8192 1 (by decide) (by decide)
      1103806595072 1103806595073 (by decide) (by decide)).2.2
    [Event.planBegin Plan.A 1103806595072 false 8192,
      Event.find 8192 1103806595072 false Res.OK false ⟨0, 0⟩,
      Event.planEnd Plan.A Res.RESOURCE,
      Event.planBegin Plan.B 1103806595073 false 8192,
      Event.find 8192 1103806595073 false Res.OK false ⟨0, 0⟩,
      Event.planEnd Plan.B Res.RESOURCE]
    Res.OK
    [Event.planBegin Plan.CA 1103806595072 false 8192,
      Event.find 8192 1103806595072 false Res.OK true ⟨2101248, 2109440⟩,
      Event.mark 2097152 1 2 1 Res.OK,
      Event.planEnd Plan.CA Res.OK]
    (by decide)).2.2.2 rfl |>.1 (by decide)

/-! ## Postconditions -/

theorem post_pure {α : Type} {Q : Arena → α → Arena → Prop} (x : α) (h : ∀ a, Q a x a) :
    Post Q (Pure.pure x : M α) := by
  intro a y a' ho
  simp at ho
  obtain ⟨rfl, rfl⟩ := ho
  exact h a

theorem post_bind {α β : Type} {Q₁ : Arena → α → Arena → Prop}
    {Q₂ : α → Arena → β → Arena → Prop} {Q : Arena → β → Arena → Prop}
    {m : M α} {g : α → M β} (hm : Post Q₁ m) (hg : ∀ x, Post (Q₂ x) (g x))
    (hQ : ∀ a x a' y a'', Q₁ a x a' → Q₂ x a' y a'' → Q a y a'') : Post Q (m >>= g) := by
  intro a y a'' ho
  simp only [M.run_bind_out] at ho
  split at ho
  · simp at ho
  · rename_i x a' hx
    exact hQ a x a' y a'' (hm a x a' hx) (hg x a' y a'' ho)

theorem post_mono {α : Type} {Q Q' : Arena → α → Arena → Prop} {m : M α}
    (h : ∀ a x a', Q a x a' → Q' a x a') (hm : Post Q m) : Post Q' m :=
  fun a x a' ho => h a x a' (hm a x a' ho)

theorem post_abort {α : Type} (Q : Arena → α → Arena → Prop) : Post Q (abort : M α) := by
  intro a y a' ho; simp at ho

theorem post_getArena : Post (fun a x a' => x = a ∧ a' = a) getArena := by
  intro a y a' ho; simp at ho; obtain ⟨rfl, rfl⟩ := ho; exact ⟨rfl, rfl⟩

theorem post_AVER (c b : Bool) : Post (fun a _ a' => a' = a) (AVER c b) := by
  intro a y a' ho
  rw [run_AVER] at ho
  split at ho <;> simp at ho
  exact ho.symm

/-- A property of the value only passes through a bind. -/
theorem post_bind_val {α β : Type} {P : β → Prop} {m : M α} {g : α → M β}
    (hg : ∀ x, Post (fun _ y _ => P y) (g x)) : Post (fun _ y _ => P y) (m >>= g) := by
  intro a y a'' ho
  simp only [M.run_bind_out] at ho
  split at ho
  · simp at ho
  · rename_i x a' hx
    exact hg x a' y a'' ho

/-- A relation between the value and a projection of the arena before and
after passes through a bind whose first part keeps the projection. -/
theorem post_bind_rel {α β γ : Type} {f : Arena → γ} {R : β → γ → γ → Prop}
    {m : M α} {g : α → M β} (hm : Post (fun a _ a' => f a' = f a) m)
    (hg : ∀ x, Post (fun a y a' => R y (f a) (f a')) (g x)) :
    Post (fun a y a' => R y (f a) (f a')) (m >>= g) := by
  intro a y a'' ho
  simp only [M.run_bind_out] at ho
  split at ho
  · simp at ho
  · rename_i x a' hx
    have h1 := hm a x a' hx
    have h2 := hg x a' y a'' ho
    simp only at h1 h2
    rw [h1] at h2
    exact h2

theorem allocFromLandMark_tract (env : Env) (range : Range) (pool : Nat) :
    Post (fun _ r _ => TractIffOK r) (allocFromLandMark env range pool) := by
  unfold allocFromLandMark
  refine post_bind_val (fun arena => ?_)
  split
  · exact post_abort _
  · refine post_bind_val (fun _ => ?_)
    refine post_bind_val (fun res => ?_)
    split
    · rename_i hres
      refine post_bind_val (fun _ => ?_)
      refine post_bind_val (fun _ => ?_)
      exact post_pure _ (fun _ => ⟨fun h => absurd h hres, fun _ => rfl⟩)
    · refine post_bind_val (fun _ => ?_)
      refine post_bind_val (fun _ => ?_)
      exact post_pure _ (fun _ => ⟨fun _ => rfl, fun h => absurd rfl h⟩)

theorem allocFromLandFound_tract (env : Env) (f : Res × Bool × Range × Range) (pool : Nat) :
    Post (fun _ r _ => TractIffOK r) (allocFromLandFound env f pool) := by
  unfold allocFromLandFound
  refine post_bind_val (fun _ => ?_)
  split
  · rename_i h
    exact post_pure _ (fun _ => ⟨fun h' => absurd h' h, fun _ => rfl⟩)
  · split
    · exact post_pure _ (fun _ => ⟨fun h' => by simp at h', fun _ => rfl⟩)
    · exact allocFromLandMark_tract env _ pool

/-- `arenaAllocFromLand` returns a tract exactly when it returns `ResOK`. -/
theorem arenaAllocFromLand_tract (env : Env) (zones : Nat) (high : Bool) (size pool : Nat) :
    Post (fun _ r _ => TractIffOK r) (arenaAllocFromLand env zones high size pool) := by
  rw [arenaAllocFromLand_eq_steps]
  unfold allocFromLandSteps
  refine post_bind_val (fun _ => ?_)
  refine post_bind_val (fun _ => ?_)
  refine post_bind_val (fun _ => ?_)
  refine post_bind_val (fun f => ?_)
  split
  · refine post_bind_val (fun e => ?_)
    split
    · rename_i h
      exact post_pure _ (fun _ => ⟨fun h' => absurd h' h, fun _ => rfl⟩)
    · refine post_bind_val (fun _ => ?_)
      refine post_bind_val (fun _ => ?_)
      refine post_bind_val (fun _ => ?_)
      exact allocFromLandFound_tract env _ pool
  · exact allocFromLandFound_tract env _ pool

/-! ## Plan E -/

/-- Plan E's step of the policy is the call of `arenaAllocFromLand` with the
universal zone set, and its result. -/
theorem policyPlanE_run (env : Env) (pref : SegPref) (size pool : Nat) (a : Arena) :
    (policyPlanE env pref size pool).run a =
      (tryPlan env Plan.E (ZoneSetUNIV env.W) pref.high size pool).run a := by
  unfold policyPlanE
  rw [M.run_bind]
  rcases hr : (tryPlan env Plan.E (ZoneSetUNIV env.W) pref.high size pool).run a with ⟨evs, out⟩
  rcases out with _ | ⟨r, a'⟩
  · rfl
  · have ht : TractIffOK r := by
      have := arenaAllocFromLand_tract env (ZoneSetUNIV env.W) pref.high size pool a r a'
      apply this
      rw [tryPlan_run] at hr
      split at hr
      · simp at hr
      · rename_i r' a'' ho
        simp only [Run.mk.injEq, Option.some.injEq, Prod.mk.injEq] at hr
        rw [ho, hr.2.1, hr.2.2]
    simp only
    by_cases hok : r.1 = Res.OK
    · simp only [hok, if_true, M.run_pure, List.append_nil]
      rw [← hok]
    · simp only [hok, if_false, M.run_pure, List.append_nil]
      rw [← ht.2 hok]

theorem ReachesPlanE.afterPlan (env : Env) (pref : SegPref) (size pool : Nat) (p : Plan)
    (z : Nat) (next : M (Res × Option Tract)) (a : Arena) (hp : p.rank + 1 < 11)
    (hrank : ∀ a', ∀ e ∈ policyEvents (next.run a').evs, p.rank + 1 < e.rank)
    (hnext : ∀ a', AllPassed (next.run a').evs → ReachesPlanE env pref size pool (next.run a'))
    (hall : AllPassed ((tryPlan env p z pref.high size pool >>= fun r =>
        if r.1 = Res.OK then pure (Res.OK, r.2) else next).run a).evs) :
    ReachesPlanE env pref size pool ((tryPlan env p z pref.high size pool >>= fun r =>
        if r.1 = Res.OK then pure (Res.OK, r.2) else next).run a) := by
  rw [planThen_run] at hall ⊢
  rcases hout : ((arenaAllocFromLand env z pref.high size pool).run a).out with _ | ⟨r, a'⟩
  · simp only [hout] at hall
    have := hall (Event.planBegin p z pref.high size) (by simp) (by simp; omega)
    simp [Passable] at this
  · simp only [hout] at hall ⊢
    by_cases hr : r.1 = Res.OK
    · simp only [hr, if_true] at hall
      have := hall (Event.planEnd p Res.OK) (by simp) (by simp; omega)
      simp [Passable] at this
    · simp only [hr, if_false] at hall ⊢
      have hn : AllPassed (next.run a').evs := by
        intro e he hlt
        have hpe := hall e (by simp [he]) hlt
        have hle := hrank a' e he
        cases e <;> simp only [Passable] at hpe ⊢ <;> try exact hpe
        rename_i p' z' h' s'
        obtain ⟨r', hr'⟩ := hpe
        simp only [policyEvents_cons_planBegin, policyEvents_append,
          policyEvents_arenaAllocFromLand, List.nil_append, policyEvents_cons_planEnd,
          List.mem_cons, reduceCtorEq, false_or, Event.planEnd.injEq] at hr'
        rcases hr' with ⟨rfl, rfl⟩ | hr'
        · simp only [Event.rank_planBegin] at hle; omega
        · exact ⟨r', hr'⟩
      obtain ⟨a₁, pre, h1, h2, h3⟩ := hnext a' hn
      refine ⟨a₁, Event.planBegin p z pref.high size ::
        (((arenaAllocFromLand env z pref.high size pool).run a).evs ++
          Event.planEnd p r.1 :: pre), ?_, h2, ?_⟩
      · simp only [h1]; simp
      · intro e he hep
        simp only [List.mem_cons, List.mem_append] at he
        rcases he with rfl | he | rfl | he
        · simp; omega
        · have := arenaAllocFromLand_low env z pref.high size pool a e he
          simp [Event.isLow] at this
          simp [this] at hep
        · simp; omega
        · exact h3 e he hep


theorem policyPlanE_reaches (env : Env) (pref : SegPref) (size pool : Nat) (a : Arena) :
    ReachesPlanE env pref size pool ((policyPlanE env pref size pool).run a) :=
  ⟨a, [], by rw [policyPlanE_run]; simp, by rw [policyPlanE_run], by simp⟩

theorem policyPlanD_reaches (env : Env) (pref : SegPref) (size pool mz : Nat) (a : Arena)
    (hall : AllPassed ((policyPlanD env pref size pool mz).run a).evs) :
    ReachesPlanE env pref size pool ((policyPlanD env pref size pool mz).run a) := by
  unfold policyPlanD at hall ⊢
  split
  · rename_i hc
    rw [if_pos hc] at hall
    exact ReachesPlanE.afterPlan env pref size pool Plan.D _ _ a (by simp [Plan.rank])
      (fun a' e he => by
        have := (policyPlanE_inv env pref size pool 0 mz a').rank_ge e he
        simp [Plan.rank]; omega)
      (fun a' _ => policyPlanE_reaches env pref size pool a') hall
  · exact policyPlanE_reaches env pref size pool a

theorem policyPlanCB_reaches (env : Env) (pref : SegPref) (size pool zA mz : Nat) (a : Arena)
    (hall : AllPassed ((policyPlanCB env pref size pool zA mz).run a).evs) :
    ReachesPlanE env pref size pool ((policyPlanCB env pref size pool zA mz).run a) := by
  unfold policyPlanCB at hall ⊢
  split
  · rename_i hc
    rw [if_pos hc] at hall
    exact ReachesPlanE.afterPlan env pref size pool Plan.CB _ _ a (by simp [Plan.rank])
      (fun a' e he => by
        have := (policyPlanD_inv env pref size pool zA mz a').rank_ge e he
        simp [Plan.rank]; omega)
      (fun a' h => policyPlanD_reaches env pref size pool mz a' h) hall
  · rename_i hc
    rw [if_neg hc] at hall
    exact policyPlanD_reaches env pref size pool mz a hall

theorem policyPlanCA_reaches (env : Env) (pref : SegPref) (size pool zA mz : Nat) (a : Arena)
    (hall : AllPassed ((policyPlanCA env pref size pool zA mz).run a).evs) :
    ReachesPlanE env pref size pool ((policyPlanCA env pref size pool zA mz).run a) := by
  unfold policyPlanCA at hall ⊢
  split
  · rename_i hc
    rw [if_pos hc] at hall
    exact ReachesPlanE.afterPlan env pref size pool Plan.CA _ _ a (by simp [Plan.rank])
      (fun a' e he => by
        have := (policyPlanCB_inv env pref size pool zA mz a').rank_ge e he
        simp [Plan.rank]; omega)
      (fun a' h => policyPlanCB_reaches env pref size pool zA mz a' h) hall
  · rename_i hc
    rw [if_neg hc] at hall
    exact policyPlanCB_reaches env pref size pool zA mz a hall

theorem policyPlanC_reaches (env : Env) (pref : SegPref) (size pool zA mz : Nat) (a : Arena)
    (hall : AllPassed ((policyPlanC env pref size pool zA mz).run a).evs) :
    ReachesPlanE env pref size pool ((policyPlanC env pref size pool zA mz).run a) := by
  unfold policyPlanC at hall ⊢
  split
  · rename_i hc
    rw [if_pos hc, growThen_run] at hall
    rw [growThen_run]
    by_cases hr : (env.cls.grow a pref size).1 ≠ Res.OK
    · rw [if_pos hr] at hall
      have := hall (Event.grow (env.cls.grow a pref size).1) (by simp) (by simp)
      exact absurd this hr
    · rw [if_neg hr] at hall ⊢
      have hn : AllPassed ((policyPlanCA env pref size pool zA mz).run
          (env.cls.grow a pref size).2).evs := by
        intro e he hlt
        have hpe := hall e (by simp [he]) hlt
        cases e <;> simp only [Passable] at hpe ⊢ <;> try exact hpe
        obtain ⟨r', hr'⟩ := hpe
        simp only [policyEvents_cons_grow, List.mem_cons, reduceCtorEq, false_or] at hr'
        exact ⟨r', hr'⟩
      obtain ⟨a₁, pre, h1, h2, h3⟩ := policyPlanCA_reaches env pref size pool zA mz _ hn
      refine ⟨a₁, Event.grow Res.OK :: pre, by simp only [h1]; simp, h2, ?_⟩
      intro e he hep
      rcases List.mem_cons.1 he with rfl | he
      · simp
      · exact h3 e he hep
  · rename_i hc
    rw [if_neg hc] at hall
    exact policyPlanD_reaches env pref size pool mz a hall

theorem policyPlanB_reaches (env : Env) (pref : SegPref) (size pool zA : Nat) (a : Arena)
    (hall : AllPassed ((policyPlanB env pref size pool zA).run a).evs) :
    ReachesPlanE env pref size pool ((policyPlanB env pref size pool zA).run a) := by
  have hb : (policyPlanB env pref size pool zA).run a =
      (if planBZones env pref a ≠ zA then do
        let r ← tryPlan env Plan.B (planBZones env pref a) pref.high size pool
        if r.1 = Res.OK then pure (Res.OK, r.2)
        else policyPlanC env pref size pool zA (planBZones env pref a)
      else policyPlanC env pref size pool zA (planBZones env pref a)).run a := by
    unfold policyPlanB
    rw [Run.ext_iff']
    simp
  rw [hb] at hall ⊢
  split
  · rename_i hc
    rw [if_pos hc] at hall
    exact ReachesPlanE.afterPlan env pref size pool Plan.B _ _ a (by simp [Plan.rank])
      (fun a' e he => by
        have := (policyPlanC_inv env pref size pool zA _ a').rank_ge e he
        simp [Plan.rank]; omega)
      (fun a' h => policyPlanC_reaches env pref size pool zA _ a' h) hall
  · rename_i hc
    rw [if_neg hc] at hall
    exact policyPlanC_reaches env pref size pool zA _ a hall

theorem policyPlanA_reaches (env : Env) (pref : SegPref) (size pool : Nat) (a : Arena)
    (hall : AllPassed ((policyPlanA env pref size pool).run a).evs) :
    ReachesPlanE env pref size pool ((policyPlanA env pref size pool).run a) := by
  unfold policyPlanA at hall ⊢
  split
  · rename_i hc
    rw [if_pos hc] at hall
    exact ReachesPlanE.afterPlan env pref size pool Plan.A _ _ a (by simp [Plan.rank])
      (fun a' e he => by
        have := (policyPlanB_inv env pref size pool _ a').rank_ge e he
        simp [Plan.rank]; omega)
      (fun a' h => policyPlanB_reaches env pref size pool _ a' h) hall
  · rename_i hc
    rw [if_neg hc] at hall
    exact policyPlanB_reaches env pref size pool _ a hall


theorem Ends.afterPlanEnds (env : Env) (pref : SegPref) (size pool : Nat) (p : Plan)
    (z : Nat) (next : M (Res × Option Tract)) (a : Arena) (hp : p.rank + 1 < 11)
    (hnext : ∀ a', Ends env pref size pool (next.run a')) :
    Ends env pref size pool ((tryPlan env p z pref.high size pool >>= fun r =>
        if r.1 = Res.OK then pure (Res.OK, r.2) else next).run a) := by
  rw [planThen_run]
  rcases hout : ((arenaAllocFromLand env z pref.high size pool).run a).out with _ | ⟨r, a'⟩
  · exact Or.inr (Or.inl rfl)
  · by_cases hr : r.1 = Res.OK
    · simp only [hr, if_true]
      exact Or.inr (Or.inr (Or.inl ⟨_, _, rfl⟩))
    · simp only [hr, if_false]
      rcases hnext a' with ⟨a₁, pre, h1, h2, h3⟩ | h | h | ⟨res, a'', h1, h2, h3⟩
      · refine Or.inl ⟨a₁, Event.planBegin p z pref.high size ::
          (((arenaAllocFromLand env z pref.high size pool).run a).evs ++
            Event.planEnd p r.1 :: pre), ?_, h2, ?_⟩
        · simp only [h1]; simp
        · intro e he hep
          simp only [List.mem_cons, List.mem_append] at he
          rcases he with rfl | he | rfl | he
          · simp; omega
          · have := arenaAllocFromLand_low env z pref.high size pool a e he
            simp [Event.isLow] at this
            simp [this] at hep
          · simp; omega
          · exact h3 e he hep
      · exact Or.inr (Or.inl h)
      · exact Or.inr (Or.inr (Or.inl h))
      · exact Or.inr (Or.inr (Or.inr ⟨res, a'', h1, by simp [h2], h3⟩))

theorem policyPlanD_ends (env : Env) (pref : SegPref) (size pool mz : Nat) (a : Arena) :
    Ends env pref size pool ((policyPlanD env pref size pool mz).run a) := by
  unfold policyPlanD
  split
  · exact Ends.afterPlanEnds env pref size pool Plan.D _ _ a (by simp [Plan.rank])
      (fun a' => Or.inl (policyPlanE_reaches env pref size pool a'))
  · exact Or.inl (policyPlanE_reaches env pref size pool a)

theorem policyPlanCB_ends (env : Env) (pref : SegPref) (size pool zA mz : Nat) (a : Arena) :
    Ends env pref size pool ((policyPlanCB env pref size pool zA mz).run a) := by
  unfold policyPlanCB
  split
  · exact Ends.afterPlanEnds env pref size pool Plan.CB _ _ a (by simp [Plan.rank])
      (fun a' => policyPlanD_ends env pref size pool mz a')
  · exact policyPlanD_ends env pref size pool mz a

theorem policyPlanCA_ends (env : Env) (pref : SegPref) (size pool zA mz : Nat) (a : Arena) :
    Ends env pref size pool ((policyPlanCA env pref size pool zA mz).run a) := by
  unfold policyPlanCA
  split
  · exact Ends.afterPlanEnds env pref size pool Plan.CA _ _ a (by simp [Plan.rank])
      (fun a' => policyPlanCB_ends env pref size pool zA mz a')
  · exact policyPlanCB_ends env pref size pool zA mz a

theorem policyPlanC_ends (env : Env) (pref : SegPref) (size pool zA mz : Nat) (a : Arena) :
    Ends env pref size pool ((policyPlanC env pref size pool zA mz).run a) := by
  unfold policyPlanC
  split
  · rw [growThen_run]
    by_cases hr : (env.cls.grow a pref size).1 ≠ Res.OK
    · rw [if_pos hr]
      exact Or.inr (Or.inr (Or.inr ⟨_, _, hr, by simp, rfl⟩))
    · rw [if_neg hr]
      rcases policyPlanCA_ends env pref size pool zA mz (env.cls.grow a pref size).2 with
        ⟨a₁, pre, h1, h2, h3⟩ | h | h | ⟨res, a'', h1, h2, h3⟩
      · refine Or.inl ⟨a₁, Event.grow Res.OK :: pre, by simp only [h1]; simp, h2, ?_⟩
        intro e he hep
        rcases List.mem_cons.1 he with rfl | he
        · simp
        · exact h3 e he hep
      · exact Or.inr (Or.inl h)
      · exact Or.inr (Or.inr (Or.inl h))
      · exact Or.inr (Or.inr (Or.inr ⟨res, a'', h1, by simp [h2], h3⟩))
  · exact policyPlanD_ends env pref size pool mz a

theorem policyPlanB_run (env : Env) (pref : SegPref) (size pool zA : Nat) (a : Arena) :
    (policyPlanB env pref size pool zA).run a =
      (if planBZones env pref a ≠ zA then do
        let r ← tryPlan env Plan.B (planBZones env pref a) pref.high size pool
        if r.1 = Res.OK then pure (Res.OK, r.2)
        else policyPlanC env pref size pool zA (planBZones env pref a)
      else policyPlanC env pref size pool zA (planBZones env pref a)).run a := by
  unfold policyPlanB
  rw [Run.ext_iff']
  simp

theorem policyPlanB_ends (env : Env) (pref : SegPref) (size pool zA : Nat) (a : Arena) :
    Ends env pref size pool ((policyPlanB env pref size pool zA).run a) := by
  rw [policyPlanB_run]
  split
  · exact Ends.afterPlanEnds env pref size pool Plan.B _ _ a (by simp [Plan.rank])
      (fun a' => policyPlanC_ends env pref size pool zA _ a')
  · exact policyPlanC_ends env pref size pool zA _ a

theorem policyPlanA_ends (env : Env) (pref : SegPref) (size pool : Nat) (a : Arena) :
    Ends env pref size pool ((policyPlanA env pref size pool).run a) := by
  unfold policyPlanA
  split
  · exact Ends.afterPlanEnds env pref size pool Plan.A _ _ a (by simp [Plan.rank])
      (fun a' => policyPlanB_ends env pref size pool _ a')
  · exact policyPlanB_ends env pref size pool _ a

theorem ReachesPlanE.spell {env : Env} {pref : SegPref} {size pool : Nat}
    {r : Run (Res × Option Tract)} (h : ReachesPlanE env pref size pool r) :
    ∃ a₁ pre rest,
      r.evs = pre ++ Event.planBegin Plan.E (ZoneSetUNIV env.W) pref.high size ::
        (((arenaAllocFromLand env (ZoneSetUNIV env.W) pref.high size pool).run a₁).evs ++ rest) ∧
      (∀ z h s, Event.planBegin Plan.E z h s ∉ pre) ∧
      r.out = ((arenaAllocFromLand env (ZoneSetUNIV env.W) pref.high size pool).run a₁).out ∧
      (match ((arenaAllocFromLand env (ZoneSetUNIV env.W) pref.high size pool).run a₁).out with
        | none => rest = []
        | some (x, _) => rest = [Event.planEnd Plan.E x.1]) := by
  obtain ⟨a₁, pre, h1, h2, h3⟩ := h
  rw [tryPlan_run] at h1 h2
  have hpre : ∀ z h s, Event.planBegin Plan.E z h s ∉ pre := by
    intro z h s hm
    have := h3 _ hm rfl
    simp [Plan.rank] at this
  rcases hout : ((arenaAllocFromLand env (ZoneSetUNIV env.W) pref.high size pool).run a₁).out
    with _ | ⟨x, a'⟩
  · simp only [hout] at h1 h2
    exact ⟨a₁, pre, [], by simpa using h1, hpre, by rw [h2, hout], by simp [hout]⟩
  · simp only [hout] at h1 h2
    exact ⟨a₁, pre, [Event.planEnd Plan.E x.1], by simpa using h1, hpre, by rw [h2, hout],
      by simp [hout]⟩

/-- **C7.** If the pre-flight check passes, `grow` did not fail, and every
earlier plan (A to D) was skipped or failed (each one begun has returned, none
with `ResOK`), then the policy calls `arenaAllocFromLand` with the universal
zone set, whatever `pref.avoid` is (plan E): the log ends with that call,
begun in some arena `a₁`, no plan E call stands before it, and the outcome of
the policy is exactly the outcome of that call (its result code, its tract
and the arena it leaves). -/
theorem arenaAllocPolicy_planE (env : Env) (a : Arena) (pref : SegPref) (size pool : Nat)
    (hs : 0 < size) (hpre : commitLimitExceeded env.W a size = false)
    (hgrow : ∀ r, Event.grow r ∈ ((arenaAllocPolicy env pref size pool).run a).evs →
      r = Res.OK)
    (hfail : ∀ p r, p ≠ Plan.E →
      Event.planEnd p r ∈ ((arenaAllocPolicy env pref size pool).run a).evs → r ≠ Res.OK)
    (hdone : ∀ p z h s, p ≠ Plan.E →
      Event.planBegin p z h s ∈ ((arenaAllocPolicy env pref size pool).run a).evs →
      ∃ r, Event.planEnd p r ∈ ((arenaAllocPolicy env pref size pool).run a).evs) :
    ∃ a₁ pre rest,
      ((arenaAllocPolicy env pref size pool).run a).evs =
        pre ++ Event.planBegin Plan.E (ZoneSetUNIV env.W) pref.high size ::
          (((arenaAllocFromLand env (ZoneSetUNIV env.W) pref.high size pool).run a₁).evs ++
            rest) ∧
      (∀ z h s, Event.planBegin Plan.E z h s ∉ pre) ∧
      ((arenaAllocPolicy env pref size pool).run a).out =
        ((arenaAllocFromLand env (ZoneSetUNIV env.W) pref.high size pool).run a₁).out ∧
      (match ((arenaAllocFromLand env (ZoneSetUNIV env.W) pref.high size pool).run a₁).out with
        | none => rest = []
        | some (x, _) => rest = [Event.planEnd Plan.E x.1]) := by
  have hrun : (arenaAllocPolicy env pref size pool).run a =
      (policyPlanA env pref size pool).run a := by
    rw [arenaAllocPolicy_run env pref size pool a hs, hpre]; rfl
  rw [hrun] at hgrow hfail hdone ⊢
  apply ReachesPlanE.spell
  apply policyPlanA_reaches
  intro e he hlt
  obtain ⟨he1, he2⟩ := mem_policyEvents.1 he
  cases e <;> simp only [Passable]
  · rename_i p z h s
    have hp : p ≠ Plan.E := by rintro rfl; simp [Plan.rank] at hlt
    obtain ⟨r, hr⟩ := hdone p z h s hp he1
    exact ⟨r, mem_policyEvents.2 ⟨hr, rfl⟩⟩
  · rename_i p r
    have hp : p ≠ Plan.E := by rintro rfl; simp [Plan.rank] at hlt
    exact hfail p r hp he1
  · exact hgrow _ he1

/-- **C4 (amended).** Whenever `arenaAllocPolicy` passes its pre-flight check,
the class `grow` method is not called or returns `ResOK`, and the policy
still fails with `ResRESOURCE`, plan E's call of `arenaAllocFromLand` with the
universal zone set was made during that run, it is the last thing the policy
did, and `ResRESOURCE` is what that call returned (without a tract). -/
theorem arenaAllocPolicy_resource (env : Env) (a : Arena) (pref : SegPref) (size pool : Nat)
    (hs : 0 < size) (hpre : commitLimitExceeded env.W a size = false)
    (hgrow : ∀ r, Event.grow r ∈ ((arenaAllocPolicy env pref size pool).run a).evs →
      r = Res.OK)
    (t : Option Tract) (a' : Arena)
    (hres : ((arenaAllocPolicy env pref size pool).run a).out =
      some ((Res.RESOURCE, t), a')) :
    t = none ∧
    ∃ a₁ pre,
      ((arenaAllocPolicy env pref size pool).run a).evs =
        pre ++ Event.planBegin Plan.E (ZoneSetUNIV env.W) pref.high size ::
          (((arenaAllocFromLand env (ZoneSetUNIV env.W) pref.high size pool).run a₁).evs ++
            [Event.planEnd Plan.E Res.RESOURCE]) ∧
      (∀ z h s, Event.planBegin Plan.E z h s ∉ pre) ∧
      ((arenaAllocFromLand env (ZoneSetUNIV env.W) pref.high size pool).run a₁).out =
        some ((Res.RESOURCE, none), a') := by
  have hrun : (arenaAllocPolicy env pref size pool).run a =
      (policyPlanA env pref size pool).run a := by
    rw [arenaAllocPolicy_run env pref size pool a hs, hpre]; rfl
  rw [hrun] at hgrow hres ⊢
  rcases policyPlanA_ends env pref size pool a with h | h | ⟨t', a'', h⟩ | ⟨res, a'', h1, h2, h3⟩
  · obtain ⟨a₁, pre, rest, h1, h2, h3, h4⟩ := h.spell
    rw [hres] at h3
    rw [← h3] at h4
    simp only at h4
    have ht := (arenaAllocFromLand_tract env (ZoneSetUNIV env.W) pref.high size pool
      a₁ _ _ h3.symm).2 (by simp)
    simp only at ht
    subst ht h4
    exact ⟨rfl, a₁, pre, h1, h2, h3.symm⟩
  · rw [hres] at h; simp at h
  · rw [hres] at h; simp at h
  · have := hgrow res h2
    exact absurd this h1

/-- Witness for C7: with the growing class, zone 1 preferred and the zones of
both chunks avoided, plans A, the retry of A and D fail, and the policy's
outcome is that of plan E's search everywhere. -/
theorem arenaAllocPolicy_planE_witness :
    ∃ a₁ pre rest,
      ((arenaAllocPolicy growEnv ⟨false, 2, 0xF000F0000⟩ 8192 1).run
          { simpleArena 2 with freeZones := 0 }).evs =
        pre ++ Event.planBegin Plan.E (ZoneSetUNIV growEnv.W) false 8192 ::
          (((arenaAllocFromLand growEnv (ZoneSetUNIV growEnv.W) false 8192 1).run a₁).evs ++
            rest) ∧
      (∀ z h s, Event.planBegin Plan.E z h s ∉ pre) ∧
      ((arenaAllocPolicy growEnv ⟨false, 2, 0xF000F0000⟩ 8192 1).run
          { simpleArena 2 with freeZones := 0 }).out =
        ((arenaAllocFromLand growEnv (ZoneSetUNIV growEnv.W) false 8192 1).run a₁).out ∧
      (match ((arenaAllocFromLand growEnv (ZoneSetUNIV growEnv.W) false 8192 1).run a₁).out with
        | none => rest = []
        | some (x, _) => rest = [Event.planEnd Plan.E x.1]) :=
  have hevs : ((arenaAllocPolicy growEnv ⟨false, 2, 0xF000F0000⟩ 8192 1).run
      { simpleArena 2 with freeZones := 0 }).evs =
      [Event.planBegin Plan.A 2 false 8192,
        Event.find 8192 2 false Res.OK false ⟨0, 0⟩,
        Event.planEnd Plan.A Res.RESOURCE,
        Event.grow Res.OK,
        Event.planBegin Plan.CA 2 false 8192,
        Event.find 8192 2 false Res.OK false ⟨0, 0⟩,
        Event.planEnd Plan.CA Res.RESOURCE,
        Event.planBegin Plan.D 18446744009284059135 false 8192,
        Event.find 8192 18446744009284059135 false Res.OK false ⟨0, 0⟩,
        Event.planEnd Plan.D Res.RESOURCE,
        Event.planBegin Plan.E 18446744073709551615 false 8192,
        Event.find 8192 18446744073709551615 false Res.OK true ⟨1052672, 1060864⟩,
        Event.mark 1048576 1 2 1 Res.OK,
        Event.planEnd Plan.E Res.OK] := by decide
  arenaAllocPolicy_planE growEnv { simpleArena 2 with freeZones := 0 } ⟨false, 2, 0xF000F0000⟩
    8192 1 (by decide) (by decide)
    (by rw [hevs]; intro r h; simpa using h)
    (by
      rw [hevs]; intro p r hp h
      simp only [List.mem_cons, reduceCtorEq, false_or, Event.planEnd.injEq,
        List.mem_singleton, List.not_mem_nil, or_false] at h
      rcases h with ⟨_, rfl⟩ | ⟨_, rfl⟩ | ⟨_, rfl⟩ | ⟨rfl, _⟩
      · simp
      · simp
      · simp
      · exact absurd rfl hp)
    (by
      rw [hevs]; intro p z h s hp hm
      simp only [List.mem_cons, reduceCtorEq, false_or, Event.planBegin.injEq,
        List.mem_singleton, List.not_mem_nil, or_false] at hm
      rcases hm with ⟨rfl, _⟩ | ⟨rfl, _⟩ | ⟨rfl, _⟩ | ⟨rfl, _⟩
      · exact ⟨Res.RESOURCE, by simp⟩
      · exact ⟨Res.RESOURCE, by simp⟩
      · exact ⟨Res.RESOURCE, by simp⟩
      · exact absurd rfl hp)

/-- Counterexample to C4 as stated: in the sample arena, all of whose zones
have been used, with the class method `ArenaNoGrow`, a request that prefers
zones 4 and 5 passes the pre-flight check, fails in plan A, skips plan B, and
returns the `ResRESOURCE` of `grow` at once: no plan E search is made, and no
land search with the universal zone set. -/
theorem arenaAllocPolicy_resource_counterexample :
    commitLimitExceeded simpleEnv.W { simpleArena 1 with freeZones := 0 } 8192 = false ∧
    simpleEnv.cls.grow = ArenaNoGrow ∧
    (((arenaAllocPolicy simpleEnv ⟨false, 0x30, 1⟩ 8192 1).run
        { simpleArena 1 with freeZones := 0 }).out.map (fun x => x.1)) =
      some (Res.RESOURCE, none) ∧
    ((arenaAllocPolicy simpleEnv ⟨false, 0x30, 1⟩ 8192 1).run
        { simpleArena 1 with freeZones := 0 }).evs =
      [Event.planBegin Plan.A 48 false 8192,
        Event.find 8192 48 false Res.OK false ⟨0, 0⟩,
        Event.planEnd Plan.A Res.RESOURCE,
        Event.grow Res.RESOURCE] ∧
    (∀ z h s, Event.planBegin Plan.E z h s ∉
      ((arenaAllocPolicy simpleEnv ⟨false, 0x30, 1⟩ 8192 1).run
        { simpleArena 1 with freeZones := 0 }).evs) ∧
    (∀ s h r f g, Event.find s (ZoneSetUNIV simpleEnv.W) h r f g ∉
      ((arenaAllocPolicy simpleEnv ⟨false, 0x30, 1⟩ 8192 1).run
        { simpleArena 1 with freeZones := 0 }).evs) := by
  have hevs : ((arenaAllocPolicy simpleEnv ⟨false, 0x30, 1⟩ 8192 1).run
      { simpleArena 1 with freeZones := 0 }).evs =
      [Event.planBegin Plan.A 48 false 8192,
        Event.find 8192 48 false Res.OK false ⟨0, 0⟩,
        Event.planEnd Plan.A Res.RESOURCE,
        Event.grow Res.RESOURCE] := by decide
  refine ⟨by decide, rfl, by decide, hevs, ?_, ?_⟩
  · intro z h s hm
    rw [hevs] at hm
    simp at hm
  · intro s h r f g hm
    rw [hevs] at hm
    simp only [List.mem_cons, reduceCtorEq, false_or, Event.find.injEq, List.mem_singleton,
      List.not_mem_nil, or_false] at hm
    have := hm.2.1
    revert this
    decide

/-- Witness for amended C4: a request for 1 MiB, larger than the sample arena's
free range, with every zone avoided, fails with `ResRESOURCE` in plan E. -/
theorem arenaAllocPolicy_resource_witness :
    (none : Option Tract) = none ∧
    ∃ a₁ pre,
      ((arenaAllocPolicy simpleEnv ⟨false, 0, 2 ^ 64 - 1⟩ 0x100000 1).run (simpleArena 2)).evs =
        pre ++ Event.planBegin Plan.E (ZoneSetUNIV simpleEnv.W) false 0x100000 ::
          (((arenaAllocFromLand simpleEnv (ZoneSetUNIV simpleEnv.W) false 0x100000 1).run
            a₁).evs ++ [Event.planEnd Plan.E Res.RESOURCE]) ∧
      (∀ z h s, Event.planBegin Plan.E z h s ∉ pre) ∧
      ((arenaAllocFromLand simpleEnv (ZoneSetUNIV simpleEnv.W) false 0x100000 1).run a₁).out =
        some ((Res.RESOURCE, none), simpleArena 2) :=
  have hevs : ((arenaAllocPolicy simpleEnv ⟨false, 0, 2 ^ 64 - 1⟩ 0x100000 1).run
      (simpleArena 2)).evs =
      [Event.planBegin Plan.E 18446744073709551615 false 1048576,
        Event.find 1048576 18446744073709551615 false Res.OK false ⟨0, 0⟩,
        Event.planEnd Plan.E Res.RESOURCE] := by decide
  arenaAllocPolicy_resource simpleEnv (simpleArena 2) ⟨false, 0, 2 ^ 64 - 1⟩ 0x100000 1
    (by decide) (by decide) (by rw [hevs]; intro r h; simp at h) none (simpleArena 2)
    (by decide)

/-! ## What the code below the policy leaves unchanged -/

theorem keep_pure {α γ : Type} (f : Arena → γ) (x : α) :
    Post (fun a _ a' => f a' = f a) (Pure.pure x : M α) :=
  post_pure x (fun _ => rfl)

theorem keep_bind {α β γ : Type} {f : Arena → γ} {m : M α} {g : α → M β}
    (hm : Post (fun a _ a' => f a' = f a) m) (hg : ∀ x, Post (fun a _ a' => f a' = f a) (g x)) :
    Post (fun a _ a' => f a' = f a) (m >>= g) :=
  post_bind_rel (R := fun _ u v => v = u) hm hg

theorem keep_getArena {γ : Type} (f : Arena → γ) :
    Post (fun a _ a' => f a' = f a) getArena :=
  post_mono (fun _ _ _ h => by rw [h.2]) post_getArena

theorem keep_AVER {γ : Type} (f : Arena → γ) (c b : Bool) :
    Post (fun a _ a' => f a' = f a) (AVER c b) :=
  post_mono (fun _ _ _ h => by rw [h]) (post_AVER c b)

theorem keep_landFindInZones {γ : Type} {env : Env} {f : Arena → γ} (hf : Frame env f)
    (size zones : Nat) (high : Bool) :
    Post (fun a _ a' => f a' = f a) (landFindInZones env size zones high) := by
  intro a x a' ho
  simp only [landFindInZones, Option.some.injEq, Prod.mk.injEq] at ho
  rw [← ho.2]; exact hf.land _ _

theorem keep_landInsert {γ : Type} {env : Env} {f : Arena → γ} (hf : Frame env f)
    (range : Range) : Post (fun a _ a' => f a' = f a) (landInsert env range) := by
  intro a x a' ho
  simp only [landInsert, Option.some.injEq, Prod.mk.injEq] at ho
  rw [← ho.2]; exact hf.land _ _

theorem keep_landDelete {γ : Type} {env : Env} {f : Arena → γ} (hf : Frame env f)
    (range : Range) : Post (fun a _ a' => f a' = f a) (landDelete env range) := by
  intro a x a' ho
  simp only [landDelete, Option.some.injEq, Prod.mk.injEq] at ho
  rw [← ho.2]; exact hf.land _ _

theorem keep_mfsExtend {γ : Type} {env : Env} {f : Arena → γ} (hf : Frame env f)
    (base size : Nat) : Post (fun a _ a' => f a' = f a) (mfsExtend env base size) := by
  intro a x a' ho
  simp only [mfsExtend, Option.some.injEq, Prod.mk.injEq] at ho
  rw [← ho.2]; exact hf.land _ _

theorem keep_mark {γ : Type} {env : Env} {f : Arena → γ} (hf : Frame env f)
    (chunk : Chunk) (i n pool : Nat) :
    Post (fun a _ a' => f a' = f a) (classPagesMarkAllocated env chunk i n pool) := by
  intro a x a' ho
  simp only [classPagesMarkAllocated, Option.some.injEq, Prod.mk.injEq] at ho
  rw [← ho.2]; exact hf.mark _ _ _ _ _

theorem arenaAllocPageInChunk_keeps {γ : Type} {env : Env} {f : Arena → γ} (hf : Frame env f)
    (c : Nat) (cl : ArenaAllocPageClosure) :
    Post (fun a _ a' => f a' = f a) (arenaAllocPageInChunk env c cl) := by
  unfold arenaAllocPageInChunk
  refine keep_bind (keep_getArena f) (fun arena => ?_)
  split
  · exact post_abort _
  · split
    · exact keep_pure f _
    · split
      · exact keep_pure f _
      · refine keep_bind (keep_mark hf _ _ _ _) (fun res => ?_)
        split <;> exact keep_pure f _

theorem TreeTraverse_keeps {γ : Type} {f : Arena → γ}
    (visit : Nat → ArenaAllocPageClosure → M (Bool × ArenaAllocPageClosure))
    (hv : ∀ c cl, Post (fun a _ a' => f a' = f a) (visit c cl)) (cs : List Nat)
    (cl : ArenaAllocPageClosure) :
    Post (fun a _ a' => f a' = f a) (TreeTraverse visit cs cl) := by
  induction cs generalizing cl with
  | nil => exact keep_pure f _
  | cons c cs ih =>
    unfold TreeTraverse
    refine keep_bind (hv c cl) (fun r => ?_)
    split
    · exact ih _
    · exact keep_pure f _

theorem arenaAllocPage_keeps {γ : Type} {env : Env} {f : Arena → γ} (hf : Frame env f)
    (pool : Nat) : Post (fun a _ a' => f a' = f a) (arenaAllocPage env pool) := by
  unfold arenaAllocPage
  refine keep_bind (keep_getArena f) (fun arena => ?_)
  split
  · exact post_abort _
  · refine keep_bind (arenaAllocPageInChunk_keeps hf _ _) (fun r => ?_)
    split
    · exact keep_bind (keep_AVER f _ _) (fun _ => keep_pure f _)
    · refine keep_bind (keep_getArena f) (fun arena' => ?_)
      refine keep_bind (TreeTraverse_keeps _ (arenaAllocPageInChunk_keeps hf) _ _)
        (fun r' => ?_)
      split <;> exact keep_bind (keep_AVER f _ _) (fun _ => keep_pure f _)

theorem arenaExtendCBSBlockPool_keeps {γ : Type} {env : Env} {f : Arena → γ}
    (hf : Frame env f) : Post (fun a _ a' => f a' = f a) (arenaExtendCBSBlockPool env) := by
  unfold arenaExtendCBSBlockPool
  refine keep_bind (arenaAllocPage_keeps hf _) (fun r => ?_)
  split
  · exact keep_pure f _
  · refine keep_bind (keep_getArena f) (fun arena => ?_)
    exact keep_bind (keep_mfsExtend hf _ _) (fun _ => keep_pure f _)

theorem arenaExcludePage_keeps {γ : Type} {env : Env} {f : Arena → γ} (hf : Frame env f)
    (r : Range) : Post (fun a _ a' => f a' = f a) (arenaExcludePage env r) := by
  unfold arenaExcludePage
  exact keep_bind (keep_landDelete hf _) (fun _ => keep_AVER f _ _)

theorem arenaLandInsert_keeps {γ : Type} {env : Env} {f : Arena → γ} (hf : Frame env f)
    (r : Range) : Post (fun a _ a' => f a' = f a) (arenaLandInsert env r) := by
  unfold arenaLandInsert
  refine keep_bind (keep_landInsert hf _) (fun x => ?_)
  split
  · refine keep_bind (arenaExtendCBSBlockPool_keeps hf) (fun e => ?_)
    split
    · exact keep_pure f _
    · refine keep_bind (keep_landInsert hf _) (fun y => ?_)
      refine keep_bind (keep_AVER f _ _) (fun _ => ?_)
      exact keep_bind (arenaExcludePage_keeps hf _) (fun _ => keep_pure f _)
  · exact keep_pure f _

/-- Step 2 of `arenaAllocFromLand` changes a framed projection of the arena
only when it succeeds. -/
theorem allocFromLandMark_keeps {γ : Type} {env : Env} {f : Arena → γ} (hf : Frame env f)
    (range : Range) (pool : Nat) :
    Post (fun a r a' => r.1 ≠ Res.OK → f a' = f a) (allocFromLandMark env range pool) := by
  unfold allocFromLandMark
  refine post_bind_rel (R := fun (r : Res × Option Tract) u v => r.1 ≠ Res.OK → v = u) (keep_getArena f)
    (fun arena => ?_)
  split
  · exact post_abort _
  · refine post_bind_rel (R := fun (r : Res × Option Tract) u v => r.1 ≠ Res.OK → v = u) (keep_AVER f _ _)
      (fun _ => ?_)
    refine post_bind_rel (R := fun (r : Res × Option Tract) u v => r.1 ≠ Res.OK → v = u) (keep_mark hf _ _ _ _)
      (fun res => ?_)
    split
    · refine post_mono (fun _ _ _ h _ => h) ?_
      refine keep_bind (arenaLandInsert_keeps hf _) (fun _ => ?_)
      exact keep_bind (keep_AVER f _ _) (fun _ => keep_pure f _)
    · intro a r a' ho hne
      simp at ho
      rw [← ho.1] at hne
      exact absurd rfl hne

theorem allocFromLandFound_keeps {γ : Type} {env : Env} {f : Arena → γ} (hf : Frame env f)
    (x : Res × Bool × Range × Range) (pool : Nat) :
    Post (fun a r a' => r.1 ≠ Res.OK → f a' = f a) (allocFromLandFound env x pool) := by
  unfold allocFromLandFound
  refine post_bind_rel (R := fun (r : Res × Option Tract) u v => r.1 ≠ Res.OK → v = u) (keep_AVER f _ _)
    (fun _ => ?_)
  split
  · exact post_mono (fun _ _ _ h _ => h) (keep_pure f _)
  · split
    · exact post_mono (fun _ _ _ h _ => h) (keep_pure f _)
    · exact allocFromLandMark_keeps hf _ _

/-- A call of `arenaAllocFromLand` that fails leaves every framed projection
of the arena (such as `freeZones`) as it was. -/
theorem arenaAllocFromLand_keeps {γ : Type} {env : Env} {f : Arena → γ} (hf : Frame env f)
    (zones : Nat) (high : Bool) (size pool : Nat) :
    Post (fun a r a' => r.1 ≠ Res.OK → f a' = f a)
      (arenaAllocFromLand env zones high size pool) := by
  rw [arenaAllocFromLand_eq_steps]
  unfold allocFromLandSteps
  refine post_bind_rel (R := fun (r : Res × Option Tract) u v => r.1 ≠ Res.OK → v = u) (keep_AVER f _ _)
    (fun _ => ?_)
  refine post_bind_rel (R := fun (r : Res × Option Tract) u v => r.1 ≠ Res.OK → v = u) (keep_getArena f)
    (fun arena => ?_)
  refine post_bind_rel (R := fun (r : Res × Option Tract) u v => r.1 ≠ Res.OK → v = u) (keep_AVER f _ _)
    (fun _ => ?_)
  refine post_bind_rel (R := fun (r : Res × Option Tract) u v => r.1 ≠ Res.OK → v = u)
    (keep_landFindInZones hf _ _ _) (fun x => ?_)
  split
  · refine post_bind_rel (R := fun (r : Res × Option Tract) u v => r.1 ≠ Res.OK → v = u)
      (arenaExtendCBSBlockPool_keeps hf) (fun e => ?_)
    split
    · exact post_mono (fun _ _ _ h _ => h) (keep_pure f _)
    · refine post_bind_rel (R := fun (r : Res × Option Tract) u v => r.1 ≠ Res.OK → v = u)
        (arenaExcludePage_keeps hf _) (fun _ => ?_)
      refine post_bind_rel (R := fun (r : Res × Option Tract) u v => r.1 ≠ Res.OK → v = u)
        (keep_landFindInZones hf _ _ _) (fun x' => ?_)
      exact post_bind_rel (R := fun (r : Res × Option Tract) u v => r.1 ≠ Res.OK → v = u) (keep_AVER f _ _)
        (fun _ => allocFromLandFound_keeps hf _ _)
  · exact allocFromLandFound_keeps hf _ _

/-! ## Plan B -/

/-- Plan B is begun only in the arena `planBEntry`, which plan A, if it ran,
left with a failure. -/
theorem planB_after_planA_failed (env : Env) (pref : SegPref) (size pool : Nat) (a : Arena)
    (z : Nat) (h : Bool) (s : Nat)
    (hm : Event.planBegin Plan.B z h s ∈ ((policyPlanA env pref size pool).run a).evs) :
    planBEntry env pref size pool a = a ∨
      ∃ r, r.1 ≠ Res.OK ∧
        ((arenaAllocFromLand env (ZoneSetDiff env.W pref.zones pref.avoid) pref.high
          size pool).run a).out = some (r, planBEntry env pref size pool a) := by
  unfold policyPlanA at hm
  unfold planBEntry
  by_cases hc : ZoneSetDiff env.W pref.zones pref.avoid ≠ ZoneSetEMPTY
  · rw [if_pos hc] at hm ⊢
    rw [planThen_run] at hm
    have hlow : Event.planBegin Plan.B z h s ∉ ((arenaAllocFromLand env
        (ZoneSetDiff env.W pref.zones pref.avoid) pref.high size pool).run a).evs := by
      intro hin
      have := arenaAllocFromLand_low env _ pref.high size pool a _ hin
      simp [Event.isLow, Event.isPolicy] at this
    rcases hout : ((arenaAllocFromLand env (ZoneSetDiff env.W pref.zones pref.avoid) pref.high
        size pool).run a).out with _ | ⟨r, a'⟩
    · simp only [hout] at hm
      simp [hlow] at hm
    · simp only [hout] at hm ⊢
      by_cases hr : r.1 = Res.OK
      · simp only [hr, if_true] at hm
        simp [hlow] at hm
      · exact Or.inr ⟨r, hr, rfl⟩
  · rw [if_neg hc]
    exact Or.inl rfl

/-- **C3 (amended).** The zone set searched by plan B is `pref.zones` itself
united with the arena's free zones minus `pref.avoid`, the free zones being
those of the arena in which plan B starts, the same as the initial ones when
`pagesMarkAllocated` leaves `freeZones` alone.  It contains plan A's zone set;
it differs from it; and a zone of `pref.avoid` is in it exactly when it is in
`pref.zones` (zones below the word width). -/
theorem arenaAllocPolicy_planB (env : Env) (a : Arena) (pref : SegPref) (size pool : Nat)
    (hs : 0 < size) (hpre : commitLimitExceeded env.W a size = false)
    (z : Nat) (h : Bool) (s : Nat)
    (hm : Event.planBegin Plan.B z h s ∈ ((arenaAllocPolicy env pref size pool).run a).evs) :
    z = ZoneSetUnion pref.zones
      (ZoneSetDiff env.W (planBEntry env pref size pool a).freeZones pref.avoid) ∧
    (Frame env Arena.freeZones → (planBEntry env pref size pool a).freeZones = a.freeZones) ∧
    z ≠ ZoneSetDiff env.W pref.zones pref.avoid ∧
    (∀ k, (ZoneSetDiff env.W pref.zones pref.avoid).testBit k = true → z.testBit k = true) ∧
    (∀ k, k < env.W → pref.avoid.testBit k = true →
      (z.testBit k = true ↔ pref.zones.testBit k = true)) := by
  have hinv := arenaAllocPolicy_inv env pref size pool a hs hpre
  obtain ⟨-, -, hz, hne⟩ := hinv.zones Plan.B z h s (mem_policyEvents.2 ⟨hm, rfl⟩)
  have hrun : (arenaAllocPolicy env pref size pool).run a =
      (policyPlanA env pref size pool).run a := by
    rw [arenaAllocPolicy_run env pref size pool a hs, hpre]; rfl
  rw [hrun] at hm
  have hzz : z = ZoneSetUnion pref.zones
      (ZoneSetDiff env.W (planBEntry env pref size pool a).freeZones pref.avoid) := hz
  refine ⟨hzz, ?_, by rw [hz]; exact hne, ?_, ?_⟩
  · intro hf
    rcases planB_after_planA_failed env pref size pool a z h s hm with he | ⟨r, hr, hout⟩
    · rw [he]
    · exact arenaAllocFromLand_keeps hf _ _ _ _ a r _ hout hr
  · intro k hk
    rw [ZoneSetDiff_testBit] at hk
    rw [hzz, ZoneSetUnion_testBit]
    simp only [Bool.and_eq_true] at hk
    simp [hk.1]
  · intro k hk hav
    rw [hzz, ZoneSetUnion_testBit, ZoneSetDiff_avoid _ _ _ _ hk hav]
    simp

theorem simpleEnv_frame_freeZones : Frame simpleEnv Arena.freeZones := by
  refine ⟨fun _ _ => rfl, fun a c i n p => ?_⟩
  show (simplePagesMarkAllocated a c i n p).2.freeZones = a.freeZones
  unfold simplePagesMarkAllocated
  split <;> rfl

/-- Counterexample to C3 as stated: zones 16 and 17 are preferred, zone 16 is
avoided, and only memory of zone 16 is free.  Plan A (zone 17) fails; plan B
searches zones 16 and 17, not the claimed set (zone 17 alone), and allocates
`[0x101000, 0x103000)` in the avoided zone 16. -/
theorem arenaAllocPolicy_planB_counterexample :
    ((arenaAllocPolicy simpleEnv ⟨false, 0x30000, 0x10000⟩ 8192 1).run
        { simpleArena 1 with
          freeZones := 0
          freeLand := { ranges := [⟨0x101000, 0x110000⟩],
                        blockPool := { tracts := [], freeUnits := 1 } } }).evs =
      [Event.planBegin Plan.A 0x20000 false 8192,
        Event.find 8192 0x20000 false Res.OK false ⟨0, 0⟩,
        Event.planEnd Plan.A Res.RESOURCE,
        Event.planBegin Plan.B 0x30000 false 8192,
        Event.find 8192 0x30000 false Res.OK true ⟨0x101000, 0x103000⟩,
        Event.mark 0x100000 1 2 1 Res.OK,
        Event.planEnd Plan.B Res.OK] ∧
    (0x30000 : Nat) ≠
      ZoneSetUnion (ZoneSetDiff 64 0x30000 0x10000) (ZoneSetDiff 64 0 0x10000) ∧
    ZoneSetIsMember 0x30000 16 = true ∧ ZoneSetIsMember 0x10000 16 = true ∧
    AddrZone 64 16 0x101000 = 16 := by
  refine ⟨by decide, by decide, by decide, by decide, by decide⟩

/-- Witness for amended C3, on the run of the counterexample. -/
theorem arenaAllocPolicy_planB_witness :
    (0x30000 : Nat) = ZoneSetUnion 0x30000 (ZoneSetDiff simpleEnv.W
      (planBEntry simpleEnv ⟨false, 0x30000, 0x10000⟩ 8192 1
        { simpleArena 1 with
          freeZones := 0
          freeLand := { ranges := [⟨0x101000, 0x110000⟩],
                        blockPool := { tracts := [], freeUnits := 1 } } }).freeZones
      0x10000) :=
  (arenaAllocPolicy_planB simpleEnv
    { simpleArena 1 with
      freeZones := 0
      freeLand := { ranges := [⟨0x101000, 0x110000⟩],
                    blockPool := { tracts := [], freeUnits := 1 } } }
    ⟨false, 0x30000, 0x10000⟩ 8192 1 (by decide) (by decide) 0x30000 false 8192
    (by decide)).1

/-! ## The structure of a run of arenaAllocFromLand -/

theorem append_cons_split {α : Type} {l₁ l₂ pre post : List α} {e e' : α} (P : α → Prop)
    (h : l₁ ++ e :: l₂ = pre ++ e' :: post) (he' : P e')
    (h1 : ∀ x ∈ l₁, ¬ P x) (h2 : ∀ x ∈ l₂, ¬ P x) :
    pre = l₁ ∧ e = e' ∧ post = l₂ := by
  rw [List.append_eq_append_iff] at h
  rcases h with ⟨t, rfl, ht⟩ | ⟨t, rfl, ht⟩
  · cases t with
    | nil =>
      simp only [List.nil_append, List.cons.injEq] at ht
      exact ⟨by simp, ht.1, ht.2.symm⟩
    | cons x t =>
      simp only [List.cons_append, List.cons.injEq] at ht
      exact absurd he' (h2 e' (by rw [ht.2]; simp))
  · cases t with
    | nil =>
      simp only [List.nil_append, List.cons.injEq] at ht
      exact ⟨by simp, ht.1.symm, ht.2⟩
    | cons x t =>
      simp only [List.cons_append, List.cons.injEq] at ht
      exact absurd he' (h1 e' (by simp [← ht.1]))

theorem arenaAllocPageInChunk_marks (env : Env) (c : Nat) (cl : ArenaAllocPageClosure)
    (hcl : cl.pool = env.cbsBlockPool) :
    EvsAll (fun e => e.isFind = false ∧ e.markIsForBlockPool env)
      (arenaAllocPageInChunk env c cl) := by
  unfold arenaAllocPageInChunk
  refine EvsAll.evsBind (EvsAll.evsGetArena _) (fun arena => ?_)
  split
  · exact EvsAll.evsAbort _
  · split
    · exact EvsAll.evsPure _ _
    · split
      · exact EvsAll.evsPure _ _
      · refine EvsAll.evsBind (EvsAll.classPagesMarkAllocated _ _ _ _ _
          (fun _ => ⟨rfl, hcl, rfl⟩)) (fun res => ?_)
        split <;> exact EvsAll.evsPure _ _


theorem EvsAll.evsBindVal {α β : Type} {P : Event → Prop} {V : α → Prop} {m : M α}
    {f : α → M β} (hm : EvsAll P m) (hval : Post (fun _ x _ => V x) m)
    (hf : ∀ x, V x → EvsAll P (f x)) : EvsAll P (m >>= f) := by
  intro a e he
  simp only [M.run_bind_evs] at he
  split at he
  · exact hm a e he
  · rename_i x a' hx
    rcases List.mem_append.1 he with h | h
    · exact hm a e h
    · exact hf x (hval a x a' hx) a' e h

theorem arenaAllocPageInChunk_pool (env : Env) (c : Nat) (cl : ArenaAllocPageClosure) :
    Post (fun _ r _ => r.2.pool = cl.pool) (arenaAllocPageInChunk env c cl) := by
  unfold arenaAllocPageInChunk
  refine post_bind_val (fun arena => ?_)
  split
  · exact post_abort _
  · split
    · exact post_pure _ (fun _ => rfl)
    · split
      · exact post_pure _ (fun _ => rfl)
      · refine post_bind_val (fun res => ?_)
        split <;> exact post_pure _ (fun _ => rfl)

theorem TreeTraverse_marks (env : Env) (cs : List Nat) (cl : ArenaAllocPageClosure)
    (hcl : cl.pool = env.cbsBlockPool) :
    EvsAll (fun e => e.isFind = false ∧ e.markIsForBlockPool env)
      (TreeTraverse (arenaAllocPageInChunk env) cs cl) := by
  induction cs generalizing cl with
  | nil => exact EvsAll.evsPure _ _
  | cons c cs ih =>
    unfold TreeTraverse
    refine EvsAll.evsBindVal (arenaAllocPageInChunk_marks env c cl hcl)
      (arenaAllocPageInChunk_pool env c cl) (fun r hr => ?_)
    split
    · exact ih _ (by rw [hr, hcl])
    · exact EvsAll.evsPure _ _

theorem arenaAllocPage_marks (env : Env) :
    EvsAll (fun e => e.isFind = false ∧ e.markIsForBlockPool env)
      (arenaAllocPage env env.cbsBlockPool) := by
  unfold arenaAllocPage
  refine EvsAll.evsBind (EvsAll.evsGetArena _) (fun arena => ?_)
  split
  · exact EvsAll.evsAbort _
  · refine EvsAll.evsBindVal (arenaAllocPageInChunk_marks _ _ _ rfl)
      (arenaAllocPageInChunk_pool _ _ _) (fun r hr => ?_)
    split
    · exact EvsAll.evsBind (EvsAll.evsAVER _ _ _) (fun _ => EvsAll.evsPure _ _)
    · refine EvsAll.evsBind (EvsAll.evsGetArena _) (fun arena' => ?_)
      refine EvsAll.evsBind (TreeTraverse_marks _ _ _ (by simpa using hr)) (fun r' => ?_)
      split <;> exact EvsAll.evsBind (EvsAll.evsAVER _ _ _) (fun _ => EvsAll.evsPure _ _)

theorem arenaExtendCBSBlockPool_marks (env : Env) :
    EvsAll (fun e => e.isFind = false ∧ e.markIsForBlockPool env)
      (arenaExtendCBSBlockPool env) := by
  unfold arenaExtendCBSBlockPool
  refine EvsAll.evsBind (arenaAllocPage_marks _) (fun r => ?_)
  split
  · exact EvsAll.evsPure _ _
  · refine EvsAll.evsBind (EvsAll.evsGetArena _) (fun arena => ?_)
    exact EvsAll.evsBind (EvsAll.mfsExtend _ _ _ ⟨rfl, trivial⟩) (fun _ => EvsAll.evsPure _ _)

theorem arenaExcludePage_marks (env : Env) (r : Range) :
    EvsAll (fun e => e.isFind = false ∧ e.markIsForBlockPool env)
      (arenaExcludePage env r) := by
  unfold arenaExcludePage
  exact EvsAll.evsBind (EvsAll.landDelete _ _ (fun _ => ⟨rfl, trivial⟩))
    (fun _ => EvsAll.evsAVER _ _ _)

theorem arenaLandInsert_marks (env : Env) (r : Range) :
    EvsAll (fun e => e.isFind = false ∧ e.markIsForBlockPool env)
      (arenaLandInsert env r) := by
  unfold arenaLandInsert
  refine EvsAll.evsBind (EvsAll.landInsert _ _ (fun _ _ => ⟨rfl, trivial⟩)) (fun x => ?_)
  split
  · refine EvsAll.evsBind (arenaExtendCBSBlockPool_marks _) (fun e => ?_)
    split
    · exact EvsAll.evsPure _ _
    · refine EvsAll.evsBind (EvsAll.landInsert _ _ (fun _ _ => ⟨rfl, trivial⟩)) (fun y => ?_)
      refine EvsAll.evsBind (EvsAll.evsAVER _ _ _) (fun _ => ?_)
      exact EvsAll.evsBind (arenaExcludePage_marks _ _) (fun _ => EvsAll.evsPure _ _)
  · exact EvsAll.evsPure _ _

theorem allocFromLandFound_noFind (env : Env) (f : Res × Bool × Range × Range) (pool : Nat) :
    EvsAll (fun e => e.isFind = false) (allocFromLandFound env f pool) := by
  unfold allocFromLandFound allocFromLandMark
  refine EvsAll.evsBind (EvsAll.evsAVER _ _ _) (fun _ => ?_)
  split
  · exact EvsAll.evsPure _ _
  · split
    · exact EvsAll.evsPure _ _
    · refine EvsAll.evsBind (EvsAll.evsGetArena _) (fun arena => ?_)
      split
      · exact EvsAll.evsAbort _
      · refine EvsAll.evsBind (EvsAll.evsAVER _ _ _) (fun _ => ?_)
        refine EvsAll.evsBind (EvsAll.classPagesMarkAllocated _ _ _ _ _ (fun _ => rfl))
          (fun res => ?_)
        split
        · refine EvsAll.evsBind (EvsAll.evsMono (fun _ h => h.1) (arenaLandInsert_marks _ _))
            (fun _ => ?_)
          exact EvsAll.evsBind (EvsAll.evsAVER _ _ _) (fun _ => EvsAll.evsPure _ _)
        · refine EvsAll.evsBind (EvsAll.evsGetArena _) (fun arena' => ?_)
          exact EvsAll.evsBind (EvsAll.setArena _ _) (fun _ => EvsAll.evsPure _ _)

theorem run_bind_of_none {α β : Type} {m : M α} {f : α → M β} {a : Arena}
    (h : (m.run a).out = none) : (m >>= f).run a = ⟨(m.run a).evs, none⟩ := by
  rw [M.run_bind]; simp [h]

theorem run_bind_of_some {α β : Type} {m : M α} {f : α → M β} {a b : Arena} {x : α}
    (h : (m.run a).out = some (x, b)) :
    (m >>= f).run a = ⟨(m.run a).evs ++ ((f x).run b).evs, ((f x).run b).out⟩ := by
  rw [M.run_bind]; simp [h]

theorem run_AVER_bind {β : Type} (c b : Bool) (f : Unit → M β) (a : Arena) :
    (AVER c b >>= f).run a = if c && !b then ⟨[], none⟩ else (f ()).run a := by
  by_cases h : (c && !b) = true
  · rw [run_bind_of_none (by rw [run_AVER, if_pos h]), run_AVER, if_pos h, if_pos h]
  · rw [run_bind_of_some (x := ()) (b := a) (by rw [run_AVER, if_neg h]), run_AVER, if_neg h,
      if_neg h]
    rw [Run.ext_iff']; simp

theorem run_getArena_bind {β : Type} (f : Arena → M β) (a : Arena) :
    (getArena >>= f).run a = (f a).run a := by
  rw [M.run_bind, Run.ext_iff']; simp

/-- Every run of `arenaAllocFromLand` either ends before it can use the
outcome of a land search, or uses the outcome of one search: the first one,
or the second one after the block pool was extended.  What comes before that
search is no search that returned `ResOK`, and its `pagesMarkAllocated` calls
are for the block pool; the search is made in an arena that agrees with the
initial one on every framed projection. -/
theorem arenaAllocFromLand_search (env : Env) (zones : Nat) (high : Bool) (size pool : Nat)
    (a : Arena) :
    ∃ pre, (∀ e ∈ pre, e.isBeforeSearch env) ∧
      (EndsBeforeSearch env zones high size pool a pre ∨
        ∃ a₀, UsesSearch env zones high size pool a pre a₀ ∧
          ∀ {γ : Type} (g : Arena → γ), Frame env g → g a₀ = g a) := by
  unfold EndsBeforeSearch UsesSearch
  rw [arenaAllocFromLand_eq_steps]
  unfold allocFromLandSteps
  rw [run_AVER_bind]
  by_cases h1 : (env.checking && !decide (size > 0)) = true
  · rw [if_pos h1]
    exact ⟨[], by simp, Or.inl ⟨rfl, Or.inl rfl⟩⟩
  rw [if_neg h1, run_getArena_bind, run_AVER_bind]
  by_cases h2 : (env.checking && !WordIsAligned size a.alignment) = true
  · rw [if_pos h2]
    exact ⟨[], by simp, Or.inl ⟨rfl, Or.inl rfl⟩⟩
  rw [if_neg h2]
  have hchk : env.checking = true → 0 < size ∧ WordIsAligned size a.alignment = true := by
    intro hc
    simp [hc] at h1 h2
    exact ⟨by omega, h2⟩
  rw [run_bind_of_some (x := ((env.LandFindInZones a size (searchZones env a zones) high).1,
      (env.LandFindInZones a size (searchZones env a zones) high).2.1,
      (env.LandFindInZones a size (searchZones env a zones) high).2.2.1,
      (env.LandFindInZones a size (searchZones env a zones) high).2.2.2.1))
    (b := { a with freeLand :=
      (env.LandFindInZones a size (searchZones env a zones) high).2.2.2.2 }) rfl]
  by_cases hL : (env.LandFindInZones a size (searchZones env a zones) high).1 = Res.LIMIT
  · simp only [hL, if_true]
    have hfirst : (Event.find size (searchZones env a zones) high Res.LIMIT
        (env.LandFindInZones a size (searchZones env a zones) high).2.1
        (env.LandFindInZones a size (searchZones env a zones) high).2.2.1).isBeforeSearch env :=
      ⟨trivial, fun s z h fd rg hc => by simp at hc⟩
    have hev : ((landFindInZones env size (searchZones env a zones) high).run a).evs =
        [Event.find size (searchZones env a zones) high Res.LIMIT
          (env.LandFindInZones a size (searchZones env a zones) high).2.1
          (env.LandFindInZones a size (searchZones env a zones) high).2.2.1] := by
      simp [landFindInZones, hL]
    rw [hev]
    have hk1 : ∀ {γ : Type} (g : Arena → γ), Frame env g →
        g { a with freeLand :=
          (env.LandFindInZones a size (searchZones env a zones) high).2.2.2.2 } = g a :=
      fun g hg => hg.land _ _
    generalize ({ a with freeLand :=
      (env.LandFindInZones a size (searchZones env a zones) high).2.2.2.2 } : Arena) = a1
      at hk1 ⊢
    have hEm : ∀ e ∈ ((arenaExtendCBSBlockPool env).run a1).evs, e.isBeforeSearch env := by
      intro e he
      have := arenaExtendCBSBlockPool_marks env a1 e he
      exact ⟨this.2, fun s z h fd rg hc => by rw [hc] at this; simp [Event.isFind] at this⟩
    rcases hE : ((arenaExtendCBSBlockPool env).run a1).out with _ | ⟨e, a2⟩
    · rw [run_bind_of_none hE]
      refine ⟨_, ?_, Or.inl ⟨rfl, Or.inl rfl⟩⟩
      intro x hx
      simp only [List.singleton_append, List.mem_cons] at hx
      rcases hx with rfl | hx
      · exact hfirst
      · exact hEm x hx
    rw [run_bind_of_some hE]
    have hk2 : ∀ {γ : Type} (g : Arena → γ), Frame env g → g a2 = g a := fun g hg => by
      rw [← hk1 g hg]; exact arenaExtendCBSBlockPool_keeps hg a1 e a2 hE
    by_cases he : e.1 ≠ Res.OK
    · rw [if_pos he]
      refine ⟨_, ?_, Or.inl ⟨rfl, Or.inr ⟨e.1, a2, he, rfl⟩⟩⟩
      intro x hx
      simp only [List.singleton_append, M.run_pure, List.append_nil, List.mem_cons] at hx
      rcases hx with rfl | hx
      · exact hfirst
      · exact hEm x hx
    rw [if_neg he]
    have hXm : ∀ x ∈ ((arenaExcludePage env (e.2.getD ⟨0, 0⟩)).run a2).evs,
        x.isBeforeSearch env := by
      intro x hx
      have := arenaExcludePage_marks env _ a2 x hx
      exact ⟨this.2, fun s z h fd rg hc => by rw [hc] at this; simp [Event.isFind] at this⟩
    rcases hX : ((arenaExcludePage env (e.2.getD ⟨0, 0⟩)).run a2).out with _ | ⟨u, a3⟩
    · rw [run_bind_of_none hX]
      refine ⟨_, ?_, Or.inl ⟨rfl, Or.inl rfl⟩⟩
      intro x hx
      simp only [List.singleton_append, List.mem_cons, List.mem_append] at hx
      rcases hx with rfl | hx | hx
      · exact hfirst
      · exact hEm x hx
      · exact hXm x hx
    rw [run_bind_of_some hX]
    have hk3 : ∀ {γ : Type} (g : Arena → γ), Frame env g → g a3 = g a := fun g hg => by
      rw [← hk2 g hg]; exact arenaExcludePage_keeps hg _ a2 u a3 hX
    rw [run_bind_of_some (x := ((env.LandFindInZones a3 size (searchZones env a zones) high).1,
        (env.LandFindInZones a3 size (searchZones env a zones) high).2.1,
        (env.LandFindInZones a3 size (searchZones env a zones) high).2.2.1,
        (env.LandFindInZones a3 size (searchZones env a zones) high).2.2.2.1))
      (b := { a3 with freeLand :=
        (env.LandFindInZones a3 size (searchZones env a zones) high).2.2.2.2 }) rfl]
    rw [run_AVER_bind]
    by_cases h3 : (env.checking &&
        !((env.LandFindInZones a3 size (searchZones env a zones) high).1 != Res.LIMIT)) = true
    · rw [if_pos h3]
      refine ⟨_, ?_, Or.inl ⟨rfl, Or.inl rfl⟩⟩
      intro x hx
      simp only [List.singleton_append, List.mem_cons, List.mem_append, landFindInZones,
        List.append_nil, List.mem_singleton, List.not_mem_nil, or_false] at hx
      rcases hx with rfl | hx | hx | rfl
      · exact hfirst
      · exact hEm x hx
      · exact hXm x hx
      · refine ⟨trivial, fun s z h fd rg hc => ?_⟩
        simp only [Event.find.injEq] at hc
        simp [hc.2.2.2.1] at h3
    · rw [if_neg h3]
      refine ⟨Event.find size (searchZones env a zones) high Res.LIMIT
          (env.LandFindInZones a size (searchZones env a zones) high).2.1
          (env.LandFindInZones a size (searchZones env a zones) high).2.2.1 ::
        (((arenaExtendCBSBlockPool env).run a1).evs ++
          ((arenaExcludePage env (e.2.getD ⟨0, 0⟩)).run a2).evs), ?_,
        Or.inr ⟨a3, ⟨by simp [landFindInZones], rfl, hchk⟩, fun g hg => hk3 g hg⟩⟩
      intro x hx
      simp only [List.mem_cons, List.mem_append] at hx
      rcases hx with rfl | hx | hx
      · exact hfirst
      · exact hEm x hx
      · exact hXm x hx
  · simp only [hL, if_false]
    exact ⟨[], by simp, Or.inr ⟨a, ⟨by simp [landFindInZones], rfl, hchk⟩, fun _ _ => rfl⟩⟩

/-! ## Step 2 of arenaAllocFromLand -/

/-- With a range found, `allocFromLandFound` is step 2. -/
theorem allocFromLandFound_run_found (env : Env) (range old : Range) (pool : Nat) (a : Arena) :
    (allocFromLandFound env (Res.OK, true, range, old) pool).run a =
      (allocFromLandMark env range pool).run a := by
  unfold allocFromLandFound
  rw [run_AVER_bind]
  simp

/-- The outcome of `allocFromLandFound` when it returns. -/
theorem allocFromLandFound_out (env : Env) (f : Res × Bool × Range × Range) (pool : Nat)
    (a : Arena) (r : Res × Option Tract) (a' : Arena)
    (ho : ((allocFromLandFound env f pool).run a).out = some (r, a')) :
    (f.1 ≠ Res.OK ∧ r = (f.1, none) ∧ a' = a) ∨
    (f.1 = Res.OK ∧ f.2.1 = false ∧ r = (Res.RESOURCE, none) ∧ a' = a) ∨
    (f.1 = Res.OK ∧ f.2.1 = true ∧
      (allocFromLandFound env f pool).run a = (allocFromLandMark env f.2.2.1 pool).run a) := by
  unfold allocFromLandFound at ho ⊢
  rw [run_AVER_bind] at ho ⊢
  by_cases h1 : (env.checking && !(f.1 == Res.OK)) = true
  · rw [if_pos h1] at ho; simp at ho
  rw [if_neg h1] at ho ⊢
  by_cases h2 : f.1 ≠ Res.OK
  · rw [if_pos h2] at ho
    simp only [M.run_pure, Option.some.injEq, Prod.mk.injEq] at ho
    exact Or.inl ⟨h2, ho.1.symm, ho.2.symm⟩
  rw [if_neg h2] at ho ⊢
  simp only [ne_eq, Decidable.not_not] at h2
  by_cases h3 : (!f.2.1) = true
  · rw [if_pos h3] at ho
    simp only [M.run_pure, Option.some.injEq, Prod.mk.injEq] at ho
    exact Or.inr (Or.inl ⟨h2, by simpa using h3, ho.1.symm, ho.2.symm⟩)
  · rw [if_neg h3]
    exact Or.inr (Or.inr ⟨h2, by simpa using h3, rfl⟩)

/-- Step 2 of `arenaAllocFromLand`, its chunk found and its checks passed:
the class method is called for the pages of the range; when it fails the
range is handed to `arenaLandInsert` and the failure returned; when it
succeeds the zones of the range leave `freeZones` and the tract of the first
page is returned. -/
theorem allocFromLandMark_run (env : Env) (range : Range) (pool : Nat) (a : Arena)
    (chunk : Chunk) (hchunk : ChunkOfAddr a range.base = some chunk)
    (hal : env.checking = true → RangeIsAligned range chunk.pageSize = true) :
    (allocFromLandMark env range pool).run a =
      if (env.cls.pagesMarkAllocated a chunk (INDEX_OF_ADDR chunk range.base)
          (ChunkSizeToPages chunk (RangeSize range)) pool).1 ≠ Res.OK then
        ⟨Event.mark chunk.base (INDEX_OF_ADDR chunk range.base)
            (ChunkSizeToPages chunk (RangeSize range)) pool
            (env.cls.pagesMarkAllocated a chunk (INDEX_OF_ADDR chunk range.base)
              (ChunkSizeToPages chunk (RangeSize range)) pool).1 ::
          ((arenaLandInsert env range >>= fun ins =>
            AVER env.checking (ins.1 == Res.OK) >>= fun _ =>
              (pure ((env.cls.pagesMarkAllocated a chunk (INDEX_OF_ADDR chunk range.base)
                (ChunkSizeToPages chunk (RangeSize range)) pool).1, none) :
                  M (Res × Option Tract))).run
            (env.cls.pagesMarkAllocated a chunk (INDEX_OF_ADDR chunk range.base)
              (ChunkSizeToPages chunk (RangeSize range)) pool).2).evs,
          ((arenaLandInsert env range >>= fun ins =>
            AVER env.checking (ins.1 == Res.OK) >>= fun _ =>
              (pure ((env.cls.pagesMarkAllocated a chunk (INDEX_OF_ADDR chunk range.base)
                (ChunkSizeToPages chunk (RangeSize range)) pool).1, none) :
                  M (Res × Option Tract))).run
            (env.cls.pagesMarkAllocated a chunk (INDEX_OF_ADDR chunk range.base)
              (ChunkSizeToPages chunk (RangeSize range)) pool).2).out⟩
      else
        ⟨[Event.mark chunk.base (INDEX_OF_ADDR chunk range.base)
            (ChunkSizeToPages chunk (RangeSize range)) pool Res.OK],
          some ((Res.OK, some (PageTract chunk (INDEX_OF_ADDR chunk range.base))),
            { (env.cls.pagesMarkAllocated a chunk (INDEX_OF_ADDR chunk range.base)
                (ChunkSizeToPages chunk (RangeSize range)) pool).2 with
              freeZones := ZoneSetDiff env.W
                (env.cls.pagesMarkAllocated a chunk (INDEX_OF_ADDR chunk range.base)
                  (ChunkSizeToPages chunk (RangeSize range)) pool).2.freeZones
                (env.ZoneSetOfRange
                  (env.cls.pagesMarkAllocated a chunk (INDEX_OF_ADDR chunk range.base)
                    (ChunkSizeToPages chunk (RangeSize range)) pool).2
                  range.base range.limit) })⟩ := by
  unfold allocFromLandMark
  rw [run_getArena_bind]
  simp only [hchunk]
  rw [run_AVER_bind]
  have h1 : ¬ (env.checking && !RangeIsAligned range chunk.pageSize) = true := by
    intro hc
    simp only [Bool.and_eq_true, Bool.not_eq_true'] at hc
    rw [hal hc.1] at hc
    simp at hc
  rw [if_neg h1]
  rw [run_bind_of_some (x := (env.cls.pagesMarkAllocated a chunk (INDEX_OF_ADDR chunk range.base)
      (ChunkSizeToPages chunk (RangeSize range)) pool).1)
    (b := (env.cls.pagesMarkAllocated a chunk (INDEX_OF_ADDR chunk range.base)
      (ChunkSizeToPages chunk (RangeSize range)) pool).2) rfl]
  split
  · rfl
  · rename_i hok
    simp only [ne_eq, Decidable.not_not] at hok
    rw [Run.ext_iff']
    simp [classPagesMarkAllocated, hok]

theorem failMark_value (env : Env) (range : Range) (res : Res) :
    Post (fun _ r _ => r = (res, (none : Option Tract)))
      (arenaLandInsert env range >>= fun ins =>
        AVER env.checking (ins.1 == Res.OK) >>= fun _ =>
          (pure (res, none) : M (Res × Option Tract))) := by
  refine post_bind_val (fun _ => ?_)
  refine post_bind_val (fun _ => ?_)
  exact post_pure _ (fun _ => rfl)

theorem ChunkOfAddr_spec {a : Arena} {addr : Nat} {chunk : Chunk}
    (h : ChunkOfAddr a addr = some chunk) :
    chunk ∈ a.chunkTree ∧ chunk.base ≤ addr ∧ addr < chunk.limit := by
  unfold ChunkOfAddr at h
  have h1 := List.find?_some h
  have h2 := List.mem_of_find?_eq_some h
  simp only [Bool.and_eq_true, decide_eq_true_eq] at h1
  exact ⟨h2, h1.1, h1.2⟩

/-- A successful run of `allocFromLandFound`, in full. -/
theorem allocFromLandFound_ok (env : Env) (fres : Res) (ffound : Bool) (frange fold : Range)
    (pool : Nat) (a₁ : Arena) (t : Option Tract) (a' : Arena)
    (hout' : ((allocFromLandFound env (fres, ffound, frange, fold) pool).run a₁).out =
      some ((Res.OK, t), a')) :
    fres = Res.OK ∧ ffound = true ∧ ∃ chunk,
      ChunkOfAddr a₁ frange.base = some chunk ∧
      (env.cls.pagesMarkAllocated a₁ chunk (INDEX_OF_ADDR chunk frange.base)
        (ChunkSizeToPages chunk (RangeSize frange)) pool).1 = Res.OK ∧
      ((allocFromLandFound env (fres, ffound, frange, fold) pool).run a₁).evs =
        [Event.mark chunk.base (INDEX_OF_ADDR chunk frange.base)
          (ChunkSizeToPages chunk (RangeSize frange)) pool Res.OK] ∧
      t = some (PageTract chunk (INDEX_OF_ADDR chunk frange.base)) ∧
      a' = { (env.cls.pagesMarkAllocated a₁ chunk (INDEX_OF_ADDR chunk frange.base)
            (ChunkSizeToPages chunk (RangeSize frange)) pool).2 with
          freeZones := ZoneSetDiff env.W
            (env.cls.pagesMarkAllocated a₁ chunk (INDEX_OF_ADDR chunk frange.base)
              (ChunkSizeToPages chunk (RangeSize frange)) pool).2.freeZones
            (env.ZoneSetOfRange
              (env.cls.pagesMarkAllocated a₁ chunk (INDEX_OF_ADDR chunk frange.base)
                (ChunkSizeToPages chunk (RangeSize frange)) pool).2
              frange.base frange.limit) } := by
  rcases allocFromLandFound_out env _ pool _ _ _ hout' with
    ⟨h1, h2, -⟩ | ⟨-, -, h2, -⟩ | ⟨h1, h2, hrun⟩
  · simp only [Prod.mk.injEq] at h2; exact absurd h2.1.symm h1
  · simp at h2
  simp only at h1 h2 hrun
  subst h1 h2
  refine ⟨rfl, rfl, ?_⟩
  rw [hrun] at hout' ⊢
  rcases hchunk : ChunkOfAddr a₁ frange.base with _ | chunk
  · unfold allocFromLandMark at hout'
    rw [run_getArena_bind] at hout'
    simp [hchunk] at hout'
  by_cases hal : (env.checking && !RangeIsAligned frange chunk.pageSize) = true
  · unfold allocFromLandMark at hout'
    rw [run_getArena_bind] at hout'
    simp only [hchunk] at hout'
    rw [run_AVER_bind, if_pos hal] at hout'
    simp at hout'
  have hal' : env.checking = true → RangeIsAligned frange chunk.pageSize = true := by
    intro hc; simpa [hc] using hal
  rw [allocFromLandMark_run env frange pool _ chunk hchunk hal'] at hout' ⊢
  by_cases hm : (env.cls.pagesMarkAllocated a₁ chunk
      (INDEX_OF_ADDR chunk frange.base) (ChunkSizeToPages chunk (RangeSize frange)) pool).1 ≠
      Res.OK
  · rw [if_pos hm] at hout'
    have := failMark_value env frange _ _ _ _ hout'
    simp only [Prod.mk.injEq] at this
    exact absurd this.1.symm hm
  rw [if_neg hm] at hout' ⊢
  simp only [ne_eq, Decidable.not_not] at hm
  simp only [Option.some.injEq, Prod.mk.injEq] at hout'
  exact ⟨chunk, rfl, hm, rfl, hout'.1.2.symm, hout'.2.symm⟩

/-- A successful run of `arenaAllocFromLand`, in full. -/
theorem arenaAllocFromLand_ok (env : Env) (zones : Nat) (high : Bool) (size pool : Nat)
    (a : Arena) (t : Option Tract) (a' : Arena)
    (hout : ((arenaAllocFromLand env zones high size pool).run a).out =
      some ((Res.OK, t), a')) :
    ∃ pre a₀ chunk,
      (∀ e ∈ pre, e.isBeforeSearch env) ∧
      (∀ {γ : Type} (g : Arena → γ), Frame env g → g a₀ = g a) ∧
      (env.LandFindInZones a₀ size (searchZones env a zones) high).1 = Res.OK ∧
      (env.LandFindInZones a₀ size (searchZones env a zones) high).2.1 = true ∧
      ChunkOfAddr { a₀ with freeLand :=
          (env.LandFindInZones a₀ size (searchZones env a zones) high).2.2.2.2 }
        (env.LandFindInZones a₀ size (searchZones env a zones) high).2.2.1.base = some chunk ∧
      (env.cls.pagesMarkAllocated { a₀ with freeLand :=
          (env.LandFindInZones a₀ size (searchZones env a zones) high).2.2.2.2 } chunk
        (INDEX_OF_ADDR chunk (env.LandFindInZones a₀ size (searchZones env a zones) high).2.2.1.base)
        (ChunkSizeToPages chunk
          (RangeSize (env.LandFindInZones a₀ size (searchZones env a zones) high).2.2.1))
        pool).1 = Res.OK ∧
      ((arenaAllocFromLand env zones high size pool).run a).evs =
        pre ++ [Event.find size (searchZones env a zones) high Res.OK true
            (env.LandFindInZones a₀ size (searchZones env a zones) high).2.2.1,
          Event.mark chunk.base
            (INDEX_OF_ADDR chunk
              (env.LandFindInZones a₀ size (searchZones env a zones) high).2.2.1.base)
            (ChunkSizeToPages chunk
              (RangeSize (env.LandFindInZones a₀ size (searchZones env a zones) high).2.2.1))
            pool Res.OK] ∧
      t = some (PageTract chunk (INDEX_OF_ADDR chunk
        (env.LandFindInZones a₀ size (searchZones env a zones) high).2.2.1.base)) ∧
      a' = { (env.cls.pagesMarkAllocated { a₀ with freeLand :=
              (env.LandFindInZones a₀ size (searchZones env a zones) high).2.2.2.2 } chunk
            (INDEX_OF_ADDR chunk
              (env.LandFindInZones a₀ size (searchZones env a zones) high).2.2.1.base)
            (ChunkSizeToPages chunk
              (RangeSize (env.LandFindInZones a₀ size (searchZones env a zones) high).2.2.1))
            pool).2 with
          freeZones := ZoneSetDiff env.W
            (env.cls.pagesMarkAllocated { a₀ with freeLand :=
              (env.LandFindInZones a₀ size (searchZones env a zones) high).2.2.2.2 } chunk
            (INDEX_OF_ADDR chunk
              (env.LandFindInZones a₀ size (searchZones env a zones) high).2.2.1.base)
            (ChunkSizeToPages chunk
              (RangeSize (env.LandFindInZones a₀ size (searchZones env a zones) high).2.2.1))
            pool).2.freeZones
            (env.ZoneSetOfRange
              (env.cls.pagesMarkAllocated { a₀ with freeLand :=
                (env.LandFindInZones a₀ size (searchZones env a zones) high).2.2.2.2 } chunk
              (INDEX_OF_ADDR chunk
                (env.LandFindInZones a₀ size (searchZones env a zones) high).2.2.1.base)
              (ChunkSizeToPages chunk
                (RangeSize (env.LandFindInZones a₀ size (searchZones env a zones) high).2.2.1))
              pool).2
              (env.LandFindInZones a₀ size (searchZones env a zones) high).2.2.1.base
              (env.LandFindInZones a₀ size (searchZones env a zones) high).2.2.1.limit) } := by
  obtain ⟨pre, hpre, hcase⟩ := arenaAllocFromLand_search env zones high size pool a
  rcases hcase with ⟨-, hnone | ⟨r, a'', hr, ho⟩⟩ | ⟨a₀, ⟨hevs, hout', -⟩, hk⟩
  · rw [hout] at hnone; simp at hnone
  · rw [hout] at ho
    simp only [Option.some.injEq, Prod.mk.injEq] at ho
    exact absurd ho.1.1.symm hr
  rw [hout] at hout'
  obtain ⟨h1, h2, chunk, h3, h4, h5, h6, h7⟩ := allocFromLandFound_ok env _ _ _ _ pool _ t a'
    hout'.symm
  refine ⟨pre, a₀, chunk, hpre, hk, h1, h2, h3, h4, ?_, h6, h7⟩
  rw [hevs, h5, h1, h2]

/-- The run of the code at `failMark`. -/
theorem failMark_run (env : Env) (range : Range) (res : Res) (a : Arena) :
    (∃ rest, ((arenaLandInsert env range >>= fun ins =>
        AVER env.checking (ins.1 == Res.OK) >>= fun _ =>
          (pure (res, none) : M (Res × Option Tract))).run a).evs =
      Event.landInsert range (env.LandInsert a range).1 (env.LandInsert a range).2.1 :: rest ∧
      ((env.LandInsert a range).1 ≠ Res.LIMIT → rest = [] ∧
        ((arenaLandInsert env range >>= fun ins =>
          AVER env.checking (ins.1 == Res.OK) >>= fun _ =>
            (pure (res, none) : M (Res × Option Tract))).run a).out =
          some ((res, none), { a with freeLand := (env.LandInsert a range).2.2 }))) := by
  by_cases hL : (env.LandInsert a range).1 = Res.LIMIT
  · have h : ∃ rest, ((arenaLandInsert env range >>= fun ins =>
        AVER env.checking (ins.1 == Res.OK) >>= fun _ =>
          (pure (res, none) : M (Res × Option Tract))).run a).evs =
        Event.landInsert range (env.LandInsert a range).1 (env.LandInsert a range).2.1 ::
          rest := by
      rw [M.run_bind_evs]
      unfold arenaLandInsert
      rw [run_bind_of_some (x := ((env.LandInsert a range).1, (env.LandInsert a range).2.1))
        (b := { a with freeLand := (env.LandInsert a range).2.2 }) rfl]
      simp only [landInsert, List.singleton_append]
      split <;> exact ⟨_, rfl⟩
    obtain ⟨rest, h⟩ := h
    exact ⟨rest, h, fun h' => absurd hL h'⟩
  · have hrun : (arenaLandInsert env range).run a =
        ⟨[Event.landInsert range (env.LandInsert a range).1 (env.LandInsert a range).2.1],
          some ((Res.OK, (env.LandInsert a range).2.1),
            { a with freeLand := (env.LandInsert a range).2.2 })⟩ := by
      unfold arenaLandInsert
      rw [run_bind_of_some (x := ((env.LandInsert a range).1, (env.LandInsert a range).2.1))
        (b := { a with freeLand := (env.LandInsert a range).2.2 }) rfl]
      simp [landInsert, hL]
    refine ⟨[], ?_, fun _ => ⟨rfl, ?_⟩⟩
    · rw [run_bind_of_some (by rw [hrun]), hrun, run_AVER_bind]
      simp
    · rw [run_bind_of_some (by rw [hrun]), run_AVER_bind]
      simp

/-- A run of `allocFromLandMark` whose `pagesMarkAllocated` call fails. -/
theorem allocFromLandMark_fail (env : Env) (range : Range) (pool : Nat) (a₁ : Arena)
    (c i n p : Nat) (res : Res) (post : List Event)
    (hevs : ((allocFromLandMark env range pool).run a₁).evs = Event.mark c i n p res :: post)
    (hres : res ≠ Res.OK) :
    ∃ a₂ rest,
      (∀ {γ : Type} (g : Arena → γ), Frame env g → g a₂ = g a₁) ∧
      post = Event.landInsert range (env.LandInsert a₂ range).1 (env.LandInsert a₂ range).2.1 ::
        rest ∧
      ((env.LandInsert a₂ range).1 ≠ Res.LIMIT → rest = [] ∧
        ((allocFromLandMark env range pool).run a₁).out =
          some ((res, none), { a₂ with freeLand := (env.LandInsert a₂ range).2.2 })) ∧
      (∀ x a', ((allocFromLandMark env range pool).run a₁).out = some (x, a') →
        x = (res, none) ∧ ∀ {γ : Type} (g : Arena → γ), Frame env g → g a' = g a₁) := by
  rcases hchunk : ChunkOfAddr a₁ range.base with _ | chunk
  · unfold allocFromLandMark at hevs
    rw [run_getArena_bind] at hevs
    simp [hchunk, abort] at hevs
  by_cases hal : (env.checking && !RangeIsAligned range chunk.pageSize) = true
  · unfold allocFromLandMark at hevs
    rw [run_getArena_bind] at hevs
    simp only [hchunk] at hevs
    rw [run_AVER_bind, if_pos hal] at hevs
    simp at hevs
  have hal' : env.checking = true → RangeIsAligned range chunk.pageSize = true := by
    intro hc; simpa [hc] using hal
  rw [allocFromLandMark_run env range pool _ chunk hchunk hal'] at hevs ⊢
  by_cases hm : (env.cls.pagesMarkAllocated a₁ chunk
      (INDEX_OF_ADDR chunk range.base) (ChunkSizeToPages chunk (RangeSize range)) pool).1 ≠
      Res.OK
  · rw [if_pos hm] at hevs ⊢
    simp only [List.cons.injEq, Event.mark.injEq] at hevs
    obtain ⟨⟨-, -, -, -, hr⟩, hpost⟩ := hevs
    rw [hr] at hpost ⊢
    obtain ⟨rest, hrest, hret⟩ := failMark_run env range res
      (env.cls.pagesMarkAllocated a₁ chunk (INDEX_OF_ADDR chunk range.base)
        (ChunkSizeToPages chunk (RangeSize range)) pool).2
    refine ⟨_, rest, fun g hg => hg.mark _ _ _ _ _, by rw [← hpost, hrest], hret, ?_⟩
    intro x a' ho
    refine ⟨failMark_value env range res _ _ _ ho, fun g hg => ?_⟩
    have hk : Post (fun u _ v => g v = g u)
        (arenaLandInsert env range >>= fun ins =>
          AVER env.checking (ins.1 == Res.OK) >>= fun _ =>
            (pure (res, none) : M (Res × Option Tract))) :=
      keep_bind (arenaLandInsert_keeps hg range) (fun _ =>
        keep_bind (keep_AVER g _ _) (fun _ => keep_pure g _))
    rw [hk _ _ _ ho]
    exact hg.mark _ _ _ _ _
  · rw [if_neg hm] at hevs
    simp only [List.cons.injEq, Event.mark.injEq] at hevs
    exact absurd hevs.1.2.2.2.2.symm hres

/-- **C10.** Whenever the log of a run of `arenaAllocFromLand` shows a search of
the free land that found a range, followed by a call of the class hook
`pagesMarkAllocated` that returned an error code: the next thing the function
does is a `LandInsert` of exactly that range into the free land; when that
insert does not ask for a block pool extension, nothing else happens and the
function returns the hook's error code with no tract, in the arena whose free
land is the one the insert produced; and however the run ends, if it returns,
it returns the hook's error code with no tract, and `freeZones` is what it was
before the call (the hooks and the land not touching `freeZones`). -/
theorem arenaAllocFromLand_failMark (env : Env) (zones : Nat) (high : Bool) (size pool : Nat)
    (a : Arena) (pre post : List Event) (s z : Nat) (h : Bool) (range : Range)
    (c i n p : Nat) (res : Res)
    (hevs : ((arenaAllocFromLand env zones high size pool).run a).evs =
      pre ++ Event.find s z h Res.OK true range :: Event.mark c i n p res :: post)
    (hres : res ≠ Res.OK) :
    ∃ a₂ rest,
      post = Event.landInsert range (env.LandInsert a₂ range).1 (env.LandInsert a₂ range).2.1 ::
        rest ∧
      ((env.LandInsert a₂ range).1 ≠ Res.LIMIT → rest = [] ∧
        ((arenaAllocFromLand env zones high size pool).run a).out =
          some ((res, none), { a₂ with freeLand := (env.LandInsert a₂ range).2.2 })) ∧
      (Frame env Arena.freeZones → a₂.freeZones = a.freeZones) ∧
      (∀ x a', ((arenaAllocFromLand env zones high size pool).run a).out = some (x, a') →
        x = (res, none) ∧ (Frame env Arena.freeZones → a'.freeZones = a.freeZones)) := by
  obtain ⟨pre₀, hpre₀, hcase⟩ := arenaAllocFromLand_search env zones high size pool a
  rcases hcase with hE | ⟨a₀, hU, hk⟩
  · exfalso
    rw [hE.1] at hevs
    have hmem : Event.find s z h Res.OK true range ∈ pre₀ := by
      rw [hevs]; simp
    exact (hpre₀ _ hmem).2 _ _ _ _ _ rfl
  obtain ⟨hU1, hU2, -⟩ := hU
  rw [hU1] at hevs
  rw [hU2]
  generalize env.LandFindInZones a₀ size (searchZones env a zones) high = F at hevs ⊢
  obtain ⟨fr, ff, frg, fo, fl⟩ := F
  simp only at hevs ⊢
  obtain ⟨-, hfind, hpost⟩ := append_cons_split
    (fun e => ∃ s z h fd rg, e = Event.find s z h Res.OK fd rg) hevs ⟨_, _, _, _, _, rfl⟩
    (fun x hx hP => by
      obtain ⟨s', z', h', fd', rg', he⟩ := hP
      exact (hpre₀ x hx).2 _ _ _ _ _ he)
    (fun x hx hP => by
      obtain ⟨s', z', h', fd', rg', he⟩ := hP
      have := allocFromLandFound_noFind env (fr, ff, frg, fo) pool _ x hx
      rw [he] at this
      simp [Event.isFind] at this)
  simp only [Event.find.injEq] at hfind
  obtain ⟨-, -, -, hfr, hff, hfrg⟩ := hfind
  subst hfr hff hfrg
  rw [allocFromLandFound_run_found] at hpost ⊢
  obtain ⟨a₂, rest, hk₂, hrest, hret, hall⟩ :=
    allocFromLandMark_fail env frg pool _ c i n p res post hpost.symm hres
  refine ⟨a₂, rest, hrest, hret, fun hf => ?_, fun x a' ho => ?_⟩
  · rw [hk₂ _ hf, hf.land]
    exact hk _ hf
  · obtain ⟨hx, hk'⟩ := hall x a' ho
    refine ⟨hx, fun hf => ?_⟩
    rw [hk' _ hf, hf.land]
    exact hk _ hf

/-- Witness for C10: with the commit limit reached, `pagesMarkAllocated` fails
with `ResMEMORY` for the range found, which is put back into the land. -/
theorem arenaAllocFromLand_failMark_witness :
    ((arenaAllocFromLand simpleEnv (ZoneSetUNIV 64) false 8192 1).run
        { simpleArena 1 with commitLimit := 4096 }).evs =
      [] ++ Event.find 8192 (ZoneSetUNIV 64) false Res.OK true ⟨0x101000, 0x103000⟩ ::
        Event.mark 0x100000 1 2 1 Res.MEMORY ::
          [Event.landInsert ⟨0x101000, 0x103000⟩ Res.OK ⟨0x101000, 0x140000⟩] ∧
    Res.MEMORY ≠ Res.OK ∧
    ∃ a₂ rest,
      [Event.landInsert ⟨0x101000, 0x103000⟩ Res.OK ⟨0x101000, 0x140000⟩] =
        Event.landInsert ⟨0x101000, 0x103000⟩ (simpleEnv.LandInsert a₂ ⟨0x101000, 0x103000⟩).1
          (simpleEnv.LandInsert a₂ ⟨0x101000, 0x103000⟩).2.1 :: rest ∧
      ((simpleEnv.LandInsert a₂ ⟨0x101000, 0x103000⟩).1 ≠ Res.LIMIT → rest = [] ∧
        ((arenaAllocFromLand simpleEnv (ZoneSetUNIV 64) false 8192 1).run
            { simpleArena 1 with commitLimit := 4096 }).out =
          some ((Res.MEMORY, none),
            { a₂ with freeLand := (simpleEnv.LandInsert a₂ ⟨0x101000, 0x103000⟩).2.2 })) :=
  ⟨by decide, by decide,
    let ⟨a₂, rest, h1, h2, _⟩ := arenaAllocFromLand_failMark simpleEnv (ZoneSetUNIV 64) false
      8192 1 { simpleArena 1 with commitLimit := 4096 } [] _ 8192 (ZoneSetUNIV 64) false
      ⟨0x101000, 0x103000⟩ 0x100000 1 2 1 Res.MEMORY (by decide) (by decide)
    ⟨a₂, rest, h1, h2⟩⟩

/-! ## Zone respect -/

theorem SameZoning.rfl' (a : Arena) : SameZoning a a := ⟨rfl, rfl⟩

theorem SameZoning.trans' {a b c : Arena} (h1 : SameZoning a b) (h2 : SameZoning b c) :
    SameZoning a c := ⟨h1.1.trans h2.1, h1.2.trans h2.2⟩

theorem SucceedsBy.afterPlanOK (env : Env) (hk : KeepsZoning env) (high : Bool)
    (size pool : Nat) (p : Plan)
    (z : Nat) (next : M (Res × Option Tract)) (a : Arena)
    (hnext : ∀ a', SucceedsBy env high size pool a' (next.run a')) :
    SucceedsBy env high size pool a ((tryPlan env p z high size pool >>= fun r =>
        if r.1 = Res.OK then pure (Res.OK, r.2) else next).run a) := by
  rw [planThen_run]
  rcases hout : ((arenaAllocFromLand env z high size pool).run a).out with _ | ⟨r, a''⟩
  · intro t a' ho
    simp at ho
  · by_cases hr : r.1 = Res.OK
    · simp only [hr, if_true]
      intro t a' ho
      simp only [Option.some.injEq, Prod.mk.injEq, true_and] at ho
      refine ⟨[], p, z, a, by simp, ?_, SameZoning.rfl' a⟩
      rw [hout, ← ho.1, ← ho.2, ← hr]
    · simp only [hr, if_false]
      intro t a' ho
      obtain ⟨pre, p', zs, a₁, h1, h2, h3⟩ := hnext a'' t a' ho
      have hz : SameZoning a'' a :=
        ⟨arenaAllocFromLand_keeps hk.zoned z high size pool a r a'' hout hr,
          arenaAllocFromLand_keeps hk.zoneShift z high size pool a r a'' hout hr⟩
      refine ⟨Event.planBegin p z high size ::
          (((arenaAllocFromLand env z high size pool).run a).evs ++
            Event.planEnd p r.1 :: pre), p', zs, a₁, ?_, h2, h3.trans' hz⟩
      simp only [h1]
      simp

theorem policyPlanE_succeeds (env : Env) (_ : KeepsZoning env) (pref : SegPref)
    (size pool : Nat) (a : Arena) :
    SucceedsBy env pref.high size pool a ((policyPlanE env pref size pool).run a) := by
  rw [policyPlanE_run, tryPlan_run]
  rcases hout : ((arenaAllocFromLand env (ZoneSetUNIV env.W) pref.high size pool).run a).out
    with _ | ⟨r, a''⟩
  · intro t a' ho
    simp at ho
  · intro t a' ho
    simp only [Option.some.injEq, Prod.mk.injEq] at ho
    obtain ⟨ho1, ho2⟩ := ho
    subst ho1 ho2
    refine ⟨[], Plan.E, ZoneSetUNIV env.W, a, ?_, hout, SameZoning.rfl' a⟩
    simp

theorem policyPlanD_succeeds (env : Env) (hk : KeepsZoning env) (pref : SegPref)
    (size pool mz : Nat) (a : Arena) :
    SucceedsBy env pref.high size pool a ((policyPlanD env pref size pool mz).run a) := by
  unfold policyPlanD
  split
  · exact SucceedsBy.afterPlanOK env hk _ size pool Plan.D _ _ a
      (fun a' => policyPlanE_succeeds env hk pref size pool a')
  · exact policyPlanE_succeeds env hk pref size pool a

theorem policyPlanCB_succeeds (env : Env) (hk : KeepsZoning env) (pref : SegPref)
    (size pool zA mz : Nat) (a : Arena) :
    SucceedsBy env pref.high size pool a ((policyPlanCB env pref size pool zA mz).run a) := by
  unfold policyPlanCB
  split
  · exact SucceedsBy.afterPlanOK env hk _ size pool Plan.CB _ _ a
      (fun a' => policyPlanD_succeeds env hk pref size pool mz a')
  · exact policyPlanD_succeeds env hk pref size pool mz a

theorem policyPlanCA_succeeds (env : Env) (hk : KeepsZoning env) (pref : SegPref)
    (size pool zA mz : Nat) (a : Arena) :
    SucceedsBy env pref.high size pool a ((policyPlanCA env pref size pool zA mz).run a) := by
  unfold policyPlanCA
  split
  · exact SucceedsBy.afterPlanOK env hk _ size pool Plan.CA _ _ a
      (fun a' => policyPlanCB_succeeds env hk pref size pool zA mz a')
  · exact policyPlanCB_succeeds env hk pref size pool zA mz a

theorem policyPlanC_succeeds (env : Env) (hk : KeepsZoning env) (pref : SegPref)
    (size pool zA mz : Nat) (a : Arena) :
    SucceedsBy env pref.high size pool a ((policyPlanC env pref size pool zA mz).run a) := by
  unfold policyPlanC
  split
  · rw [growThen_run]
    by_cases hr : (env.cls.grow a pref size).1 ≠ Res.OK
    · rw [if_pos hr]
      intro t a' ho
      simp only [Option.some.injEq, Prod.mk.injEq] at ho
      exact absurd ho.1.1 hr
    · rw [if_neg hr]
      intro t a' ho
      obtain ⟨pre, p', zs, a₁, h1, h2, h3⟩ :=
        policyPlanCA_succeeds env hk pref size pool zA mz (env.cls.grow a pref size).2 t a' ho
      refine ⟨Event.grow Res.OK :: pre, p', zs, a₁, ?_, h2, h3.trans' (hk.grow a pref size)⟩
      simp only [h1]
      simp
  · exact policyPlanD_succeeds env hk pref size pool mz a

theorem policyPlanB_succeeds (env : Env) (hk : KeepsZoning env) (pref : SegPref)
    (size pool zA : Nat) (a : Arena) :
    SucceedsBy env pref.high size pool a ((policyPlanB env pref size pool zA).run a) := by
  rw [policyPlanB_run]
  split
  · exact SucceedsBy.afterPlanOK env hk _ size pool Plan.B _ _ a
      (fun a' => policyPlanC_succeeds env hk pref size pool zA _ a')
  · exact policyPlanC_succeeds env hk pref size pool zA _ a

theorem policyPlanA_succeeds (env : Env) (hk : KeepsZoning env) (pref : SegPref)
    (size pool : Nat) (a : Arena) :
    SucceedsBy env pref.high size pool a ((policyPlanA env pref size pool).run a) := by
  unfold policyPlanA
  split
  · exact SucceedsBy.afterPlanOK env hk _ size pool Plan.A _ _ a
      (fun a' => policyPlanB_succeeds env hk pref size pool _ a')
  · exact policyPlanB_succeeds env hk pref size pool _ a

/-! ## The sample land honours the contract of `findInZones` -/

theorem pick_mem (high : Bool) (l : List Range) (init : Option Range) (c : Range)
    (h : l.foldl (fun best c =>
      match best with
      | none => some c
      | some b => if (if high then b.base < c.base else c.base < b.base) then some c else some b)
      init = some c) : c ∈ l ∨ init = some c := by
  induction l generalizing init with
  | nil => exact Or.inr h
  | cons x xs ih =>
    rw [List.foldl_cons] at h
    rcases ih _ h with h' | h'
    · exact Or.inl (List.mem_cons_of_mem _ h')
    · rcases init with _ | b
      · simp only [Option.some.injEq] at h'
        exact Or.inl (h' ▸ List.mem_cons_self _ _)
      · change (if (if high then b.base < x.base else x.base < b.base) then some x
          else some b) = some c at h'
        by_cases hcnd : (if high then b.base < x.base else x.base < b.base)
        · rw [if_pos hcnd] at h'
          simp only [Option.some.injEq] at h'
          exact Or.inl (h' ▸ List.mem_cons_self _ _)
        · rw [if_neg hcnd] at h'
          exact Or.inr h'

theorem rangeInZones_spec {W zoneShift zones base limit : Nat}
    (h : rangeInZones W zoneShift zones base limit = true) (addr : Nat)
    (h1 : base ≤ addr) (h2 : addr < limit) :
    ZoneSetIsMember zones (AddrZone W zoneShift addr) = true := by
  unfold rangeInZones at h
  rw [List.all_eq_true] at h
  apply h
  rw [List.mem_range'_1]
  have hb : base >>> zoneShift ≤ addr >>> zoneShift := by
    rw [Nat.shiftRight_eq_div_pow, Nat.shiftRight_eq_div_pow]
    exact Nat.div_le_div_right h1
  have hl : addr >>> zoneShift ≤ (limit - 1) >>> zoneShift := by
    rw [Nat.shiftRight_eq_div_pow, Nat.shiftRight_eq_div_pow]
    exact Nat.div_le_div_right (by omega)
  omega

theorem simpleEnv_contract : FindInZonesContract simpleEnv := by
  intro a size zones high hres hfound addr h1 h2
  show ZoneSetIsMember zones (AddrZone 64 a.zoneShift addr) = true
  change (simpleLandFindInZones 64 a size zones high).1 = Res.OK at hres
  change (simpleLandFindInZones 64 a size zones high).2.1 = true at hfound
  change (simpleLandFindInZones 64 a size zones high).2.2.1.base ≤ addr at h1
  change addr < (simpleLandFindInZones 64 a size zones high).2.2.1.limit at h2
  unfold simpleLandFindInZones at hres hfound h1 h2
  simp only at hres hfound h1 h2
  split at hfound
  · simp at hfound
  · rename_i c hc
    rw [hc] at h1 h2
    simp only at h1 h2
    split at hfound
    · rename_i hd
      rw [if_pos hd] at h1 h2
      simp only at h1 h2
      rcases pick_mem high _ none c hc with hm | hm
      · unfold simpleCandidates at hm
        simp only [List.mem_flatMap, List.mem_filter, Bool.and_eq_true] at hm
        obtain ⟨r, -, -, -, hz⟩ := hm
        exact rangeInZones_spec hz addr h1 h2
      · simp at hm
    · simp at hfound

theorem simpleEnv_keepsZoning : KeepsZoning simpleEnv := by
  refine ⟨⟨fun _ _ => rfl, fun a c i n p => ?_⟩, ⟨fun _ _ => rfl, fun a c i n p => ?_⟩,
    fun a pref size => ⟨rfl, rfl⟩⟩
  · show (simplePagesMarkAllocated a c i n p).2.zoned = a.zoned
    unfold simplePagesMarkAllocated
    split <;> rfl
  · show (simplePagesMarkAllocated a c i n p).2.zoneShift = a.zoneShift
    unfold simplePagesMarkAllocated
    split <;> rfl

/-- **C8 (amended).** In a zoned arena, with a free land whose `findInZones`
honours its contract and hooks that leave `zoned` and `zoneShift` alone:
whenever the policy returns `ResOK`, its log ends with the plan that
succeeded, begun with the zone set `zs` of that plan (plan A: `pref.zones`
minus `pref.avoid`; plan B and the retries of plan C as computed by the code;
plan D: `UNIV` minus `pref.avoid`; plan E: `UNIV`); the search of that plan was
made with `zs` and found a range whose pages were then marked allocated, the
tract returned being the one of the range's base; and every address of that
range has its zone in `zs`. -/
theorem arenaAllocPolicy_zones (env : Env) (a : Arena) (pref : SegPref) (size pool : Nat)
    (hs : 0 < size) (hc : FindInZonesContract env) (hk : KeepsZoning env)
    (hz : a.zoned = true) (t : Option Tract) (a' : Arena)
    (hout : ((arenaAllocPolicy env pref size pool).run a).out = some ((Res.OK, t), a')) :
    ∃ pre p zs sub range chunk,
      ((arenaAllocPolicy env pref size pool).run a).evs =
        pre ++ Event.planBegin p zs pref.high size ::
          (sub ++ [Event.find size zs pref.high Res.OK true range,
            Event.mark chunk.base (INDEX_OF_ADDR chunk range.base)
              (ChunkSizeToPages chunk (RangeSize range)) pool Res.OK,
            Event.planEnd p Res.OK]) ∧
      (∀ e ∈ sub, e.isBeforeSearch env) ∧
      zoneSpec (ZoneSetDiff env.W pref.zones pref.avoid)
        (planBZones env pref (planBEntry env pref size pool a))
        (ZoneSetDiff env.W (ZoneSetUNIV env.W) pref.avoid) (ZoneSetUNIV env.W) p zs ∧
      t = some (PageTract chunk (INDEX_OF_ADDR chunk range.base)) ∧
      (chunk.base ≤ range.base ∧ range.base < chunk.limit) ∧
      ∀ addr, range.base ≤ addr → addr < range.limit →
        ZoneSetIsMember zs (AddrZone env.W a.zoneShift addr) = true := by
  have hpre : commitLimitExceeded env.W a size = false := by
    cases hcl : commitLimitExceeded env.W a size
    · rfl
    · rw [arenaAllocPolicy_run env pref size pool a hs, if_pos hcl] at hout
      simp at hout
  have hinv := arenaAllocPolicy_inv env pref size pool a hs hpre
  have hrun := arenaAllocPolicy_run env pref size pool a hs
  rw [hpre] at hrun
  simp only [Bool.false_eq_true, if_false] at hrun
  rw [hrun] at hout
  obtain ⟨pre, p, zs, a₁, h1, h2, h3⟩ := policyPlanA_succeeds env hk pref size pool a t a' hout
  rw [← hrun] at h1
  obtain ⟨sub, a₀, chunk, hsub, hk₀, hfr, hff, hchunk, -, hevs, ht, -⟩ :=
    arenaAllocFromLand_ok env zs pref.high size pool a₁ t a' h2
  have hsz : searchZones env a₁ zs = zs := by
    unfold searchZones
    rw [h3.1, hz]
    rfl
  rw [hsz] at hevs hfr hff hchunk ht
  refine ⟨pre, p, zs, sub, _, chunk, ?_, hsub, ?_, ht, (ChunkOfAddr_spec hchunk).2, ?_⟩
  · rw [h1, hevs]
    simp
  · rw [h1] at hinv
    exact (hinv.zones p zs pref.high size (mem_policyEvents.2 ⟨by simp, rfl⟩)).2.2
  · intro addr hb hl
    have := hc a₀ size zs pref.high hfr hff addr hb hl
    rw [hk₀ Arena.zoneShift hk.zoneShift, h3.2] at this
    exact this

/-- Counterexample to C8 as stated: in an arena that is not zoned, plan A, whose
zone set is zone 1 alone, searches the whole address space and allocates
`[0x101000, 0x103000)`, whose addresses are in zone 16. -/
theorem arenaAllocPolicy_zones_counterexample :
    ((arenaAllocPolicy simpleEnv ⟨false, 2, 0⟩ 8192 1).run
        { simpleArena 1 with zoned := false }).evs =
      [Event.planBegin Plan.A 2 false 8192,
        Event.find 8192 (ZoneSetUNIV 64) false Res.OK true ⟨0x101000, 0x103000⟩,
        Event.mark 0x100000 1 2 1 Res.OK,
        Event.planEnd Plan.A Res.OK] ∧
    (((arenaAllocPolicy simpleEnv ⟨false, 2, 0⟩ 8192 1).run
        { simpleArena 1 with zoned := false }).out.map Prod.fst) =
      some (Res.OK, some ⟨0x100000, 1⟩) ∧
    ZoneSetDiff 64 2 0 = 2 ∧
    AddrZone 64 16 0x101000 = 16 ∧
    ZoneSetIsMember 2 (AddrZone 64 16 0x101000) = false := by
  decide

/-- Witness for C8 (amended): in the zoned sample arena the same request fails
in plan A and succeeds in plan B, in a zone of plan B's set. -/
theorem arenaAllocPolicy_zones_witness :
    ((arenaAllocPolicy simpleEnv ⟨false, 2, 0⟩ 8192 1).run (simpleArena 1)).out =
      some ((Res.OK, some ⟨0x100000, 1⟩), simpleArenaAllocated) ∧
    ∃ pre p zs sub range chunk,
      ((arenaAllocPolicy simpleEnv ⟨false, 2, 0⟩ 8192 1).run (simpleArena 1)).evs =
        pre ++ Event.planBegin p zs false 8192 ::
          (sub ++ [Event.find 8192 zs false Res.OK true range,
            Event.mark chunk.base (INDEX_OF_ADDR chunk range.base)
              (ChunkSizeToPages chunk (RangeSize range)) 1 Res.OK,
            Event.planEnd p Res.OK]) ∧
      ∀ addr, range.base ≤ addr → addr < range.limit →
        ZoneSetIsMember zs (AddrZone 64 16 addr) = true :=
  ⟨by decide,
    let ⟨pre, p, zs, sub, range, chunk, h1, _, _, _, _, h2⟩ := arenaAllocPolicy_zones simpleEnv
      (simpleArena 1) ⟨false, 2, 0⟩ 8192 1 (by decide) simpleEnv_contract simpleEnv_keepsZoning
      rfl (some ⟨0x100000, 1⟩) simpleArenaAllocated (by decide)
    ⟨pre, p, zs, sub, range, chunk, h1, h2⟩⟩

/-! ## The retry after `ResLIMIT` -/

/-- The run of `arenaExtendCBSBlockPool` in terms of the run of `arenaAllocPage`. -/
theorem arenaExtendCBSBlockPool_run (env : Env) (a : Arena) :
    (arenaExtendCBSBlockPool env).run a =
      match ((arenaAllocPage env env.cbsBlockPool).run a).out with
      | none => ⟨((arenaAllocPage env env.cbsBlockPool).run a).evs, none⟩
      | some (r, a') =>
        if r.1 ≠ Res.OK then
          ⟨((arenaAllocPage env env.cbsBlockPool).run a).evs, some ((r.1, none), a')⟩
        else
          ⟨((arenaAllocPage env env.cbsBlockPool).run a).evs ++
              [Event.mfsExtend (r.2.getD 0) a'.alignment],
            some ((Res.OK, some (RangeInit (r.2.getD 0) (r.2.getD 0 + a'.alignment))),
              { a' with freeLand := { a'.freeLand with
                  blockPool := env.MFSExtend a'.freeLand.blockPool (r.2.getD 0) a'.alignment } })⟩ := by
  unfold arenaExtendCBSBlockPool
  rcases hP : ((arenaAllocPage env env.cbsBlockPool).run a).out with _ | ⟨r, a'⟩
  · rw [run_bind_of_none hP]
  · rw [run_bind_of_some hP]
    by_cases hr : r.1 ≠ Res.OK
    · rw [if_pos hr]
      simp only
      rw [if_pos hr, Run.ext_iff']
      simp
    · rw [if_neg hr]
      simp only
      rw [if_neg hr, run_getArena_bind, Run.ext_iff']
      simp [mfsExtend]

/-- The run of `arenaExcludePage`. -/
theorem arenaExcludePage_run (env : Env) (r : Range) (a : Arena) :
    (arenaExcludePage env r).run a =
      ⟨[Event.landDelete r (env.LandDelete a r).1],
        if env.checking && !((env.LandDelete a r).1 == Res.OK) then none
        else some ((), { a with freeLand := (env.LandDelete a r).2.2 })⟩ := by
  unfold arenaExcludePage
  rw [run_bind_of_some (x := ((env.LandDelete a r).1, (env.LandDelete a r).2.1))
    (b := { a with freeLand := (env.LandDelete a r).2.2 }) rfl, run_AVER, Run.ext_iff']
  constructor
  · split <;> simp [landDelete]
  · split <;> rfl

theorem countP_isFind_le {env : Env} (e : Event) (l rest : List Event)
    (hl : ∀ x ∈ l, x.isFind = false ∧ x.markIsForBlockPool env)
    (hr : rest.countP Event.isFind ≤ 1) :
    (e :: (l ++ rest)).countP Event.isFind ≤ 2 := by
  rw [List.countP_cons, List.countP_append,
    List.countP_eq_zero.2 (fun x hx => by simp [(hl x hx).1])]
  split <;> omega

/-- What follows `arenaExtendCBSBlockPool` in `arenaAllocFromLand`: the page is
deleted from the land and the search is made once more. -/
theorem retrySearch_run (env : Env) (size sz : Nat) (high : Bool) (pool : Nat) (page : Range)
    (a : Arena) :
    ∃ tail,
      ((arenaExcludePage env page >>= fun _ =>
        landFindInZones env size sz high >>= fun f =>
          AVER env.checking (f.1 != Res.LIMIT) >>= fun _ =>
            allocFromLandFound env f pool).run a).evs =
        Event.landDelete page (env.LandDelete a page).1 :: tail ∧
      ((tail = [] ∧
          ((arenaExcludePage env page >>= fun _ =>
            landFindInZones env size sz high >>= fun f =>
              AVER env.checking (f.1 != Res.LIMIT) >>= fun _ =>
                allocFromLandFound env f pool).run a).out = none) ∨
        ∃ res fd₂ rg₂ tail',
          tail = Event.find size sz high res fd₂ rg₂ :: tail' ∧
          ∀ e ∈ tail', e.isFind = false) := by
  have hX := arenaExcludePage_run env page a
  by_cases hc : (env.checking && !((env.LandDelete a page).1 == Res.OK)) = true
  · rw [if_pos hc] at hX
    rw [run_bind_of_none (by rw [hX]), hX]
    exact ⟨[], rfl, Or.inl ⟨rfl, rfl⟩⟩
  · rw [if_neg hc] at hX
    rw [run_bind_of_some (by rw [hX]), hX]
    simp only
    generalize ({ a with freeLand := (env.LandDelete a page).2.2 } : Arena) = a3
    rw [run_bind_of_some (x := ((env.LandFindInZones a3 size sz high).1,
        (env.LandFindInZones a3 size sz high).2.1,
        (env.LandFindInZones a3 size sz high).2.2.1,
        (env.LandFindInZones a3 size sz high).2.2.2.1))
      (b := { a3 with freeLand := (env.LandFindInZones a3 size sz high).2.2.2.2 }) rfl]
    refine ⟨_, rfl, Or.inr ⟨(env.LandFindInZones a3 size sz high).1,
      (env.LandFindInZones a3 size sz high).2.1, (env.LandFindInZones a3 size sz high).2.2.1,
      ((AVER env.checking ((env.LandFindInZones a3 size sz high).1 != Res.LIMIT) >>= fun _ =>
        allocFromLandFound env ((env.LandFindInZones a3 size sz high).1,
          (env.LandFindInZones a3 size sz high).2.1,
          (env.LandFindInZones a3 size sz high).2.2.1,
          (env.LandFindInZones a3 size sz high).2.2.2.1) pool).run
        { a3 with freeLand := (env.LandFindInZones a3 size sz high).2.2.2.2 }).evs, rfl, ?_⟩⟩
    exact (EvsAll.evsBind (EvsAll.evsAVER _ _ _)
      (fun _ => allocFromLandFound_noFind env _ pool)) _

/-- **C11.** Take a run of `arenaAllocFromLand` that gets past its entry checks
and whose first `LandFindInZones` call returns `ResLIMIT`.  Its log is that
search, the log of `arenaAllocPage` for the CBS block pool (no search in it),
and a rest holding at most one more search, so at most two in all.  When no
page is obtained the rest is empty (no second search) and the page
allocator's error is returned with no tract.  When a page `pb` is obtained,
the rest is `MFSExtend` of that page, `LandDelete` of the page's range
`[pb, pb + alignment)`, and then, unless the assertion on that delete failed,
one search with the same size, zone set and `high`, followed by no other
search. -/
theorem arenaAllocFromLand_limit (env : Env) (zones : Nat) (high : Bool) (size pool : Nat)
    (a : Arena) (fd : Bool) (rg old : Range) (land₁ : Land)
    (hchk : env.checking = true → 0 < size ∧ WordIsAligned size a.alignment = true)
    (hF : env.LandFindInZones a size (searchZones env a zones) high =
      (Res.LIMIT, fd, rg, old, land₁)) :
    ∃ rest,
      ((arenaAllocFromLand env zones high size pool).run a).evs =
        Event.find size (searchZones env a zones) high Res.LIMIT fd rg ::
          (((arenaAllocPage env env.cbsBlockPool).run { a with freeLand := land₁ }).evs ++
            rest) ∧
      (∀ e ∈ ((arenaAllocPage env env.cbsBlockPool).run { a with freeLand := land₁ }).evs,
        e.isFind = false ∧ e.markIsForBlockPool env) ∧
      rest.countP Event.isFind ≤ 1 ∧
      ((arenaAllocFromLand env zones high size pool).run a).evs.countP Event.isFind ≤ 2 ∧
      (((arenaAllocPage env env.cbsBlockPool).run { a with freeLand := land₁ }).out = none →
        rest = [] ∧ ((arenaAllocFromLand env zones high size pool).run a).out = none) ∧
      (∀ r b a₁,
        ((arenaAllocPage env env.cbsBlockPool).run { a with freeLand := land₁ }).out =
          some ((r, b), a₁) → r ≠ Res.OK →
        rest = [] ∧
          ((arenaAllocFromLand env zones high size pool).run a).out = some ((r, none), a₁)) ∧
      (∀ b a₁,
        ((arenaAllocPage env env.cbsBlockPool).run { a with freeLand := land₁ }).out =
          some ((Res.OK, b), a₁) →
        ∃ dres tail,
          rest = Event.mfsExtend (b.getD 0) a₁.alignment ::
            Event.landDelete ⟨b.getD 0, b.getD 0 + a₁.alignment⟩ dres :: tail ∧
          ((tail = [] ∧ ((arenaAllocFromLand env zones high size pool).run a).out = none) ∨
            ∃ res fd₂ rg₂ tail',
              tail = Event.find size (searchZones env a zones) high res fd₂ rg₂ :: tail' ∧
              ∀ e ∈ tail', e.isFind = false)) := by
  have h1 : ¬ (env.checking && !decide (size > 0)) = true := by
    intro hc
    simp only [Bool.and_eq_true, Bool.not_eq_true', decide_eq_false_iff_not] at hc
    exact hc.2 (hchk hc.1).1
  have h2 : ¬ (env.checking && !WordIsAligned size a.alignment) = true := by
    intro hc
    simp only [Bool.and_eq_true, Bool.not_eq_true'] at hc
    rw [(hchk hc.1).2] at hc
    simp at hc
  have hP := arenaAllocPage_marks env { a with freeLand := land₁ }
  have hrun : (arenaAllocFromLand env zones high size pool).run a =
      ⟨Event.find size (searchZones env a zones) high Res.LIMIT fd rg ::
        ((arenaExtendCBSBlockPool env >>= fun e =>
          if e.1 ≠ Res.OK then (pure (e.1, none) : M (Res × Option Tract))
          else do
            arenaExcludePage env (e.2.getD ⟨0, 0⟩)
            let f ← landFindInZones env size (searchZones env a zones) high
            AVER env.checking (f.1 != Res.LIMIT)
            allocFromLandFound env f pool).run { a with freeLand := land₁ }).evs,
        ((arenaExtendCBSBlockPool env >>= fun e =>
          if e.1 ≠ Res.OK then (pure (e.1, none) : M (Res × Option Tract))
          else do
            arenaExcludePage env (e.2.getD ⟨0, 0⟩)
            let f ← landFindInZones env size (searchZones env a zones) high
            AVER env.checking (f.1 != Res.LIMIT)
            allocFromLandFound env f pool).run { a with freeLand := land₁ }).out⟩ := by
    rw [arenaAllocFromLand_eq_steps]
    unfold allocFromLandSteps
    rw [run_AVER_bind, if_neg h1, run_getArena_bind, run_AVER_bind, if_neg h2]
    rw [run_bind_of_some (x := (Res.LIMIT, fd, rg, old)) (b := { a with freeLand := land₁ })
      (by simp [landFindInZones, hF])]
    simp [landFindInZones, hF]
  rw [hrun]
  clear hrun
  simp only
  generalize ({ a with freeLand := land₁ } : Arena) = a1 at hP ⊢
  have hX := arenaExtendCBSBlockPool_run env a1
  rcases hPo : ((arenaAllocPage env env.cbsBlockPool).run a1).out with _ | ⟨⟨r, b⟩, a'⟩
  · rw [hPo] at hX
    simp only at hX
    rw [run_bind_of_none (by rw [hX]), hX]
    refine ⟨[], by simp, hP, by simp, ?_, fun _ => ⟨rfl, rfl⟩, fun r b a₁ h => by simp at h,
      fun b a₁ h => by simp at h⟩
    simpa using countP_isFind_le _ _ [] hP (by simp)
  rw [hPo] at hX
  simp only at hX
  by_cases hr : r ≠ Res.OK
  · rw [if_pos hr] at hX
    rw [run_bind_of_some (by rw [hX]), hX]
    simp only
    rw [if_pos hr]
    refine ⟨[], by simp, hP, by simp, ?_, fun h => by simp at h, fun r' b' a₁ h _ => ?_,
      fun b' a₁ h => ?_⟩
    · simpa using countP_isFind_le _ _ [] hP (by simp)
    · simp only [Option.some.injEq, Prod.mk.injEq] at h
      obtain ⟨⟨h1', -⟩, h3'⟩ := h
      subst h1' h3'
      exact ⟨rfl, rfl⟩
    · simp only [Option.some.injEq, Prod.mk.injEq] at h
      exact absurd h.1.1 hr
  simp only [ne_eq, Decidable.not_not] at hr
  subst hr
  rw [if_neg (by simp)] at hX
  rw [run_bind_of_some (by rw [hX]), hX]
  simp only
  rw [if_neg (by simp)]
  simp only [Option.getD_some, RangeInit]
  obtain ⟨tail, htail, hcase⟩ := retrySearch_run env size (searchZones env a zones) high pool
    ⟨b.getD 0, b.getD 0 + a'.alignment⟩
    { a' with freeLand := { a'.freeLand with
        blockPool := env.MFSExtend a'.freeLand.blockPool (b.getD 0) a'.alignment } }
  have hone : (Event.mfsExtend (b.getD 0) a'.alignment ::
      Event.landDelete ⟨b.getD 0, b.getD 0 + a'.alignment⟩
        (env.LandDelete { a' with freeLand := { a'.freeLand with
          blockPool := env.MFSExtend a'.freeLand.blockPool (b.getD 0) a'.alignment } }
          ⟨b.getD 0, b.getD 0 + a'.alignment⟩).1 :: tail).countP Event.isFind ≤ 1 := by
    rcases hcase with ⟨h, -⟩ | ⟨res, fd₂, rg₂, tail', h, hno⟩
    · rw [h]; simp [Event.isFind]
    · rw [h]
      simp only [List.countP_cons, Event.isFind]
      rw [List.countP_eq_zero.2 (fun e he => by simp [hno e he])]
      simp
  refine ⟨_, by rw [htail]; simp, hP, hone, ?_, fun h => by simp at h,
    fun r' b' a₁ h hr' => ?_, fun b' a₁ h => ?_⟩
  · rw [htail]
    simpa using countP_isFind_le _ _ _ hP hone
  · simp only [Option.some.injEq, Prod.mk.injEq] at h
    exact absurd h.1.1.symm hr'
  · simp only [Option.some.injEq, Prod.mk.injEq, true_and] at h
    obtain ⟨hb, ha⟩ := h
    subst hb ha
    exact ⟨_, tail, rfl, hcase⟩

/-- Witness for C11: with no spare node in the block pool, a search of the
sample arena in zone 17 needs a split and returns `ResLIMIT`; the page at
`0x101000` is given to the block pool and deleted from the land, and the second
search succeeds. -/
theorem arenaAllocFromLand_limit_witness :
    simpleEnv.LandFindInZones (simpleArena 0) 8192
        (searchZones simpleEnv (simpleArena 0) 0x20000) false =
      (Res.LIMIT, false, ⟨0x110000, 0x112000⟩, ⟨0x110000, 0x112000⟩, (simpleArena 0).freeLand) ∧
    ∃ rest,
      ((arenaAllocFromLand simpleEnv 0x20000 false 8192 1).run (simpleArena 0)).evs =
        Event.find 8192 (searchZones simpleEnv (simpleArena 0) 0x20000) false Res.LIMIT false
            ⟨0x110000, 0x112000⟩ ::
          (((arenaAllocPage simpleEnv simpleEnv.cbsBlockPool).run
            { simpleArena 0 with freeLand := (simpleArena 0).freeLand }).evs ++ rest) ∧
      rest.countP Event.isFind ≤ 1 :=
  ⟨by decide,
    let ⟨rest, h1, _, h2, _⟩ := arenaAllocFromLand_limit simpleEnv 0x20000 false 8192 1
      (simpleArena 0) false ⟨0x110000, 0x112000⟩ ⟨0x110000, 0x112000⟩ (simpleArena 0).freeLand
      (fun _ => ⟨by decide, by decide⟩) (by decide)
    ⟨rest, h1, h2⟩⟩

/-! ## The commit limits -/

theorem run_AVERT_Arena_bind {β : Type} (env : Env) (sys : Sys) (f : Unit → M β) (a : Arena) :
    (AVERT_Arena env sys >>= f).run a =
      if env.checking && !ArenaCheck env sys a then ⟨[], none⟩ else (f ()).run a := by
  have h : (AVERT_Arena env sys).run a =
      if env.checking && !ArenaCheck env sys a then ⟨[], none⟩ else ⟨[], some ((), a)⟩ := by
    unfold AVERT_Arena
    rw [run_getArena_bind, run_AVER]
  by_cases hc : (env.checking && !ArenaCheck env sys a) = true
  · rw [if_pos hc] at h ⊢
    rw [run_bind_of_none (by rw [h]), h]
  · rw [if_neg hc] at h ⊢
    rw [run_bind_of_some (by rw [h]), h, Run.ext_iff']
    simp

theorem run_modifyArena_bind {β : Type} (g : Arena → Arena) (f : Unit → M β) (a : Arena) :
    (modifyArena g >>= f).run a = (f ()).run (g a) := by
  rw [run_bind_of_some (x := ()) (b := g a) rfl, Run.ext_iff']
  simp [modifyArena]

theorem SizeSub_eq {W a b : Nat} (hb : b ≤ a) (ha : a < 2 ^ W) : SizeSub W a b = a - b := by
  unfold SizeSub
  rw [show a + 2 ^ W - b = (a - b) + 2 ^ W by omega, Nat.add_mod_right,
    Nat.mod_eq_of_lt (by omega)]

/-- The run of `ArenaSetCommitLimit` on an arena that passes the entry checks. -/
theorem ArenaSetCommitLimit_run (env : Env) (sys : Sys) (limit : Nat) (a : Arena)
    (hv : env.checking = true → ArenaCheck env sys a = true)
    (hc : a.committed ≤ a.commitLimit) :
    (ArenaSetCommitLimit env sys limit).run a =
      if limit < a.committed then
        if limit ≥ SizeSub env.W a.committed a.spareCommitted then
          ⟨[Event.purgeSpare (a.committed - limit)
              (env.cls.purgeSpare a (a.committed - limit)).1],
            if env.checking &&
                !decide (limit ≥ (env.cls.purgeSpare a (a.committed - limit)).2.committed) then
              none
            else
              some (Res.OK, { (env.cls.purgeSpare a (a.committed - limit)).2 with
                commitLimit := limit })⟩
        else ⟨[], some (Res.FAIL, a)⟩
      else ⟨[], some (Res.OK, { a with commitLimit := limit })⟩ := by
  have hv' : ¬ (env.checking && !ArenaCheck env sys a) = true := by
    intro h
    simp only [Bool.and_eq_true, Bool.not_eq_true'] at h
    rw [hv h.1] at h
    simp at h
  have hc' : ¬ (env.checking && !decide (a.committed ≤ a.commitLimit)) = true := by
    simp [hc]
  unfold ArenaSetCommitLimit
  rw [run_AVERT_Arena_bind, if_neg hv', run_getArena_bind, run_AVER_bind, if_neg hc']
  by_cases h1 : limit < a.committed
  · rw [if_pos h1, if_pos h1]
    by_cases h2 : limit ≥ SizeSub env.W a.committed a.spareCommitted
    · rw [if_pos h2, if_pos h2]
      rw [run_bind_of_some (x := (env.cls.purgeSpare a (a.committed - limit)).1)
        (b := (env.cls.purgeSpare a (a.committed - limit)).2) rfl, run_getArena_bind,
        run_AVER_bind]
      by_cases h3 : (env.checking &&
          !decide (limit ≥ (env.cls.purgeSpare a (a.committed - limit)).2.committed)) = true
      · rw [if_pos h3, if_pos h3]
        rfl
      · rw [if_neg h3, if_neg h3, run_modifyArena_bind]
        rfl
    · rw [if_neg h2, if_neg h2]
      rfl
  · rw [if_neg h1, if_neg h1, run_modifyArena_bind]
    rfl

/-- **C15.** For every arena that passes the entry checks, with
`spareCommitted ≤ committed ≤ commitLimit` (sizes being words), and every
limit.  When `limit < committed - spareCommitted`, `ArenaSetCommitLimit` returns
`ResFAIL`, calls nothing (so not `purgeSpare`) and leaves the arena, hence
`commitLimit`, as it was.  When `committed ≤ limit` it returns `ResOK` with
`commitLimit = limit`, calling nothing.  In between it calls `purgeSpare` once
for `committed - limit` bytes and then returns `ResOK` with `commitLimit = limit`,
unless, in a checking variety, the class method has left more than `limit`
committed, in which case the assertion after the call stops the run.  So a call
that returns has returned `ResFAIL` exactly when
`limit < committed - spareCommitted`, and `ResOK` with `commitLimit = limit`
in every other case. -/
theorem ArenaSetCommitLimit_spec (env : Env) (sys : Sys) (limit : Nat) (a : Arena)
    (hv : env.checking = true → ArenaCheck env sys a = true)
    (h1 : a.spareCommitted ≤ a.committed) (h2 : a.committed ≤ a.commitLimit)
    (hW : a.committed < 2 ^ env.W) :
    (limit < a.committed - a.spareCommitted →
      (ArenaSetCommitLimit env sys limit).run a = ⟨[], some (Res.FAIL, a)⟩) ∧
    (a.committed ≤ limit →
      (ArenaSetCommitLimit env sys limit).run a =
        ⟨[], some (Res.OK, { a with commitLimit := limit })⟩) ∧
    (a.committed - a.spareCommitted ≤ limit → limit < a.committed →
      ((ArenaSetCommitLimit env sys limit).run a).evs =
        [Event.purgeSpare (a.committed - limit)
          (env.cls.purgeSpare a (a.committed - limit)).1] ∧
      ((env.checking = true →
          (env.cls.purgeSpare a (a.committed - limit)).2.committed ≤ limit) →
        ((ArenaSetCommitLimit env sys limit).run a).out =
          some (Res.OK, { (env.cls.purgeSpare a (a.committed - limit)).2 with
            commitLimit := limit })) ∧
      (¬ (env.checking = true →
          (env.cls.purgeSpare a (a.committed - limit)).2.committed ≤ limit) →
        ((ArenaSetCommitLimit env sys limit).run a).out = none)) ∧
    (∀ r a', ((ArenaSetCommitLimit env sys limit).run a).out = some (r, a') →
      (r = Res.FAIL ↔ limit < a.committed - a.spareCommitted) ∧
      (r = Res.FAIL → a' = a ∧ ((ArenaSetCommitLimit env sys limit).run a).evs = []) ∧
      (r ≠ Res.FAIL → r = Res.OK ∧ a'.commitLimit = limit)) := by
  rw [ArenaSetCommitLimit_run env sys limit a hv h2, SizeSub_eq h1 hW]
  refine ⟨fun h => ?_, fun h => ?_, fun h3 h4 => ?_, fun r a' ho => ?_⟩
  · rw [if_pos (by omega), if_neg (by omega)]
  · rw [if_neg (by omega)]
  · rw [if_pos h4, if_pos h3]
    refine ⟨rfl, fun hp => ?_, fun hp => ?_⟩
    · simp only
      rw [if_neg]
      intro hc
      simp only [Bool.and_eq_true, Bool.not_eq_true', decide_eq_false_iff_not] at hc
      exact hc.2 (hp hc.1)
    · simp only
      rw [if_pos]
      simp only [Bool.and_eq_true, Bool.not_eq_true', decide_eq_false_iff_not]
      by_cases hc : env.checking = true
      · exact ⟨hc, fun hle => hp (fun _ => hle)⟩
      · exact absurd (fun h => absurd h hc) hp
  · by_cases h4 : limit < a.committed
    · rw [if_pos h4] at ho ⊢
      by_cases h3 : limit ≥ a.committed - a.spareCommitted
      · rw [if_pos h3] at ho ⊢
        simp only at ho ⊢
        split at ho
        · simp at ho
        · simp only [Option.some.injEq, Prod.mk.injEq] at ho
          obtain ⟨rfl, rfl⟩ := ho
          refine ⟨⟨fun h => by simp at h, fun h => by omega⟩, fun h => by simp at h,
            fun _ => ⟨rfl, rfl⟩⟩
      · rw [if_neg h3] at ho ⊢
        simp only [Option.some.injEq, Prod.mk.injEq] at ho
        obtain ⟨rfl, rfl⟩ := ho
        exact ⟨⟨fun _ => by omega, fun _ => rfl⟩, fun _ => ⟨rfl, rfl⟩, fun h => absurd rfl h⟩
    · rw [if_neg h4] at ho ⊢
      simp only [Option.some.injEq, Prod.mk.injEq] at ho
      obtain ⟨rfl, rfl⟩ := ho
      refine ⟨⟨fun h => by simp at h, fun h => by omega⟩, fun h => by simp at h,
        fun _ => ⟨rfl, rfl⟩⟩

/-- Witness for C15.  With the class method `ArenaNoPurgeSpare`, 4 KiB
committed and nothing spare, the limit 100 is refused: `ResFAIL`, nothing
called, the arena as it was.  With 12 KiB committed, 8 KiB of them spare, and
a class that purges, the limit 8 KiB is set after `purgeSpare` was asked for
4 KiB. -/
theorem ArenaSetCommitLimit_spec_witness :
    (ArenaSetCommitLimit simpleEnv simpleSys 100).run (simpleArena 1) =
      ⟨[], some (Res.FAIL, simpleArena 1)⟩ ∧
    ((ArenaSetCommitLimit spareEnv simpleSys 8192).run
        { simpleArena 1 with committed := 12288, spareCommitted := 8192 }).evs =
      [Event.purgeSpare 4096 4096] ∧
    ((ArenaSetCommitLimit spareEnv simpleSys 8192).run
        { simpleArena 1 with committed := 12288, spareCommitted := 8192 }).out =
      some (Res.OK, { simpleArena 1 with
        committed := 8192, spareCommitted := 4096, commitLimit := 8192 }) :=
  have h := (ArenaSetCommitLimit_spec spareEnv simpleSys 8192
    { simpleArena 1 with committed := 12288, spareCommitted := 8192 }
    (fun _ => by decide) (by decide) (by decide) (by decide)).2.2.1 (by decide) (by decide)
  ⟨(ArenaSetCommitLimit_spec simpleEnv simpleSys 100 (simpleArena 1)
      (fun _ => by decide) (by decide) (by decide) (by decide)).1 (by decide),
    h.1, h.2.1 (fun _ => by decide)⟩

/-! ## The accounting inequalities -/

theorem keep_callVoid {γ : Type} {f : Arena → γ} {g : Arena → Arena} (ev : List Event)
    (hg : ∀ a, f (g a) = f a) : Post (fun a _ a' => f a' = f a) (callVoid g ev) := by
  intro a x a' ho
  simp only [callVoid, Option.some.injEq, Prod.mk.injEq] at ho
  rw [← ho.2]; exact hg a

theorem keep_callRes {γ : Type} {f : Arena → γ} {g : Arena → Res × Arena}
    (ev : Res → List Event) (hg : ∀ a, f (g a).2 = f a) :
    Post (fun a _ a' => f a' = f a) (callRes g ev) := by
  intro a x a' ho
  simp only [callRes, Option.some.injEq, Prod.mk.injEq] at ho
  rw [← ho.2]; exact hg a

theorem keep_modifyArena {γ : Type} {f : Arena → γ} {g : Arena → Arena}
    (hg : ∀ a, f (g a) = f a) : Post (fun a _ a' => f a' = f a) (modifyArena g) := by
  intro a x a' ho
  simp only [modifyArena, Option.some.injEq, Prod.mk.injEq] at ho
  rw [← ho.2]; exact hg a

theorem keep_AVERT_Arena {γ : Type} (f : Arena → γ) (env : Env) (sys : Sys) :
    Post (fun a _ a' => f a' = f a) (AVERT_Arena env sys) :=
  keep_bind (keep_getArena f) (fun _ => keep_AVER f _ _)

/-- A projection kept by every step is kept when the result is `ResOK`. -/
theorem okKeep_bind {α γ : Type} {f : Arena → γ} {m : M α} {g : α → M Res}
    (hm : Post (fun a _ a' => f a' = f a) m)
    (hg : ∀ x, Post (fun a y a' => y = Res.OK → f a' = f a) (g x)) :
    Post (fun a y a' => y = Res.OK → f a' = f a) (m >>= g) :=
  post_bind_rel (R := fun (y : Res) (p q : γ) => y = Res.OK → q = p) hm hg

theorem okKeep_fail {γ : Type} {f : Arena → γ} {m : M Res} (res : Res) (hres : res ≠ Res.OK)
    (hm : Post (fun _ y _ => y = res) m) :
    Post (fun a y a' => y = Res.OK → f a' = f a) m := by
  intro u y v ho hy
  exact absurd ((hm u y v ho).symm.trans hy) hres

/-- After the assignments of `ArenaInit` nothing is committed, and the
functions called afterwards do not change that. -/
theorem ArenaInit_committed (env : Env) (sys : Sys) (hi : InitKeepsAccounting sys)
    (alignment : Nat) (args : ArgList) :
    Post (fun _ r a' => r = Res.OK → a'.committed = 0 ∧ a'.spareCommitted = 0)
      (ArenaInit env sys alignment args) := by
  unfold ArenaInit
  intro a r a' ho
  rw [run_AVER_bind] at ho
  split at ho
  · simp at ho
  rw [run_modifyArena_bind] at ho
  revert ho
  generalize hA : ({ a with
    committed := 0
    commitLimit := 2 ^ env.W - 1
    spareCommitted := 0
    spareCommitLimit := sys.ARENA_INIT_SPARE_COMMIT_LIMIT
    alignment := alignment
    zoneShift := sys.ARENA_ZONESHIFT
    poolReady := false
    lastTract := none
    lastTractBase := 0
    hasFreeLand := false
    freeZones := ZoneSetUNIV env.W
    zoned := (match args.arenaZoned with
      | some b => b
      | none => sys.ARENA_DEFAULT_ZONED)
    primary := none
    chunkTree := [] } : Arena) = a₁
  have h0 : (fun x : Arena => (x.committed, x.spareCommitted)) a₁ = (0, 0) := by
    rw [← hA]
  intro ho
  have hk : ∀ {g : Arena → Arena}, KeepsAccounting g →
      ∀ x, (fun x : Arena => (x.committed, x.spareCommitted)) (g x) =
        (fun x : Arena => (x.committed, x.spareCommitted)) x := by
    intro g hg x
    simp only [(hg x).1, (hg x).2.2.1]
  have key : r = Res.OK → (fun x : Arena => (x.committed, x.spareCommitted)) a' =
      (fun x : Arena => (x.committed, x.spareCommitted)) a₁ := by
    refine (?_ : Post (fun u (y : Res) v => y = Res.OK →
      (fun x : Arena => (x.committed, x.spareCommitted)) v =
        (fun x : Arena => (x.committed, x.spareCommitted)) u) _) a₁ r a' ho
    refine okKeep_bind (keep_callVoid (f := fun x : Arena => (x.committed, x.spareCommitted)) _ (hk hi.locus)) (fun _ => ?_)
    refine okKeep_bind (keep_callRes (f := fun x : Arena => (x.committed, x.spareCommitted)) _ (hk hi.globals)) (fun res => ?_)
    split
    · rename_i hres
      exact okKeep_fail res hres (post_pure res (fun _ => rfl))
    refine okKeep_bind (keep_modifyArena (f := fun x : Arena => (x.committed, x.spareCommitted)) (fun _ => rfl)) (fun _ => ?_)
    refine okKeep_bind (keep_AVERT_Arena _ env sys) (fun _ => ?_)
    refine okKeep_bind (keep_callRes (f := fun x : Arena => (x.committed, x.spareCommitted)) _ (hk hi.blockPool)) (fun res => ?_)
    refine okKeep_bind (keep_AVER _ _ _) (fun _ => ?_)
    split
    · rename_i hres
      exact okKeep_fail res hres (post_bind_val (fun _ => post_pure res (fun _ => rfl)))
    refine okKeep_bind (keep_callRes (f := fun x : Arena => (x.committed, x.spareCommitted)) _ (hk hi.land)) (fun res => ?_)
    refine okKeep_bind (keep_AVER _ _ _) (fun _ => ?_)
    split
    · rename_i hres
      exact okKeep_fail res hres (post_bind_val (fun _ => post_bind_val (fun _ =>
        post_pure res (fun _ => rfl))))
    refine okKeep_bind (keep_callRes (f := fun x : Arena => (x.committed, x.spareCommitted)) _ (hk hi.reservoir)) (fun res => ?_)
    split
    · rename_i hres
      exact okKeep_fail res hres (post_bind_val (fun _ => post_bind_val (fun _ =>
        post_bind_val (fun _ => post_pure res (fun _ => rfl)))))
    refine okKeep_bind (keep_AVERT_Arena _ env sys) (fun _ => ?_)
    exact post_pure _ (fun _ _ => rfl)
  intro hr
  have key' := key hr
  rw [h0] at key'
  simp only [Prod.mk.injEq] at key'
  exact key'

/-- The run of `ArenaSetSpareCommitLimit`. -/
theorem ArenaSetSpareCommitLimit_run (env : Env) (sys : Sys) (limit : Nat) (a : Arena) :
    (ArenaSetSpareCommitLimit env sys limit).run a =
      if env.checking && !ArenaCheck env sys a then ⟨[], none⟩
      else if limit < a.spareCommitted then
        ⟨[Event.purgeSpare (a.spareCommitted - limit)
            (env.cls.purgeSpare { a with spareCommitLimit := limit }
              (a.spareCommitted - limit)).1],
          some ((), (env.cls.purgeSpare { a with spareCommitLimit := limit }
            (a.spareCommitted - limit)).2)⟩
      else ⟨[], some ((), { a with spareCommitLimit := limit })⟩ := by
  unfold ArenaSetSpareCommitLimit
  rw [run_AVERT_Arena_bind]
  split
  · rfl
  rw [run_modifyArena_bind, run_getArena_bind]
  by_cases h : limit < a.spareCommitted
  · rw [if_pos h, if_pos h]
    rfl
  · rw [if_neg h, if_neg h]
    rfl

theorem ArenaSetCommitLimit_abort (env : Env) (sys : Sys) (limit : Nat) (a : Arena)
    (hv : (env.checking && !ArenaCheck env sys a) = true) :
    (ArenaSetCommitLimit env sys limit).run a = ⟨[], none⟩ := by
  unfold ArenaSetCommitLimit
  rw [run_AVERT_Arena_bind, if_pos hv]

theorem ArenaSetCommitLimit_accounting (env : Env) (sys : Sys)
    (limit : Nat) (a : Arena) (r : Res) (a' : Arena) (ha : Accounting a)
    (hW : a.committed < 2 ^ env.W)
    (hp : a.committed - a.spareCommitted ≤ limit → limit < a.committed →
      PurgesAt env a (a.committed - limit))
    (ho : ((ArenaSetCommitLimit env sys limit).run a).out = some (r, a')) :
    Accounting a' := by
  obtain ⟨h1, h2, h3⟩ := ha
  by_cases hv : (env.checking && !ArenaCheck env sys a) = true
  · rw [ArenaSetCommitLimit_abort env sys limit a hv] at ho
    simp at ho
  have hv' : env.checking = true → ArenaCheck env sys a = true := by
    intro hc; simpa [hc] using hv
  rw [ArenaSetCommitLimit_run env sys limit a hv' h1, SizeSub_eq h2 hW] at ho
  by_cases h4 : limit < a.committed
  · rw [if_pos h4] at ho
    by_cases h5 : limit ≥ a.committed - a.spareCommitted
    · rw [if_pos h5] at ho
      simp only at ho
      split at ho
      · simp at ho
      simp only [Option.some.injEq, Prod.mk.injEq] at ho
      obtain ⟨p, hp1, hp2, hp3, hp4, -, hp6⟩ := hp h5 h4
      rw [← ho.2]
      refine ⟨?_, ?_, ?_⟩
      · show (env.cls.purgeSpare a (a.committed - limit)).2.committed ≤ limit
        rw [hp3]; omega
      · show (env.cls.purgeSpare a (a.committed - limit)).2.spareCommitted ≤
          (env.cls.purgeSpare a (a.committed - limit)).2.committed
        rw [hp3, hp4]; omega
      · show (env.cls.purgeSpare a (a.committed - limit)).2.spareCommitted ≤
          (env.cls.purgeSpare a (a.committed - limit)).2.spareCommitLimit
        rw [hp4, hp6]; omega
    · rw [if_neg h5] at ho
      simp only [Option.some.injEq, Prod.mk.injEq] at ho
      rw [← ho.2]
      exact ⟨h1, h2, h3⟩
  · rw [if_neg h4] at ho
    simp only [Option.some.injEq, Prod.mk.injEq] at ho
    rw [← ho.2]
    exact ⟨by show a.committed ≤ limit; omega, h2, h3⟩

theorem ArenaSetSpareCommitLimit_accounting (env : Env) (sys : Sys)
    (limit : Nat) (a : Arena) (a' : Arena) (ha : Accounting a)
    (hp : limit < a.spareCommitted →
      PurgesAt env { a with spareCommitLimit := limit } (a.spareCommitted - limit))
    (ho : ((ArenaSetSpareCommitLimit env sys limit).run a).out = some ((), a')) :
    Accounting a' := by
  obtain ⟨h1, h2, h3⟩ := ha
  rw [ArenaSetSpareCommitLimit_run] at ho
  split at ho
  · simp at ho
  by_cases h4 : limit < a.spareCommitted
  · rw [if_pos h4] at ho
    simp only [Option.some.injEq, Prod.mk.injEq, true_and] at ho
    obtain ⟨p, hp1, hp2, hp3, hp4, hp5, hp6⟩ := hp h4
    rw [← ho]
    simp only at hp1 hp2 hp3 hp4 hp5 hp6
    refine ⟨?_, ?_, ?_⟩
    · rw [hp3, hp5]; omega
    · rw [hp3, hp4]; omega
    · rw [hp4, hp6]; omega
  · rw [if_neg h4] at ho
    simp only [Option.some.injEq, Prod.mk.injEq, true_and] at ho
    rw [← ho]
    exact ⟨h1, h2, by show a.spareCommitted ≤ limit; omega⟩

theorem simpleSys_initKeeps : InitKeepsAccounting simpleSys :=
  ⟨fun _ => ⟨rfl, rfl, rfl, rfl⟩, fun _ => ⟨rfl, rfl, rfl, rfl⟩, fun _ => ⟨rfl, rfl, rfl, rfl⟩,
    fun _ => ⟨rfl, rfl, rfl, rfl⟩, fun _ => ⟨rfl, rfl, rfl, rfl⟩⟩

/-- The class method `simplePurgeSpare` gives back what it is asked for. -/
theorem spareEnv_purgesAt (a : Arena) (size : Nat) (hs : size ≤ a.spareCommitted) :
    PurgesAt spareEnv a size := by
  refine ⟨min size a.spareCommitted, ?_, Nat.min_le_right _ _, rfl, rfl, rfl, rfl⟩
  rw [Nat.min_eq_left hs]

/-- **C16.** The accounting inequalities `committed ≤ commitLimit`,
`spareCommitted ≤ committed` and `spareCommitted ≤ spareCommitLimit` hold in
every state that `ArenaInit` returns `ResOK` in (the functions of other
modules it calls leaving the accounting fields alone), and every call of
`ArenaSetCommitLimit` and of `ArenaSetSpareCommitLimit` that starts in a state
where they hold (sizes being words) returns in a state where they hold,
whatever the limit, provided that the class method `purgeSpare`, in the calls
where the setter calls it, gives back what it is asked for.  A setter calls it
only when there is spare committed memory: in an arena with
`spareCommitted = 0`, as under the class method `ArenaNoPurgeSpare`, both
setters keep the inequalities and `spareCommitted = 0` without more. -/
theorem accounting_preserved (env : Env) (sys : Sys) (hi : InitKeepsAccounting sys) :
    (∀ alignment args a a',
      ((ArenaInit env sys alignment args).run a).out = some (Res.OK, a') → Accounting a') ∧
    (∀ limit a r a', Accounting a → a.committed < 2 ^ env.W →
      (a.committed - a.spareCommitted ≤ limit → limit < a.committed →
        PurgesAt env a (a.committed - limit)) →
      ((ArenaSetCommitLimit env sys limit).run a).out = some (r, a') → Accounting a') ∧
    (∀ limit a a', Accounting a →
      (limit < a.spareCommitted →
        PurgesAt env { a with spareCommitLimit := limit } (a.spareCommitted - limit)) →
      ((ArenaSetSpareCommitLimit env sys limit).run a).out = some ((), a') → Accounting a') ∧
    (∀ limit a r a', Accounting a → a.committed < 2 ^ env.W → a.spareCommitted = 0 →
      ((ArenaSetCommitLimit env sys limit).run a).out = some (r, a') →
      Accounting a' ∧ a'.spareCommitted = 0) ∧
    (∀ limit a a', Accounting a → a.spareCommitted = 0 →
      ((ArenaSetSpareCommitLimit env sys limit).run a).out = some ((), a') →
      Accounting a' ∧ a'.spareCommitted = 0) := by
  refine ⟨fun alignment args a a' ho => ?_,
    fun limit a r a' ha hW hp ho =>
      ArenaSetCommitLimit_accounting env sys limit a r a' ha hW hp ho,
    fun limit a a' ha hp ho => ArenaSetSpareCommitLimit_accounting env sys limit a a' ha hp ho,
    fun limit a r a' ha hW h0 ho => ?_, fun limit a a' ha h0 ho => ?_⟩
  · obtain ⟨h1, h2⟩ := ArenaInit_committed env sys hi alignment args a Res.OK a' ho rfl
    unfold Accounting
    rw [h1, h2]
    exact ⟨Nat.zero_le _, Nat.le_refl _, Nat.zero_le _⟩
  · refine ⟨ArenaSetCommitLimit_accounting env sys limit a r a' ha hW
      (fun h3 h4 => by omega) ho, ?_⟩
    by_cases hv : (env.checking && !ArenaCheck env sys a) = true
    · rw [ArenaSetCommitLimit_abort env sys limit a hv] at ho
      simp at ho
    have hv' : env.checking = true → ArenaCheck env sys a = true := by
      intro hc; simpa [hc] using hv
    rw [ArenaSetCommitLimit_run env sys limit a hv' ha.1, SizeSub_eq ha.2.1 hW] at ho
    by_cases h4 : limit < a.committed
    · rw [if_pos h4, if_neg (by omega)] at ho
      simp only [Option.some.injEq, Prod.mk.injEq] at ho
      rw [← ho.2]
      exact h0
    · rw [if_neg h4] at ho
      simp only [Option.some.injEq, Prod.mk.injEq] at ho
      rw [← ho.2]
      exact h0
  · refine ⟨ArenaSetSpareCommitLimit_accounting env sys limit a a' ha
      (fun h => by omega) ho, ?_⟩
    rw [ArenaSetSpareCommitLimit_run] at ho
    split at ho
    · simp at ho
    rw [if_neg (by omega)] at ho
    simp only [Option.some.injEq, Prod.mk.injEq, true_and] at ho
    rw [← ho]
    exact h0

/-- Witness for C16.  `ArenaInit` on the sample system leaves nothing committed;
with the class method `ArenaNoPurgeSpare` and nothing spare, a commit limit of
100 is refused and a spare commit limit of 0 is set; with a class that purges,
lowering the spare commit limit to 4 KiB with 8 KiB spare purges 4 KiB. -/
theorem accounting_preserved_witness :
    (((ArenaInit simpleEnv simpleSys 4096 ⟨none, none⟩).run (simpleArena 0)).out =
        some (Res.OK, { simpleArena 0 with
          committed := 0, spareCommitLimit := 10485760, zoneShift := 20,
          freeZones := 2 ^ 64 - 1, hasFreeLand := false, poolReady := false,
          primary := none, chunkTree := [] }) ∧
      Accounting { simpleArena 0 with
          committed := 0, spareCommitLimit := 10485760, zoneShift := 20,
          freeZones := 2 ^ 64 - 1, hasFreeLand := false, poolReady := false,
          primary := none, chunkTree := [] }) ∧
    (((ArenaSetCommitLimit simpleEnv simpleSys 100).run (simpleArena 1)).out =
        some (Res.FAIL, simpleArena 1) ∧
      Accounting (simpleArena 1)) ∧
    (((ArenaSetSpareCommitLimit simpleEnv simpleSys 0).run (simpleArena 1)).out =
        some ((), { simpleArena 1 with spareCommitLimit := 0 }) ∧
      Accounting { simpleArena 1 with spareCommitLimit := 0 }) ∧
    (((ArenaSetSpareCommitLimit spareEnv simpleSys 4096).run
        { simpleArena 1 with committed := 12288, spareCommitted := 8192,
                             spareCommitLimit := 8192 }).out =
        some ((), { simpleArena 1 with committed := 8192, spareCommitted := 4096,
                                       spareCommitLimit := 4096 }) ∧
      Accounting { simpleArena 1 with committed := 8192, spareCommitted := 4096,
                                      spareCommitLimit := 4096 }) :=
  have hinit : ((ArenaInit simpleEnv simpleSys 4096 ⟨none, none⟩).run (simpleArena 0)).out =
      some (Res.OK, { simpleArena 0 with
        committed := 0, spareCommitLimit := 10485760, zoneShift := 20,
        freeZones := 2 ^ 64 - 1, hasFreeLand := false, poolReady := false,
        primary := none, chunkTree := [] }) := by decide
  have hfail : ((ArenaSetCommitLimit simpleEnv simpleSys 100).run (simpleArena 1)).out =
      some (Res.FAIL, simpleArena 1) := by decide
  have hzero : ((ArenaSetSpareCommitLimit simpleEnv simpleSys 0).run (simpleArena 1)).out =
      some ((), { simpleArena 1 with spareCommitLimit := 0 }) := by decide
  have hpurge : ((ArenaSetSpareCommitLimit spareEnv simpleSys 4096).run
      { simpleArena 1 with committed := 12288, spareCommitted := 8192,
                           spareCommitLimit := 8192 }).out =
      some ((), { simpleArena 1 with committed := 8192, spareCommitted := 4096,
                                     spareCommitLimit := 4096 }) := by decide
  ⟨⟨hinit, (accounting_preserved simpleEnv simpleSys simpleSys_initKeeps).1 _ _ _ _ hinit⟩,
    ⟨hfail, ((accounting_preserved simpleEnv simpleSys simpleSys_initKeeps).2.2.2.1 100
      (simpleArena 1) _ _ ⟨by decide, by decide, by decide⟩ (by decide) rfl hfail).1⟩,
    ⟨hzero, ((accounting_preserved simpleEnv simpleSys simpleSys_initKeeps).2.2.2.2 0
      (simpleArena 1) _ ⟨by decide, by decide, by decide⟩ rfl hzero).1⟩,
    ⟨hpurge, (accounting_preserved spareEnv simpleSys simpleSys_initKeeps).2.2.1 4096 _ _
      ⟨by decide, by decide, by decide⟩
      (fun _ => spareEnv_purgesAt _ _ (by decide)) hpurge⟩⟩

/-! ## ArenaFree: what it leaves alone -/

theorem arenaLandInsertSteal_keeps {γ : Type} {env : Env} {sys : Sys} {f : Arena → γ}
    (hf : FreeFrame env sys f) (r : Range) :
    Post (fun a _ a' => f a' = f a) (arenaLandInsertSteal env sys r) := by
  unfold arenaLandInsertSteal
  refine keep_bind (arenaLandInsert_keeps hf.frame r) (fun x => ?_)
  split
  · refine keep_bind (keep_AVER f _ _) (fun _ => ?_)
    refine keep_bind (keep_getArena f) (fun arena => ?_)
    refine keep_bind (keep_AVER f _ _) (fun _ => ?_)
    refine keep_bind (keep_callVoid _ (fun a => hf.steal a _)) (fun _ => ?_)
    refine keep_bind (keep_getArena f) (fun arena' => ?_)
    refine keep_bind (keep_mfsExtend hf.frame _ _) (fun _ => ?_)
    refine keep_bind (keep_landInsert hf.frame _) (fun _ => ?_)
    refine keep_bind (keep_AVER f _ _) (fun _ => ?_)
    exact keep_bind (keep_AVER f _ _) (fun _ => keep_pure f _)
  · exact keep_bind (keep_AVER f _ _) (fun _ => keep_pure f _)

theorem arenaFreeRange_keeps {γ : Type} {env : Env} {sys : Sys} {f : Arena → γ}
    (hf : FreeFrame env sys f) (limit base size pool : Nat) :
    Post (fun a _ a' => f a' = f a) (arenaFreeRange env sys limit base size pool) := by
  unfold arenaFreeRange
  refine keep_bind (keep_AVER f _ _) (fun _ => ?_)
  refine keep_bind (arenaLandInsertSteal_keeps hf _) (fun range => ?_)
  refine keep_bind (keep_callVoid _ (fun a => hf.free a _ _ _)) (fun _ => ?_)
  exact keep_bind (keep_getArena f) (fun _ => keep_AVER f _ _)

/-- The part of `ArenaFree` after the cache was dealt with. -/
theorem arenaFree_tail_keeps {γ : Type} {env : Env} {sys : Sys} {f : Arena → γ}
    (hf : FreeFrame env sys f) (limit base size pool : Nat) :
    Post (fun a _ a' => f a' = f a)
      (if pool ≠ sys.reservoirPool then do
        let res ← reservoirEnsureFull sys
        if res ≠ Res.OK then
          AVER env.checking (ResIsAllocFailure res)
          let d ← reservoirDeposit sys base size
          if !d.1 then
            pure ()
          else
            arenaFreeRange env sys limit d.2.1 d.2.2 pool
        else
          arenaFreeRange env sys limit base size pool
      else
        arenaFreeRange env sys limit base size pool) := by
  split
  · refine keep_bind (keep_callRes _ (fun a => hf.ensureFull a)) (fun res => ?_)
    split
    · refine keep_bind (keep_AVER f _ _) (fun _ => ?_)
      refine keep_bind ?_ (fun d => ?_)
      · intro a x a' ho
        simp only [reservoirDeposit, Option.some.injEq, Prod.mk.injEq] at ho
        rw [← ho.2]; exact hf.deposit a _ _
      · split
        · exact keep_pure f _
        · exact arenaFreeRange_keeps hf _ _ _ _
    · exact arenaFreeRange_keeps hf _ _ _ _
  · exact arenaFreeRange_keeps hf _ _ _ _

theorem run_pure_bind {α β : Type} (x : α) (f : α → M β) (a : Arena) :
    ((pure x : M α) >>= f).run a = (f x).run a := by
  rw [run_bind_of_some (x := x) (b := a) rfl, Run.ext_iff']
  simp

/-- **C13.** For every call `ArenaFree(base, size, pool)` that returns, the
range not wrapping around the address space, and the land, the class methods,
the reservoir and the tract table leaving the two cache fields alone: if
before the call `base ≤ lastTractBase < base + size`, then afterwards
`lastTract` is null and `lastTractBase` is 0; otherwise both fields are what
they were.  So after the call the cache does not refer to a tract inside the
freed range. -/
theorem ArenaFree_uncache (env : Env) (sys : Sys) (base size pool : Nat) (a a' : Arena)
    (hf : FreeFrame env sys (fun a => (a.lastTract, a.lastTractBase)))
    (hW : base + size < 2 ^ env.W)
    (ho : ((ArenaFree env sys base size pool).run a).out = some ((), a')) :
    (base ≤ a.lastTractBase ∧ a.lastTractBase < base + size →
      a'.lastTract = none ∧ a'.lastTractBase = 0) ∧
    (¬ (base ≤ a.lastTractBase ∧ a.lastTractBase < base + size) →
      a'.lastTract = a.lastTract ∧ a'.lastTractBase = a.lastTractBase) ∧
    (a'.lastTract = none ∨
      ¬ (base ≤ a'.lastTractBase ∧ a'.lastTractBase < base + size)) := by
  unfold ArenaFree at ho
  rw [run_AVER_bind] at ho
  split at ho
  · simp at ho
  rw [run_AVER_bind] at ho
  split at ho
  · simp at ho
  rw [run_AVERT_Arena_bind] at ho
  split at ho
  · simp at ho
  rw [run_getArena_bind, run_AVER_bind] at ho
  split at ho
  · simp at ho
  rw [run_AVER_bind] at ho
  split at ho
  · simp at ho
  rw [run_AVER_bind] at ho
  split at ho
  · simp at ho
  rw [Nat.mod_eq_of_lt hW] at ho
  by_cases hit : a.lastTractBase ≥ base ∧ a.lastTractBase < base + size
  · rw [if_pos hit, run_modifyArena_bind] at ho
    have hk := arenaFree_tail_keeps hf (base + size) base size pool _ _ _ ho
    simp only [Prod.mk.injEq] at hk
    exact ⟨fun _ => hk, fun h => absurd hit h, Or.inl hk.1⟩
  · rw [if_neg hit, run_pure_bind] at ho
    have hk := arenaFree_tail_keeps hf (base + size) base size pool _ _ _ ho
    simp only [Prod.mk.injEq] at hk
    refine ⟨fun h => absurd h hit, fun _ => hk, Or.inr ?_⟩
    rw [hk.2]
    exact hit

/-- The sample land and class change only the free land, `committed` and the
chunk tables. -/
theorem simpleEnv_frame {β : Type} (f : Arena → β)
    (h1 : ∀ a l, f { a with freeLand := l } = f a)
    (h2 : ∀ a c t, f { a with committed := c, chunkTree := t } = f a) :
    Frame simpleEnv f := by
  refine ⟨h1, fun a c i n p => ?_⟩
  show f (simplePagesMarkAllocated a c i n p).2 = f a
  unfold simplePagesMarkAllocated
  split
  · rfl
  · exact h2 _ _ _

theorem simpleSys_freeFrame {β : Type} (f : Arena → β)
    (h1 : ∀ a l, f { a with freeLand := l } = f a)
    (h2 : ∀ a c t, f { a with committed := c, chunkTree := t } = f a) :
    FreeFrame simpleEnv simpleSys f :=
  ⟨simpleEnv_frame f h1 h2, fun _ _ _ _ => rfl, fun _ => rfl, fun _ _ _ => rfl, fun _ _ => rfl⟩

/-- Witness for C13: the two pages at `0x101000`, the first of them cached, are
freed. -/
theorem ArenaFree_uncache_witness :
    ((ArenaFree simpleEnv simpleSys 0x101000 8192 1).run
        { simpleArenaAllocated with
          lastTract := some ⟨0x100000, 1⟩, lastTractBase := 0x101000 }).out =
      some ((), { simpleArenaAllocated with freeLand := (simpleArena 1).freeLand }) ∧
    (simpleArenaAllocated.lastTract = none ∧ simpleArenaAllocated.lastTractBase = 0) :=
  ⟨by decide,
    (ArenaFree_uncache simpleEnv simpleSys 0x101000 8192 1
      { simpleArenaAllocated with lastTract := some ⟨0x100000, 1⟩, lastTractBase := 0x101000 }
      { simpleArenaAllocated with freeLand := (simpleArena 1).freeLand }
      (simpleSys_freeFrame _ (fun _ _ => rfl) (fun _ _ _ => rfl)) (by decide) (by decide)).1
      ⟨by decide, by decide⟩⟩

/-! ## The events of the land operations -/

theorem arenaAllocPageInChunk_landOps {P : Event → Prop} (hP : ∀ e, e.isLandOp = true → P e)
    (env : Env) (c : Nat) (cl : ArenaAllocPageClosure) :
    EvsAll P (arenaAllocPageInChunk env c cl) := by
  unfold arenaAllocPageInChunk
  refine EvsAll.evsBind (EvsAll.evsGetArena _) (fun arena => ?_)
  split
  · exact EvsAll.evsAbort _
  · split
    · exact EvsAll.evsPure _ _
    · split
      · exact EvsAll.evsPure _ _
      · refine EvsAll.evsBind (EvsAll.classPagesMarkAllocated _ _ _ _ _ (fun _ => hP _ rfl))
          (fun res => ?_)
        split <;> exact EvsAll.evsPure _ _

theorem arenaAllocPage_landOps {P : Event → Prop} (hP : ∀ e, e.isLandOp = true → P e)
    (env : Env) (pool : Nat) : EvsAll P (arenaAllocPage env pool) := by
  unfold arenaAllocPage
  refine EvsAll.evsBind (EvsAll.evsGetArena _) (fun arena => ?_)
  split
  · exact EvsAll.evsAbort _
  · refine EvsAll.evsBind (arenaAllocPageInChunk_landOps hP _ _ _) (fun r => ?_)
    split
    · exact EvsAll.evsBind (EvsAll.evsAVER _ _ _) (fun _ => EvsAll.evsPure _ _)
    · refine EvsAll.evsBind (EvsAll.evsGetArena _) (fun arena' => ?_)
      refine EvsAll.evsBind (TreeTraverse_all _ (arenaAllocPageInChunk_landOps hP env) _ _)
        (fun r' => ?_)
      split <;> exact EvsAll.evsBind (EvsAll.evsAVER _ _ _) (fun _ => EvsAll.evsPure _ _)

theorem arenaExtendCBSBlockPool_landOps {P : Event → Prop}
    (hP : ∀ e, e.isLandOp = true → P e) (env : Env) :
    EvsAll P (arenaExtendCBSBlockPool env) := by
  unfold arenaExtendCBSBlockPool
  refine EvsAll.evsBind (arenaAllocPage_landOps hP _ _) (fun r => ?_)
  split
  · exact EvsAll.evsPure _ _
  · refine EvsAll.evsBind (EvsAll.evsGetArena _) (fun arena => ?_)
    exact EvsAll.evsBind (EvsAll.mfsExtend _ _ _ (hP _ rfl)) (fun _ => EvsAll.evsPure _ _)

theorem arenaExcludePage_landOps {P : Event → Prop} (hP : ∀ e, e.isLandOp = true → P e)
    (env : Env) (r : Range) : EvsAll P (arenaExcludePage env r) := by
  unfold arenaExcludePage
  exact EvsAll.evsBind (EvsAll.landDelete _ _ (fun _ => hP _ rfl))
    (fun _ => EvsAll.evsAVER _ _ _)

theorem arenaLandInsert_landOps {P : Event → Prop} (hP : ∀ e, e.isLandOp = true → P e)
    (env : Env) (r : Range) : EvsAll P (arenaLandInsert env r) := by
  unfold arenaLandInsert
  refine EvsAll.evsBind (EvsAll.landInsert _ _ (fun _ _ => hP _ rfl)) (fun x => ?_)
  split
  · refine EvsAll.evsBind (arenaExtendCBSBlockPool_landOps hP _) (fun e => ?_)
    split
    · exact EvsAll.evsPure _ _
    · refine EvsAll.evsBind (EvsAll.landInsert _ _ (fun _ _ => hP _ rfl)) (fun y => ?_)
      refine EvsAll.evsBind (EvsAll.evsAVER _ _ _) (fun _ => ?_)
      exact EvsAll.evsBind (arenaExcludePage_landOps hP _ _) (fun _ => EvsAll.evsPure _ _)
  · exact EvsAll.evsPure _ _

/-- The first thing `arenaLandInsert` does is `LandInsert` of its range. -/
theorem arenaLandInsert_head (env : Env) (r : Range) (a : Arena) :
    ∃ rest, ((arenaLandInsert env r).run a).evs =
      Event.landInsert r (env.LandInsert a r).1 (env.LandInsert a r).2.1 :: rest := by
  unfold arenaLandInsert
  rw [run_bind_of_some (x := ((env.LandInsert a r).1, (env.LandInsert a r).2.1))
    (b := { a with freeLand := (env.LandInsert a r).2.2 }) rfl]
  exact ⟨_, rfl⟩

/-- A bind that returns: both parts returned. -/
theorem bind_some_inv {α β : Type} {m : M α} {f : α → M β} {a a' : Arena} {y : β}
    (h : ((m >>= f).run a).out = some (y, a')) :
    ∃ x a₁, (m.run a).out = some (x, a₁) ∧ ((f x).run a₁).out = some (y, a') ∧
      ((m >>= f).run a).evs = (m.run a).evs ++ ((f x).run a₁).evs := by
  rcases hm : (m.run a).out with _ | ⟨x, a₁⟩
  · rw [run_bind_of_none hm] at h
    simp at h
  · rw [run_bind_of_some hm] at h ⊢
    exact ⟨x, a₁, rfl, h, rfl⟩

theorem AVER_some_inv {β : Type} {c b : Bool} {f : Unit → M β} {a a' : Arena} {y : β}
    (h : ((AVER c b >>= f).run a).out = some (y, a')) :
    (c = true → b = true) ∧ (AVER c b >>= f).run a = (f ()).run a := by
  rw [run_AVER_bind] at h ⊢
  by_cases hc : (c && !b) = true
  · rw [if_pos hc] at h
    simp at h
  · rw [if_neg hc]
    refine ⟨fun h1 => ?_, rfl⟩
    simpa [h1] using hc

/-- A run of `arenaLandInsertSteal` that returns: either `arenaLandInsert`
returned `ResOK` and the range is left as it was, or a page was stolen: the
tract of the page at the base of the range is taken for the block pool, the
page is given to the pool, and what is left of the range is inserted. -/
theorem arenaLandInsertSteal_ok (env : Env) (sys : Sys) (r : Range) (a : Arena) (r' : Range)
    (a' : Arena) (h : ((arenaLandInsertSteal env sys r).run a).out = some (r', a')) :
    ∃ x a₁, ((arenaLandInsert env r).run a).out = some (x, a₁) ∧
      ((x.1 = Res.OK ∧ r' = r ∧ a' = a₁ ∧
          ((arenaLandInsertSteal env sys r).run a).evs = ((arenaLandInsert env r).run a).evs) ∨
        (x.1 ≠ Res.OK ∧ r' = ⟨(r.base + a₁.alignment) % 2 ^ env.W, r.limit⟩ ∧
          (env.checking = true → RangeSize r ≥ a₁.alignment) ∧
          ∃ res ret,
            ((arenaLandInsertSteal env sys r).run a).evs =
              ((arenaLandInsert env r).run a).evs ++
                [Event.tractSteal r.base,
                  Event.mfsExtend r.base (sys.TractSteal a₁ r.base).alignment,
                  Event.landInsert r' res ret])) := by
  unfold arenaLandInsertSteal at h ⊢
  obtain ⟨x, a₁, hx, hrest, hevs⟩ := bind_some_inv h
  refine ⟨x, a₁, hx, ?_⟩
  rw [hevs]
  by_cases hok : x.1 ≠ Res.OK
  · right
    rw [if_pos hok] at hrest ⊢
    obtain ⟨-, h1⟩ := AVER_some_inv hrest
    rw [h1] at hrest ⊢
    rw [run_getArena_bind] at hrest ⊢
    obtain ⟨hsz, h2⟩ := AVER_some_inv hrest
    rw [h2] at hrest ⊢
    simp only [RangeInit] at hrest ⊢
    rw [run_bind_of_some (x := ()) (b := sys.TractSteal a₁ r.base) rfl] at hrest ⊢
    rw [run_getArena_bind] at hrest ⊢
    simp only at hrest ⊢
    obtain ⟨u, a₂, hu, hrest', hevs'⟩ := bind_some_inv hrest
    rw [hevs']
    obtain ⟨y, a₃, hy, hrest'', hevs''⟩ := bind_some_inv hrest'
    rw [hevs'']
    obtain ⟨-, h3⟩ := AVER_some_inv hrest''
    rw [h3] at hrest'' ⊢
    obtain ⟨-, h4⟩ := AVER_some_inv hrest''
    rw [h4] at hrest'' ⊢
    simp only [M.run_pure, Option.some.injEq, Prod.mk.injEq] at hrest''
    refine ⟨hok, hrest''.1.symm, fun hc => by simpa using hsz hc, ?_⟩
    refine ⟨(env.LandInsert a₂ ⟨(r.base + a₁.alignment) % 2 ^ env.W, r.limit⟩).1,
      (env.LandInsert a₂ ⟨(r.base + a₁.alignment) % 2 ^ env.W, r.limit⟩).2.1, ?_⟩
    rw [← hrest''.1]
    simp [callVoid, mfsExtend, landInsert]
  · left
    rw [if_neg hok] at hrest ⊢
    obtain ⟨-, h1⟩ := AVER_some_inv hrest
    rw [h1] at hrest ⊢
    simp only [M.run_pure, Option.some.injEq, Prod.mk.injEq] at hrest
    simp only [ne_eq, Decidable.not_not] at hok
    exact ⟨hok, hrest.1.symm, hrest.2.symm, by simp⟩

/-- A run of `arenaFreeRange` that returns: `arenaLandInsertSteal` on the range,
then the class method `free` on the range as it was left. -/
theorem arenaFreeRange_ok (env : Env) (sys : Sys) (limit base size pool : Nat) (a a' : Arena)
    (h : ((arenaFreeRange env sys limit base size pool).run a).out = some ((), a')) :
    ∃ r' a₂, ((arenaLandInsertSteal env sys ⟨base, limit⟩).run a).out = some (r', a₂) ∧
      ((arenaFreeRange env sys limit base size pool).run a).evs =
        ((arenaLandInsertSteal env sys ⟨base, limit⟩).run a).evs ++
          [Event.free r'.base (RangeSize r') pool] := by
  unfold arenaFreeRange at h ⊢
  obtain ⟨-, h1⟩ := AVER_some_inv h
  rw [h1] at h ⊢
  simp only [RangeInit] at h ⊢
  obtain ⟨r', a₂, hs, hrest, hevs⟩ := bind_some_inv h
  refine ⟨r', a₂, hs, ?_⟩
  rw [hevs]
  obtain ⟨u, a₃, hu, hrest', hevs'⟩ := bind_some_inv hrest
  rw [hevs']
  rw [run_getArena_bind] at hrest' ⊢
  rw [run_AVER]
  split <;> simp [classFree, callVoid]

/-- The events of a returning run of `arenaLandInsertSteal`: `LandInsert` of the
range first, no call of the class method `free`, and a steal of the page at
the base of the range exactly when the range was shortened. -/
theorem arenaLandInsertSteal_evs (env : Env) (sys : Sys) (r : Range) (a : Arena) (r' : Range)
    (a' : Arena) (h : ((arenaLandInsertSteal env sys r).run a).out = some (r', a')) :
    ∃ res ret mid,
      ((arenaLandInsertSteal env sys r).run a).evs = Event.landInsert r res ret :: mid ∧
      (∀ e ∈ mid, e.isFree = false) ∧
      (((∀ p, Event.tractSteal p ∉ mid) ∧ r' = r) ∨
        ∃ a₁, Event.tractSteal r.base ∈ mid ∧
          r' = ⟨(r.base + a₁.alignment) % 2 ^ env.W, r.limit⟩ ∧
          (env.checking = true → RangeSize r ≥ a₁.alignment) ∧
          ∀ {γ : Type} (g : Arena → γ), Frame env g → g a₁ = g a) := by
  obtain ⟨x, a₁, hx, hcase⟩ := arenaLandInsertSteal_ok env sys r a r' a' h
  obtain ⟨rest, hhead⟩ := arenaLandInsert_head env r a
  have hops := arenaLandInsert_landOps (P := fun e => e.isLandOp = true) (fun _ h => h) env r a
  rw [hhead] at hops
  have hrest : ∀ e ∈ rest, e.isLandOp = true := fun e he => hops e (List.mem_cons_of_mem _ he)
  rcases hcase with ⟨-, hr, -, hevs⟩ | ⟨-, hr, hsz, res, ret, hevs⟩
  · refine ⟨_, _, rest, by rw [hevs, hhead], ?_, Or.inl ⟨?_, hr⟩⟩
    · intro e he
      have := hrest e he
      cases e <;> simp [Event.isLandOp, Event.isFree] at this ⊢
    · intro p hp
      have := hrest _ hp
      simp [Event.isLandOp] at this
  · refine ⟨(env.LandInsert a r).1, (env.LandInsert a r).2.1, rest ++ [Event.tractSteal r.base,
        Event.mfsExtend r.base (sys.TractSteal a₁ r.base).alignment,
        Event.landInsert r' res ret], by rw [hevs, hhead]; simp, ?_, Or.inr ⟨a₁, by simp, hr, hsz,
          fun g hg => arenaLandInsert_keeps hg r a x a₁ hx⟩⟩
    intro e he
    simp only [List.mem_append, List.mem_cons, List.mem_singleton, List.not_mem_nil,
      or_false] at he
    rcases he with he | rfl | rfl | rfl
    · have := hrest e he
      cases e <;> simp [Event.isLandOp, Event.isFree] at this ⊢
    · rfl
    · rfl
    · rfl

/-- The part of `ArenaFree` after the cache was dealt with, when the reservoir
takes nothing of the range: calls of the reservoir, then `arenaFreeRange` on
the whole range. -/
theorem arenaFree_tail_ok (env : Env) (sys : Sys) (limit base size pool : Nat) (a₀ a' : Arena)
    (ho : (((if pool ≠ sys.reservoirPool then do
        let res ← reservoirEnsureFull sys
        if res ≠ Res.OK then
          AVER env.checking (ResIsAllocFailure res)
          let d ← reservoirDeposit sys base size
          if !d.1 then
            pure ()
          else
            arenaFreeRange env sys limit d.2.1 d.2.2 pool
        else
          arenaFreeRange env sys limit base size pool
      else
        arenaFreeRange env sys limit base size pool) : M Unit).run a₀).out = some ((), a'))
    (hres : ∀ b s m b' s', Event.reservoirDeposit b s m b' s' ∈
        (((if pool ≠ sys.reservoirPool then do
        let res ← reservoirEnsureFull sys
        if res ≠ Res.OK then
          AVER env.checking (ResIsAllocFailure res)
          let d ← reservoirDeposit sys base size
          if !d.1 then
            pure ()
          else
            arenaFreeRange env sys limit d.2.1 d.2.2 pool
        else
          arenaFreeRange env sys limit base size pool
      else
        arenaFreeRange env sys limit base size pool) : M Unit).run a₀).evs → m = true ∧ b' = base ∧ s' = size) :
    ∃ pre a₁,
      (((if pool ≠ sys.reservoirPool then do
        let res ← reservoirEnsureFull sys
        if res ≠ Res.OK then
          AVER env.checking (ResIsAllocFailure res)
          let d ← reservoirDeposit sys base size
          if !d.1 then
            pure ()
          else
            arenaFreeRange env sys limit d.2.1 d.2.2 pool
        else
          arenaFreeRange env sys limit base size pool
      else
        arenaFreeRange env sys limit base size pool) : M Unit).run a₀).evs =
        pre ++ ((arenaFreeRange env sys limit base size pool).run a₁).evs ∧
      ((arenaFreeRange env sys limit base size pool).run a₁).out = some ((), a') ∧
      (∀ e ∈ pre, e.isFree = false ∧ e.isLandInsert = false ∧ ∀ p, e ≠ Event.tractSteal p) ∧
      (∀ {γ : Type} (g : Arena → γ), FreeFrame env sys g → g a₁ = g a₀) := by
  by_cases hp : pool ≠ sys.reservoirPool
  · rw [if_pos hp] at ho hres ⊢
    obtain ⟨res, a₁, hE, hrest, hevs⟩ := bind_some_inv ho
    rw [hevs] at hres ⊢
    simp only [reservoirEnsureFull, callRes, Option.some.injEq, Prod.mk.injEq] at hE
    obtain ⟨hE1, hE2⟩ := hE
    have hk1 : ∀ {γ : Type} (g : Arena → γ), FreeFrame env sys g → g a₁ = g a₀ :=
      fun g hg => by rw [← hE2]; exact hg.ensureFull a₀
    by_cases hr : res ≠ Res.OK
    · rw [if_pos hr] at hrest hres ⊢
      obtain ⟨-, h1⟩ := AVER_some_inv hrest
      rw [h1] at hrest hres ⊢
      obtain ⟨d, a₂, hD, hrest', hevs'⟩ := bind_some_inv hrest
      rw [hevs'] at hres ⊢
      simp only [reservoirDeposit, Option.some.injEq, Prod.mk.injEq] at hD
      obtain ⟨hD1, hD2⟩ := hD
      have hd := hres base size d.1 d.2.1 d.2.2 (by
        simp only [reservoirEnsureFull, callRes, reservoirDeposit, List.mem_append,
          List.mem_singleton, List.mem_cons]
        right; left
        rw [← hD1]
        exact Or.inl rfl)
      obtain ⟨hd1, hd2, hd3⟩ := hd
      rw [hd1, hd2, hd3] at hrest' ⊢
      simp only [Bool.not_true, Bool.false_eq_true, if_false] at hrest' ⊢
      refine ⟨_, a₂, by rw [List.append_assoc], hrest', ?_, fun g hg => ?_⟩
      · intro e he
        simp only [reservoirEnsureFull, callRes, reservoirDeposit, List.mem_append,
          List.mem_singleton] at he
        rcases he with rfl | rfl <;> simp [Event.isFree, Event.isLandInsert]
      · rw [← hD2, hg.deposit, hk1 g hg]
    · rw [if_neg hr] at hrest hres ⊢
      refine ⟨_, a₁, rfl, hrest, ?_, hk1⟩
      intro e he
      simp only [reservoirEnsureFull, callRes, List.mem_singleton] at he
      subst he
      simp [Event.isFree, Event.isLandInsert]
  · rw [if_neg hp] at ho hres ⊢
    exact ⟨[], a₀, rfl, ho, by simp, fun g _ => rfl⟩

/-- **C14.** Take a call `ArenaFree(base, size, pool)` that returns, the range
not wrapping around the address space and the reservoir taking nothing of it.
Its log holds a `LandInsert` of `[base, base + size)`, made by
`arenaLandInsertSteal`, and ends with the one call of the class method `free`:
no `free` and no `LandInsert` before that insert, no `free` between the two.
Either no tract was stolen and `free` is called on `(base, size)`, or the
tract of the page at `base` was stolen for the block pool and `free` is called
on `(base + grainSize, size - grainSize)`, the grain size being the arena's
alignment. -/
theorem ArenaFree_order (env : Env) (sys : Sys) (base size pool : Nat) (a a' : Arena)
    (hW : base + size < 2 ^ env.W)
    (ho : ((ArenaFree env sys base size pool).run a).out = some ((), a'))
    (hres : ∀ b s m b' s', Event.reservoirDeposit b s m b' s' ∈
        ((ArenaFree env sys base size pool).run a).evs → m = true ∧ b' = base ∧ s' = size) :
    ∃ pre res ret mid fb fs,
      ((ArenaFree env sys base size pool).run a).evs =
        pre ++ Event.landInsert ⟨base, base + size⟩ res ret ::
          (mid ++ [Event.free fb fs pool]) ∧
      (∀ e ∈ pre, e.isFree = false ∧ e.isLandInsert = false) ∧
      (∀ e ∈ mid, e.isFree = false) ∧
      ((ArenaFree env sys base size pool).run a).evs.countP Event.isFree = 1 ∧
      (((∀ p, Event.tractSteal p ∉ ((ArenaFree env sys base size pool).run a).evs) ∧
          fb = base ∧ fs = size) ∨
        ∃ a₁ : Arena, Event.tractSteal base ∈ mid ∧
          (FreeFrame env sys Arena.alignment → a₁.alignment = a.alignment) ∧
          (env.checking = true → a₁.alignment ≤ size) ∧
          (a₁.alignment ≤ size → fb = base + a₁.alignment ∧ fs = size - a₁.alignment)) := by
  unfold ArenaFree at ho hres ⊢
  obtain ⟨-, h1⟩ := AVER_some_inv ho
  rw [h1] at ho hres ⊢
  obtain ⟨-, h2⟩ := AVER_some_inv ho
  rw [h2] at ho hres ⊢
  rw [run_AVERT_Arena_bind] at ho hres ⊢
  split at ho
  · simp at ho
  rename_i hv
  rw [if_neg hv] at hres ⊢
  rw [run_getArena_bind] at ho hres ⊢
  obtain ⟨-, h3⟩ := AVER_some_inv ho
  rw [h3] at ho hres ⊢
  obtain ⟨-, h4⟩ := AVER_some_inv ho
  rw [h4] at ho hres ⊢
  obtain ⟨-, h5⟩ := AVER_some_inv ho
  rw [h5] at ho hres ⊢
  rw [Nat.mod_eq_of_lt hW] at ho hres ⊢
  have key : ∀ a₀ : Arena, a₀.alignment = a.alignment →
      ∀ (ho' : ((if pool ≠ sys.reservoirPool then do
          let res ← reservoirEnsureFull sys
          if res ≠ Res.OK then
            AVER env.checking (ResIsAllocFailure res)
            let d ← reservoirDeposit sys base size
            if !d.1 then
              pure ()
            else
              arenaFreeRange env sys (base + size) d.2.1 d.2.2 pool
          else
            arenaFreeRange env sys (base + size) base size pool
        else
          arenaFreeRange env sys (base + size) base size pool : M Unit).run a₀).out =
          some ((), a'))
        (hres' : ∀ b s m b' s', Event.reservoirDeposit b s m b' s' ∈
          ((if pool ≠ sys.reservoirPool then do
            let res ← reservoirEnsureFull sys
            if res ≠ Res.OK then
              AVER env.checking (ResIsAllocFailure res)
              let d ← reservoirDeposit sys base size
              if !d.1 then
                pure ()
              else
                arenaFreeRange env sys (base + size) d.2.1 d.2.2 pool
            else
              arenaFreeRange env sys (base + size) base size pool
          else
            arenaFreeRange env sys (base + size) base size pool : M Unit).run a₀).evs →
          m = true ∧ b' = base ∧ s' = size),
      ∃ pre res ret mid fb fs,
        ((if pool ≠ sys.reservoirPool then do
            let res ← reservoirEnsureFull sys
            if res ≠ Res.OK then
              AVER env.checking (ResIsAllocFailure res)
              let d ← reservoirDeposit sys base size
              if !d.1 then
                pure ()
              else
                arenaFreeRange env sys (base + size) d.2.1 d.2.2 pool
            else
              arenaFreeRange env sys (base + size) base size pool
          else
            arenaFreeRange env sys (base + size) base size pool : M Unit).run a₀).evs =
          pre ++ Event.landInsert ⟨base, base + size⟩ res ret ::
            (mid ++ [Event.free fb fs pool]) ∧
        (∀ e ∈ pre, e.isFree = false ∧ e.isLandInsert = false ∧ ∀ p, e ≠ Event.tractSteal p) ∧
        (∀ e ∈ mid, e.isFree = false) ∧
        (((∀ p, Event.tractSteal p ∉ mid) ∧ fb = base ∧ fs = size) ∨
          ∃ a₁ : Arena, Event.tractSteal base ∈ mid ∧
            (FreeFrame env sys Arena.alignment → a₁.alignment = a.alignment) ∧
            (env.checking = true → a₁.alignment ≤ size) ∧
            (a₁.alignment ≤ size → fb = base + a₁.alignment ∧ fs = size - a₁.alignment)) := by
    intro a₀ hal ho' hres'
    obtain ⟨pre, a₁, hevs, hout, hpre, hk⟩ :=
      arenaFree_tail_ok env sys (base + size) base size pool a₀ a' ho' hres'
    obtain ⟨r', a₂, hs, hevs2⟩ := arenaFreeRange_ok env sys _ _ _ _ a₁ a' hout
    obtain ⟨res, ret, mid, hevs3, hmid, hcase⟩ :=
      arenaLandInsertSteal_evs env sys ⟨base, base + size⟩ a₁ r' a₂ hs
    refine ⟨pre, res, ret, mid, r'.base, RangeSize r', ?_, hpre, hmid, ?_⟩
    · rw [hevs, hevs2, hevs3]
      simp
    · rcases hcase with ⟨hno, hr⟩ | ⟨a₃, hst, hr, hsz, hk3⟩
      · refine Or.inl ⟨hno, ?_, ?_⟩
        · rw [hr]
        · rw [hr]; simp [RangeSize]
      · refine Or.inr ⟨a₃, hst, fun hf => ?_, fun hc => ?_, fun hle => ?_⟩
        · rw [hk3 _ hf.frame, hk _ hf, hal]
        · have := hsz hc
          simpa [RangeSize] using this
        · rw [hr]
          simp only [RangeSize]
          rw [Nat.mod_eq_of_lt (by omega)]
          omega
  have fin : ∀ (evs : List Event),
      (∃ pre res ret mid fb fs,
        evs = pre ++ Event.landInsert ⟨base, base + size⟩ res ret ::
            (mid ++ [Event.free fb fs pool]) ∧
        (∀ e ∈ pre, e.isFree = false ∧ e.isLandInsert = false ∧ ∀ p, e ≠ Event.tractSteal p) ∧
        (∀ e ∈ mid, e.isFree = false) ∧
        (((∀ p, Event.tractSteal p ∉ mid) ∧ fb = base ∧ fs = size) ∨
          ∃ a₁ : Arena, Event.tractSteal base ∈ mid ∧
            (FreeFrame env sys Arena.alignment → a₁.alignment = a.alignment) ∧
            (env.checking = true → a₁.alignment ≤ size) ∧
            (a₁.alignment ≤ size → fb = base + a₁.alignment ∧ fs = size - a₁.alignment))) →
      ∃ pre res ret mid fb fs,
        evs = pre ++ Event.landInsert ⟨base, base + size⟩ res ret ::
            (mid ++ [Event.free fb fs pool]) ∧
        (∀ e ∈ pre, e.isFree = false ∧ e.isLandInsert = false) ∧
        (∀ e ∈ mid, e.isFree = false) ∧
        evs.countP Event.isFree = 1 ∧
        (((∀ p, Event.tractSteal p ∉ evs) ∧ fb = base ∧ fs = size) ∨
          ∃ a₁ : Arena, Event.tractSteal base ∈ mid ∧
            (FreeFrame env sys Arena.alignment → a₁.alignment = a.alignment) ∧
            (env.checking = true → a₁.alignment ≤ size) ∧
            (a₁.alignment ≤ size → fb = base + a₁.alignment ∧ fs = size - a₁.alignment)) := by
    rintro evs ⟨pre, res, ret, mid, fb, fs, hevs, hpre, hmid, hcase⟩
    refine ⟨pre, res, ret, mid, fb, fs, hevs, fun e he => ⟨(hpre e he).1, (hpre e he).2.1⟩,
      hmid, ?_, ?_⟩
    · rw [hevs, List.countP_append, List.countP_cons, List.countP_append,
        List.countP_eq_zero.2 (fun e he => by simp [(hpre e he).1]),
        List.countP_eq_zero.2 (fun e he => by simp [hmid e he])]
      simp [Event.isFree]
    · rcases hcase with ⟨hno, h⟩ | h
      · refine Or.inl ⟨fun p hp => ?_, h⟩
        rw [hevs] at hp
        simp only [List.mem_append, List.mem_cons, List.mem_singleton, reduceCtorEq,
          false_or, or_false] at hp
        rcases hp with hp | hp | hp
        · exact (hpre _ hp).2.2 p rfl
        · exact hno p hp
        · simp at hp
      · exact Or.inr h
  by_cases hit : a.lastTractBase ≥ base ∧ a.lastTractBase < base + size
  · rw [if_pos hit, run_modifyArena_bind] at ho hres ⊢
    exact fin _ (key _ rfl ho hres)
  · rw [if_neg hit, run_pure_bind] at ho hres ⊢
    exact fin _ (key _ rfl ho hres)

/-- Witness for C14: two pages are freed to an arena with an empty land and no
spare node; the first page is stolen for the block pool and `free` is called
on the second page alone. -/
theorem ArenaFree_order_witness :
    ((ArenaFree simpleEnv simpleSys 0x101000 8192 1).run fullArena).evs =
      [Event.reservoirEnsureFull Res.OK,
        Event.landInsert ⟨0x101000, 0x103000⟩ Res.LIMIT ⟨0x101000, 0x103000⟩,
        Event.tractSteal 0x101000,
        Event.mfsExtend 0x101000 4096,
        Event.landInsert ⟨0x102000, 0x103000⟩ Res.OK ⟨0x102000, 0x103000⟩,
        Event.free 0x102000 4096 1] ∧
    ((ArenaFree simpleEnv simpleSys 0x101000 8192 1).run fullArena).evs.countP Event.isFree = 1 :=
  ⟨by decide,
    let ⟨_, _, _, _, _, _, _, _, _, h, _⟩ := ArenaFree_order simpleEnv simpleSys 0x101000 8192 1
      fullArena
      { fullArena with freeLand :=
          { ranges := [⟨0x102000, 0x103000⟩],
            blockPool := { tracts := [0x101000], freeUnits := 63 } } }
      (by decide) (by decide)
      (fun b s m b' s' hm => by
        rw [show ((ArenaFree simpleEnv simpleSys 0x101000 8192 1).run fullArena).evs =
          [Event.reservoirEnsureFull Res.OK,
            Event.landInsert ⟨0x101000, 0x103000⟩ Res.LIMIT ⟨0x101000, 0x103000⟩,
            Event.tractSteal 0x101000,
            Event.mfsExtend 0x101000 4096,
            Event.landInsert ⟨0x102000, 0x103000⟩ Res.OK ⟨0x102000, 0x103000⟩,
            Event.free 0x102000 4096 1] from by decide] at hm
        simp at hm)
    h⟩

/-! ## `ResLIMIT` does not leave the arena -/

/-- A property of the value of `m` may be used for what follows. -/
theorem post_bind_valdep {α β : Type} {V : α → Prop} {P : β → Prop} {m : M α} {g : α → M β}
    (hm : Post (fun _ x _ => V x) m) (hg : ∀ x, V x → Post (fun _ y _ => P y) (g x)) :
    Post (fun _ y _ => P y) (m >>= g) := by
  intro a y a' ho
  obtain ⟨x, a₁, hx, hrest, -⟩ := bind_some_inv ho
  exact hg x (hm a x a₁ hx) a₁ y a' hrest

theorem post_val_of_true {α : Type} {m : M α} :
    Post (fun _ (_ : α) _ => True) m := fun _ _ _ _ => trivial

theorem arenaAllocPageInChunk_notLimit (env : Env) (hm : ∀ a c i n p,
    (env.cls.pagesMarkAllocated a c i n p).1 ≠ Res.LIMIT) (c : Nat)
    (cl : ArenaAllocPageClosure) (hcl : cl.res ≠ Res.LIMIT) :
    Post (fun _ r _ => r.2.res ≠ Res.LIMIT) (arenaAllocPageInChunk env c cl) := by
  unfold arenaAllocPageInChunk
  refine post_bind_valdep post_val_of_true (fun arena _ => ?_)
  split
  · exact post_abort _
  · split
    · exact post_pure _ (fun _ => by simp)
    · split
      · exact post_pure _ (fun _ => by simp)
      · refine post_bind_valdep (V := fun x => x ≠ Res.LIMIT) ?_ (fun res hres => ?_)
        · intro a x a' ho
          simp only [classPagesMarkAllocated, Option.some.injEq, Prod.mk.injEq] at ho
          rw [← ho.1]; exact hm _ _ _ _ _
        · split
          · exact post_pure _ (fun _ => hres)
          · exact post_pure _ (fun _ => hcl)

theorem TreeTraverse_notLimit
    (visit : Nat → ArenaAllocPageClosure → M (Bool × ArenaAllocPageClosure))
    (hv : ∀ c cl, cl.res ≠ Res.LIMIT → Post (fun _ r _ => r.2.res ≠ Res.LIMIT) (visit c cl))
    (cs : List Nat) (cl : ArenaAllocPageClosure) (hcl : cl.res ≠ Res.LIMIT) :
    Post (fun _ r _ => r.2.res ≠ Res.LIMIT) (TreeTraverse visit cs cl) := by
  induction cs generalizing cl with
  | nil => exact post_pure _ (fun _ => hcl)
  | cons c cs ih =>
    unfold TreeTraverse
    refine post_bind_valdep (hv c cl hcl) (fun r hr => ?_)
    split
    · exact ih _ hr
    · exact post_pure _ (fun _ => hr)

theorem arenaAllocPage_notLimit (env : Env) (hm : ∀ a c i n p,
    (env.cls.pagesMarkAllocated a c i n p).1 ≠ Res.LIMIT) (pool : Nat) :
    Post (fun _ r _ => r.1 ≠ Res.LIMIT) (arenaAllocPage env pool) := by
  unfold arenaAllocPage
  refine post_bind_valdep post_val_of_true (fun arena _ => ?_)
  split
  · exact post_abort _
  · refine post_bind_valdep (arenaAllocPageInChunk_notLimit env hm _ _ (by simp))
      (fun r hr => ?_)
    split
    · exact post_bind_valdep post_val_of_true (fun _ _ => post_pure _ (fun _ => by simp))
    · refine post_bind_valdep post_val_of_true (fun arena' _ => ?_)
      refine post_bind_valdep (TreeTraverse_notLimit _
        (arenaAllocPageInChunk_notLimit env hm) _ _ hr) (fun r' hr' => ?_)
      split
      · exact post_bind_valdep post_val_of_true (fun _ _ => post_pure _ (fun _ => by simp))
      · exact post_bind_valdep post_val_of_true (fun _ _ => post_pure _ (fun _ => hr'))

theorem arenaExtendCBSBlockPool_notLimit (env : Env) (hm : ∀ a c i n p,
    (env.cls.pagesMarkAllocated a c i n p).1 ≠ Res.LIMIT) :
    Post (fun _ r _ => r.1 ≠ Res.LIMIT) (arenaExtendCBSBlockPool env) := by
  unfold arenaExtendCBSBlockPool
  refine post_bind_valdep (arenaAllocPage_notLimit env hm _) (fun r hr => ?_)
  split
  · exact post_pure _ (fun _ => hr)
  · refine post_bind_valdep post_val_of_true (fun arena _ => ?_)
    exact post_bind_valdep post_val_of_true (fun _ _ => post_pure _ (fun _ => by simp))

theorem allocFromLandFound_notLimit (env : Env) (hm : ∀ a c i n p,
    (env.cls.pagesMarkAllocated a c i n p).1 ≠ Res.LIMIT)
    (f : Res × Bool × Range × Range) (hf : f.1 ≠ Res.LIMIT) (pool : Nat) :
    Post (fun _ r _ => r.1 ≠ Res.LIMIT) (allocFromLandFound env f pool) := by
  unfold allocFromLandFound allocFromLandMark
  refine post_bind_valdep post_val_of_true (fun _ _ => ?_)
  split
  · exact post_pure _ (fun _ => hf)
  · split
    · exact post_pure _ (fun _ => by simp)
    · refine post_bind_valdep post_val_of_true (fun arena _ => ?_)
      split
      · exact post_abort _
      · refine post_bind_valdep post_val_of_true (fun _ _ => ?_)
        refine post_bind_valdep (V := fun x => x ≠ Res.LIMIT) ?_ (fun res hres => ?_)
        · intro a x a' ho
          simp only [classPagesMarkAllocated, Option.some.injEq, Prod.mk.injEq] at ho
          rw [← ho.1]; exact hm _ _ _ _ _
        · split
          · refine post_bind_valdep post_val_of_true (fun _ _ => ?_)
            exact post_bind_valdep post_val_of_true (fun _ _ => post_pure _ (fun _ => hres))
          · refine post_bind_valdep post_val_of_true (fun _ _ => ?_)
            exact post_bind_valdep post_val_of_true (fun _ _ => post_pure _ (fun _ => by simp))

theorem arenaAllocFromLand_notLimit (env : Env) (sys : Sys) (hn : NoLimit env sys)
    (zones : Nat) (high : Bool) (size pool : Nat) :
    Post (fun _ r _ => r.1 ≠ Res.LIMIT) (arenaAllocFromLand env zones high size pool) := by
  intro a r a' ho
  rw [arenaAllocFromLand_eq_steps] at ho
  unfold allocFromLandSteps at ho
  obtain ⟨-, h1⟩ := AVER_some_inv ho
  rw [h1, run_getArena_bind] at ho
  obtain ⟨-, h2⟩ := AVER_some_inv ho
  rw [h2] at ho
  obtain ⟨f, a₁, hf, hrest, -⟩ := bind_some_inv ho
  by_cases hL : f.1 = Res.LIMIT
  · rw [if_pos hL] at hrest
    obtain ⟨e, a₂, hE, hrest₂, -⟩ := bind_some_inv hrest
    have hne := arenaExtendCBSBlockPool_notLimit env hn.mark a₁ e a₂ hE
    by_cases he : e.1 ≠ Res.OK
    · rw [if_pos he] at hrest₂
      simp only [M.run_pure, Option.some.injEq, Prod.mk.injEq] at hrest₂
      rw [← hrest₂.1]
      exact hne
    · rw [if_neg he] at hrest₂
      have hX := arenaExtendCBSBlockPool_run env a₁
      rcases hP : ((arenaAllocPage env env.cbsBlockPool).run a₁).out with _ | ⟨p, a₀⟩
      · rw [hP] at hX
        simp only at hX
        rw [hX] at hE
        simp at hE
      rw [hP] at hX
      simp only at hX
      by_cases hp : p.1 ≠ Res.OK
      · rw [if_pos hp, ] at hX
        rw [hX] at hE
        simp only [Option.some.injEq, Prod.mk.injEq] at hE
        exact absurd (by rw [← hE.1]; exact hp) he
      rw [if_neg hp] at hX
      rw [hX] at hE
      simp only [Option.some.injEq, Prod.mk.injEq] at hE
      obtain ⟨hE1, hE2⟩ := hE
      rw [← hE1] at hrest₂
      simp only [Option.getD_some, RangeInit] at hrest₂
      obtain ⟨u, a₃, hD, hrest₃, -⟩ := bind_some_inv hrest₂
      rw [arenaExcludePage_run] at hD
      simp only at hD
      split at hD
      · simp at hD
      simp only [Option.some.injEq, Prod.mk.injEq, true_and] at hD
      obtain ⟨f₂, a₄, hf₂, hrest₄, -⟩ := bind_some_inv hrest₃
      simp only [landFindInZones, Option.some.injEq, Prod.mk.injEq] at hf₂
      obtain ⟨-, h5⟩ := AVER_some_inv hrest₄
      rw [h5] at hrest₄
      refine allocFromLandFound_notLimit env hn.mark f₂ ?_ pool a₄ r a' hrest₄
      rw [← hf₂.1, ← hD, ← hE2]
      exact hn.retry a₀ (p.2.getD 0) size _ high
  · rw [if_neg hL] at hrest
    exact allocFromLandFound_notLimit env hn.mark f hL pool a₁ r a' hrest

theorem tryPlan_notLimit (env : Env) (sys : Sys) (hn : NoLimit env sys) (p : Plan)
    (zones : Nat) (high : Bool) (size pool : Nat) :
    Post (fun _ r _ => r.1 ≠ Res.LIMIT) (tryPlan env p zones high size pool) := by
  unfold tryPlan
  refine post_bind_valdep post_val_of_true (fun _ _ => ?_)
  refine post_bind_valdep (arenaAllocFromLand_notLimit env sys hn zones high size pool)
    (fun r hr => ?_)
  exact post_bind_valdep post_val_of_true (fun _ _ => post_pure _ (fun _ => hr))

theorem planThen_notLimit (env : Env) (sys : Sys) (hn : NoLimit env sys) (p : Plan)
    (zones : Nat) (high : Bool) (size pool : Nat) (next : M (Res × Option Tract))
    (hnext : Post (fun _ r _ => r.1 ≠ Res.LIMIT) next) :
    Post (fun _ r _ => r.1 ≠ Res.LIMIT)
      (tryPlan env p zones high size pool >>= fun r =>
        if r.1 = Res.OK then pure (Res.OK, r.2) else next) := by
  refine post_bind_valdep (tryPlan_notLimit env sys hn p zones high size pool) (fun r _ => ?_)
  split
  · exact post_pure _ (fun _ => by simp)
  · exact hnext

theorem policyPlanE_notLimit (env : Env) (sys : Sys) (hn : NoLimit env sys) (pref : SegPref)
    (size pool : Nat) :
    Post (fun _ r _ => r.1 ≠ Res.LIMIT) (policyPlanE env pref size pool) := by
  unfold policyPlanE
  refine post_bind_valdep (tryPlan_notLimit env sys hn _ _ _ size pool) (fun r hr => ?_)
  split
  · exact post_pure _ (fun _ => by simp)
  · exact post_pure _ (fun _ => hr)

theorem policyPlanD_notLimit (env : Env) (sys : Sys) (hn : NoLimit env sys) (pref : SegPref)
    (size pool mz : Nat) :
    Post (fun _ r _ => r.1 ≠ Res.LIMIT) (policyPlanD env pref size pool mz) := by
  unfold policyPlanD
  split
  · exact planThen_notLimit env sys hn _ _ _ _ _ _ (policyPlanE_notLimit env sys hn pref size pool)
  · exact policyPlanE_notLimit env sys hn pref size pool

theorem policyPlanCB_notLimit (env : Env) (sys : Sys) (hn : NoLimit env sys) (pref : SegPref)
    (size pool zA mz : Nat) :
    Post (fun _ r _ => r.1 ≠ Res.LIMIT) (policyPlanCB env pref size pool zA mz) := by
  unfold policyPlanCB
  split
  · exact planThen_notLimit env sys hn _ _ _ _ _ _
      (policyPlanD_notLimit env sys hn pref size pool mz)
  · exact policyPlanD_notLimit env sys hn pref size pool mz

theorem policyPlanCA_notLimit (env : Env) (sys : Sys) (hn : NoLimit env sys) (pref : SegPref)
    (size pool zA mz : Nat) :
    Post (fun _ r _ => r.1 ≠ Res.LIMIT) (policyPlanCA env pref size pool zA mz) := by
  unfold policyPlanCA
  split
  · exact planThen_notLimit env sys hn _ _ _ _ _ _
      (policyPlanCB_notLimit env sys hn pref size pool zA mz)
  · exact policyPlanCB_notLimit env sys hn pref size pool zA mz

theorem policyPlanC_notLimit (env : Env) (sys : Sys) (hn : NoLimit env sys) (pref : SegPref)
    (size pool zA mz : Nat) :
    Post (fun _ r _ => r.1 ≠ Res.LIMIT) (policyPlanC env pref size pool zA mz) := by
  unfold policyPlanC
  split
  · refine post_bind_valdep (V := fun x => x ≠ Res.LIMIT) ?_ (fun res hres => ?_)
    · intro a x a' ho
      simp only [classGrow, Option.some.injEq, Prod.mk.injEq] at ho
      rw [← ho.1]; exact hn.grow _ _ _
    · split
      · exact post_pure _ (fun _ => hres)
      · exact policyPlanCA_notLimit env sys hn pref size pool zA mz
  · exact policyPlanD_notLimit env sys hn pref size pool mz

theorem arenaAllocPolicy_notLimit (env : Env) (sys : Sys) (hn : NoLimit env sys)
    (pref : SegPref) (size pool : Nat) :
    Post (fun _ r _ => r.1 ≠ Res.LIMIT) (arenaAllocPolicy env pref size pool) := by
  rw [arenaAllocPolicy_eq_plans]
  unfold policyPlans
  refine post_bind_valdep post_val_of_true (fun _ _ => ?_)
  refine post_bind_valdep post_val_of_true (fun arena _ => ?_)
  split
  · exact post_pure _ (fun _ => by simp)
  unfold policyPlanA
  have hB : ∀ zA, Post (fun _ r _ => r.1 ≠ Res.LIMIT) (policyPlanB env pref size pool zA) := by
    intro zA
    unfold policyPlanB
    refine post_bind_valdep post_val_of_true (fun arena' _ => ?_)
    split
    · exact planThen_notLimit env sys hn _ _ _ _ _ _
        (policyPlanC_notLimit env sys hn pref size pool zA _)
    · exact policyPlanC_notLimit env sys hn pref size pool zA _
  split
  · exact planThen_notLimit env sys hn _ _ _ _ _ _ (hB _)
  · exact hB _

/-- **C12.** For every call of `ArenaAlloc` that returns, the result code is not
`ResLIMIT`, the class methods `pagesMarkAllocated` and `grow` and the
reservoir being assumed not to return `ResLIMIT` themselves and the land to
honour its guarantee that the search repeated after the block pool was given
a page does not return `ResLIMIT`. -/
theorem ArenaAlloc_notLimit (env : Env) (sys : Sys) (hn : NoLimit env sys) (pref : SegPref)
    (size pool : Nat) (withReservoirPermit : Bool) (a : Arena) (r : Res × Option Nat)
    (a' : Arena)
    (ho : ((ArenaAlloc env sys pref size pool withReservoirPermit).run a).out = some (r, a')) :
    r.1 ≠ Res.LIMIT := by
  have hT : Post (fun _ r _ => r.1 ≠ Res.LIMIT)
      (arenaAllocTracts env sys pref size pool withReservoirPermit) := by
    unfold arenaAllocTracts arenaAllocFound
    refine post_bind_valdep (arenaAllocPolicy_notLimit env sys hn pref size pool) (fun x hx => ?_)
    have hfound : ∀ t : Option Tract, Post (fun _ (r : Res × Option Nat) _ => r.1 ≠ Res.LIMIT)
        (match t with
          | none => abort
          | some t => do
            let arena ← getArena
            let base := sys.TractBase arena t
            modifyArena (fun arena => { arena with lastTract := some t, lastTractBase := base })
            pure (Res.OK, some base)) := by
      intro t
      split
      · exact post_abort _
      · refine post_bind_valdep post_val_of_true (fun _ _ => ?_)
        exact post_bind_valdep post_val_of_true (fun _ _ => post_pure _ (fun _ => by simp))
    split
    · split
      · refine post_bind_valdep post_val_of_true (fun w _ => ?_)
        split
        · exact post_pure _ (fun _ => hx)
        · exact hfound _
      · exact post_pure _ (fun _ => hx)
    · exact hfound _
  refine (?_ : Post (fun _ (r : Res × Option Nat) _ => r.1 ≠ Res.LIMIT) _) a r a' ho
  unfold ArenaAlloc
  refine post_bind_valdep post_val_of_true (fun _ _ => ?_)
  refine post_bind_valdep post_val_of_true (fun _ _ => ?_)
  refine post_bind_valdep post_val_of_true (fun arena _ => ?_)
  refine post_bind_valdep post_val_of_true (fun _ _ => ?_)
  refine post_bind_valdep post_val_of_true (fun _ _ => ?_)
  split
  · refine post_bind_valdep (V := fun x => x ≠ Res.LIMIT) ?_ (fun res hres => ?_)
    · intro a x a' ho
      simp only [reservoirEnsureFull, callRes, Option.some.injEq, Prod.mk.injEq] at ho
      rw [← ho.1]; exact hn.ensureFull _
    · split
      · refine post_bind_valdep post_val_of_true (fun _ _ => ?_)
        split
        · exact post_pure _ (fun _ => hres)
        · exact hT
      · exact hT
  · exact hT

theorem simpleLandDelete_limit (land : Land) (r : Range)
    (h : (simpleLandDelete land r).1 = Res.LIMIT) : land.blockPool.freeUnits = 0 := by
  unfold simpleLandDelete at h
  split at h
  · simp at h
  · simp only at h
    split at h
    · simp at h
    · split at h
      · simp at h
      · split at h
        · simp at h
        · split at h
          · assumption
          · simp at h

theorem simpleLandDelete_units (land : Land) (r : Range) :
    land.blockPool.freeUnits ≤ (simpleLandDelete land r).2.2.blockPool.freeUnits + 1 := by
  unfold simpleLandDelete
  split
  · simp
  · simp only
    split
    · simp only; omega
    · split
      · simp
      · split
        · simp
        · split
          · simp
          · simp only; omega

theorem simpleLandFindInZones_limit (W : Nat) (a : Arena) (size zones : Nat) (high : Bool)
    (h : (simpleLandFindInZones W a size zones high).1 = Res.LIMIT) :
    a.freeLand.blockPool.freeUnits = 0 := by
  unfold simpleLandFindInZones at h
  simp only at h
  split at h
  · simp at h
  · split at h
    · simp at h
    · exact simpleLandDelete_limit _ _ h

theorem simpleEnv_noLimit : NoLimit simpleEnv simpleSys := by
  refine ⟨fun a c i n p => ?_, fun a pref size => by simp [simpleEnv, simpleClass, ArenaNoGrow],
    fun a => by simp [simpleSys], fun a pb size zones high hL => ?_⟩
  · show (simplePagesMarkAllocated a c i n p).1 ≠ Res.LIMIT
    unfold simplePagesMarkAllocated
    split <;> simp
  · have h0 := simpleLandFindInZones_limit 64 _ size zones high hL
    have h1 := simpleLandDelete_units
      { a.freeLand with blockPool := simpleMFSExtend 64 a.freeLand.blockPool pb a.alignment }
      ⟨pb, pb + a.alignment⟩
    simp only [simpleMFSExtend] at h1
    simp only [simpleEnv, simpleMFSExtend] at h0
    omega

/-- Witness for C12: the land reports `ResLIMIT` on the first search; the arena
feeds the block pool, repeats the search, and `ArenaAlloc` returns `ResOK`. -/
theorem ArenaAlloc_notLimit_witness :
    Event.find 8192 0x20000 false Res.LIMIT false ⟨0x110000, 0x112000⟩ ∈
      ((ArenaAlloc simpleEnv simpleSys ⟨false, 0x20000, 0⟩ 8192 1 false).run
        (simpleArena 0)).evs ∧
    ((ArenaAlloc simpleEnv simpleSys ⟨false, 0x20000, 0⟩ 8192 1 false).run (simpleArena 0)).out =
      some ((Res.OK, some 0x110000), simpleArenaFed) ∧
    (Res.OK, some 0x110000).1 ≠ Res.LIMIT :=
  ⟨by decide, by decide,
    ArenaAlloc_notLimit simpleEnv simpleSys simpleEnv_noLimit ⟨false, 0x20000, 0⟩ 8192 1 false
      (simpleArena 0) (Res.OK, some 0x110000) simpleArenaFed (by decide)⟩

/-- A property of the result and the final arena that every continuation
establishes holds of the whole run. -/
theorem post_bind_final {α β : Type} {Q : β → Arena → Prop} {m : M α} {g : α → M β}
    (hg : ∀ x, Post (fun _ y a' => Q y a') (g x)) :
    Post (fun _ y a' => Q y a') (m >>= g) := by
  intro a y a' ho
  obtain ⟨x, a₁, -, hrest, -⟩ := bind_some_inv ho
  exact hg x a₁ y a' hrest

theorem post_pure_final {β : Type} {Q : β → Arena → Prop} (y : β) (h : ∀ a, Q y a) :
    Post (fun _ y a' => Q y a') (pure y : M β) := by
  intro a y' a' ho
  have h1 : (y, a) = (y', a') := by simpa using ho
  cases h1
  exact h a

theorem post_abort_final {β : Type} {Q : β → Arena → Prop} :
    Post (fun _ y a' => Q y a') (abort : M β) := by
  intro a y' a' ho
  simp [abort] at ho

/-- When `ArenaCreate` returns `ResOK` it has written to `*arenaReturn` the
arena it leaves, which passed `ArenaCheck` if the variety is a checking one. -/
theorem ArenaCreate_checked (env : Env) (sys : Sys) (args : ArgList) :
    Post (fun _ r a' => r.1 = Res.OK →
      r.2 = some a' ∧ (env.checking = true → ArenaCheck env sys a' = true))
      (ArenaCreate env sys args) := by
  have hfail : ∀ res : Res, res ≠ Res.OK →
      Post (fun _ (r : Res × Option Arena) a' => r.1 = Res.OK →
        r.2 = some a' ∧ (env.checking = true → ArenaCheck env sys a' = true))
        (pure (res, none) : M (Res × Option Arena)) :=
    fun res hres => post_pure_final _ (fun _ h => absurd h hres)
  unfold ArenaCreate
  refine post_bind_final (fun res => ?_)
  split
  · exact hfail res ‹_›
  refine post_bind_final (fun arena => ?_)
  split
  · exact post_bind_final (fun _ => hfail _ (by decide))
  split
  · exact post_abort_final
  refine post_bind_final (fun res => ?_)
  split
  · exact post_bind_final (fun _ => hfail res ‹_›)
  refine post_bind_final (fun _ => ?_)
  refine post_bind_final (fun res => ?_)
  split
  · exact post_bind_final (fun _ => hfail res ‹_›)
  refine post_bind_final (fun res => ?_)
  split
  · exact post_bind_final (fun _ => post_bind_final (fun _ => hfail res ‹_›))
  intro a r a' ho _
  rw [run_AVERT_Arena_bind] at ho
  by_cases hc : (env.checking && !ArenaCheck env sys a) = true
  · rw [if_pos hc] at ho
    simp at ho
  · rw [if_neg hc, run_getArena_bind] at ho
    have h1 : ((Res.OK, some a), a) = (r, a') := by simpa using ho
    cases h1
    refine ⟨rfl, fun h => ?_⟩
    simpa [h] using hc


theorem stripe_le (W s : Nat) : (1 <<< s) % 2 ^ W ≤ 2 ^ s := by
  rw [Nat.shiftLeft_eq, Nat.one_mul]
  exact Nat.mod_le _ _

theorem ArenaCheck_stripe (env : Env) (sys : Sys) (a : Arena)
    (h : ArenaCheck env sys a = true) : a.alignment ≤ 2 ^ a.zoneShift := by
  unfold ArenaCheck at h
  simp only [Bool.and_eq_true, decide_eq_true_eq] at h
  exact le_trans h.1.1.1.1.1.2 (stripe_le _ _)

theorem classInit_run (sys : Sys) (args : ArgList) (a : Arena) :
    (classInit sys args).run a = ⟨[Event.classInit (sys.classInit args).1],
      some ((sys.classInit args).1, (sys.classInit args).2)⟩ := rfl

/-- The run of `ArenaCreate` when the class `init` method fails the stripe
test. -/
theorem ArenaCreate_narrow_run (env : Env) (sys : Sys) (args : ArgList) (a : Arena)
    (hi : (sys.classInit args).1 = Res.OK)
    (hs : (sys.classInit args).2.alignment >
      (1 <<< (sys.classInit args).2.zoneShift) % 2 ^ env.W) :
    (ArenaCreate env sys args).run a =
      ⟨[Event.classInit Res.OK, Event.classFinish],
        some ((Res.MEMORY, none), sys.classFinish (sys.classInit args).2)⟩ := by
  unfold ArenaCreate
  rw [run_bind_of_some (x := (sys.classInit args).1) (b := (sys.classInit args).2) rfl,
    classInit_run]
  simp only
  rw [if_neg (fun h => h hi), run_getArena_bind, if_pos hs, hi, Run.ext_iff']
  simp [classFinish, callVoid, M.run_bind]

/-- **C17.** `ArenaCreate` returns `ResOK` only if the class `init` method
returned `ResOK` and made an arena with `alignment ≤ 2 ^ zoneShift`; it has then
written to `*arenaReturn` the arena it leaves, and in a checking variety that
arena, too, has `alignment ≤ 2 ^ zoneShift`.  If the class `init` method returns
`ResOK` and makes an arena with `alignment > 2 ^ zoneShift`, the calls
`ArenaCreate` makes are the class `init` and the class `finish` method and no
other: no `LandInsert`, no initialisation of the control pool; it returns
`ResMEMORY` and writes nothing to `*arenaReturn`. -/
theorem ArenaCreate_stripe (env : Env) (sys : Sys) (args : ArgList) (a : Arena) :
    (∀ r a', ((ArenaCreate env sys args).run a).out = some (r, a') → r.1 = Res.OK →
      (sys.classInit args).1 = Res.OK ∧
      (sys.classInit args).2.alignment ≤ 2 ^ (sys.classInit args).2.zoneShift ∧
      r.2 = some a' ∧
      (env.checking = true → a'.alignment ≤ 2 ^ a'.zoneShift)) ∧
    ((sys.classInit args).1 = Res.OK →
      (sys.classInit args).2.alignment > 2 ^ (sys.classInit args).2.zoneShift →
      (ArenaCreate env sys args).run a =
        ⟨[Event.classInit Res.OK, Event.classFinish],
          some ((Res.MEMORY, none), sys.classFinish (sys.classInit args).2)⟩) := by
  refine ⟨fun r a' ho hr => ?_, fun hi hs =>
    ArenaCreate_narrow_run env sys args a hi (lt_of_le_of_lt (stripe_le _ _) hs)⟩
  have hchk := ArenaCreate_checked env sys args a r a' ho hr
  have hi : (sys.classInit args).1 = Res.OK := by
    by_contra hi
    unfold ArenaCreate at ho
    rw [run_bind_of_some (x := (sys.classInit args).1) (b := (sys.classInit args).2) rfl,
      if_pos hi] at ho
    have h1 : (((sys.classInit args).1, (none : Option Arena)), (sys.classInit args).2)
        = (r, a') := by simpa using ho
    cases h1
    exact hi hr
  have hs : (sys.classInit args).2.alignment ≤
      (1 <<< (sys.classInit args).2.zoneShift) % 2 ^ env.W := by
    by_contra hs
    rw [ArenaCreate_narrow_run env sys args a hi (by omega)] at ho
    have h1 : ((Res.MEMORY, (none : Option Arena)), sys.classFinish (sys.classInit args).2)
        = (r, a') := by simpa using ho
    cases h1
    exact absurd hr (by decide)
  exact ⟨hi, le_trans hs (stripe_le _ _), hchk.1,
    fun hc => ArenaCheck_stripe env sys a' (hchk.2 hc)⟩

/-- **C17**, on the sample systems: in `simpleSys` (stripes of 64 KiB, grains
of 4 KiB) `ArenaCreate` returns `ResOK`; in `narrowSys` (stripes of 256 bytes)
it calls the class `init` and `finish` methods and returns `ResMEMORY`. -/
theorem ArenaCreate_stripe_witness :
    ((simpleSys.classInit ⟨none, none⟩).1 = Res.OK ∧
      (simpleSys.classInit ⟨none, none⟩).2.alignment
        ≤ 2 ^ (simpleSys.classInit ⟨none, none⟩).2.zoneShift ∧
      ((Res.OK, some simpleArenaCreated) : Res × Option Arena).2 = some simpleArenaCreated ∧
      (simpleEnv.checking = true →
        simpleArenaCreated.alignment ≤ 2 ^ simpleArenaCreated.zoneShift)) ∧
    (ArenaCreate simpleEnv narrowSys ⟨none, none⟩).run (simpleArena 0) =
      ⟨[Event.classInit Res.OK, Event.classFinish],
        some ((Res.MEMORY, none), narrowSys.classFinish (narrowSys.classInit ⟨none, none⟩).2)⟩ :=
  ⟨(ArenaCreate_stripe simpleEnv simpleSys ⟨none, none⟩ (simpleArena 0)).1
      (Res.OK, some simpleArenaCreated) simpleArenaCreated (by decide) rfl,
    (ArenaCreate_stripe simpleEnv narrowSys ⟨none, none⟩ (simpleArena 0)).2 rfl (by decide)⟩

theorem run_callVoid_bind {β : Type} (g : Arena → Arena) (ev : List Event) (f : Unit → M β)
    (a : Arena) :
    (callVoid g ev >>= f).run a = ⟨ev ++ ((f ()).run (g a)).evs, ((f ()).run (g a)).out⟩ := by
  rw [run_bind_of_some (x := ()) (b := g a) rfl]
  rfl

/-- The run of `ArenaDestroy` on an arena that passes every check on the
way: the calls are `GlobalsPrepareToDestroy`, `ReservoirSetLimit(0)`, the
finishing of the control pool, `LandFinish` and the class `finish` method. -/
theorem ArenaDestroy_run (env : Env) (sys : Sys) (a : Arena)
    (h1 : env.checking = true → ArenaCheck env sys a = true)
    (h2 : env.checking = true → ArenaCheck env sys
      { sys.ReservoirSetLimit (sys.GlobalsPrepareToDestroy a) 0 with poolReady := false } = true)
    (h3 : env.checking = true → (sys.ControlPoolFinish
      { sys.ReservoirSetLimit (sys.GlobalsPrepareToDestroy a) 0 with
        poolReady := false }).hasFreeLand = true) :
    (ArenaDestroy env sys).run a =
      ⟨[Event.globalsPrepareToDestroy, Event.reservoirSetLimit 0, Event.controlPoolFinish,
          Event.landFinish, Event.classFinish],
        some ((), sys.classFinish (sys.LandFinish
          { sys.ControlPoolFinish
              { sys.ReservoirSetLimit (sys.GlobalsPrepareToDestroy a) 0 with
                poolReady := false } with hasFreeLand := false }))⟩ := by
  have c1 : ¬ (env.checking && !ArenaCheck env sys a) = true := by
    intro h
    rcases Bool.and_eq_true_iff.mp h with ⟨hc, hn⟩
    rw [h1 hc] at hn
    exact absurd hn (by decide)
  have c2 : ¬ (env.checking && !ArenaCheck env sys
      { sys.ReservoirSetLimit (sys.GlobalsPrepareToDestroy a) 0 with poolReady := false })
        = true := by
    intro h
    rcases Bool.and_eq_true_iff.mp h with ⟨hc, hn⟩
    rw [h2 hc] at hn
    exact absurd hn (by decide)
  have c3 : ¬ (env.checking && !(sys.ControlPoolFinish
      { sys.ReservoirSetLimit (sys.GlobalsPrepareToDestroy a) 0 with
        poolReady := false }).hasFreeLand) = true := by
    intro h
    rcases Bool.and_eq_true_iff.mp h with ⟨hc, hn⟩
    rw [h3 hc] at hn
    exact absurd hn (by decide)
  unfold ArenaDestroy ControlFinish
  rw [run_AVERT_Arena_bind, if_neg c1, run_callVoid_bind, run_callVoid_bind,
    run_modifyArena_bind]
  rw [run_bind_of_some (x := ()) (b := sys.ControlPoolFinish
      { sys.ReservoirSetLimit (sys.GlobalsPrepareToDestroy a) 0 with poolReady := false })
      (by rw [run_AVERT_Arena_bind, if_neg c2, run_modifyArena_bind]; rfl)]
  rw [run_AVERT_Arena_bind, if_neg c2, run_modifyArena_bind]
  rw [run_getArena_bind, run_AVER_bind, if_neg c3, run_modifyArena_bind, run_callVoid_bind]
  rfl


/-- **C18.** The sample arena `simpleArenaCreated` is the one `ArenaCreate`
makes in the sample system; its CBS block pool holds one page, at `0x101000`.
`ArenaDestroy` on it calls `GlobalsPrepareToDestroy`, `ReservoirSetLimit(0)`,
the finishing of the control pool, `LandFinish` and the class `finish` method,
and returns: between `LandFinish` and the class `finish` method there is no
call of the class `free` method, and no such call anywhere in the run. -/
theorem ArenaDestroy_pages :
    ((ArenaCreate simpleEnv simpleSys ⟨none, none⟩).run (simpleArena 0)).out =
      some ((Res.OK, some simpleArenaCreated), simpleArenaCreated) ∧
    simpleArenaCreated.freeLand.blockPool.tracts = [0x101000] ∧
    (ArenaDestroy simpleEnv simpleSys).run simpleArenaCreated =
      ⟨[Event.globalsPrepareToDestroy, Event.reservoirSetLimit 0, Event.controlPoolFinish,
          Event.landFinish, Event.classFinish],
        some ((), { simpleArenaCreated with
          poolReady := false, hasFreeLand := false, sig := 0x51915BAD })⟩ ∧
    ∀ e ∈ ((ArenaDestroy simpleEnv simpleSys).run simpleArenaCreated).evs,
      e.isFree = false := by
  have hrun := ArenaDestroy_run simpleEnv simpleSys simpleArenaCreated
    (fun _ => by decide) (fun _ => by decide) (fun _ => by decide)
  refine ⟨by decide, rfl, hrun.trans rfl, ?_⟩
  rw [hrun]
  decide

theorem ArenaDestroy_abort (env : Env) (sys : Sys) (hc : env.checking = true) (a : Arena)
    (hs : a.sig ≠ sys.ArenaSig) : (ArenaDestroy env sys).run a = ⟨[], none⟩ := by
  have hck : ArenaCheck env sys a = false := by
    unfold ArenaCheck
    have : (a.sig == sys.ArenaSig) = false := by simpa using hs
    simp [this]
  unfold ArenaDestroy
  rw [run_AVERT_Arena_bind, if_pos (by simp [hc, hck])]

theorem ArenaFinish_sig (env : Env) (sys : Sys)
    (hG : ∀ a, (sys.GlobalsFinish a).sig = a.sig) (hL : ∀ a, (sys.LocusFinish a).sig = a.sig)
    (a a' : Arena) (ho : ((ArenaFinish env sys).run a).out = some ((), a')) :
    a'.sig = sys.SigInvalid := by
  unfold ArenaFinish at ho
  rw [run_callVoid_bind, run_callVoid_bind, run_modifyArena_bind, run_callVoid_bind,
    run_callVoid_bind] at ho
  simp only [run_getArena_bind, run_AVER] at ho
  split at ho
  · simp at ho
  · have h1 : ((), sys.LocusFinish (sys.GlobalsFinish
        { sys.ReservoirFinish (sys.BlockPoolFinish a) with sig := sys.SigInvalid }))
        = ((), a') := by simpa using ho
    cases h1
    rw [hL, hG]

/-- **C19.** In a checking variety `ArenaDestroy` on an object whose
signature is not `ArenaSig` stops at its first statement, the validity
assertion: no call has been made, so not `GlobalsPrepareToDestroy`,
`ReservoirSetLimit`, `ControlFinish`, `LandFinish` or the class `finish`
method.  An arena that `ArenaFinish` has finished is such an object, `SigInvalid`
being another value than `ArenaSig` and `GlobalsFinish` and `LocusFinish` leaving
the signature alone. -/
theorem ArenaDestroy_invalid (env : Env) (sys : Sys) (hc : env.checking = true) :
    (∀ a, a.sig ≠ sys.ArenaSig → (ArenaDestroy env sys).run a = ⟨[], none⟩) ∧
    (sys.SigInvalid ≠ sys.ArenaSig → (∀ a, (sys.GlobalsFinish a).sig = a.sig) →
      (∀ a, (sys.LocusFinish a).sig = a.sig) →
      ∀ a a', ((ArenaFinish env sys).run a).out = some ((), a') →
        a'.sig = sys.SigInvalid ∧ (ArenaDestroy env sys).run a' = ⟨[], none⟩) := by
  refine ⟨fun a hs => ArenaDestroy_abort env sys hc a hs, fun hne hG hL a a' ho => ?_⟩
  have hs := ArenaFinish_sig env sys hG hL a a' ho
  exact ⟨hs, ArenaDestroy_abort env sys hc a' (by rw [hs]; exact hne)⟩

/-- **C19**, on the sample system: `ArenaDestroy` stops without a call on an
object whose signature is 0, and on the arena `simpleArenaFinished` that
`ArenaFinish` leaves. -/
theorem ArenaDestroy_invalid_witness :
    simpleEnv.checking = true ∧
    ({ simpleArena 0 with sig := 0 } : Arena).sig ≠ simpleSys.ArenaSig ∧
    (ArenaDestroy simpleEnv simpleSys).run { simpleArena 0 with sig := 0 } = ⟨[], none⟩ ∧
    ((ArenaFinish simpleEnv simpleSys).run simpleArenaEmptied).out
      = some ((), simpleArenaFinished) ∧
    simpleArenaFinished.sig = simpleSys.SigInvalid ∧
    (ArenaDestroy simpleEnv simpleSys).run simpleArenaFinished = ⟨[], none⟩ :=
  ⟨rfl, by decide,
    (ArenaDestroy_invalid simpleEnv simpleSys rfl).1 { simpleArena 0 with sig := 0 } (by decide),
    by decide,
    (ArenaDestroy_invalid simpleEnv simpleSys rfl).2 (by decide) (fun _ => rfl) (fun _ => rfl)
      simpleArenaEmptied simpleArenaFinished (by decide)⟩

theorem lastFound_cons (e : Event) (es : List Event) :
    lastFound (e :: es) =
      match lastFound es with
      | some r => some r
      | none =>
        match e with
        | .find _ _ _ Res.OK true r => some r
        | _ => none := rfl

theorem lastFound_append_some (xs ys : List Event) (r : Range) (h : lastFound ys = some r) :
    lastFound (xs ++ ys) = some r := by
  induction xs with
  | nil => simpa using h
  | cons x xs ih => rw [List.cons_append, lastFound_cons, ih]

theorem lastFound_append_none (xs ys : List Event) (h : lastFound ys = none) :
    lastFound (xs ++ ys) = lastFound xs := by
  induction xs with
  | nil => simpa using h
  | cons x xs ih => rw [List.cons_append, lastFound_cons, ih, lastFound_cons]

theorem lastFound_nil : lastFound [] = none := rfl

theorem quiet_append {xs ys : List Event} (h : ∀ e ∈ xs ++ ys, e.isQuiet = true) :
    (∀ e ∈ xs, e.isQuiet = true) ∧ (∀ e ∈ ys, e.isQuiet = true) :=
  ⟨fun e he => h e (List.mem_append_left _ he), fun e he => h e (List.mem_append_right _ he)⟩

/-- Step 2 of `arenaAllocFromLand` in a quiet run: it makes no search; on
`ResOK` the land is left alone, on failure the range was inserted again, into
the land as it stood, and `LandInsert` returned `ResOK`. -/
theorem allocFromLandMark_trip (env : Env) (sys : Sys) (hf : LandFrame env sys) (range : Range)
    (pool : Nat) (a₁ : Arena) (x : Res × Option Tract) (a' : Arena)
    (ho : ((allocFromLandMark env range pool).run a₁).out = some (x, a'))
    (hq : ∀ e ∈ ((allocFromLandMark env range pool).run a₁).evs, e.isQuiet = true) :
    lastFound ((allocFromLandMark env range pool).run a₁).evs = none ∧
    (x.1 = Res.OK → a'.freeLand = a₁.freeLand) ∧
    (x.1 ≠ Res.OK → ∃ a₂ : Arena, a₂.freeLand = a₁.freeLand ∧
      (env.LandInsert a₂ range).1 = Res.OK ∧ a'.freeLand = (env.LandInsert a₂ range).2.2) := by
  rcases hchunk : ChunkOfAddr a₁ range.base with _ | chunk
  · unfold allocFromLandMark at ho
    rw [run_getArena_bind] at ho
    simp [hchunk, abort] at ho
  by_cases hal : (env.checking && !RangeIsAligned range chunk.pageSize) = true
  · unfold allocFromLandMark at ho
    rw [run_getArena_bind] at ho
    simp only [hchunk] at ho
    rw [run_AVER_bind, if_pos hal] at ho
    simp at ho
  have hal' : env.checking = true → RangeIsAligned range chunk.pageSize = true := by
    intro hc; simpa [hc] using hal
  rw [allocFromLandMark_run env range pool _ chunk hchunk hal'] at ho hq ⊢
  by_cases hm : (env.cls.pagesMarkAllocated a₁ chunk
      (INDEX_OF_ADDR chunk range.base) (ChunkSizeToPages chunk (RangeSize range)) pool).1 ≠
      Res.OK
  · rw [if_pos hm] at ho hq ⊢
    obtain ⟨rest, hrest, hret⟩ := failMark_run env range
      (env.cls.pagesMarkAllocated a₁ chunk (INDEX_OF_ADDR chunk range.base)
        (ChunkSizeToPages chunk (RangeSize range)) pool).1
      (env.cls.pagesMarkAllocated a₁ chunk (INDEX_OF_ADDR chunk range.base)
        (ChunkSizeToPages chunk (RangeSize range)) pool).2
    simp only at ho hq ⊢
    rw [hrest] at hq ⊢
    have hins : (env.LandInsert (env.cls.pagesMarkAllocated a₁ chunk
        (INDEX_OF_ADDR chunk range.base) (ChunkSizeToPages chunk (RangeSize range)) pool).2
        range).1 = Res.OK := by
      have := hq _ (List.mem_cons_of_mem _ (List.mem_cons_self _ _))
      simpa [Event.isQuiet] using this
    obtain ⟨hnil, hout⟩ := hret (by rw [hins]; decide)
    rw [hout] at ho
    simp only [Option.some.injEq, Prod.mk.injEq] at ho
    obtain ⟨hx, ha'⟩ := ho
    subst hnil
    refine ⟨by simp [lastFound], fun h => ?_, fun _ => ⟨_, hf.mark _ _ _ _ _, hins, ?_⟩⟩
    · rw [← hx] at h
      exact absurd h hm
    · rw [← ha']
  · rw [if_neg hm] at ho hq ⊢
    simp only [Option.some.injEq, Prod.mk.injEq] at ho
    obtain ⟨hx, ha'⟩ := ho
    refine ⟨by simp [lastFound], fun _ => ?_, fun h => ?_⟩
    · rw [← ha']
      exact hf.mark _ _ _ _ _
    · rw [← hx] at h
      exact absurd rfl h


theorem landFindInZones_run (env : Env) (size zones : Nat) (high : Bool) (a : Arena) :
    (landFindInZones env size zones high).run a =
      ⟨[Event.find size zones high (env.LandFindInZones a size zones high).1
          (env.LandFindInZones a size zones high).2.1
          (env.LandFindInZones a size zones high).2.2.1],
        some (((env.LandFindInZones a size zones high).1,
            (env.LandFindInZones a size zones high).2.1,
            (env.LandFindInZones a size zones high).2.2.1,
            (env.LandFindInZones a size zones high).2.2.2.1),
          { a with freeLand := (env.LandFindInZones a size zones high).2.2.2.2 })⟩ := rfl

theorem run_landFindInZones_bind {γ : Type} (env : Env) (size zones : Nat) (high : Bool)
    (f : Res × Bool × Range × Range → M γ) (a : Arena) :
    (landFindInZones env size zones high >>= f).run a =
      ⟨Event.find size zones high (env.LandFindInZones a size zones high).1
          (env.LandFindInZones a size zones high).2.1
          (env.LandFindInZones a size zones high).2.2.1 ::
        ((f ((env.LandFindInZones a size zones high).1,
            (env.LandFindInZones a size zones high).2.1,
            (env.LandFindInZones a size zones high).2.2.1,
            (env.LandFindInZones a size zones high).2.2.2.1)).run
          { a with freeLand := (env.LandFindInZones a size zones high).2.2.2.2 }).evs,
       ((f ((env.LandFindInZones a size zones high).1,
            (env.LandFindInZones a size zones high).2.1,
            (env.LandFindInZones a size zones high).2.2.1,
            (env.LandFindInZones a size zones high).2.2.2.1)).run
          { a with freeLand := (env.LandFindInZones a size zones high).2.2.2.2 }).out⟩ := by
  rw [run_bind_of_some (x := ((env.LandFindInZones a size zones high).1,
      (env.LandFindInZones a size zones high).2.1,
      (env.LandFindInZones a size zones high).2.2.1,
      (env.LandFindInZones a size zones high).2.2.2.1))
    (b := { a with freeLand := (env.LandFindInZones a size zones high).2.2.2.2 }) rfl]
  rfl

/-- `arenaAllocFromLand` in a quiet run. -/
theorem arenaAllocFromLand_trip {β : Type} (env : Env) (sys : Sys) (inv : Land → Prop)
    (V : Land → β) (hl : LandUndo env inv V) (hf : LandFrame env sys) (zones : Nat)
    (high : Bool) (size pool : Nat) (v : β) :
    Trip env inv V v (arenaAllocFromLand env zones high size pool) := by
  intro a x a' hinv hv ho hq
  rw [arenaAllocFromLand_eq_steps] at ho hq ⊢
  unfold allocFromLandSteps at ho hq ⊢
  obtain ⟨-, h1⟩ := AVER_some_inv ho
  rw [h1, run_getArena_bind] at ho hq ⊢
  obtain ⟨-, h2⟩ := AVER_some_inv ho
  rw [h2] at ho hq ⊢
  rw [run_landFindInZones_bind] at ho hq ⊢
  simp only at ho hq ⊢
  have hres : (env.LandFindInZones a size (searchZones env a zones) high).1 = Res.OK := by
    have := hq _ (List.mem_cons_self _ _)
    simpa [Event.isQuiet] using this
  rw [if_neg (by rw [hres]; decide)] at ho hq ⊢
  rcases allocFromLandFound_out env _ pool _ _ _ ho with ⟨h, -⟩ | ⟨-, hnf, hx, ha'⟩ | ⟨-, hfd, hrun⟩
  · exact absurd hres h
  · simp only at hnf
    obtain ⟨hi, hV⟩ := hl.miss a size (searchZones env a zones) high hinv hres hnf
    rw [hx, ha']
    exact ⟨fun h => absurd h (by decide), fun _ => ⟨hi, hV.trans hv⟩⟩
  · simp only at hfd hrun
    rw [hrun] at ho hq ⊢
    obtain ⟨hlf, hok, hfail⟩ := allocFromLandMark_trip env sys hf _ pool _ x a' ho
      (fun e he => hq e (List.mem_cons_of_mem _ he))
    refine ⟨fun hx => ⟨(env.LandFindInZones a size (searchZones env a zones) high).2.2.1,
      ?_, ?_⟩, fun hx => ?_⟩
    · rw [lastFound_cons, hlf, hres, hfd]
    · intro a'' ha'' hins
      rw [← hv]
      exact (hl.undo a a'' size (searchZones env a zones) high hinv hres hfd
        (by rw [ha'', hok hx]) hins).2
    · obtain ⟨a₂, ha₂, hins, hland⟩ := hfail hx
      rw [hland, ← hv]
      exact hl.undo a a₂ size (searchZones env a zones) high hinv hres hfd ha₂ hins


theorem run_emit_bind {γ : Type} (e : Event) (f : Unit → M γ) (a : Arena) :
    (emit e >>= f).run a = ⟨e :: ((f ()).run a).evs, ((f ()).run a).out⟩ := by
  rw [run_bind_of_some (x := ()) (b := a) rfl]
  rfl

theorem lastFound_cons_some (e : Event) (es : List Event) (r : Range)
    (h : lastFound es = some r) : lastFound (e :: es) = some r := by
  rw [lastFound_cons, h]

/-- One plan of the policy in a quiet run. -/
theorem tryPlan_trip {β : Type} (env : Env) (sys : Sys) (inv : Land → Prop)
    (V : Land → β) (hl : LandUndo env inv V) (hf : LandFrame env sys) (p : Plan) (zones : Nat)
    (high : Bool) (size pool : Nat) (v : β) :
    Trip env inv V v (tryPlan env p zones high size pool) := by
  intro a x a' hinv hv ho hq
  unfold tryPlan at ho hq ⊢
  rw [run_emit_bind] at ho hq ⊢
  simp only at ho hq ⊢
  obtain ⟨r, a₁, hr, hrest, hevs⟩ := bind_some_inv ho
  rw [hevs] at hq ⊢
  rw [run_emit_bind] at hrest hq ⊢
  simp only [M.run_pure, Option.some.injEq, Prod.mk.injEq] at hrest hq ⊢
  obtain ⟨rfl, rfl⟩ := hrest
  obtain ⟨hok, hfail⟩ := arenaAllocFromLand_trip env sys inv V hl hf zones high size pool v
    a r a₁ hinv hv hr
    (fun e he => hq e (List.mem_cons_of_mem _ (List.mem_append_left _ he)))
  refine ⟨fun hx => ?_, hfail⟩
  obtain ⟨rg, hlf, hp⟩ := hok hx
  refine ⟨rg, lastFound_cons_some _ _ _ ?_, hp⟩
  rw [lastFound_append_none _ [Event.planEnd p r.1] rfl]
  exact hlf

/-- A computation that fails without touching the arena. -/
theorem pure_trip {β γ : Type} (env : Env) (inv : Land → Prop) (V : Land → β) (v : β)
    (res : Res) (hres : res ≠ Res.OK) :
    Trip env inv V v (pure (res, none) : M (Res × Option γ)) := by
  intro a x a' hinv hv ho _
  simp only [M.run_pure, Option.some.injEq, Prod.mk.injEq] at ho
  obtain ⟨rfl, rfl⟩ := ho
  exact ⟨fun h => absurd h hres, fun _ => ⟨hinv, hv⟩⟩

/-- A plan followed, when it fails, by what comes next. -/
theorem planThen_trip {β : Type} (env : Env) (sys : Sys) (inv : Land → Prop)
    (V : Land → β) (hl : LandUndo env inv V) (hf : LandFrame env sys) (p : Plan) (zones : Nat)
    (high : Bool) (size pool : Nat) (v : β) (next : Res × Option Tract → M (Res × Option Tract))
    (hnext : ∀ r, r.1 ≠ Res.OK → Trip env inv V v (next r)) :
    Trip env inv V v
      (tryPlan env p zones high size pool >>= fun r =>
        if r.1 = Res.OK then pure (Res.OK, r.2) else next r) := by
  intro a x a' hinv hv ho hq
  obtain ⟨r, a₁, hr, hrest, hevs⟩ := bind_some_inv ho
  rw [hevs] at hq ⊢
  obtain ⟨hok, hfail⟩ := tryPlan_trip env sys inv V hl hf p zones high size pool v
    a r a₁ hinv hv hr (quiet_append hq).1
  by_cases hres : r.1 = Res.OK
  · rw [if_pos hres] at hrest ⊢
    simp only [M.run_pure, Option.some.injEq, Prod.mk.injEq] at hrest ⊢
    obtain ⟨rfl, rfl⟩ := hrest
    refine ⟨fun _ => ?_, fun h => absurd rfl h⟩
    rw [List.append_nil]
    exact hok hres
  · rw [if_neg hres] at hrest hq ⊢
    obtain ⟨hi, hV⟩ := hfail hres
    obtain ⟨hok', hfail'⟩ := hnext r hres a₁ x a' hi hV hrest (quiet_append hq).2
    refine ⟨fun hx => ?_, hfail'⟩
    obtain ⟨rg, hlf, hp⟩ := hok' hx
    exact ⟨rg, lastFound_append_some _ _ _ hlf, hp⟩


theorem getArena_trip {β γ : Type} (env : Env) (inv : Land → Prop) (V : Land → β) (v : β)
    (f : Arena → M (Res × Option γ)) (h : ∀ arena, Trip env inv V v (f arena)) :
    Trip env inv V v (getArena >>= f) := by
  intro a x a' hinv hv ho hq
  rw [run_getArena_bind] at ho hq ⊢
  exact h a a x a' hinv hv ho hq

theorem AVER_trip {β γ : Type} (env : Env) (inv : Land → Prop) (V : Land → β) (v : β)
    (c b : Bool) (f : Unit → M (Res × Option γ)) (h : Trip env inv V v (f ())) :
    Trip env inv V v (AVER c b >>= f) := by
  intro a x a' hinv hv ho hq
  obtain ⟨-, h1⟩ := AVER_some_inv ho
  rw [h1] at ho hq ⊢
  exact h a x a' hinv hv ho hq

/-- A run that calls the class `grow` method is not quiet. -/
theorem classGrow_trip {β γ : Type} (env : Env) (inv : Land → Prop) (V : Land → β) (v : β)
    (pref : SegPref) (size : Nat) (f : Res → M (Res × Option γ)) :
    Trip env inv V v (classGrow env pref size >>= f) := by
  intro a x a' _ _ ho hq
  obtain ⟨r, a₁, -, -, hevs⟩ := bind_some_inv ho
  rw [hevs] at hq
  have := hq (Event.grow (env.cls.grow a pref size).1)
    (List.mem_append_left _ (by simp [classGrow]))
  simp [Event.isQuiet] at this

theorem policyPlanE_trip {β : Type} (env : Env) (sys : Sys) (inv : Land → Prop)
    (V : Land → β) (hl : LandUndo env inv V) (hf : LandFrame env sys) (pref : SegPref)
    (size pool : Nat) (v : β) :
    Trip env inv V v (policyPlanE env pref size pool) := by
  unfold policyPlanE
  exact planThen_trip env sys inv V hl hf _ _ _ size pool v (fun r => pure (r.1, none))
    (fun r hr => pure_trip env inv V v r.1 hr)

theorem policyPlanD_trip {β : Type} (env : Env) (sys : Sys) (inv : Land → Prop)
    (V : Land → β) (hl : LandUndo env inv V) (hf : LandFrame env sys) (pref : SegPref)
    (size pool mz : Nat) (v : β) :
    Trip env inv V v (policyPlanD env pref size pool mz) := by
  unfold policyPlanD
  split
  · exact planThen_trip env sys inv V hl hf _ _ _ size pool v
      (fun _ => policyPlanE env pref size pool)
      (fun _ _ => policyPlanE_trip env sys inv V hl hf pref size pool v)
  · exact policyPlanE_trip env sys inv V hl hf pref size pool v

theorem policyPlanCB_trip {β : Type} (env : Env) (sys : Sys) (inv : Land → Prop)
    (V : Land → β) (hl : LandUndo env inv V) (hf : LandFrame env sys) (pref : SegPref)
    (size pool zA mz : Nat) (v : β) :
    Trip env inv V v (policyPlanCB env pref size pool zA mz) := by
  unfold policyPlanCB
  split
  · exact planThen_trip env sys inv V hl hf _ _ _ size pool v
      (fun _ => policyPlanD env pref size pool mz)
      (fun _ _ => policyPlanD_trip env sys inv V hl hf pref size pool mz v)
  · exact policyPlanD_trip env sys inv V hl hf pref size pool mz v

theorem policyPlanCA_trip {β : Type} (env : Env) (sys : Sys) (inv : Land → Prop)
    (V : Land → β) (hl : LandUndo env inv V) (hf : LandFrame env sys) (pref : SegPref)
    (size pool zA mz : Nat) (v : β) :
    Trip env inv V v (policyPlanCA env pref size pool zA mz) := by
  unfold policyPlanCA
  split
  · exact planThen_trip env sys inv V hl hf _ _ _ size pool v
      (fun _ => policyPlanCB env pref size pool zA mz)
      (fun _ _ => policyPlanCB_trip env sys inv V hl hf pref size pool zA mz v)
  · exact policyPlanCB_trip env sys inv V hl hf pref size pool zA mz v

theorem policyPlanC_trip {β : Type} (env : Env) (sys : Sys) (inv : Land → Prop)
    (V : Land → β) (hl : LandUndo env inv V) (hf : LandFrame env sys) (pref : SegPref)
    (size pool zA mz : Nat) (v : β) :
    Trip env inv V v (policyPlanC env pref size pool zA mz) := by
  unfold policyPlanC
  split
  · exact classGrow_trip env inv V v pref size _
  · exact policyPlanD_trip env sys inv V hl hf pref size pool mz v

theorem policyPlanB_trip {β : Type} (env : Env) (sys : Sys) (inv : Land → Prop)
    (V : Land → β) (hl : LandUndo env inv V) (hf : LandFrame env sys) (pref : SegPref)
    (size pool zA : Nat) (v : β) :
    Trip env inv V v (policyPlanB env pref size pool zA) := by
  unfold policyPlanB
  refine getArena_trip env inv V v _ (fun arena => ?_)
  split
  · exact planThen_trip env sys inv V hl hf _ _ _ size pool v
      (fun _ => policyPlanC env pref size pool zA (planBZones env pref arena))
      (fun _ _ => policyPlanC_trip env sys inv V hl hf pref size pool zA _ v)
  · exact policyPlanC_trip env sys inv V hl hf pref size pool zA _ v

/-- `arenaAllocPolicy` in a quiet run. -/
theorem arenaAllocPolicy_trip {β : Type} (env : Env) (sys : Sys) (inv : Land → Prop)
    (V : Land → β) (hl : LandUndo env inv V) (hf : LandFrame env sys) (pref : SegPref)
    (size pool : Nat) (v : β) :
    Trip env inv V v (arenaAllocPolicy env pref size pool) := by
  rw [arenaAllocPolicy_eq_plans]
  unfold policyPlans
  refine AVER_trip env inv V v _ _ _ ?_
  refine getArena_trip env inv V v _ (fun arena => ?_)
  split
  · exact pure_trip env inv V v _ (by decide)
  unfold policyPlanA
  split
  · exact planThen_trip env sys inv V hl hf _ _ _ size pool v
      (fun _ => policyPlanB env pref size pool (ZoneSetDiff env.W pref.zones pref.avoid))
      (fun _ _ => policyPlanB_trip env sys inv V hl hf pref size pool _ v)
  · exact policyPlanB_trip env sys inv V hl hf pref size pool _ v


theorem AVERT_Arena_trip {β γ : Type} (env : Env) (sys : Sys) (inv : Land → Prop)
    (V : Land → β) (v : β) (f : Unit → M (Res × Option γ)) (h : Trip env inv V v (f ())) :
    Trip env inv V v (AVERT_Arena env sys >>= f) := by
  intro a x a' hinv hv ho hq
  rw [run_AVERT_Arena_bind] at ho hq ⊢
  split at ho
  · simp at ho
  rename_i hc
  rw [if_neg hc] at hq ⊢
  exact h a x a' hinv hv ho hq

/-- The part of `ArenaAlloc` from `arenaAllocPolicy` on, in a quiet run. -/
theorem arenaAllocTracts_trip {β : Type} (env : Env) (sys : Sys) (inv : Land → Prop)
    (V : Land → β) (hl : LandUndo env inv V) (hf : LandFrame env sys) (pref : SegPref)
    (size pool : Nat) (withReservoirPermit : Bool) (v : β) :
    Trip env inv V v (arenaAllocTracts env sys pref size pool withReservoirPermit) := by
  intro a x a' hinv hv ho hq
  unfold arenaAllocTracts at ho hq ⊢
  obtain ⟨r, a₁, hr, hrest, hevs⟩ := bind_some_inv ho
  rw [hevs] at hq ⊢
  obtain ⟨hok, hfail⟩ := arenaAllocPolicy_trip env sys inv V hl hf pref size pool v
    a r a₁ hinv hv hr (quiet_append hq).1
  by_cases hres : r.1 ≠ Res.OK
  · rw [if_pos hres] at hrest hq ⊢
    cases withReservoirPermit
    · simp only [Bool.false_eq_true, if_false, M.run_pure, Option.some.injEq,
        Prod.mk.injEq] at hrest ⊢
      obtain ⟨rfl, rfl⟩ := hrest
      exact ⟨fun h => absurd h hres, fun _ => hfail hres⟩
    · simp only [if_true] at hrest hq
      obtain ⟨w, a₂, -, -, hevs'⟩ := bind_some_inv hrest
      rw [hevs'] at hq
      have := hq (Event.reservoirWithdraw size pool (sys.ReservoirWithdraw a₁ size pool).1)
        (List.mem_append_right _ (List.mem_append_left _ (by simp [reservoirWithdraw])))
      simp [Event.isQuiet] at this
  · rw [if_neg hres] at hrest hq ⊢
    simp only [ne_eq, Decidable.not_not] at hres
    obtain ⟨rg, hlf, hp⟩ := hok hres
    unfold arenaAllocFound at hrest hq ⊢
    rcases r with ⟨r1, _ | t⟩
    · simp [abort] at hrest
    · simp only at hrest hq ⊢
      rw [run_getArena_bind, run_modifyArena_bind] at hrest hq ⊢
      simp only [M.run_pure, Option.some.injEq, Prod.mk.injEq] at hrest hq ⊢
      obtain ⟨rfl, rfl⟩ := hrest
      refine ⟨fun _ => ⟨rg, ?_, hp⟩, fun h => absurd rfl h⟩
      rw [List.append_nil]
      exact hlf

/-- `ArenaAlloc` in a quiet run. -/
theorem ArenaAlloc_trip {β : Type} (env : Env) (sys : Sys) (inv : Land → Prop)
    (V : Land → β) (hl : LandUndo env inv V) (hf : LandFrame env sys) (pref : SegPref)
    (size pool : Nat) (withReservoirPermit : Bool) (v : β) :
    Trip env inv V v (ArenaAlloc env sys pref size pool withReservoirPermit) := by
  have hT := arenaAllocTracts_trip env sys inv V hl hf pref size pool withReservoirPermit v
  have hE : Trip env inv V v (reservoirEnsureFull sys >>= fun res =>
      if res ≠ Res.OK then
        AVER env.checking (ResIsAllocFailure res) >>= fun _ =>
          if (!withReservoirPermit) = true then pure (res, none)
          else arenaAllocTracts env sys pref size pool withReservoirPermit
      else arenaAllocTracts env sys pref size pool withReservoirPermit) := by
    intro a x a' hinv hv ho hq
    rw [run_bind_of_some (x := (sys.ReservoirEnsureFull a).1)
      (b := (sys.ReservoirEnsureFull a).2) rfl] at ho hq ⊢
    simp only at ho hq ⊢
    have hq' := (quiet_append hq).2
    have hinv' : inv (sys.ReservoirEnsureFull a).2.freeLand := by
      rw [hf.ensureFull]; exact hinv
    have hv' : V (sys.ReservoirEnsureFull a).2.freeLand = v := by
      rw [hf.ensureFull]; exact hv
    have hrest : Trip env inv V v
        (if (sys.ReservoirEnsureFull a).1 ≠ Res.OK then
          AVER env.checking (ResIsAllocFailure (sys.ReservoirEnsureFull a).1) >>= fun _ =>
            if (!withReservoirPermit) = true then
              pure ((sys.ReservoirEnsureFull a).1, none)
            else arenaAllocTracts env sys pref size pool withReservoirPermit
        else arenaAllocTracts env sys pref size pool withReservoirPermit) := by
      split
      · refine AVER_trip env inv V v _ _ _ ?_
        split
        · exact pure_trip env inv V v _ ‹_›
        · exact hT
      · exact hT
    obtain ⟨hok, hfail⟩ := hrest _ x a' hinv' hv' ho hq'
    refine ⟨fun hx => ?_, hfail⟩
    obtain ⟨rg, hlf, hp⟩ := hok hx
    exact ⟨rg, lastFound_append_some _ _ _ hlf, hp⟩
  unfold ArenaAlloc
  refine AVER_trip env inv V v _ _ _ ?_
  refine AVERT_Arena_trip env sys inv V v _ ?_
  refine getArena_trip env inv V v _ (fun arena => ?_)
  refine AVER_trip env inv V v _ _ _ ?_
  refine AVER_trip env inv V v _ _ _ ?_
  split
  · exact hE
  · exact hT


/-- The run of `arenaLandInsert` when `LandInsert` does not return
`ResLIMIT`. -/
theorem arenaLandInsert_run (env : Env) (r : Range) (a : Arena)
    (h : (env.LandInsert a r).1 ≠ Res.LIMIT) :
    (arenaLandInsert env r).run a =
      ⟨[Event.landInsert r (env.LandInsert a r).1 (env.LandInsert a r).2.1],
        some ((Res.OK, (env.LandInsert a r).2.1),
          { a with freeLand := (env.LandInsert a r).2.2 })⟩ := by
  unfold arenaLandInsert
  rw [run_bind_of_some (x := ((env.LandInsert a r).1, (env.LandInsert a r).2.1))
    (b := { a with freeLand := (env.LandInsert a r).2.2 }) rfl]
  simp only
  rw [if_neg h, Run.ext_iff']
  exact ⟨by simp [landInsert], rfl⟩

/-- `arenaFreeRange` in a quiet run: `LandInsert` of the range into the land as
it stands returns `ResOK`, and the land it makes is the land left. -/
theorem arenaFreeRange_quiet (env : Env) (sys : Sys) (hf : LandFrame env sys)
    (limit base size pool : Nat) (a a' : Arena)
    (ho : ((arenaFreeRange env sys limit base size pool).run a).out = some ((), a'))
    (hq : ∀ e ∈ ((arenaFreeRange env sys limit base size pool).run a).evs, e.isQuiet = true) :
    (env.LandInsert a ⟨base, limit⟩).1 = Res.OK ∧
      a'.freeLand = (env.LandInsert a ⟨base, limit⟩).2.2 := by
  obtain ⟨r', a₂, hs, hevs⟩ := arenaFreeRange_ok env sys limit base size pool a a' ho
  rw [hevs] at hq
  have hq1 := (quiet_append hq).1
  obtain ⟨rest, hhead⟩ := arenaLandInsert_head env ⟨base, limit⟩ a
  obtain ⟨x, a₁, hx, hcase⟩ := arenaLandInsertSteal_ok env sys ⟨base, limit⟩ a r' a₂ hs
  have hins : (env.LandInsert a ⟨base, limit⟩).1 = Res.OK := by
    rcases hcase with ⟨-, -, -, he⟩ | ⟨-, -, -, res, ret, he⟩
    · rw [he, hhead] at hq1
      simpa [Event.isQuiet] using hq1 _ (List.mem_cons_self _ _)
    · rw [he, hhead] at hq1
      simpa [Event.isQuiet] using hq1 _ (List.mem_append_left _ (List.mem_cons_self _ _))
  refine ⟨hins, ?_⟩
  rw [arenaLandInsert_run env _ a (by rw [hins]; decide)] at hx
  simp only [Option.some.injEq, Prod.mk.injEq] at hx
  obtain ⟨hx1, hx2⟩ := hx
  have ha₂ : a₂ = a₁ := by
    rcases hcase with ⟨-, -, h, -⟩ | ⟨hne, -⟩
    · exact h
    · rw [← hx1] at hne
      exact absurd rfl hne
  unfold arenaFreeRange at ho
  obtain ⟨-, h1⟩ := AVER_some_inv ho
  rw [h1] at ho
  simp only [RangeInit] at ho
  rw [run_bind_of_some hs] at ho
  simp only at ho
  rw [run_bind_of_some (x := ()) (b := env.cls.free a₂ r'.base (RangeSize r') pool) rfl,
    run_getArena_bind, run_AVER] at ho
  split at ho
  · simp at ho
  · simp only [Option.some.injEq, Prod.mk.injEq, true_and] at ho
    rw [← ho, hf.free, ha₂, ← hx2]

/-- The part of `ArenaFree` after the cache was dealt with, in a quiet run. -/
theorem arenaFree_tail_quiet (env : Env) (sys : Sys) (hf : LandFrame env sys)
    (limit base size pool : Nat) (a₀ a' : Arena)
    (hrest : (((if pool ≠ sys.reservoirPool then do
        let res ← reservoirEnsureFull sys
        if res ≠ Res.OK then
          AVER env.checking (ResIsAllocFailure res)
          let d ← reservoirDeposit sys base size
          if !d.1 then
            pure ()
          else
            arenaFreeRange env sys limit d.2.1 d.2.2 pool
        else
          arenaFreeRange env sys limit base size pool
      else
        arenaFreeRange env sys limit base size pool) : M Unit).run a₀).out = some ((), a'))
    (hq2 : ∀ e ∈ (((if pool ≠ sys.reservoirPool then do
        let res ← reservoirEnsureFull sys
        if res ≠ Res.OK then
          AVER env.checking (ResIsAllocFailure res)
          let d ← reservoirDeposit sys base size
          if !d.1 then
            pure ()
          else
            arenaFreeRange env sys limit d.2.1 d.2.2 pool
        else
          arenaFreeRange env sys limit base size pool
      else
        arenaFreeRange env sys limit base size pool) : M Unit).run a₀).evs,
      e.isQuiet = true) :
    ∃ a₁ : Arena, a₁.freeLand = a₀.freeLand ∧
      (env.LandInsert a₁ ⟨base, limit⟩).1 = Res.OK ∧
      a'.freeLand = (env.LandInsert a₁ ⟨base, limit⟩).2.2 := by
  by_cases hp : pool ≠ sys.reservoirPool
  · rw [if_pos hp] at hrest hq2
    rw [run_bind_of_some (x := (sys.ReservoirEnsureFull a₀).1)
      (b := (sys.ReservoirEnsureFull a₀).2) rfl] at hrest hq2
    simp only at hrest hq2
    have hq3 := (quiet_append hq2).2
    by_cases hr : (sys.ReservoirEnsureFull a₀).1 ≠ Res.OK
    · rw [if_pos hr] at hrest hq3
      obtain ⟨-, h6⟩ := AVER_some_inv hrest
      rw [h6] at hrest hq3
      obtain ⟨d, a₂, -, -, hevs'⟩ := bind_some_inv hrest
      rw [hevs'] at hq3
      have := hq3 _ (List.mem_append_left _ (by
        simp only [reservoirDeposit, List.mem_singleton]; rfl))
      simp [Event.isQuiet] at this
    · rw [if_neg hr] at hrest hq3
      obtain ⟨hins, hl'⟩ := arenaFreeRange_quiet env sys hf _ _ _ _ _ _ hrest hq3
      exact ⟨_, hf.ensureFull a₀, hins, hl'⟩
  · rw [if_neg hp] at hrest hq2
    obtain ⟨hins, hl'⟩ := arenaFreeRange_quiet env sys hf _ _ _ _ _ _ hrest hq2
    exact ⟨_, rfl, hins, hl'⟩

/-- `ArenaFree` in a quiet run on a range that does not wrap around: there is
an arena with the land as it stood before the call on which `LandInsert` of the
range returns `ResOK`, making the land that the call leaves. -/
theorem ArenaFree_quiet (env : Env) (sys : Sys) (hf : LandFrame env sys)
    (base size pool : Nat) (a a' : Arena) (hW : base + size < 2 ^ env.W)
    (ho : ((ArenaFree env sys base size pool).run a).out = some ((), a'))
    (hq : ∀ e ∈ ((ArenaFree env sys base size pool).run a).evs, e.isQuiet = true) :
    ∃ a₀ : Arena, a₀.freeLand = a.freeLand ∧
      (env.LandInsert a₀ ⟨base, base + size⟩).1 = Res.OK ∧
      a'.freeLand = (env.LandInsert a₀ ⟨base, base + size⟩).2.2 := by
  unfold ArenaFree at ho hq
  obtain ⟨-, h1⟩ := AVER_some_inv ho
  rw [h1] at ho hq
  obtain ⟨-, h2⟩ := AVER_some_inv ho
  rw [h2] at ho hq
  rw [run_AVERT_Arena_bind] at ho hq
  split at ho
  · simp at ho
  rename_i hv
  rw [if_neg hv] at hq
  rw [run_getArena_bind] at ho hq
  obtain ⟨-, h3⟩ := AVER_some_inv ho
  rw [h3] at ho hq
  obtain ⟨-, h4⟩ := AVER_some_inv ho
  rw [h4] at ho hq
  obtain ⟨-, h5⟩ := AVER_some_inv ho
  rw [h5] at ho hq
  rw [Nat.mod_eq_of_lt hW] at ho hq
  simp only at ho hq
  by_cases hc : a.lastTractBase ≥ base ∧ a.lastTractBase < base + size
  · rw [if_pos hc, run_modifyArena_bind] at ho hq
    obtain ⟨a₁, h, hins, hl'⟩ := arenaFree_tail_quiet env sys hf _ _ _ _ _ _ ho hq
    exact ⟨a₁, h, hins, hl'⟩
  · rw [if_neg hc, run_pure_bind] at ho hq
    exact arenaFree_tail_quiet env sys hf _ _ _ _ _ _ ho hq

/-- **C20.** For every call `ArenaAlloc(pref, size, pool)` that returns `ResOK`
with base `B` and every following call `ArenaFree(B, size, pool)` that returns,
both quiet — no call of the class `grow` method, nothing withdrawn from or
deposited in the reservoir, no error from a call on the land and so no block
pool extension and no page stolen for it — the free land after the free is
observed as it was before the alloc.  `V` is what is observed of the land (its
set of ranges, say, or the addresses in them) and `inv` an invariant of it, for
which the land undoes a search by the insertion of the range found; the class
methods `pagesMarkAllocated` and `free` and `ReservoirEnsureFull` leave the land
alone; `[B, B + size)` is the range that the search serving the alloc found and
does not wrap around. -/
theorem ArenaAlloc_free_roundTrip {β : Type} (env : Env) (sys : Sys) (inv : Land → Prop)
    (V : Land → β) (hl : LandUndo env inv V) (hf : LandFrame env sys) (pref : SegPref)
    (size pool : Nat) (withReservoirPermit : Bool) (B : Nat) (a a₁ a₂ : Arena)
    (hinv : inv a.freeLand)
    (halloc : ((ArenaAlloc env sys pref size pool withReservoirPermit).run a).out =
      some ((Res.OK, some B), a₁))
    (hqa : ∀ e ∈ ((ArenaAlloc env sys pref size pool withReservoirPermit).run a).evs,
      e.isQuiet = true)
    (hfound : lastFound ((ArenaAlloc env sys pref size pool withReservoirPermit).run a).evs =
      some ⟨B, B + size⟩)
    (hW : B + size < 2 ^ env.W)
    (hfree : ((ArenaFree env sys B size pool).run a₁).out = some ((), a₂))
    (hqf : ∀ e ∈ ((ArenaFree env sys B size pool).run a₁).evs, e.isQuiet = true) :
    V a₂.freeLand = V a.freeLand := by
  obtain ⟨rg, hlf, hp⟩ := (ArenaAlloc_trip env sys inv V hl hf pref size pool
    withReservoirPermit (V a.freeLand) a _ a₁ hinv rfl halloc hqa).1 rfl
  rw [hfound] at hlf
  cases hlf
  obtain ⟨a₀, hland, hins, hl'⟩ := ArenaFree_quiet env sys hf B size pool a₁ a₂ hW hfree hqf
  rw [hl']
  exact hp a₀ hland hins


/-! ## The sample land undoes a search by the insertion of the range found -/

theorem covers_iff (l : Land) (x : Nat) :
    l.covers x = true ↔ ∃ r ∈ l.ranges, r.base ≤ x ∧ x < r.limit := by
  unfold Land.covers
  simp only [List.any_eq_true, Bool.and_eq_true, decide_eq_true_eq]

theorem covers_split (L : List Range) (r : Range) (hr : r ∈ L) (x : Nat) :
    (∃ y ∈ L, y.base ≤ x ∧ x < y.limit) ↔
      ((r.base ≤ x ∧ x < r.limit) ∨ ∃ y ∈ L.filter (fun y => y ≠ r), y.base ≤ x ∧ x < y.limit) := by
  constructor
  · rintro ⟨y, hy, hx⟩
    by_cases h : y = r
    · exact Or.inl (h ▸ hx)
    · exact Or.inr ⟨y, List.mem_filter.mpr ⟨hy, by simpa using h⟩, hx⟩
  · rintro (hx | ⟨y, hy, hx⟩)
    · exact ⟨r, hr, hx⟩
    · exact ⟨y, (List.mem_filter.mp hy).1, hx⟩

/-- `delete` of the sample land, when it returns `ResOK`: the land keeps its
ranges ordered, and it covers, with the range deleted, what it covered. -/
theorem simpleLandDelete_covers (land : Land) (c : Range) (ho : land.ordered)
    (hc : c.base ≤ c.limit) (hok : (simpleLandDelete land c).1 = Res.OK) :
    (simpleLandDelete land c).2.2.ordered ∧
    ∀ x, ((simpleLandDelete land c).2.2.covers x = true ∨ (c.base ≤ x ∧ x < c.limit)) ↔
      land.covers x = true := by
  unfold simpleLandDelete at hok ⊢
  split at hok
  · simp at hok
  rename_i r hfind
  simp only at hok ⊢
  have hmem := List.mem_of_find?_eq_some hfind
  have hin := List.find?_some hfind
  simp only [Bool.and_eq_true, decide_eq_true_eq] at hin
  have hro := ho r hmem
  have hothers : ∀ y ∈ land.ranges.filter (fun y => y ≠ r), y.base ≤ y.limit :=
    fun y hy => ho y (List.mem_filter.mp hy).1
  by_cases h1 : r.base = c.base ∧ r.limit = c.limit
  · rw [if_pos h1]
    refine ⟨hothers, fun x => ?_⟩
    rw [covers_iff, covers_iff, covers_split land.ranges r hmem x]
    simp only
    constructor
    · rintro (h | h)
      · exact Or.inr h
      · exact Or.inl (by omega)
    · rintro (h | h)
      · exact Or.inr (by omega)
      · exact Or.inl h
  rw [if_neg h1] at hok ⊢
  by_cases h2 : r.base = c.base
  · rw [if_pos h2]
    refine ⟨?_, fun x => ?_⟩
    · intro y hy
      rcases List.mem_cons.mp hy with rfl | hy
      · exact hin.2
      · exact hothers y hy
    · rw [covers_iff, covers_iff, covers_split land.ranges r hmem x]
      simp only [List.mem_cons, exists_eq_or_imp]
      constructor
      · rintro ((h | h) | h)
        · exact Or.inl (by omega)
        · exact Or.inr h
        · exact Or.inl (by omega)
      · rintro (h | h)
        · by_cases hx : x < c.limit
          · exact Or.inr (by omega)
          · exact Or.inl (Or.inl (by omega))
        · exact Or.inl (Or.inr h)
  rw [if_neg h2] at hok ⊢
  by_cases h3 : r.limit = c.limit
  · rw [if_pos h3]
    refine ⟨?_, fun x => ?_⟩
    · intro y hy
      rcases List.mem_cons.mp hy with rfl | hy
      · exact hin.1
      · exact hothers y hy
    · rw [covers_iff, covers_iff, covers_split land.ranges r hmem x]
      simp only [List.mem_cons, exists_eq_or_imp]
      constructor
      · rintro ((h | h) | h)
        · exact Or.inl (by omega)
        · exact Or.inr h
        · exact Or.inl (by omega)
      · rintro (h | h)
        · by_cases hx : x < c.base
          · exact Or.inl (Or.inl (by omega))
          · exact Or.inr (by omega)
        · exact Or.inl (Or.inr h)
  rw [if_neg h3] at hok ⊢
  by_cases h4 : land.blockPool.freeUnits = 0
  · rw [if_pos h4] at hok
    simp at hok
  rw [if_neg h4]
  refine ⟨?_, fun x => ?_⟩
  · intro y hy
    rcases List.mem_cons.mp hy with rfl | hy
    · exact hin.1
    rcases List.mem_cons.mp hy with rfl | hy
    · exact hin.2
    · exact hothers y hy
  · rw [covers_iff, covers_iff, covers_split land.ranges r hmem x]
    simp only [List.mem_cons, exists_eq_or_imp]
    constructor
    · rintro ((h | h | h) | h)
      · exact Or.inl (by omega)
      · exact Or.inl (by omega)
      · exact Or.inr h
      · exact Or.inl (by omega)
    · rintro (h | h)
      · by_cases hx : x < c.base
        · exact Or.inl (Or.inl (by omega))
        · by_cases hx' : x < c.limit
          · exact Or.inr (by omega)
          · exact Or.inl (Or.inr (Or.inl (by omega)))
      · exact Or.inl (Or.inr (Or.inr h))


theorem covers_split2 (L : List Range) (l r : Range) (hl : l ∈ L) (hr : r ∈ L) (x : Nat) :
    (∃ y ∈ L, y.base ≤ x ∧ x < y.limit) ↔
      ((l.base ≤ x ∧ x < l.limit) ∨ (r.base ≤ x ∧ x < r.limit) ∨
        ∃ y ∈ L.filter (fun y => y ≠ l ∧ y ≠ r), y.base ≤ x ∧ x < y.limit) := by
  constructor
  · rintro ⟨y, hy, hx⟩
    by_cases h : y = l
    · exact Or.inl (h ▸ hx)
    by_cases h' : y = r
    · exact Or.inr (Or.inl (h' ▸ hx))
    · exact Or.inr (Or.inr ⟨y, List.mem_filter.mpr ⟨hy, by simpa using ⟨h, h'⟩⟩, hx⟩)
  · rintro (hx | hx | ⟨y, hy, hx⟩)
    · exact ⟨l, hl, hx⟩
    · exact ⟨r, hr, hx⟩
    · exact ⟨y, (List.mem_filter.mp hy).1, hx⟩

/-- `insert` of the sample land, when it returns `ResOK`: the land keeps its
ranges ordered, and it covers what it covered and the range inserted. -/
theorem simpleLandInsert_covers (land : Land) (c : Range) (ho : land.ordered)
    (hc : c.base ≤ c.limit) (hok : (simpleLandInsert land c).1 = Res.OK) :
    (simpleLandInsert land c).2.2.ordered ∧
    ∀ x, (simpleLandInsert land c).2.2.covers x = true ↔
      (land.covers x = true ∨ (c.base ≤ x ∧ x < c.limit)) := by
  unfold simpleLandInsert at hok ⊢
  simp only at hok ⊢
  split at hok
  · rename_i l r hl hr
    have hlm := List.mem_of_find?_eq_some hl
    have hrm := List.mem_of_find?_eq_some hr
    have hl1 := List.find?_some hl
    have hr1 := List.find?_some hr
    simp only [decide_eq_true_eq] at hl1 hr1
    have hlo := ho l hlm
    have hro := ho r hrm
    refine ⟨?_, fun x => ?_⟩
    · intro y hy
      rcases List.mem_cons.mp hy with rfl | hy
      · show l.base ≤ r.limit
        omega
      · exact ho y (List.mem_filter.mp hy).1
    · rw [covers_iff, covers_iff, covers_split2 land.ranges l r hlm hrm x]
      simp only [List.mem_cons, exists_eq_or_imp]
      constructor
      · rintro (h | h)
        · by_cases hx : x < l.limit
          · exact Or.inl (Or.inl (by omega))
          · by_cases hx' : x < c.limit
            · exact Or.inr (by omega)
            · exact Or.inl (Or.inr (Or.inl (by omega)))
        · exact Or.inl (Or.inr (Or.inr h))
      · rintro ((h | h | h) | h)
        · exact Or.inl (by omega)
        · exact Or.inl (by omega)
        · exact Or.inr h
        · exact Or.inl (by omega)
  · rename_i l hl hr
    have hlm := List.mem_of_find?_eq_some hl
    have hl1 := List.find?_some hl
    simp only [decide_eq_true_eq] at hl1
    have hlo := ho l hlm
    refine ⟨?_, fun x => ?_⟩
    · intro y hy
      rcases List.mem_cons.mp hy with rfl | hy
      · show l.base ≤ c.limit
        omega
      · exact ho y (List.mem_filter.mp hy).1
    · rw [covers_iff, covers_iff, covers_split land.ranges l hlm x]
      simp only [List.mem_cons, exists_eq_or_imp]
      constructor
      · rintro (h | h)
        · by_cases hx : x < l.limit
          · exact Or.inl (Or.inl (by omega))
          · exact Or.inr (by omega)
        · exact Or.inl (Or.inr h)
      · rintro ((h | h) | h)
        · exact Or.inl (by omega)
        · exact Or.inr h
        · exact Or.inl (by omega)
  · rename_i r hl hr
    have hrm := List.mem_of_find?_eq_some hr
    have hr1 := List.find?_some hr
    simp only [decide_eq_true_eq] at hr1
    have hro := ho r hrm
    refine ⟨?_, fun x => ?_⟩
    · intro y hy
      rcases List.mem_cons.mp hy with rfl | hy
      · show c.base ≤ r.limit
        omega
      · exact ho y (List.mem_filter.mp hy).1
    · rw [covers_iff, covers_iff, covers_split land.ranges r hrm x]
      simp only [List.mem_cons, exists_eq_or_imp]
      constructor
      · rintro (h | h)
        · by_cases hx : x < c.limit
          · exact Or.inr (by omega)
          · exact Or.inl (Or.inl (by omega))
        · exact Or.inl (Or.inr h)
      · rintro ((h | h) | h)
        · exact Or.inl (by omega)
        · exact Or.inr h
        · exact Or.inl (by omega)
  · rename_i hl hr
    by_cases h4 : land.blockPool.freeUnits = 0
    · rw [if_pos h4] at hok
      simp at hok
    rw [if_neg h4]
    refine ⟨?_, fun x => ?_⟩
    · intro y hy
      rcases List.mem_cons.mp hy with rfl | hy
      · exact hc
      · exact ho y hy
    · rw [covers_iff, covers_iff]
      simp only [List.mem_cons, exists_eq_or_imp]
      exact Or.comm


/-- A search of the sample land that finds a range: the range is ordered and
was deleted from the land. -/
theorem simpleLandFindInZones_found (W : Nat) (a : Arena) (size zones : Nat) (high : Bool)
    (hfd : (simpleLandFindInZones W a size zones high).2.1 = true) :
    (simpleLandFindInZones W a size zones high).2.2.1.base ≤
      (simpleLandFindInZones W a size zones high).2.2.1.limit ∧
    (simpleLandDelete a.freeLand (simpleLandFindInZones W a size zones high).2.2.1).1 = Res.OK ∧
    (simpleLandFindInZones W a size zones high).2.2.2.2 =
      (simpleLandDelete a.freeLand (simpleLandFindInZones W a size zones high).2.2.1).2.2 := by
  unfold simpleLandFindInZones at hfd ⊢
  simp only at hfd ⊢
  split at hfd
  · simp at hfd
  · rename_i c hc
    split at hfd
    · rename_i hd
      rw [if_pos hd]
      refine ⟨?_, hd, rfl⟩
      rcases pick_mem high _ none c hc with hm | hm
      · unfold simpleCandidates at hm
        simp only [List.mem_flatMap, List.mem_filter, List.mem_map, List.mem_range] at hm
        obtain ⟨r, -, ⟨i, -, rfl⟩, -⟩ := hm
        show r.base + i * a.alignment ≤ r.base + i * a.alignment + size
        omega
      · simp at hm
    · simp at hfd

/-- A search of the sample land that finds nothing leaves the land as it
is. -/
theorem simpleLandFindInZones_miss (W : Nat) (a : Arena) (size zones : Nat) (high : Bool)
    (hfd : (simpleLandFindInZones W a size zones high).2.1 = false) :
    (simpleLandFindInZones W a size zones high).2.2.2.2 = a.freeLand := by
  unfold simpleLandFindInZones at hfd ⊢
  simp only at hfd ⊢
  split
  · rfl
  · rename_i c hc
    rw [hc] at hfd
    simp only at hfd
    split
    · rename_i hd
      rw [if_pos hd] at hfd
      simp at hfd
    · rfl

theorem simpleEnv_landUndo : LandUndo simpleEnv Land.ordered Land.covers := by
  refine ⟨fun a size zones high hinv _ hnf => ?_, fun a a' size zones high hinv _ hfd hl hins => ?_⟩
  · change (simpleLandFindInZones 64 a size zones high).2.1 = false at hnf
    show Land.ordered (simpleLandFindInZones 64 a size zones high).2.2.2.2 ∧
      Land.covers (simpleLandFindInZones 64 a size zones high).2.2.2.2 = Land.covers a.freeLand
    rw [simpleLandFindInZones_miss 64 a size zones high hnf]
    exact ⟨hinv, rfl⟩
  · change (simpleLandFindInZones 64 a size zones high).2.1 = true at hfd
    change a'.freeLand = (simpleLandFindInZones 64 a size zones high).2.2.2.2 at hl
    change (simpleLandInsert a'.freeLand
      (simpleLandFindInZones 64 a size zones high).2.2.1).1 = Res.OK at hins
    show Land.ordered (simpleLandInsert a'.freeLand
        (simpleLandFindInZones 64 a size zones high).2.2.1).2.2 ∧
      Land.covers (simpleLandInsert a'.freeLand
        (simpleLandFindInZones 64 a size zones high).2.2.1).2.2 = Land.covers a.freeLand
    obtain ⟨hc, hdel, hland⟩ := simpleLandFindInZones_found 64 a size zones high hfd
    obtain ⟨hdo, hdc⟩ := simpleLandDelete_covers a.freeLand _ hinv hc hdel
    rw [hl, hland] at hins ⊢
    obtain ⟨hio, hic⟩ := simpleLandInsert_covers _ _ hdo hc hins
    refine ⟨hio, funext fun x => ?_⟩
    rw [Bool.eq_iff_iff, hic x]
    exact hdc x

theorem simpleEnv_landFrame : LandFrame simpleEnv simpleSys := by
  refine ⟨fun a c i n p => ?_, fun _ _ _ _ => rfl, fun _ => rfl⟩
  show (simplePagesMarkAllocated a c i n p).2.freeLand = a.freeLand
  unfold simplePagesMarkAllocated
  split <;> rfl

/-- **C20**, on the sample arena: two pages are allocated at `0x101000` and
freed; the land covers the same addresses again. -/
theorem ArenaAlloc_free_roundTrip_witness :
    ((ArenaAlloc simpleEnv simpleSys ⟨false, 0, 0⟩ 8192 1 false).run (simpleArena 1)).out =
      some ((Res.OK, some 0x101000), simpleArenaServed) ∧
    ((ArenaFree simpleEnv simpleSys 0x101000 8192 1).run simpleArenaServed).out =
      some ((), simpleArenaReturned) ∧
    simpleArenaServed.freeLand.ranges = [⟨0x103000, 0x140000⟩] ∧
    simpleArenaReturned.freeLand.ranges = (simpleArena 1).freeLand.ranges ∧
    Land.covers simpleArenaReturned.freeLand = Land.covers (simpleArena 1).freeLand :=
  ⟨by decide, by decide, rfl, rfl,
    ArenaAlloc_free_roundTrip simpleEnv simpleSys Land.ordered Land.covers simpleEnv_landUndo
      simpleEnv_landFrame ⟨false, 0, 0⟩ 8192 1 false 0x101000 (simpleArena 1) simpleArenaServed
      simpleArenaReturned (by unfold Land.ordered; decide) (by decide) (by decide) (by decide)
      (by decide) (by decide) (by decide)⟩

/-- Counterexample to C20 as stated.  First, in the sample arena with its
chunk full, two spare nodes and a class that can grow, `ArenaAlloc` of one page
extends the arena by a chunk, whose free pages the class puts in the free land,
and returns `0x201000`; after `ArenaFree` the land, empty before the alloc,
holds `[0x201000, 0x240000)`.  Second, with a reservoir below its limit
`ArenaAlloc` with the reservoir permit returns `0x101000` from the land
`[0x101000, 0x140000)`, and on `ArenaFree` the reservoir keeps the two pages: the
land holds `[0x103000, 0x140000)`.  No run extends the block pool or steals a
page. -/
theorem ArenaAlloc_free_roundTrip_counterexample :
    (fullArenaSpare.freeLand = ⟨[], ⟨[], 2⟩⟩ ∧
      ((ArenaAlloc growEnv simpleSys ⟨false, 0, 0⟩ 4096 1 false).run fullArenaSpare).evs =
        [Event.reservoirEnsureFull Res.OK,
          Event.planBegin Plan.B (ZoneSetUNIV 64 ^^^ 0xF) false 4096,
          Event.find 4096 (ZoneSetUNIV 64 ^^^ 0xF) false Res.OK false ⟨0, 0⟩,
          Event.planEnd Plan.B Res.RESOURCE,
          Event.grow Res.OK,
          Event.planBegin Plan.CB (ZoneSetUNIV 64 ^^^ 0xF) false 4096,
          Event.find 4096 (ZoneSetUNIV 64 ^^^ 0xF) false Res.OK true ⟨0x201000, 0x202000⟩,
          Event.mark 0x200000 1 1 1 Res.OK,
          Event.planEnd Plan.CB Res.OK] ∧
      ((ArenaAlloc growEnv simpleSys ⟨false, 0, 0⟩ 4096 1 false).run fullArenaSpare).out.map
          Prod.fst = some (Res.OK, some 0x201000) ∧
      (((ArenaAlloc growEnv simpleSys ⟨false, 0, 0⟩ 4096 1 false).run fullArenaSpare).out.map
        fun p => ((ArenaFree growEnv simpleSys 0x201000 4096 1).run p.2).evs) =
        some [Event.reservoirEnsureFull Res.OK,
          Event.landInsert ⟨0x201000, 0x202000⟩ Res.OK ⟨0x201000, 0x240000⟩,
          Event.free 0x201000 4096 1] ∧
      (((ArenaAlloc growEnv simpleSys ⟨false, 0, 0⟩ 4096 1 false).run fullArenaSpare).out.bind
        fun p => ((ArenaFree growEnv simpleSys 0x201000 4096 1).run p.2).out.map
          fun q => q.2.freeLand) = some ⟨[⟨0x201000, 0x240000⟩], ⟨[], 1⟩⟩) ∧
    ((simpleArena 1).freeLand = ⟨[⟨0x101000, 0x140000⟩], ⟨[], 1⟩⟩ ∧
      ((ArenaAlloc simpleEnv hungrySys ⟨false, 0, 0⟩ 8192 1 true).run (simpleArena 1)).evs =
        [Event.reservoirEnsureFull Res.MEMORY,
          Event.planBegin Plan.B (ZoneSetUNIV 64 ^^^ 0xF) false 8192,
          Event.find 8192 (ZoneSetUNIV 64 ^^^ 0xF) false Res.OK true ⟨0x101000, 0x103000⟩,
          Event.mark 0x100000 1 2 1 Res.OK,
          Event.planEnd Plan.B Res.OK] ∧
      ((ArenaAlloc simpleEnv hungrySys ⟨false, 0, 0⟩ 8192 1 true).run (simpleArena 1)).out =
        some ((Res.OK, some 0x101000), simpleArenaServed) ∧
      ((ArenaFree simpleEnv hungrySys 0x101000 8192 1).run simpleArenaServed).evs =
        [Event.reservoirEnsureFull Res.MEMORY,
          Event.reservoirDeposit 0x101000 8192 false 0x101000 0] ∧
      ((ArenaFree simpleEnv hungrySys 0x101000 8192 1).run simpleArenaServed).out.map
          (fun q => q.2.freeLand) = some ⟨[⟨0x103000, 0x140000⟩], ⟨[], 1⟩⟩) := by
  decide

/-! ## Zones of addresses -/

theorem AddrZone_eq_mod (k zoneShift a : Nat) :
    AddrZone (2 ^ k) zoneShift a = a / 2 ^ zoneShift % 2 ^ k := by
  unfold AddrZone
  rw [Nat.and_pow_two_sub_one_eq_mod, Nat.shiftRight_eq_div_pow]

/-- **C21.** With `W = 2 ^ k` the word width: `AddrZone(arena, a)` is
`(a >> zoneShift) mod W`; so it is below `W`, it is the same for two addresses
of one aligned stripe of `2 ^ zoneShift` bytes (two addresses with the same
quotient by `2 ^ zoneShift`), and it is the same for `a` and `a + W * 2 ^
zoneShift`, also when that sum wraps around the `W`-bit word, which it can only
if `zoneShift + k ≤ W`. -/
theorem AddrZone_spec (k zoneShift a : Nat) :
    AddrZone (2 ^ k) zoneShift a = (a >>> zoneShift) % 2 ^ k ∧
    AddrZone (2 ^ k) zoneShift a < 2 ^ k ∧
    (∀ b, a / 2 ^ zoneShift = b / 2 ^ zoneShift →
      AddrZone (2 ^ k) zoneShift b = AddrZone (2 ^ k) zoneShift a) ∧
    AddrZone (2 ^ k) zoneShift (a + 2 ^ k * 2 ^ zoneShift) = AddrZone (2 ^ k) zoneShift a ∧
    (zoneShift + k ≤ 2 ^ k →
      AddrZone (2 ^ k) zoneShift ((a + 2 ^ k * 2 ^ zoneShift) % 2 ^ (2 ^ k)) =
        AddrZone (2 ^ k) zoneShift a) := by
  have hpos : 0 < 2 ^ zoneShift := Nat.two_pow_pos _
  have hadd : (a + 2 ^ k * 2 ^ zoneShift) / 2 ^ zoneShift % 2 ^ k =
      a / 2 ^ zoneShift % 2 ^ k := by
    rw [Nat.add_mul_div_right _ _ hpos, Nat.add_mod_right]
  refine ⟨?_, ?_, fun b hb => ?_, ?_, fun hs => ?_⟩
  · rw [AddrZone_eq_mod, Nat.shiftRight_eq_div_pow]
  · rw [AddrZone_eq_mod]
    exact Nat.mod_lt _ (Nat.two_pow_pos _)
  · rw [AddrZone_eq_mod, AddrZone_eq_mod, hb]
  · rw [AddrZone_eq_mod, AddrZone_eq_mod, hadd]
  · rw [AddrZone_eq_mod, AddrZone_eq_mod]
    have hW : 2 ^ (2 ^ k) = 2 ^ zoneShift * 2 ^ (2 ^ k - zoneShift) := by
      rw [← Nat.pow_add]
      congr 1
      omega
    have hdvd : 2 ^ k ∣ 2 ^ (2 ^ k - zoneShift) := Nat.pow_dvd_pow 2 (by omega)
    rw [hW, Nat.mod_mul_right_div_self, Nat.mod_mod_of_dvd _ hdvd, hadd]

/-- **C21**, on a 64-bit word with stripes of 64 KiB: the address
`0xFFFFFFFFFFF12345` and the address `0x312345` that the sum with `64 * 2 ^ 16`
wraps around to are both in zone 49. -/
theorem AddrZone_spec_witness :
    16 + 6 ≤ 2 ^ 6 ∧
    (0xFFFFFFFFFFF12345 + 2 ^ 6 * 2 ^ 16) % 2 ^ (2 ^ 6) = 0x312345 ∧
    AddrZone (2 ^ 6) 16 0xFFFFFFFFFFF12345 = 49 ∧
    AddrZone (2 ^ 6) 16 ((0xFFFFFFFFFFF12345 + 2 ^ 6 * 2 ^ 16) % 2 ^ (2 ^ 6)) =
      AddrZone (2 ^ 6) 16 0xFFFFFFFFFFF12345 :=
  ⟨by decide, by decide, by decide, (AddrZone_spec 6 16 0xFFFFFFFFFFF12345).2.2.2.2 (by decide)⟩

/-! ## ArenaAvail -/

/-- **C29.** For every arena that passes `ArenaCheck` (in a checking
variety), with `reserved` and `commitLimit` words of `W` bits and
`spareCommitted ≤ committed ≤ min(reserved, commitLimit)`: `ArenaAvail` returns
`min(reserved, commitLimit) - committed + spareCommitted`, leaving the arena as
it is; the subtraction does not wrap around (`committed` is not above the
minimum, and the machine subtraction gives the difference), the addition does
not either (the sum is below `2 ^ W`), and the result is at most
`min(reserved, commitLimit)`. -/
theorem ArenaAvail_spec (env : Env) (sys : Sys) (a : Arena)
    (hv : env.checking = true → ArenaCheck env sys a = true)
    (hr : env.cls.reserved a < 2 ^ env.W) (hl : a.commitLimit < 2 ^ env.W)
    (h1 : a.spareCommitted ≤ a.committed)
    (h2 : a.committed ≤ min (env.cls.reserved a) a.commitLimit) :
    (ArenaAvail env sys).run a =
      ⟨[], some (min (env.cls.reserved a) a.commitLimit - a.committed + a.spareCommitted, a)⟩ ∧
    SizeSub env.W (min (env.cls.reserved a) a.commitLimit) a.committed =
      min (env.cls.reserved a) a.commitLimit - a.committed ∧
    min (env.cls.reserved a) a.commitLimit - a.committed + a.spareCommitted < 2 ^ env.W ∧
    min (env.cls.reserved a) a.commitLimit - a.committed + a.spareCommitted ≤
      min (env.cls.reserved a) a.commitLimit := by
  have hmin : min (env.cls.reserved a) a.commitLimit < 2 ^ env.W := by
    rcases Nat.le_total (env.cls.reserved a) a.commitLimit with h | h
    · rw [Nat.min_eq_left h]; exact hr
    · rw [Nat.min_eq_right h]; exact hl
  have hsub := SizeSub_eq h2 hmin
  have hle : min (env.cls.reserved a) a.commitLimit - a.committed + a.spareCommitted ≤
      min (env.cls.reserved a) a.commitLimit := by omega
  have hlt : min (env.cls.reserved a) a.commitLimit - a.committed + a.spareCommitted <
      2 ^ env.W := lt_of_le_of_lt hle hmin
  refine ⟨?_, hsub, hlt, hle⟩
  have hc : ¬ (env.checking && !ArenaCheck env sys a) = true := by
    intro h
    rcases Bool.and_eq_true_iff.mp h with ⟨hc, hn⟩
    rw [hv hc] at hn
    exact absurd hn (by decide)
  have hsw : (if env.cls.reserved a > a.commitLimit then a.commitLimit else env.cls.reserved a)
      = min (env.cls.reserved a) a.commitLimit := by
    split
    · rw [Nat.min_eq_right (by omega)]
    · rw [Nat.min_eq_left (by omega)]
  unfold ArenaAvail ArenaReserved
  rw [run_bind_of_some (x := env.cls.reserved a) (b := a)
    (by rw [run_AVERT_Arena_bind, if_neg hc, run_getArena_bind]; rfl)]
  rw [run_AVERT_Arena_bind, if_neg hc, run_getArena_bind, run_getArena_bind]
  simp only [hsw, hsub, Nat.mod_eq_of_lt hlt]
  rfl

/-- **C29**, on the sample arena: 256 KiB reserved, 4 KiB committed, nothing
spare: 252 KiB are available. -/
theorem ArenaAvail_spec_witness :
    (simpleArena 1).spareCommitted ≤ (simpleArena 1).committed ∧
    (simpleArena 1).committed ≤
      min (simpleEnv.cls.reserved (simpleArena 1)) (simpleArena 1).commitLimit ∧
    ((ArenaAvail simpleEnv simpleSys).run (simpleArena 1)).out =
      some (0x3F000, simpleArena 1) :=
  ⟨by decide, by decide,
    congrArg Run.out (ArenaAvail_spec simpleEnv simpleSys (simpleArena 1) (fun _ => by decide)
      (by decide) (by decide) (by decide) (by decide)).1⟩

/-! ## arenaLandInsert, case by case -/

theorem run_landInsert_bind {γ : Type} (env : Env) (r : Range) (f : Res × Range → M γ)
    (a : Arena) :
    (landInsert env r >>= f).run a =
      ⟨Event.landInsert r (env.LandInsert a r).1 (env.LandInsert a r).2.1 ::
        ((f ((env.LandInsert a r).1, (env.LandInsert a r).2.1)).run
          { a with freeLand := (env.LandInsert a r).2.2 }).evs,
       ((f ((env.LandInsert a r).1, (env.LandInsert a r).2.1)).run
          { a with freeLand := (env.LandInsert a r).2.2 }).out⟩ := by
  rw [run_bind_of_some (x := ((env.LandInsert a r).1, (env.LandInsert a r).2.1))
    (b := { a with freeLand := (env.LandInsert a r).2.2 }) rfl]
  rfl

/-- The run of the retried insertion and the exclusion of the page. -/
theorem insertThenExclude_run (env : Env) (range page : Range) (a : Arena) :
    (insertThenExclude env range page).run a =
      if env.checking && !((env.LandInsert a range).1 == Res.OK) then
        ⟨[Event.landInsert range (env.LandInsert a range).1 (env.LandInsert a range).2.1], none⟩
      else
        ⟨[Event.landInsert range (env.LandInsert a range).1 (env.LandInsert a range).2.1,
            Event.landDelete page
              (env.LandDelete { a with freeLand := (env.LandInsert a range).2.2 } page).1],
          if env.checking &&
              !((env.LandDelete { a with freeLand := (env.LandInsert a range).2.2 } page).1
                == Res.OK) then none
          else some ((Res.OK, (env.LandInsert a range).2.1),
            { a with freeLand :=
              (env.LandDelete { a with freeLand := (env.LandInsert a range).2.2 } page).2.2 })⟩ := by
  unfold insertThenExclude
  rw [run_landInsert_bind, run_AVER_bind]
  by_cases h1 : (env.checking && !((env.LandInsert a range).1 == Res.OK)) = true
  · simp only [h1, if_true]
  · simp only [h1, if_false, Bool.false_eq_true]
    by_cases h2 : (env.checking &&
        !((env.LandDelete { a with freeLand := (env.LandInsert a range).2.2 } page).1
          == Res.OK)) = true
    · rw [run_bind_of_none (by rw [arenaExcludePage_run, if_pos h2]), arenaExcludePage_run,
        if_pos h2, if_pos h2]
    · rw [run_bind_of_some (x := ()) (b := { a with freeLand :=
          (env.LandDelete { a with freeLand := (env.LandInsert a range).2.2 } page).2.2 })
        (by rw [arenaExcludePage_run, if_neg h2]), arenaExcludePage_run, if_neg h2, if_neg h2]
      rfl

/-- `arenaLandInsert` when `LandInsert` returns `ResLIMIT`: the block pool is
extended; its failure is returned, and after its success the range is inserted
again and the page excluded. -/
theorem arenaLandInsert_limit (env : Env) (r : Range) (a : Arena)
    (h : (env.LandInsert a r).1 = Res.LIMIT) :
    (arenaLandInsert env r).run a =
      match ((arenaExtendCBSBlockPool env).run
          { a with freeLand := (env.LandInsert a r).2.2 }).out with
      | none =>
        ⟨Event.landInsert r Res.LIMIT (env.LandInsert a r).2.1 ::
          ((arenaExtendCBSBlockPool env).run
            { a with freeLand := (env.LandInsert a r).2.2 }).evs, none⟩
      | some (e, a₂) =>
        if e.1 ≠ Res.OK then
          ⟨Event.landInsert r Res.LIMIT (env.LandInsert a r).2.1 ::
            ((arenaExtendCBSBlockPool env).run
              { a with freeLand := (env.LandInsert a r).2.2 }).evs,
            some ((e.1, (env.LandInsert a r).2.1), a₂)⟩
        else
          ⟨Event.landInsert r Res.LIMIT (env.LandInsert a r).2.1 ::
            (((arenaExtendCBSBlockPool env).run
              { a with freeLand := (env.LandInsert a r).2.2 }).evs ++
              ((insertThenExclude env r (e.2.getD ⟨0, 0⟩)).run a₂).evs),
            ((insertThenExclude env r (e.2.getD ⟨0, 0⟩)).run a₂).out⟩ := by
  unfold arenaLandInsert
  rw [run_landInsert_bind]
  simp only [h, if_true]
  rcases hE : ((arenaExtendCBSBlockPool env).run
      { a with freeLand := (env.LandInsert a r).2.2 }).out with _ | ⟨e, a₂⟩
  · rw [run_bind_of_none hE]
  · rw [run_bind_of_some hE]
    simp only
    by_cases he : e.1 ≠ Res.OK
    · rw [if_pos he, if_pos he]
      simp
    · rw [if_neg he, if_neg he]
      rfl


theorem arenaAllocPageInChunk_pageMarks (env : Env) (c : Nat) (cl : ArenaAllocPageClosure) :
    EvsAll (Event.isPageMark cl.pool) (arenaAllocPageInChunk env c cl) := by
  unfold arenaAllocPageInChunk
  refine EvsAll.evsBind (EvsAll.evsGetArena _) (fun arena => ?_)
  split
  · exact EvsAll.evsAbort _
  · split
    · exact EvsAll.evsPure _ _
    · split
      · exact EvsAll.evsPure _ _
      · refine EvsAll.evsBind (EvsAll.classPagesMarkAllocated _ _ _ _ _
          (fun _ => ⟨rfl, rfl⟩)) (fun res => ?_)
        split <;> exact EvsAll.evsPure _ _

theorem TreeTraverse_pageMarks (env : Env) (pool : Nat) (cs : List Nat)
    (cl : ArenaAllocPageClosure) (hcl : cl.pool = pool) :
    EvsAll (Event.isPageMark pool) (TreeTraverse (arenaAllocPageInChunk env) cs cl) := by
  induction cs generalizing cl with
  | nil => exact EvsAll.evsPure _ _
  | cons c cs ih =>
    unfold TreeTraverse
    refine EvsAll.evsBindVal (hcl ▸ arenaAllocPageInChunk_pageMarks env c cl)
      (arenaAllocPageInChunk_pool env c cl) (fun r hr => ?_)
    split
    · exact ih _ (by rw [hr, hcl])
    · exact EvsAll.evsPure _ _

/-- `arenaAllocPage` calls nothing but `pagesMarkAllocated`, for one page for
the pool each time: it makes no call on the free land. -/
theorem arenaAllocPage_pageMarks (env : Env) (pool : Nat) :
    EvsAll (Event.isPageMark pool) (arenaAllocPage env pool) := by
  unfold arenaAllocPage
  refine EvsAll.evsBind (EvsAll.evsGetArena _) (fun arena => ?_)
  split
  · exact EvsAll.evsAbort _
  · refine EvsAll.evsBindVal (arenaAllocPageInChunk_pageMarks _ _ _)
      (arenaAllocPageInChunk_pool _ _ _) (fun r hr => ?_)
    split
    · exact EvsAll.evsBind (EvsAll.evsAVER _ _ _) (fun _ => EvsAll.evsPure _ _)
    · refine EvsAll.evsBind (EvsAll.evsGetArena _) (fun arena' => ?_)
      refine EvsAll.evsBind (TreeTraverse_pageMarks _ _ _ _ (by simpa using hr)) (fun r' => ?_)
      split <;> exact EvsAll.evsBind (EvsAll.evsAVER _ _ _) (fun _ => EvsAll.evsPure _ _)

/-- A returning run of `arenaExtendCBSBlockPool`: `arenaAllocPage` returned the
same result code; on failure nothing else was done, on `ResOK` the page was
given to the block pool. -/
theorem arenaExtendCBSBlockPool_inv (env : Env) (a : Arena) (e : Res × Option Range)
    (a₂ : Arena) (h : ((arenaExtendCBSBlockPool env).run a).out = some (e, a₂)) :
    ∃ (pg : Option Nat) (a₁ : Arena),
      ((arenaAllocPage env env.cbsBlockPool).run a).out = some ((e.1, pg), a₁) ∧
      ((e.1 ≠ Res.OK ∧ a₂ = a₁ ∧ e.2 = none ∧
          ((arenaExtendCBSBlockPool env).run a).evs =
            ((arenaAllocPage env env.cbsBlockPool).run a).evs) ∨
        (e.1 = Res.OK ∧ e.2 = some ⟨pg.getD 0, pg.getD 0 + a₁.alignment⟩ ∧
          a₂ = { a₁ with freeLand := { a₁.freeLand with
            blockPool := env.MFSExtend a₁.freeLand.blockPool (pg.getD 0) a₁.alignment } } ∧
          ((arenaExtendCBSBlockPool env).run a).evs =
            ((arenaAllocPage env env.cbsBlockPool).run a).evs ++
              [Event.mfsExtend (pg.getD 0) a₁.alignment])) := by
  rw [arenaExtendCBSBlockPool_run] at h ⊢
  rcases hP : ((arenaAllocPage env env.cbsBlockPool).run a).out with _ | ⟨r, a₁⟩
  · rw [hP] at h
    simp at h
  · rw [hP] at h
    simp only at h ⊢
    by_cases hr : r.1 ≠ Res.OK
    · rw [if_pos hr] at h ⊢
      simp only [Option.some.injEq, Prod.mk.injEq] at h
      obtain ⟨rfl, rfl⟩ := h
      exact ⟨r.2, a₁, rfl, Or.inl ⟨hr, rfl, rfl, rfl⟩⟩
    · rw [if_neg hr] at h ⊢
      simp only [Option.some.injEq, Prod.mk.injEq] at h
      obtain ⟨rfl, rfl⟩ := h
      simp only [ne_eq, Decidable.not_not] at hr
      refine ⟨r.2, a₁, ?_, Or.inr ⟨rfl, rfl, rfl, rfl⟩⟩
      rw [← hr]


/-- **C22.** `arenaLandInsert` on a range, the first `LandInsert` returning
`res₁`: if `res₁` is not `ResLIMIT` (a success or any other error) the function
returns `ResOK`; a run that returns a code other than `ResOK` is one where
`res₁` is `ResLIMIT` and `arenaAllocPage`, called by `arenaExtendCBSBlockPool` for
the block pool, returned that code; and when `res₁` is `ResLIMIT` and
`arenaAllocPage` returns a code other than `ResOK`, the function returns that
code. -/
theorem arenaLandInsert_result (env : Env) (r : Range) (a : Arena) :
    ((env.LandInsert a r).1 ≠ Res.LIMIT →
      ((arenaLandInsert env r).run a).out =
        some ((Res.OK, (env.LandInsert a r).2.1),
          { a with freeLand := (env.LandInsert a r).2.2 })) ∧
    (∀ x a', ((arenaLandInsert env r).run a).out = some (x, a') → x.1 ≠ Res.OK →
      (env.LandInsert a r).1 = Res.LIMIT ∧
      ∃ pg, ((arenaAllocPage env env.cbsBlockPool).run
          { a with freeLand := (env.LandInsert a r).2.2 }).out = some ((x.1, pg), a')) ∧
    (∀ res pg a', (env.LandInsert a r).1 = Res.LIMIT →
      ((arenaAllocPage env env.cbsBlockPool).run
          { a with freeLand := (env.LandInsert a r).2.2 }).out = some ((res, pg), a') →
      res ≠ Res.OK →
      ((arenaLandInsert env r).run a).out = some ((res, (env.LandInsert a r).2.1), a')) := by
  refine ⟨fun h => by rw [arenaLandInsert_run env r a h], fun x a' ho hx => ?_,
    fun res pg a' hL hP hres => ?_⟩
  · by_cases hL : (env.LandInsert a r).1 = Res.LIMIT
    · refine ⟨hL, ?_⟩
      rw [arenaLandInsert_limit env r a hL] at ho
      rcases hE : ((arenaExtendCBSBlockPool env).run
          { a with freeLand := (env.LandInsert a r).2.2 }).out with _ | ⟨e, a₂⟩
      · rw [hE] at ho
        simp at ho
      · rw [hE] at ho
        simp only at ho
        by_cases he : e.1 ≠ Res.OK
        · rw [if_pos he] at ho
          simp only [Option.some.injEq, Prod.mk.injEq] at ho
          obtain ⟨rfl, rfl⟩ := ho
          obtain ⟨pg, a₁, hP, hc⟩ := arenaExtendCBSBlockPool_inv env _ e a₂ hE
          rcases hc with ⟨-, rfl, -, -⟩ | ⟨h, -⟩
          · exact ⟨pg, hP⟩
          · exact absurd h he
        · rw [if_neg he, insertThenExclude_run] at ho
          exfalso
          split at ho
          · simp at ho
          · simp only at ho
            split at ho
            · simp at ho
            · simp only [Option.some.injEq, Prod.mk.injEq] at ho
              exact hx (by rw [← ho.1])
    · rw [arenaLandInsert_run env r a hL] at ho
      simp only [Option.some.injEq, Prod.mk.injEq] at ho
      exact absurd (by rw [← ho.1]) hx
  · rw [arenaLandInsert_limit env r a hL, arenaExtendCBSBlockPool_run, hP]
    simp only
    rw [if_pos hres]
    simp only
    rw [if_pos hres]

/-- **C22**, on the sample arenas: with a spare node the insert returns `ResOK`
and so does `arenaLandInsert`; in the full arena without a spare node the
insert returns `ResLIMIT`, `arenaAllocPage` finds no page and returns
`ResRESOURCE`, and so does `arenaLandInsert`. -/
theorem arenaLandInsert_result_witness :
    (simpleEnv.LandInsert simpleArenaAllocated ⟨0x101000, 0x103000⟩).1 = Res.OK ∧
    ((arenaLandInsert simpleEnv ⟨0x101000, 0x103000⟩).run simpleArenaAllocated).out =
      some ((Res.OK, (simpleEnv.LandInsert simpleArenaAllocated ⟨0x101000, 0x103000⟩).2.1),
        { simpleArenaAllocated with freeLand :=
          (simpleEnv.LandInsert simpleArenaAllocated ⟨0x101000, 0x103000⟩).2.2 }) ∧
    (simpleEnv.LandInsert fullArena ⟨0x101000, 0x102000⟩).1 = Res.LIMIT ∧
    ((arenaLandInsert simpleEnv ⟨0x101000, 0x102000⟩).run fullArena).out =
      some ((Res.RESOURCE, (simpleEnv.LandInsert fullArena ⟨0x101000, 0x102000⟩).2.1),
        fullArena) :=
  ⟨by decide,
    (arenaLandInsert_result simpleEnv ⟨0x101000, 0x103000⟩ simpleArenaAllocated).1 (by decide),
    by decide,
    (arenaLandInsert_result simpleEnv ⟨0x101000, 0x102000⟩ fullArena).2.2 Res.RESOURCE none
      fullArena (by decide) (by decide) (by decide)⟩

/-- The shapes of the log of `arenaLandInsert` on a range: the first
`LandInsert` followed by calls of `pagesMarkAllocated` for a page for the block
pool, and then either nothing more, or (the first `LandInsert` having returned
`ResLIMIT` and a page `[p, p + al)` having been obtained) `MFSExtend` of the
page, the second `LandInsert` of the range, and `LandDelete` of the page's range
as the last call, missing only if the run stopped at the assertion on the
second `LandInsert`. -/
theorem arenaLandInsert_shapes (env : Env) (r : Range) (a : Arena) :
    ∃ res₁ ret₁ marks,
      (∀ e ∈ marks, e.isPageMark env.cbsBlockPool) ∧
      (((arenaLandInsert env r).run a).evs = Event.landInsert r res₁ ret₁ :: marks ∨
        ∃ p al res₂ ret₂, res₁ = Res.LIMIT ∧
          ((((arenaLandInsert env r).run a).evs =
              Event.landInsert r res₁ ret₁ ::
                (marks ++ [Event.mfsExtend p al, Event.landInsert r res₂ ret₂]) ∧
            ((arenaLandInsert env r).run a).out = none ∧ res₂ ≠ Res.OK) ∨
          ∃ dres, ((arenaLandInsert env r).run a).evs =
            Event.landInsert r res₁ ret₁ ::
              (marks ++ [Event.mfsExtend p al, Event.landInsert r res₂ ret₂,
                Event.landDelete ⟨p, p + al⟩ dres]))) := by
  by_cases hL : (env.LandInsert a r).1 = Res.LIMIT
  · have hmarks := arenaAllocPage_pageMarks env env.cbsBlockPool
      { a with freeLand := (env.LandInsert a r).2.2 }
    rw [arenaLandInsert_limit env r a hL]
    rcases hE : ((arenaExtendCBSBlockPool env).run
        { a with freeLand := (env.LandInsert a r).2.2 }).out with _ | ⟨e, a₂⟩
    · simp only
      have hev : ((arenaExtendCBSBlockPool env).run
          { a with freeLand := (env.LandInsert a r).2.2 }).evs =
          ((arenaAllocPage env env.cbsBlockPool).run
            { a with freeLand := (env.LandInsert a r).2.2 }).evs := by
        rw [arenaExtendCBSBlockPool_run] at hE ⊢
        rcases hP : ((arenaAllocPage env env.cbsBlockPool).run
            { a with freeLand := (env.LandInsert a r).2.2 }).out with _ | ⟨x, a₁⟩
        · rfl
        · rw [hP] at hE
          simp only at hE
          split at hE <;> simp at hE
      exact ⟨Res.LIMIT, (env.LandInsert a r).2.1, ((arenaAllocPage env env.cbsBlockPool).run
          { a with freeLand := (env.LandInsert a r).2.2 }).evs,
          hmarks, Or.inl (by rw [hev])⟩
    · simp only
      obtain ⟨pg, a₁, hP, hc⟩ := arenaExtendCBSBlockPool_inv env _ e a₂ hE
      rcases hc with ⟨he, -, -, hev⟩ | ⟨he, hpage, -, hev⟩
      · rw [if_pos he]
        exact ⟨Res.LIMIT, (env.LandInsert a r).2.1, ((arenaAllocPage env env.cbsBlockPool).run
          { a with freeLand := (env.LandInsert a r).2.2 }).evs,
          hmarks, Or.inl (by rw [hev])⟩
      · rw [if_neg (by rw [he]; exact fun h => h rfl), hev, hpage, insertThenExclude_run]
        refine ⟨Res.LIMIT, (env.LandInsert a r).2.1, ((arenaAllocPage env env.cbsBlockPool).run
          { a with freeLand := (env.LandInsert a r).2.2 }).evs,
          hmarks, Or.inr ⟨pg.getD 0, a₁.alignment,
          (env.LandInsert a₂ r).1, (env.LandInsert a₂ r).2.1, rfl, ?_⟩⟩
        by_cases h1 : (env.checking && !((env.LandInsert a₂ r).1 == Res.OK)) = true
        · rw [if_pos h1]
          refine Or.inl ⟨by simp, rfl, ?_⟩
          intro h
          rw [h] at h1
          simp at h1
        · rw [if_neg h1]
          exact Or.inr ⟨(env.LandDelete { a₂ with freeLand := (env.LandInsert a₂ r).2.2 }
            ⟨pg.getD 0, pg.getD 0 + a₁.alignment⟩).1, by simp [Option.getD]⟩
  · rw [arenaLandInsert_run env r a hL]
    exact ⟨_, _, [], by simp, Or.inl rfl⟩

theorem isPageMark_not_landDelete {pool : Nat} {e : Event} (h : e.isPageMark pool) :
    e.isLandDelete = false := by
  cases e <;> first | rfl | exact absurd h (by simp [Event.isPageMark])

/-- In a list whose elements before the last do not satisfy `P`, an element
that satisfies `P` is the last one. -/
theorem split_at_last {α : Type} (P : α → Prop) (init : List α) (d : α)
    (hinit : ∀ x ∈ init, ¬ P x) (pre post : List α) (e : α) (he : P e)
    (h : init ++ [d] = pre ++ e :: post) : post = [] ∧ pre = init := by
  induction init generalizing pre with
  | nil =>
    rcases pre with _ | ⟨y, pre'⟩
    · simp only [List.nil_append, List.cons.injEq] at h
      exact ⟨h.2.symm, rfl⟩
    · simp only [List.nil_append, List.cons_append, List.cons.injEq] at h
      have := h.2
      simp at this
  | cons x xs ih =>
    rcases pre with _ | ⟨y, pre'⟩
    · simp only [List.cons_append, List.nil_append, List.cons.injEq] at h
      exact absurd (h.1 ▸ he) (hinit x (List.mem_cons_self _ _))
    · simp only [List.cons_append, List.cons.injEq] at h
      obtain ⟨hp, hq⟩ := ih (fun z hz => hinit z (List.mem_cons_of_mem _ hz)) pre' h.2
      exact ⟨hp, by rw [hq, h.1]⟩

/-- In a list no element of which satisfies `P`, no element satisfies `P`. -/
theorem no_split {α : Type} (P : α → Prop) (l : List α) (hl : ∀ x ∈ l, ¬ P x)
    (pre post : List α) (e : α) (he : P e) (h : l = pre ++ e :: post) : False :=
  hl e (by rw [h]; simp) he

/-- **C23.** In `arenaLandInsert` on a range, when the first `LandInsert`
returns `ResLIMIT` and `arenaAllocPage` gives a page `p` for the block pool:
the log of the run is the first `LandInsert`, the calls of `pagesMarkAllocated`
made by `arenaAllocPage`, `MFSExtend` of the page, the second `LandInsert` of
the range, made in the arena with the block pool extended, and then, as the
last call, `LandDelete` of the page's range `[p, p + grain)`, made on the land
that the second `LandInsert` left.  The `LandDelete` is missing only when the
run stops at the assertion on the second `LandInsert`.  And in every run of
`arenaLandInsert`, whatever the arena, a call of `LandDelete` is the last call
of the log and comes directly after a `LandInsert` of the range that is not
the first call: the page is never excluded before the range has been inserted
again. -/
theorem arenaLandInsert_order (env : Env) (r : Range) (a : Arena) (p : Nat) (a₁ : Arena)
    (h1 : (env.LandInsert a r).1 = Res.LIMIT)
    (hp : ((arenaAllocPage env env.cbsBlockPool).run
      { a with freeLand := (env.LandInsert a r).2.2 }).out = some ((Res.OK, some p), a₁)) :
    (∀ e ∈ ((arenaAllocPage env env.cbsBlockPool).run
        { a with freeLand := (env.LandInsert a r).2.2 }).evs,
      e.isPageMark env.cbsBlockPool) ∧
    ((arenaLandInsert env r).run a).evs =
      Event.landInsert r Res.LIMIT (env.LandInsert a r).2.1 ::
        (((arenaAllocPage env env.cbsBlockPool).run
            { a with freeLand := (env.LandInsert a r).2.2 }).evs ++
          (Event.mfsExtend p a₁.alignment ::
            Event.landInsert r (env.LandInsert (a₁.withPage env p) r).1
              (env.LandInsert (a₁.withPage env p) r).2.1 ::
            if env.checking && !((env.LandInsert (a₁.withPage env p) r).1 == Res.OK) then []
            else [Event.landDelete ⟨p, p + a₁.alignment⟩
              (env.LandDelete
                { a₁.withPage env p with freeLand := (env.LandInsert (a₁.withPage env p) r).2.2 }
                ⟨p, p + a₁.alignment⟩).1])) ∧
    ((arenaLandInsert env r).run a).out =
      (if env.checking && !((env.LandInsert (a₁.withPage env p) r).1 == Res.OK) then none
      else if env.checking && !((env.LandDelete
          { a₁.withPage env p with freeLand := (env.LandInsert (a₁.withPage env p) r).2.2 }
          ⟨p, p + a₁.alignment⟩).1 == Res.OK) then none
      else some ((Res.OK, (env.LandInsert (a₁.withPage env p) r).2.1),
        { a₁.withPage env p with freeLand := (env.LandDelete
          { a₁.withPage env p with freeLand := (env.LandInsert (a₁.withPage env p) r).2.2 }
          ⟨p, p + a₁.alignment⟩).2.2 })) ∧
    (∀ (b : Arena) (pre post : List Event) (e : Event),
      ((arenaLandInsert env r).run b).evs = pre ++ e :: post → e.isLandDelete = true →
      post = [] ∧ ∃ pre' res ret, pre' ≠ [] ∧ pre = pre' ++ [Event.landInsert r res ret]) := by
  refine ⟨arenaAllocPage_pageMarks env env.cbsBlockPool _, ?_, ?_, ?_⟩
  · rw [arenaLandInsert_limit env r a h1, arenaExtendCBSBlockPool_run, hp]
    simp only [ne_eq, not_true_eq_false, if_false, Option.getD_some, RangeInit]
    rw [insertThenExclude_run]
    unfold Arena.withPage
    by_cases hc : (env.checking && !((env.LandInsert
        { a₁ with freeLand := { a₁.freeLand with
            blockPool := env.MFSExtend a₁.freeLand.blockPool p a₁.alignment } } r).1
        == Res.OK)) = true
    · rw [if_pos hc, if_pos hc]
      simp
    · rw [if_neg hc, if_neg hc]
      simp
  · rw [arenaLandInsert_limit env r a h1, arenaExtendCBSBlockPool_run, hp]
    simp only [ne_eq, not_true_eq_false, if_false, Option.getD_some, RangeInit]
    rw [insertThenExclude_run]
    unfold Arena.withPage
    by_cases hc : (env.checking && !((env.LandInsert
        { a₁ with freeLand := { a₁.freeLand with
            blockPool := env.MFSExtend a₁.freeLand.blockPool p a₁.alignment } } r).1
        == Res.OK)) = true
    · rw [if_pos hc, if_pos hc]
    · rw [if_neg hc, if_neg hc]
  · intro b pre post e hev he
    obtain ⟨res₁, ret₁, marks, hmarks, hshape⟩ := arenaLandInsert_shapes env r b
    have hnd : ∀ x ∈ Event.landInsert r res₁ ret₁ :: marks, ¬ (x.isLandDelete = true) := by
      intro x hx
      rcases List.mem_cons.mp hx with rfl | hx
      · simp [Event.isLandDelete]
      · rw [isPageMark_not_landDelete (hmarks x hx)]
        simp
    rcases hshape with h | ⟨q, al, res₂, ret₂, -, h | ⟨dres, h⟩⟩
    · rw [h] at hev
      exact (no_split _ _ hnd pre post e he hev).elim
    · rw [h.1] at hev
      refine (no_split (fun x => x.isLandDelete = true) _ ?_ pre post e he hev).elim
      intro x hx
      rcases List.mem_cons.mp hx with rfl | hx
      · simp [Event.isLandDelete]
      · rcases List.mem_append.mp hx with hx | hx
        · exact hnd x (List.mem_cons_of_mem _ hx)
        · simp only [List.mem_cons, List.mem_singleton, List.not_mem_nil, or_false] at hx
          rcases hx with rfl | rfl <;> simp [Event.isLandDelete]
    · rw [h] at hev
      have hsplit : Event.landInsert r res₁ ret₁ ::
          (marks ++ [Event.mfsExtend q al, Event.landInsert r res₂ ret₂,
            Event.landDelete ⟨q, q + al⟩ dres]) =
          (Event.landInsert r res₁ ret₁ ::
            (marks ++ [Event.mfsExtend q al, Event.landInsert r res₂ ret₂])) ++
            [Event.landDelete ⟨q, q + al⟩ dres] := by simp
      rw [hsplit] at hev
      obtain ⟨hpost, hpre⟩ := split_at_last (fun x => x.isLandDelete = true) _ _ (by
        intro x hx
        rcases List.mem_cons.mp hx with rfl | hx
        · simp [Event.isLandDelete]
        · rcases List.mem_append.mp hx with hx | hx
          · exact hnd x (List.mem_cons_of_mem _ hx)
          · simp only [List.mem_cons, List.mem_singleton, List.not_mem_nil, or_false] at hx
            rcases hx with rfl | rfl <;> simp [Event.isLandDelete]) pre post e he hev
      refine ⟨hpost, Event.landInsert r res₁ ret₁ :: (marks ++ [Event.mfsExtend q al]),
        res₂, ret₂, by simp, ?_⟩
      rw [hpre]
      simp

/-- **C23**, on the sample arena with an empty land and no spare node: the
first insert of `[0x101000, 0x140000)` returns `ResLIMIT`, the page at
`0x101000` is marked and given to the block pool, the range is inserted again,
and only then is the page deleted from the land. -/
theorem arenaLandInsert_order_witness :
    (simpleEnv.LandInsert simpleArenaBare ⟨0x101000, 0x140000⟩).1 = Res.LIMIT ∧
    ((arenaLandInsert simpleEnv ⟨0x101000, 0x140000⟩).run simpleArenaBare).evs =
      [Event.landInsert ⟨0x101000, 0x140000⟩ Res.LIMIT ⟨0x101000, 0x140000⟩,
        Event.mark 0x100000 1 1 0 Res.OK,
        Event.mfsExtend 0x101000 4096,
        Event.landInsert ⟨0x101000, 0x140000⟩ Res.OK ⟨0x101000, 0x140000⟩,
        Event.landDelete ⟨0x101000, 0x102000⟩ Res.OK] ∧
    ((arenaLandInsert simpleEnv ⟨0x101000, 0x140000⟩).run simpleArenaBare).out =
      some ((Res.OK, ⟨0x101000, 0x140000⟩), simpleArenaCreated) :=
  have h := arenaLandInsert_order simpleEnv ⟨0x101000, 0x140000⟩ simpleArenaBare 0x101000
    { simpleArenaBare with
      committed := 8192
      chunkTree := [{ base := 0x100000, limit := 0x140000, pageSize := 4096, pageShift := 12,
                      pages := 64, allocBase := 1,
                      allocTable := true :: true :: List.replicate 62 false }] }
    (by decide) (by decide)
  ⟨by decide, h.2.1.trans (by decide), h.2.2.1.trans (by decide)⟩

/-! ## arenaLandInsertSteal -/

/-- **C24.** `arenaLandInsertSteal` on the range `[b, l)`, `arenaLandInsert`
having returned.  If it returned `ResOK` the function returns with `rangeIO`
still `[b, l)`, having done nothing else.  If it returned an allocation
failure, `grain` being the arena's grain size with `b ≤ l`, `grain ≤ l - b` and
`l` an address: the tract of the page at `b` is stolen once (finished and initialised
again for the CBS block pool), the page at `b` is given to the block pool by
`MFSExtend` (with the grain size as read again after the steal), `LandInsert`
is called on `[b + grain, l)`, and unless the assertion on its result fails the
function returns with `rangeIO = [b + grain, l)`. -/
theorem arenaLandInsertSteal_spec (env : Env) (sys : Sys) (b l : Nat) (a a₁ : Arena)
    (x : Res × Range)
    (hx : ((arenaLandInsert env ⟨b, l⟩).run a).out = some (x, a₁)) :
    (x.1 = Res.OK →
      (arenaLandInsertSteal env sys ⟨b, l⟩).run a =
        ⟨((arenaLandInsert env ⟨b, l⟩).run a).evs, some (⟨b, l⟩, a₁)⟩) ∧
    (x.1 ≠ Res.OK → (env.checking = true → ResIsAllocFailure x.1 = true) →
      b ≤ l → a₁.alignment ≤ l - b → l < 2 ^ env.W →
      ((arenaLandInsertSteal env sys ⟨b, l⟩).run a).evs =
        ((arenaLandInsert env ⟨b, l⟩).run a).evs ++
          [Event.tractSteal b,
            Event.mfsExtend b (sys.TractSteal a₁ b).alignment,
            Event.landInsert ⟨b + a₁.alignment, l⟩
              (env.LandInsert
                { sys.TractSteal a₁ b with freeLand :=
                  { (sys.TractSteal a₁ b).freeLand with
                    blockPool := env.MFSExtend (sys.TractSteal a₁ b).freeLand.blockPool b
                      (sys.TractSteal a₁ b).alignment } }
                ⟨b + a₁.alignment, l⟩).1
              (env.LandInsert
                { sys.TractSteal a₁ b with freeLand :=
                  { (sys.TractSteal a₁ b).freeLand with
                    blockPool := env.MFSExtend (sys.TractSteal a₁ b).freeLand.blockPool b
                      (sys.TractSteal a₁ b).alignment } }
                ⟨b + a₁.alignment, l⟩).2.1] ∧
      ((arenaLandInsertSteal env sys ⟨b, l⟩).run a).out =
        if env.checking && !((env.LandInsert
            { sys.TractSteal a₁ b with freeLand :=
              { (sys.TractSteal a₁ b).freeLand with
                blockPool := env.MFSExtend (sys.TractSteal a₁ b).freeLand.blockPool b
                  (sys.TractSteal a₁ b).alignment } }
            ⟨b + a₁.alignment, l⟩).1 == Res.OK) then none
        else some (⟨b + a₁.alignment, l⟩,
          { sys.TractSteal a₁ b with freeLand :=
            (env.LandInsert
              { sys.TractSteal a₁ b with freeLand :=
                { (sys.TractSteal a₁ b).freeLand with
                  blockPool := env.MFSExtend (sys.TractSteal a₁ b).freeLand.blockPool b
                    (sys.TractSteal a₁ b).alignment } }
              ⟨b + a₁.alignment, l⟩).2.2 })) := by
  refine ⟨fun hok => ?_, fun hne hfail hbl hsz hl => ?_⟩
  · unfold arenaLandInsertSteal
    rw [run_bind_of_some hx, if_neg (by rw [hok]; exact fun h => h rfl), run_AVER_bind,
      if_neg (by rw [hok]; simp)]
    simp
  · have hmod : (b + a₁.alignment) % 2 ^ env.W = b + a₁.alignment :=
      Nat.mod_eq_of_lt (by omega)
    have h1 : ¬ (env.checking && !ResIsAllocFailure x.1) = true := by
      intro h
      rcases Bool.and_eq_true_iff.mp h with ⟨hc, hn⟩
      rw [hfail hc] at hn
      exact absurd hn (by decide)
    have h2 : ¬ (env.checking && !decide (RangeSize ⟨b, l⟩ ≥ a₁.alignment)) = true := by
      simp only [RangeSize, ge_iff_le, hsz, decide_True, Bool.not_true, Bool.and_false,
        Bool.false_eq_true, not_false_eq_true]
    unfold arenaLandInsertSteal
    rw [run_bind_of_some hx, if_pos hne, run_AVER_bind, if_neg h1, run_getArena_bind,
      run_AVER_bind, if_neg h2]
    simp only [RangeInit, hmod]
    rw [run_bind_of_some (x := ()) (b := sys.TractSteal a₁ b) rfl, run_getArena_bind]
    simp only
    rw [run_bind_of_some (x := ()) (b := { sys.TractSteal a₁ b with freeLand :=
        { (sys.TractSteal a₁ b).freeLand with
          blockPool := env.MFSExtend (sys.TractSteal a₁ b).freeLand.blockPool b
            (sys.TractSteal a₁ b).alignment } }) rfl]
    rw [run_landInsert_bind, run_AVER_bind]
    simp only
    by_cases h3 : (env.checking && !((env.LandInsert
        { sys.TractSteal a₁ b with freeLand :=
          { (sys.TractSteal a₁ b).freeLand with
            blockPool := env.MFSExtend (sys.TractSteal a₁ b).freeLand.blockPool b
              (sys.TractSteal a₁ b).alignment } }
        ⟨b + a₁.alignment, l⟩).1 == Res.OK)) = true
    · rw [if_pos h3, if_pos h3]
      simp [callVoid, mfsExtend]
    · rw [if_neg h3, if_neg h3, run_AVER_bind, if_neg h3]
      simp [callVoid, mfsExtend]


/-- **C24**, on the sample arenas.  In the full arena without a spare node
`arenaLandInsert` of `[0x101000, 0x103000)` fails with `ResRESOURCE`: the page at
`0x101000` is stolen and given to the block pool, `[0x102000, 0x103000)` is
inserted and is what `rangeIO` holds.  In the arena with a spare node
`arenaLandInsert` returns `ResOK` and `rangeIO` is left as it is. -/
theorem arenaLandInsertSteal_spec_witness :
    ((arenaLandInsert simpleEnv ⟨0x101000, 0x103000⟩).run fullArena).out =
      some ((Res.RESOURCE, ⟨0x101000, 0x103000⟩), fullArena) ∧
    ((arenaLandInsertSteal simpleEnv simpleSys ⟨0x101000, 0x103000⟩).run fullArena).evs =
      [Event.landInsert ⟨0x101000, 0x103000⟩ Res.LIMIT ⟨0x101000, 0x103000⟩,
        Event.tractSteal 0x101000,
        Event.mfsExtend 0x101000 4096,
        Event.landInsert ⟨0x102000, 0x103000⟩ Res.OK ⟨0x102000, 0x103000⟩] ∧
    ((arenaLandInsertSteal simpleEnv simpleSys ⟨0x101000, 0x103000⟩).run fullArena).out =
      some (⟨0x102000, 0x103000⟩,
        { fullArena with freeLand :=
          { ranges := [⟨0x102000, 0x103000⟩],
            blockPool := { tracts := [0x101000], freeUnits := 63 } } }) ∧
    (arenaLandInsertSteal simpleEnv simpleSys ⟨0x101000, 0x103000⟩).run simpleArenaAllocated =
      ⟨((arenaLandInsert simpleEnv ⟨0x101000, 0x103000⟩).run simpleArenaAllocated).evs,
        some (⟨0x101000, 0x103000⟩, simpleArenaReturned)⟩ :=
  ⟨by decide,
    ((arenaLandInsertSteal_spec simpleEnv simpleSys 0x101000 0x103000 fullArena fullArena
      (Res.RESOURCE, ⟨0x101000, 0x103000⟩) (by decide)).2 (by decide) (fun _ => by decide)
      (by decide) (by decide) (by decide)).1.trans (by decide),
    ((arenaLandInsertSteal_spec simpleEnv simpleSys 0x101000 0x103000 fullArena fullArena
      (Res.RESOURCE, ⟨0x101000, 0x103000⟩) (by decide)).2 (by decide) (fun _ => by decide)
      (by decide) (by decide) (by decide)).2.trans (by decide),
    (arenaLandInsertSteal_spec simpleEnv simpleSys 0x101000 0x103000 simpleArenaAllocated
      simpleArenaReturned (Res.OK, ⟨0x101000, 0x140000⟩) (by decide)).1 rfl⟩

/-! ## arenaAllocPage -/

theorem chunkAt_base {a : Arena} {c : Nat} {chunk : Chunk} (h : chunkAt a c = some chunk) :
    chunk.base = c := by
  unfold chunkAt at h
  have := List.find?_some h
  simpa using this

/-- The run of `arenaAllocPageInChunk` on a chunk of the tree. -/
theorem arenaAllocPageInChunk_run (env : Env) (c : Nat) (cl : ArenaAllocPageClosure) (a : Arena)
    (chunk : Chunk) (hc : chunkAt a c = some chunk) :
    (arenaAllocPageInChunk env c cl).run a =
      if cl.avoid = some chunk.base then
        ⟨[], some ((true, { cl with res := Res.RESOURCE }), a)⟩
      else
        match BTFindShortResRange chunk.allocTable chunk.allocBase chunk.pages with
        | none => ⟨[], some ((true, { cl with res := Res.RESOURCE }), a)⟩
        | some (i, _) =>
          ⟨[Event.mark chunk.base i 1 cl.pool (env.cls.pagesMarkAllocated a chunk i 1 cl.pool).1],
            some (if (env.cls.pagesMarkAllocated a chunk i 1 cl.pool).1 ≠ Res.OK then
                (true, { cl with res := (env.cls.pagesMarkAllocated a chunk i 1 cl.pool).1 })
              else (false, { cl with base := PageIndexBase chunk i }),
              (env.cls.pagesMarkAllocated a chunk i 1 cl.pool).2)⟩ := by
  unfold arenaAllocPageInChunk
  rw [run_getArena_bind]
  simp only [hc]
  by_cases h1 : cl.avoid = some chunk.base
  · rw [if_pos h1, if_pos h1]
    rfl
  · rw [if_neg h1, if_neg h1]
    rcases hb : BTFindShortResRange chunk.allocTable chunk.allocBase chunk.pages with _ | ⟨i, j⟩
    · rfl
    · simp only
      rw [run_bind_of_some (x := (env.cls.pagesMarkAllocated a chunk i 1 cl.pool).1)
        (b := (env.cls.pagesMarkAllocated a chunk i 1 cl.pool).2) rfl]
      by_cases h2 : (env.cls.pagesMarkAllocated a chunk i 1 cl.pool).1 ≠ Res.OK
      · rw [if_pos h2, if_pos h2]
        rfl
      · rw [if_neg h2, if_neg h2]
        rfl

/-- A returning run of `arenaAllocPageInChunk`: either it returns `TRUE` (carry
on) with a result code other than `ResOK` in the closure, having made no call
or one call of `pagesMarkAllocated` that failed; or it returns `FALSE` with the
closure's result code as it was and its base the base of a page for which
`pagesMarkAllocated` returned `ResOK`, in a chunk that is not the one to
avoid. -/
theorem arenaAllocPageInChunk_inv (env : Env) (c : Nat) (cl : ArenaAllocPageClosure)
    (a : Arena) (r : Bool × ArenaAllocPageClosure) (a' : Arena)
    (ho : ((arenaAllocPageInChunk env c cl).run a).out = some (r, a')) :
    r.2.pool = cl.pool ∧ r.2.avoid = cl.avoid ∧
    ((r.1 = true ∧ r.2.res ≠ Res.OK ∧ r.2.base = cl.base ∧
        (((arenaAllocPageInChunk env c cl).run a).evs = [] ∨
          (cl.avoid ≠ some c ∧ ∃ i res, res ≠ Res.OK ∧
            ((arenaAllocPageInChunk env c cl).run a).evs = [Event.mark c i 1 cl.pool res]))) ∨
      (r.1 = false ∧ r.2.res = cl.res ∧ cl.avoid ≠ some c ∧
        ∃ chunk i j, chunkAt a c = some chunk ∧
          BTFindShortResRange chunk.allocTable chunk.allocBase chunk.pages = some (i, j) ∧
          env.cls.pagesMarkAllocated a chunk i 1 cl.pool = (Res.OK, a') ∧
          ((arenaAllocPageInChunk env c cl).run a).evs = [Event.mark c i 1 cl.pool Res.OK] ∧
          r.2.base = PageIndexBase chunk i)) := by
  rcases hc : chunkAt a c with _ | chunk
  · unfold arenaAllocPageInChunk at ho
    rw [run_getArena_bind] at ho
    simp [hc, abort] at ho
  have hb := chunkAt_base hc
  rw [arenaAllocPageInChunk_run env c cl a chunk hc] at ho ⊢
  rw [hb] at ho ⊢
  by_cases h1 : cl.avoid = some c
  · rw [if_pos h1] at ho ⊢
    simp only [Option.some.injEq, Prod.mk.injEq] at ho
    obtain ⟨rfl, rfl⟩ := ho
    exact ⟨rfl, rfl, Or.inl ⟨rfl, by simp, rfl, Or.inl rfl⟩⟩
  · rw [if_neg h1] at ho ⊢
    rcases hbt : BTFindShortResRange chunk.allocTable chunk.allocBase chunk.pages with _ | ⟨i, j⟩
    · rw [hbt] at ho
      simp only [Option.some.injEq, Prod.mk.injEq] at ho
      obtain ⟨rfl, rfl⟩ := ho
      exact ⟨rfl, rfl, Or.inl ⟨rfl, by simp, rfl, Or.inl rfl⟩⟩
    · rw [hbt] at ho
      simp only [Option.some.injEq, Prod.mk.injEq] at ho ⊢
      obtain ⟨hr, ha'⟩ := ho
      by_cases h2 : (env.cls.pagesMarkAllocated a chunk i 1 cl.pool).1 ≠ Res.OK
      · rw [if_pos h2] at hr
        subst hr
        exact ⟨rfl, rfl, Or.inl ⟨rfl, h2, rfl, Or.inr ⟨h1, i, _, h2, rfl⟩⟩⟩
      · rw [if_neg h2] at hr
        subst hr
        simp only [ne_eq, Decidable.not_not] at h2
        refine ⟨rfl, rfl, Or.inr ⟨rfl, rfl, h1, chunk, i, j, rfl, hbt, ?_, by rw [h2], rfl⟩⟩
        rw [← ha', ← h2]


/-- The log of every run of `arenaAllocPageInChunk` on chunk `c`: nothing, or
one call of `pagesMarkAllocated` for one page of chunk `c`, which is not the
chunk to avoid. -/
theorem arenaAllocPageInChunk_evs (env : Env) (c : Nat) (cl : ArenaAllocPageClosure)
    (a : Arena) :
    ((arenaAllocPageInChunk env c cl).run a).evs = [] ∨
      (cl.avoid ≠ some c ∧ ∃ i res,
        ((arenaAllocPageInChunk env c cl).run a).evs = [Event.mark c i 1 cl.pool res]) := by
  rcases hc : chunkAt a c with _ | chunk
  · left
    unfold arenaAllocPageInChunk
    rw [run_getArena_bind]
    simp [hc, abort]
  have hb := chunkAt_base hc
  rw [arenaAllocPageInChunk_run env c cl a chunk hc, hb]
  by_cases h1 : cl.avoid = some c
  · rw [if_pos h1]
    exact Or.inl rfl
  · rw [if_neg h1]
    rcases hbt : BTFindShortResRange chunk.allocTable chunk.allocBase chunk.pages with _ | ⟨i, j⟩
    · exact Or.inl rfl
    · exact Or.inr ⟨h1, i, _, rfl⟩

/-- The chunks for which the traversal calls `pagesMarkAllocated` are chunks
of the list traversed, in the order of the list, the chunk to avoid not among
them. -/
theorem TreeTraverse_order (env : Env) (pb : Nat) (cs : List Nat) (cl : ArenaAllocPageClosure)
    (hav : cl.avoid = some pb) (a : Arena) :
    List.Sublist
      (((TreeTraverse (arenaAllocPageInChunk env) cs cl).run a).evs.filterMap Event.markChunk)
      (cs.filter (fun c => c ≠ pb)) := by
  induction cs generalizing cl a with
  | nil => simp [TreeTraverse]
  | cons c cs ih =>
    unfold TreeTraverse
    have hhead : List.Sublist
        (((arenaAllocPageInChunk env c cl).run a).evs.filterMap Event.markChunk)
        ((([c] : List Nat)).filter (fun c => c ≠ pb)) := by
      rcases arenaAllocPageInChunk_evs env c cl a with h | ⟨hne, i, res, h⟩
      · rw [h]
        simp
      · rw [h]
        have hcp : c ≠ pb := by
          intro hcp
          exact hne (by rw [hav, hcp])
        simp [Event.markChunk, hcp]
    rcases hm : ((arenaAllocPageInChunk env c cl).run a).out with _ | ⟨r, a₁⟩
    · rw [run_bind_of_none hm]
      simp only
      have : (c :: cs).filter (fun c => decide (c ≠ pb)) =
          ([c] : List Nat).filter (fun c => decide (c ≠ pb)) ++
            cs.filter (fun c => decide (c ≠ pb)) := by
        rw [← List.filter_append]; rfl
      rw [this]
      exact hhead.trans (List.sublist_append_left _ _)
    · rw [run_bind_of_some hm]
      simp only
      have hr := (arenaAllocPageInChunk_inv env c cl a r a₁ hm).2.1
      have : (c :: cs).filter (fun c => decide (c ≠ pb)) =
          ([c] : List Nat).filter (fun c => decide (c ≠ pb)) ++
            cs.filter (fun c => decide (c ≠ pb)) := by
        rw [← List.filter_append]; rfl
      rw [this, List.filterMap_append]
      refine List.Sublist.append hhead ?_
      split
      · exact ih r.2 (by rw [hr, hav]) a₁
      · simp

/-- A returning traversal: either every chunk was visited (`TRUE`), none gave
a page, and the closure holds a result code other than `ResOK` if it did before
or a chunk was visited; or (`FALSE`) the closure holds the base of a page for
which `pagesMarkAllocated` returned `ResOK`. -/
theorem TreeTraverse_inv (env : Env) (cs : List Nat) (cl : ArenaAllocPageClosure)
    (a : Arena) (r : Bool × ArenaAllocPageClosure) (a' : Arena)
    (ho : ((TreeTraverse (arenaAllocPageInChunk env) cs cl).run a).out = some (r, a')) :
    r.2.pool = cl.pool ∧
    ((r.1 = true ∧ (cl.res ≠ Res.OK ∨ cs ≠ [] → r.2.res ≠ Res.OK) ∧
        ∀ e ∈ ((TreeTraverse (arenaAllocPageInChunk env) cs cl).run a).evs,
          ∃ c k res, res ≠ Res.OK ∧ e = Event.mark c k 1 cl.pool res) ∨
      (r.1 = false ∧
        PageMarked env cl.pool
          ((TreeTraverse (arenaAllocPageInChunk env) cs cl).run a).evs r.2.base a')) := by
  induction cs generalizing cl a with
  | nil =>
    unfold TreeTraverse at ho ⊢
    simp only [M.run_pure, Option.some.injEq, Prod.mk.injEq] at ho ⊢
    obtain ⟨rfl, rfl⟩ := ho
    exact ⟨rfl, Or.inl ⟨rfl, fun h => h.elim id (fun h => absurd rfl h), by simp⟩⟩
  | cons c cs ih =>
    unfold TreeTraverse at ho ⊢
    obtain ⟨x, a₁, hx, hrest, hevs⟩ := bind_some_inv ho
    rw [hevs]
    obtain ⟨hpool, -, hcase⟩ := arenaAllocPageInChunk_inv env c cl a x a₁ hx
    rcases hcase with ⟨hx1, hres, -, hev⟩ | ⟨hx1, -, -, chunk, i, j, hc, hbt, hmark, hev, hbase⟩
    · rw [hx1] at hrest ⊢
      simp only [if_true] at hrest ⊢
      obtain ⟨hp', hc'⟩ := ih x.2 a₁ hrest
      have hpre : ∀ e ∈ ((arenaAllocPageInChunk env c cl).run a).evs,
          ∃ c k res, res ≠ Res.OK ∧ e = Event.mark c k 1 cl.pool res := by
        rcases hev with h | ⟨-, i, res, hne, h⟩
        · rw [h]; simp
        · rw [h]
          intro e he
          rw [List.mem_singleton] at he
          exact ⟨c, i, res, hne, he⟩
      refine ⟨hp'.trans hpool, ?_⟩
      rcases hc' with ⟨h1, h2, h3⟩ | ⟨h1, pre, a₀, ch, i, j, h2, h3, h4⟩
      · refine Or.inl ⟨h1, fun _ => h2 (Or.inl hres), fun e he => ?_⟩
        rcases List.mem_append.mp he with he | he
        · exact hpre e he
        · rw [← hpool]; exact h3 e he
      · refine Or.inr ⟨h1, ((arenaAllocPageInChunk env c cl).run a).evs ++ pre, a₀, ch, i, j,
          ?_, fun e he => ?_, ?_⟩
        · rw [h2, hpool, List.append_assoc]
        · rcases List.mem_append.mp he with he | he
          · exact hpre e he
          · rw [← hpool]; exact h3 e he
        · rw [← hpool]; exact h4
    · rw [hx1] at hrest ⊢
      simp only [Bool.false_eq_true, if_false, M.run_pure, Option.some.injEq,
        Prod.mk.injEq] at hrest ⊢
      obtain ⟨rfl, rfl⟩ := hrest
      have hb := chunkAt_base hc
      refine ⟨hpool, Or.inr ⟨rfl, [], a, chunk, i, j, ?_, by simp, ?_, hbt, hmark, hbase⟩⟩
      · rw [hev, hb]; simp
      · rw [hb]; exact hc


/-- What `BTFindShortResRange` finds is a reset bit of the table within the
search bounds, and the index after it. -/
theorem BTFindShortResRange_some {bt : List Bool} {b l i j : Nat}
    (h : BTFindShortResRange bt b l = some (i, j)) :
    b ≤ i ∧ i < l ∧ bt.getD i true = false ∧ j = i + 1 := by
  unfold BTFindShortResRange at h
  rcases hf : (List.range' b (l - b)).find? (fun i => !(bt.getD i true)) with _ | k
  · rw [hf] at h; simp at h
  · rw [hf] at h
    simp only [Option.some.injEq, Prod.mk.injEq] at h
    obtain ⟨rfl, rfl⟩ := h
    have h1 := List.find?_some hf
    have h2 := List.mem_of_find?_eq_some hf
    rw [List.mem_range'_1] at h2
    refine ⟨h2.1, by omega, by simpa using h1, rfl⟩

/-- The run of `arenaAllocPage` when the attempt on the primary chunk gives a
page. -/
theorem arenaAllocPage_run_found (env : Env) (pool : Nat) (a : Arena) (pb : Nat)
    (hp : a.primary = some pb) (cl : ArenaAllocPageClosure) (a₁ : Arena)
    (h : ((arenaAllocPageInChunk env pb
      { pool := pool, base := 0, avoid := none, res := Res.OK }).run a).out =
        some ((false, cl), a₁)) :
    (arenaAllocPage env pool).run a =
      ⟨((arenaAllocPageInChunk env pb
          { pool := pool, base := 0, avoid := none, res := Res.OK }).run a).evs,
        if env.checking && !(cl.base != 0) then none else some ((Res.OK, some cl.base), a₁)⟩ := by
  unfold arenaAllocPage
  rw [run_getArena_bind]
  simp only [hp]
  rw [run_bind_of_some h]
  simp only [Bool.not_false, if_true]
  rw [run_AVER_bind]
  by_cases hc : (env.checking && !(cl.base != 0)) = true
  · rw [if_pos hc, if_pos hc]; simp
  · rw [if_neg hc, if_neg hc]; simp

/-- The run of `arenaAllocPage` when the attempt on the primary chunk gives no
page: the chunks of the tree are traversed in order with the primary chunk to
avoid. -/
theorem arenaAllocPage_run_traverse (env : Env) (pool : Nat) (a : Arena) (pb : Nat)
    (hp : a.primary = some pb) (cl : ArenaAllocPageClosure) (a₁ : Arena)
    (h : ((arenaAllocPageInChunk env pb
      { pool := pool, base := 0, avoid := none, res := Res.OK }).run a).out =
        some ((true, cl), a₁)) :
    (arenaAllocPage env pool).run a =
      ⟨((arenaAllocPageInChunk env pb
            { pool := pool, base := 0, avoid := none, res := Res.OK }).run a).evs ++
          ((TreeTraverse (arenaAllocPageInChunk env) (a₁.chunkTree.map (fun c => c.base))
            { cl with avoid := some pb }).run a₁).evs,
        match ((TreeTraverse (arenaAllocPageInChunk env) (a₁.chunkTree.map (fun c => c.base))
            { cl with avoid := some pb }).run a₁).out with
        | none => none
        | some (r, a₂) =>
          if r.1 = false then
            if env.checking && !(r.2.base != 0) then none else some ((Res.OK, some r.2.base), a₂)
          else
            if env.checking && !(r.2.res != Res.OK) then none else some ((r.2.res, none), a₂)⟩ := by
  unfold arenaAllocPage
  rw [run_getArena_bind]
  simp only [hp]
  rw [run_bind_of_some h]
  simp only [Bool.not_true, Bool.false_eq_true, if_false]
  rw [run_getArena_bind]
  rcases ht : ((TreeTraverse (arenaAllocPageInChunk env) (a₁.chunkTree.map (fun c => c.base))
            { cl with avoid := some pb }).run a₁).out with _ | ⟨r, a₂⟩
  · rw [run_bind_of_none ht, ht]
  · rw [run_bind_of_some ht, ht]
    simp only
    rcases r with ⟨_ | _, c2⟩
    · simp only [Bool.not_false, if_true]
      rw [run_AVER_bind]
      by_cases hc : (env.checking && !(c2.base != 0)) = true
      · rw [if_pos hc]; simp [hc]
      · rw [if_neg hc]; simp [hc]
    · simp only [Bool.not_true, Bool.false_eq_true, if_false]
      rw [run_AVER_bind]
      by_cases hc : (env.checking && !(c2.res != Res.OK)) = true
      · rw [if_pos hc]; simp [hc]
      · rw [if_neg hc]; simp [hc]


/-- **C25.** `arenaAllocPage` prefers the primary chunk.  In every run its
calls are calls of `pagesMarkAllocated` for one page for the pool: the free
land is never consulted.  Whenever the primary chunk's allocation table has a
free page at or after `allocBase` (the lowest one being `i`) and
`pagesMarkAllocated` returns `ResOK` for it, the whole log is that one call for
one page of the primary chunk, the result is `ResOK` with the base of page `i`
of the primary chunk, which lies in the chunk, and the arena is the one that
call left: no other chunk is touched.  Whenever the primary attempt gives no
page (no free page, or `pagesMarkAllocated` fails), the run continues with the
traversal of the chunk tree in its order, the primary chunk being the chunk to
avoid: the chunks for which the traversal calls `pagesMarkAllocated` are
chunks of the tree in tree order other than the primary, and a visit of the
primary chunk makes no call and changes nothing. -/
theorem arenaAllocPage_primary (env : Env) (pool : Nat) (a : Arena) (pb : Nat) (chunk : Chunk)
    (hp : a.primary = some pb) (hc : chunkAt a pb = some chunk) :
    (∀ e ∈ ((arenaAllocPage env pool).run a).evs, Event.isPageMark pool e) ∧
    (∀ i j, BTFindShortResRange chunk.allocTable chunk.allocBase chunk.pages = some (i, j) →
      (env.cls.pagesMarkAllocated a chunk i 1 pool).1 = Res.OK →
      (chunk.allocBase ≤ i ∧ i < chunk.pages ∧ chunk.allocTable.getD i true = false) ∧
      ((arenaAllocPage env pool).run a).evs = [Event.mark pb i 1 pool Res.OK] ∧
      ((env.checking = true → PageIndexBase chunk i ≠ 0) →
        ((arenaAllocPage env pool).run a).out =
          some ((Res.OK, some (PageIndexBase chunk i)),
            (env.cls.pagesMarkAllocated a chunk i 1 pool).2)) ∧
      chunk.base ≤ PageIndexBase chunk i ∧
      (chunk.base + (chunk.pages <<< chunk.pageShift) ≤ chunk.limit →
        PageIndexBase chunk i < chunk.limit)) ∧
    ((BTFindShortResRange chunk.allocTable chunk.allocBase chunk.pages = none ∨
        ∃ i j, BTFindShortResRange chunk.allocTable chunk.allocBase chunk.pages = some (i, j) ∧
          (env.cls.pagesMarkAllocated a chunk i 1 pool).1 ≠ Res.OK) →
      ∃ cl a₁,
        ((arenaAllocPageInChunk env pb
          { pool := pool, base := 0, avoid := none, res := Res.OK }).run a).out =
            some ((true, cl), a₁) ∧
        ((arenaAllocPage env pool).run a).evs =
          ((arenaAllocPageInChunk env pb
            { pool := pool, base := 0, avoid := none, res := Res.OK }).run a).evs ++
          ((TreeTraverse (arenaAllocPageInChunk env) (a₁.chunkTree.map (fun c => c.base))
            { cl with avoid := some pb }).run a₁).evs ∧
        List.Sublist
          (((TreeTraverse (arenaAllocPageInChunk env) (a₁.chunkTree.map (fun c => c.base))
            { cl with avoid := some pb }).run a₁).evs.filterMap Event.markChunk)
          ((a₁.chunkTree.map (fun c => c.base)).filter (fun c => c ≠ pb))) ∧
    (∀ (cl : ArenaAllocPageClosure) (a' : Arena) (chunk' : Chunk), cl.avoid = some pb →
      chunkAt a' pb = some chunk' →
      (arenaAllocPageInChunk env pb cl).run a' =
        ⟨[], some ((true, { cl with res := Res.RESOURCE }), a')⟩) := by
  have hb := chunkAt_base hc
  have hrun := arenaAllocPageInChunk_run env pb
    { pool := pool, base := 0, avoid := none, res := Res.OK } a chunk hc
  rw [if_neg (by simp)] at hrun
  refine ⟨arenaAllocPage_pageMarks env pool a, fun i j hbt hm => ?_, fun hno => ?_,
    fun cl a' chunk' hav hc' => ?_⟩
  · rw [hbt] at hrun
    simp only [hm, ne_eq, not_true_eq_false, if_false] at hrun
    have hfound := arenaAllocPage_run_found env pool a pb hp _ _
      (by rw [hrun])
    obtain ⟨h1, h2, h3, -⟩ := BTFindShortResRange_some hbt
    refine ⟨⟨h1, h2, h3⟩, ?_, fun hz => ?_, ?_, fun hg => ?_⟩
    · rw [hfound, hrun, hb]
    · rw [hfound]
      simp only
      rw [if_neg]
      intro hh
      rw [Bool.and_eq_true] at hh
      have := hz hh.1
      simp [this] at hh
    · unfold PageIndexBase
      exact Nat.le_add_right _ _
    · unfold PageIndexBase
      rw [Nat.shiftLeft_eq] at hg ⊢
      have : i * 2 ^ chunk.pageShift < chunk.pages * 2 ^ chunk.pageShift :=
        Nat.mul_lt_mul_of_pos_right h2 (Nat.two_pow_pos _)
      omega
  · have hout : ∃ res, res ≠ Res.OK ∧
        ((arenaAllocPageInChunk env pb
          { pool := pool, base := 0, avoid := none, res := Res.OK }).run a).out =
            some ((true, { pool := pool, base := 0, avoid := none, res := res }),
              ((arenaAllocPageInChunk env pb
                { pool := pool, base := 0, avoid := none, res := Res.OK }).run a).out.elim a
                  (fun x => x.2)) := by
      rcases hno with hbt | ⟨i, j, hbt, hm⟩
      · rw [hbt] at hrun
        rw [hrun]
        exact ⟨Res.RESOURCE, by decide, rfl⟩
      · rw [hbt] at hrun
        simp only [hm, ne_eq, not_false_eq_true, if_true] at hrun
        rw [hrun]
        exact ⟨_, hm, rfl⟩
    obtain ⟨res, -, hout⟩ := hout
    refine ⟨_, _, hout, ?_, TreeTraverse_order env pb _ _ rfl _⟩
    rw [arenaAllocPage_run_traverse env pool a pb hp _ _ hout]
  · have hb' := chunkAt_base hc'
    rw [arenaAllocPageInChunk_run env pb cl a' chunk' hc', if_pos (by rw [hav, hb'])]

theorem arenaAllocPage_primary_witness :
    (∀ e ∈ ((arenaAllocPage simpleEnv 0).run (simpleArena 0)).evs, Event.isPageMark 0 e) ∧
    ((arenaAllocPage simpleEnv 0).run (simpleArena 0)).evs =
      [Event.mark 0x100000 1 1 0 Res.OK] ∧
    ((arenaAllocPage simpleEnv 0).run (simpleArena 0)).out =
      some ((Res.OK, some 0x101000),
        (simpleEnv.cls.pagesMarkAllocated (simpleArena 0)
          { base := 0x100000, limit := 0x140000, pageSize := 4096, pageShift := 12,
            pages := 64, allocBase := 1, allocTable := true :: List.replicate 63 false }
          1 1 0).2) :=
  have h := arenaAllocPage_primary simpleEnv 0 (simpleArena 0) 0x100000
    { base := 0x100000, limit := 0x140000, pageSize := 4096, pageShift := 12,
      pages := 64, allocBase := 1, allocTable := true :: List.replicate 63 false }
    (by decide) (by decide)
  have h2 := h.2.1 1 2 (by decide) (by decide)
  ⟨h.1, h2.2.1, h2.2.2.1 (by decide)⟩

/-- **C30.** In `arenaAllocPage`, whenever neither the attempt on the primary
chunk nor the traversal of the chunk tree finds a page, the result code in the
closure is not `ResOK`, so the assertion before the failure return passes and
that code is returned, whatever the chunk tree (a tree holding only the
primary chunk included).  Hence a returning `arenaAllocPage` returns `ResOK` if
and only if it wrote a base to `*baseReturn`, and a base it wrote is the base
of a page for which `pagesMarkAllocated` returned `ResOK`, that call being the
last of the log and the calls before it having failed. -/
theorem arenaAllocPage_result (env : Env) (pool : Nat) (a : Arena) (pb : Nat)
    (hp : a.primary = some pb) :
    (∀ c1 a₁ c2 a₂,
      ((arenaAllocPageInChunk env pb
        { pool := pool, base := 0, avoid := none, res := Res.OK }).run a).out =
          some ((true, c1), a₁) →
      ((TreeTraverse (arenaAllocPageInChunk env) (a₁.chunkTree.map (fun c => c.base))
        { c1 with avoid := some pb }).run a₁).out = some ((true, c2), a₂) →
      c2.res ≠ Res.OK ∧
        ((arenaAllocPage env pool).run a).out = some ((c2.res, none), a₂)) ∧
    (∀ r a', ((arenaAllocPage env pool).run a).out = some (r, a') →
      (r.1 = Res.OK ↔ r.2 ≠ none) ∧
      (∀ base, r.2 = some base →
        PageMarked env pool ((arenaAllocPage env pool).run a).evs base a')) := by
  constructor
  · intro c1 a₁ c2 a₂ h1 h2
    have hc1 := arenaAllocPageInChunk_inv env pb _ a _ a₁ h1
    have hres : c1.res ≠ Res.OK := by
      rcases hc1.2.2 with ⟨-, h, -⟩ | ⟨h, -⟩
      · exact h
      · simp at h
    have hc2 := (TreeTraverse_inv env _ _ a₁ _ a₂ h2).2
    have hres2 : c2.res ≠ Res.OK := by
      rcases hc2 with ⟨-, h, -⟩ | ⟨h, -⟩
      · exact h (Or.inl hres)
      · simp at h
    refine ⟨hres2, ?_⟩
    rw [arenaAllocPage_run_traverse env pool a pb hp _ _ h1, h2]
    simp [hres2]
  · intro r a' ho
    rcases hm : ((arenaAllocPageInChunk env pb
        { pool := pool, base := 0, avoid := none, res := Res.OK }).run a).out with
      _ | ⟨⟨_ | _, c1⟩, a₁⟩
    · exfalso
      unfold arenaAllocPage at ho
      rw [run_getArena_bind] at ho
      simp only [hp] at ho
      rw [run_bind_of_none hm] at ho
      simp at ho
    · have hrun := arenaAllocPage_run_found env pool a pb hp _ _ hm
      have hinv := arenaAllocPageInChunk_inv env pb _ a _ a₁ hm
      rcases hinv.2.2 with ⟨h, -⟩ | ⟨-, -, -, chunk, i, j, hc, hbt, hmark, hev, hbase⟩
      · simp at h
      rw [hrun] at ho ⊢
      simp only at ho ⊢
      split at ho
      · simp at ho
      · simp only [Option.some.injEq, Prod.mk.injEq] at ho
        obtain ⟨rfl, rfl⟩ := ho
        refine ⟨by simp, fun base hbase' => ?_⟩
        simp only [Option.some.injEq] at hbase'
        subst hbase'
        have hb := chunkAt_base hc
        refine ⟨[], a, chunk, i, j, ?_, by simp, by rw [hb]; exact hc, hbt, hmark, hbase⟩
        rw [hev, hb]; rfl
    · have hrun := arenaAllocPage_run_traverse env pool a pb hp _ _ hm
      have hinv := arenaAllocPageInChunk_inv env pb _ a _ a₁ hm
      have hpre : ∀ e ∈ ((arenaAllocPageInChunk env pb
          { pool := pool, base := 0, avoid := none, res := Res.OK }).run a).evs,
          ∃ c k res, res ≠ Res.OK ∧ e = Event.mark c k 1 pool res := by
        rcases hinv.2.2 with ⟨-, -, -, hev⟩ | ⟨h, -⟩
        · rcases hev with h | ⟨-, i, res, hne, h⟩
          · rw [h]; simp
          · rw [h]
            intro e he
            rw [List.mem_singleton] at he
            exact ⟨pb, i, res, hne, he⟩
        · simp at h
      have hpool : c1.pool = pool := hinv.1
      rw [hrun] at ho ⊢
      simp only at ho ⊢
      rcases ht : ((TreeTraverse (arenaAllocPageInChunk env)
          (a₁.chunkTree.map (fun c => c.base)) { c1 with avoid := some pb }).run a₁).out with
        _ | ⟨⟨_ | _, c2⟩, a₂⟩
      · rw [ht] at ho
        simp at ho
      · rw [ht] at ho
        simp only [if_true] at ho
        split at ho
        · simp at ho
        · simp only [Option.some.injEq, Prod.mk.injEq] at ho
          obtain ⟨rfl, rfl⟩ := ho
          refine ⟨by simp, fun base hbase' => ?_⟩
          simp only [Option.some.injEq] at hbase'
          subst hbase'
          rcases (TreeTraverse_inv env _ _ a₁ _ a₂ ht).2 with ⟨h, -⟩ |
            ⟨-, pre, a₀, ch, i, j, h2, h3, h4⟩
          · simp at h
          · refine ⟨((arenaAllocPageInChunk env pb
                { pool := pool, base := 0, avoid := none, res := Res.OK }).run a).evs ++ pre,
              a₀, ch, i, j, ?_, fun e he => ?_, ?_⟩
            · rw [h2, List.append_assoc]
              simp only [hpool]
            · rcases List.mem_append.mp he with he | he
              · exact hpre e he
              · have := h3 e he
                simpa only [hpool] using this
            · simpa only [hpool] using h4
      · rw [ht] at ho
        simp only [Bool.true_eq_false, if_false] at ho
        split at ho
        · simp at ho
        · simp only [Option.some.injEq, Prod.mk.injEq] at ho
          obtain ⟨rfl, rfl⟩ := ho
          have hres : c1.res ≠ Res.OK := by
            rcases hinv.2.2 with ⟨-, h, -⟩ | ⟨h, -⟩
            · exact h
            · simp at h
          have hres2 : c2.res ≠ Res.OK := by
            rcases (TreeTraverse_inv env _ _ a₁ _ a₂ ht).2 with ⟨-, h, -⟩ | ⟨h, -⟩
            · exact h (Or.inl hres)
            · simp at h
          exact ⟨by simp [hres2], fun base hbase' => by simp at hbase'⟩

theorem arenaAllocPage_result_witness :
    ((arenaAllocPage simpleEnv 0).run fullArena).out = some ((Res.RESOURCE, none), fullArena) :=
  ((arenaAllocPage_result simpleEnv 0 fullArena 0x100000 (by decide)).1
    { pool := 0, base := 0, avoid := none, res := Res.RESOURCE } fullArena
    { pool := 0, base := 0, avoid := some 0x100000, res := Res.RESOURCE } fullArena
    (by decide) (by decide)).2

/-! ## ArenaFreeLandInsert: no coalescing -/

theorem keep_mark_of {γ : Type} {env : Env} {f : Arena → γ}
    (hm : ∀ a c i n p, f (env.cls.pagesMarkAllocated a c i n p).2 = f a)
    (chunk : Chunk) (i n pool : Nat) :
    Post (fun a _ a' => f a' = f a) (classPagesMarkAllocated env chunk i n pool) := by
  intro a x a' ho
  simp only [classPagesMarkAllocated, Option.some.injEq, Prod.mk.injEq] at ho
  rw [← ho.2]; exact hm _ _ _ _ _

/-- What `pagesMarkAllocated` leaves unchanged, `arenaAllocPage` leaves
unchanged. -/
theorem arenaAllocPage_keeps_of {γ : Type} {env : Env} {f : Arena → γ}
    (hm : ∀ a c i n p, f (env.cls.pagesMarkAllocated a c i n p).2 = f a)
    (pool : Nat) : Post (fun a _ a' => f a' = f a) (arenaAllocPage env pool) := by
  have hv : ∀ c cl, Post (fun a _ a' => f a' = f a) (arenaAllocPageInChunk env c cl) := by
    intro c cl
    unfold arenaAllocPageInChunk
    refine keep_bind (keep_getArena f) (fun arena => ?_)
    split
    · exact post_abort _
    · split
      · exact keep_pure f _
      · split
        · exact keep_pure f _
        · refine keep_bind (keep_mark_of hm _ _ _ _) (fun res => ?_)
          split <;> exact keep_pure f _
  unfold arenaAllocPage
  refine keep_bind (keep_getArena f) (fun arena => ?_)
  split
  · exact post_abort _
  · refine keep_bind (hv _ _) (fun r => ?_)
    split
    · exact keep_bind (keep_AVER f _ _) (fun _ => keep_pure f _)
    · refine keep_bind (keep_getArena f) (fun arena' => ?_)
      refine keep_bind (TreeTraverse_keeps _ hv _ _) (fun r' => ?_)
      split <;> exact keep_bind (keep_AVER f _ _) (fun _ => keep_pure f _)

/-- After a successful extension of the block pool from an arena whose land
abuts nothing of `r`, the land still abuts nothing of `r` and `LandInsert` of
`r` returns `ResOK` and reports `r`. -/
theorem retry_alone (env : Env) (hc : InsertContract env)
    (hm : ∀ a c i n p, (env.cls.pagesMarkAllocated a c i n p).2.freeLand = a.freeLand)
    (r : Range) (a : Arena) (hal : a.freeLand.abutsNone r)
    (e : Res × Option Range) (a₂ : Arena)
    (h : ((arenaExtendCBSBlockPool env).run a).out = some (e, a₂)) (he : e.1 = Res.OK) :
    (env.LandInsert a₂ r).1 = Res.OK ∧ (env.LandInsert a₂ r).2.1 = r := by
  obtain ⟨pg, a₁, hpage, hcase⟩ := arenaExtendCBSBlockPool_inv env a e a₂ h
  rcases hcase with ⟨hne, -⟩ | ⟨-, -, ha₂, -⟩
  · exact absurd he hne
  have hland : a₁.freeLand = a.freeLand :=
    arenaAllocPage_keeps_of (f := fun a => a.freeLand) hm _ a _ a₁ hpage
  have hal₂ : a₂.freeLand.abutsNone r := by
    rw [ha₂]
    simp only
    intro s hs
    exact hal s (by rw [← hland]; exact hs)
  have hfed : (env.LandInsert a₂ r).1 ≠ Res.LIMIT :=
    hc.fed a₂ r a₁.freeLand.blockPool (pg.getD 0) (by rw [ha₂])
  have hok : (env.LandInsert a₂ r).1 = Res.OK := by
    rcases hc.codes a₂ r hal₂ with h | h
    · exact h
    · exact absurd h hfed
  exact ⟨hok, hc.alone a₂ r hal₂ hok⟩

/-- Whenever `arenaLandInsert` of a range that abuts nothing returns `ResOK`,
the range it reports is the range inserted. -/
theorem arenaLandInsert_alone (env : Env) (hc : InsertContract env)
    (hm : ∀ a c i n p, (env.cls.pagesMarkAllocated a c i n p).2.freeLand = a.freeLand)
    (r : Range) (a : Arena) (hal : a.freeLand.abutsNone r)
    (x : Res × Range) (a' : Arena)
    (ho : ((arenaLandInsert env r).run a).out = some (x, a')) (hx : x.1 = Res.OK) :
    x.2 = r := by
  rcases hc.codes a r hal with h1 | h1
  · rw [arenaLandInsert_run env r a (by rw [h1]; decide)] at ho
    simp only [Option.some.injEq, Prod.mk.injEq] at ho
    rw [← ho.1]
    exact hc.alone a r hal h1
  · rw [arenaLandInsert_limit env r a h1] at ho
    have hal₁ : Land.abutsNone
        ({ a with freeLand := (env.LandInsert a r).2.2 } : Arena).freeLand r := by
      intro s hs
      exact hal s (by rw [← hc.limit a r h1]; exact hs)
    rcases he : ((arenaExtendCBSBlockPool env).run
        { a with freeLand := (env.LandInsert a r).2.2 }).out with _ | ⟨e, a₂⟩
    · rw [he] at ho
      simp at ho
    · rw [he] at ho
      simp only at ho
      by_cases hres : e.1 ≠ Res.OK
      · rw [if_pos hres] at ho
        simp only [Option.some.injEq, Prod.mk.injEq] at ho
        rw [← ho.1] at hx
        exact absurd hx hres
      · rw [if_neg hres] at ho
        simp only at ho
        obtain ⟨hok, hret⟩ := retry_alone env hc hm r _ hal₁ e a₂ he (not_not.mp hres)
        rw [insertThenExclude_run] at ho
        split at ho
        · simp at ho
        · simp only at ho
          split at ho
          · simp at ho
          · simp only [Option.some.injEq, Prod.mk.injEq] at ho
            rw [← ho.1]
            exact hret

/-- **C26.** For every range `[base, limit)` that abuts no range of the free
land, the land's insert keeping its contract and `pagesMarkAllocated` leaving
the land alone: whenever `arenaLandInsert`, called by `ArenaFreeLandInsert`,
returns `ResOK`, the range reported is `[base, limit)` exactly, so
`RangesEqual(oldRange, range)` is true; on an arena that passes the entry
check `ArenaFreeLandInsert` then returns what `arenaLandInsert` returned, the
no-coalesce assertion passing in every variety.  This includes the path where
the first insert returned `ResLIMIT` and the block pool was extended: the
insert made again returns `ResOK` and reports `[base, limit)`, whatever the
exclusion of the page reports. -/
theorem ArenaFreeLandInsert_noCoalesce (env : Env) (sys : Sys) (base limit : Nat) (a : Arena)
    (hc : InsertContract env)
    (hm : ∀ a c i n p, (env.cls.pagesMarkAllocated a c i n p).2.freeLand = a.freeLand)
    (hal : a.freeLand.abutsNone (RangeInit base limit)) :
    (∀ x a', ((arenaLandInsert env (RangeInit base limit)).run a).out = some (x, a') →
      x.1 = Res.OK → x.2 = RangeInit base limit ∧ RangesEqual x.2 (RangeInit base limit) = true) ∧
    ((env.checking = true → ArenaCheck env sys a = true) →
      ∀ x a', ((arenaLandInsert env (RangeInit base limit)).run a).out = some (x, a') →
        ((ArenaFreeLandInsert env sys base limit).run a).out = some (x.1, a')) ∧
    (∀ e a₂, (env.LandInsert a (RangeInit base limit)).1 = Res.LIMIT →
      ((arenaExtendCBSBlockPool env).run
        { a with freeLand := (env.LandInsert a (RangeInit base limit)).2.2 }).out =
          some (e, a₂) →
      e.1 = Res.OK →
      (env.LandInsert a₂ (RangeInit base limit)).1 = Res.OK ∧
      (env.LandInsert a₂ (RangeInit base limit)).2.1 = RangeInit base limit) := by
  have hret := arenaLandInsert_alone env hc hm (RangeInit base limit) a hal
  refine ⟨fun x a' ho hx => ?_, fun hv x a' ho => ?_, fun e a₂ h1 he hres => ?_⟩
  · have := hret x a' ho hx
    exact ⟨this, by rw [this]; simp [RangesEqual]⟩
  · unfold ArenaFreeLandInsert
    rw [run_AVERT_Arena_bind, if_neg (by
      intro hh
      rw [Bool.and_eq_true] at hh
      have := hv hh.1
      simp [this] at hh)]
    rw [run_bind_of_some ho]
    simp only
    by_cases hx : x.1 ≠ Res.OK
    · rw [if_pos hx]
      rfl
    · rw [if_neg hx]
      have := hret x a' ho (not_not.mp hx)
      rw [run_AVER_bind, if_neg (by rw [this]; simp [RangesEqual])]
      simp only [M.run_pure]
      rw [not_not.mp hx]
  · have hal₁ : Land.abutsNone
        ({ a with freeLand := (env.LandInsert a (RangeInit base limit)).2.2 } : Arena).freeLand
        (RangeInit base limit) := by
      intro s hs
      exact hal s (by rw [← hc.limit a _ h1]; exact hs)
    obtain ⟨hok, hr⟩ := retry_alone env hc hm _ _ hal₁ e a₂ he hres
    exact ⟨hok, hr⟩


/-- The sample land keeps the contract of `LandInsert`. -/
theorem simpleEnv_insertContract : InsertContract simpleEnv := by
  refine ⟨fun a r _ => ?_, fun a r hal hok => ?_, fun a r hl => ?_, fun a r mfs base hb => ?_⟩
  · show (simpleLandInsert a.freeLand r).1 = Res.OK ∨ (simpleLandInsert a.freeLand r).1 = Res.LIMIT
    simp only [simpleLandInsert]
    split
    · exact Or.inl rfl
    · exact Or.inl rfl
    · exact Or.inl rfl
    · split
      · exact Or.inr rfl
      · exact Or.inl rfl
  · show (simpleLandInsert a.freeLand r).2.1 = r
    have h1 : a.freeLand.ranges.find? (fun s => s.limit = r.base) = none := by
      rw [List.find?_eq_none]
      intro s hs
      simpa using (hal s hs).1
    have h2 : a.freeLand.ranges.find? (fun s => s.base = r.limit) = none := by
      rw [List.find?_eq_none]
      intro s hs
      simpa using (hal s hs).2
    simp only [simpleLandInsert, h1, h2]
    split <;> rfl
  · change (simpleLandInsert a.freeLand r).1 = Res.LIMIT at hl
    show (simpleLandInsert a.freeLand r).2.2.ranges = a.freeLand.ranges
    simp only [simpleLandInsert] at hl ⊢
    split at hl
    · simp at hl
    · simp at hl
    · simp at hl
    · split at hl
      · rename_i h0
        rw [if_pos h0]
      · simp at hl
  · change a.freeLand.blockPool = simpleMFSExtend 64 mfs base a.alignment at hb
    show (simpleLandInsert a.freeLand r).1 ≠ Res.LIMIT
    have hu : a.freeLand.blockPool.freeUnits ≠ 0 := by
      rw [hb]
      simp [simpleMFSExtend]
    simp only [simpleLandInsert]
    split
    · simp
    · simp
    · simp
    · rw [if_neg hu]
      simp

/-- **C26**, on the sample arena with an empty land and no spare node: the
first insert of `[0x101000, 0x140000)` returns `ResLIMIT`, the block pool is
extended with the page at `0x101000`, and `ArenaFreeLandInsert` returns
`ResOK`, the page excluded. -/
theorem ArenaFreeLandInsert_noCoalesce_witness :
    Land.abutsNone simpleArenaBare.freeLand (RangeInit 0x101000 0x140000) ∧
    (simpleEnv.LandInsert simpleArenaBare (RangeInit 0x101000 0x140000)).1 = Res.LIMIT ∧
    ((ArenaFreeLandInsert simpleEnv simpleSys 0x101000 0x140000).run simpleArenaBare).out =
      some (Res.OK, simpleArenaCreated) :=
  have hal : Land.abutsNone simpleArenaBare.freeLand (RangeInit 0x101000 0x140000) :=
    fun s hs => absurd hs (List.not_mem_nil s)
  ⟨hal, by decide,
    (ArenaFreeLandInsert_noCoalesce simpleEnv simpleSys 0x101000 0x140000 simpleArenaBare
      simpleEnv_insertContract simpleEnv_landFrame.mark hal).2.1 (fun _ => by decide)
      (Res.OK, RangeInit 0x101000 0x140000) simpleArenaCreated (by decide)⟩

/-! ## arenaLandInsert: what `ResOK` means -/

theorem simpleLandInsert_codes (land : Land) (r : Range) :
    (simpleLandInsert land r).1 = Res.OK ∨ (simpleLandInsert land r).1 = Res.LIMIT := by
  simp only [simpleLandInsert]
  split
  · exact Or.inl rfl
  · exact Or.inl rfl
  · exact Or.inl rfl
  · split
    · exact Or.inr rfl
    · exact Or.inl rfl

theorem simpleLandInsert_fed (land : Land) (r : Range) (h : land.blockPool.freeUnits ≠ 0) :
    (simpleLandInsert land r).1 ≠ Res.LIMIT := by
  simp only [simpleLandInsert]
  split
  · simp
  · simp
  · simp
  · rw [if_neg h]
    simp

/-- Counterexample to C28 as stated: in the sample arena with an empty land
and no spare node, `arenaLandInsert` of `[0x101000, 0x140000)` returns `ResOK`
with `[0x101000, 0x140000)` in `*rangeReturn`, but the page at `0x101000`, given
to the block pool, was excluded after the insertion: the land afterwards holds
`[0x102000, 0x140000)` only, so the address `0x101000` of the range is not in
it and the range in `*rangeReturn` is not a range of the land. -/
theorem arenaLandInsert_inserted_counterexample :
    ¬ (∀ x a', ((arenaLandInsert simpleEnv ⟨0x101000, 0x140000⟩).run simpleArenaBare).out =
        some (x, a') → x.1 = Res.OK →
      (∀ y, 0x101000 ≤ y → y < 0x140000 → a'.freeLand.covers y = true) ∨
        x.2 ∈ a'.freeLand.ranges) := by
  intro h
  have hrun : ((arenaLandInsert simpleEnv ⟨0x101000, 0x140000⟩).run simpleArenaBare).out =
      some ((Res.OK, ⟨0x101000, 0x140000⟩), simpleArenaCreated) := by decide
  rcases h _ _ hrun rfl with h1 | h2
  · exact absurd (h1 0x101000 (by decide) (by decide)) (by decide)
  · exact absurd h2 (by decide)

/-- **C28**, amended.  Whenever `arenaLandInsert` returns `ResOK` for a range,
the land's insert returning no code but `ResOK` and `ResLIMIT` for it, and not
`ResLIMIT` when the block pool has just been extended: an insert of the range
into the land returned `ResOK`, and `*rangeReturn` is the range that insert
reported.  Either it is the first insert, and the land afterwards is the land
it left; or the first insert returned `ResLIMIT`, `arenaAllocPage` gave a page
that `MFSExtend` added to the block pool, the insert made again returned
`ResOK`, and the land afterwards is the land that insert left with the page
deleted from it by `LandDelete`. -/
theorem arenaLandInsert_inserted (env : Env) (r : Range) (a : Arena)
    (hcodes : ∀ b, (env.LandInsert b r).1 = Res.OK ∨ (env.LandInsert b r).1 = Res.LIMIT)
    (hfed : ∀ b mfs base, b.freeLand.blockPool = env.MFSExtend mfs base b.alignment →
      (env.LandInsert b r).1 ≠ Res.LIMIT)
    (x : Res × Range) (a' : Arena)
    (ho : ((arenaLandInsert env r).run a).out = some (x, a')) (hx : x.1 = Res.OK) :
    ((env.LandInsert a r).1 = Res.OK ∧ x.2 = (env.LandInsert a r).2.1 ∧
      a' = { a with freeLand := (env.LandInsert a r).2.2 }) ∨
    ((env.LandInsert a r).1 = Res.LIMIT ∧
      ∃ pg a₁ a₂,
        ((arenaAllocPage env env.cbsBlockPool).run
          { a with freeLand := (env.LandInsert a r).2.2 }).out = some ((Res.OK, pg), a₁) ∧
        a₂ = { a₁ with freeLand := { a₁.freeLand with
          blockPool := env.MFSExtend a₁.freeLand.blockPool (pg.getD 0) a₁.alignment } } ∧
        (env.LandInsert a₂ r).1 = Res.OK ∧ x.2 = (env.LandInsert a₂ r).2.1 ∧
        a' = { a₂ with freeLand :=
          (env.LandDelete { a₂ with freeLand := (env.LandInsert a₂ r).2.2 }
            ⟨pg.getD 0, pg.getD 0 + a₁.alignment⟩).2.2 }) := by
  rcases hcodes a with h1 | h1
  · left
    rw [arenaLandInsert_run env r a (by rw [h1]; decide)] at ho
    simp only [Option.some.injEq, Prod.mk.injEq] at ho
    exact ⟨h1, by rw [← ho.1], ho.2.symm⟩
  · right
    refine ⟨h1, ?_⟩
    rw [arenaLandInsert_limit env r a h1] at ho
    rcases he : ((arenaExtendCBSBlockPool env).run
        { a with freeLand := (env.LandInsert a r).2.2 }).out with _ | ⟨e, a₂⟩
    · rw [he] at ho
      simp at ho
    · rw [he] at ho
      simp only at ho
      by_cases hres : e.1 ≠ Res.OK
      · rw [if_pos hres] at ho
        simp only [Option.some.injEq, Prod.mk.injEq] at ho
        rw [← ho.1] at hx
        exact absurd hx hres
      · rw [if_neg hres] at ho
        simp only at ho
        obtain ⟨pg, a₁, hpage, hcase⟩ := arenaExtendCBSBlockPool_inv env _ e a₂ he
        rcases hcase with ⟨hne, -⟩ | ⟨heq, he2, ha₂, -⟩
        · exact absurd hne hres
        have hok : (env.LandInsert a₂ r).1 = Res.OK := by
          rcases hcodes a₂ with h | h
          · exact h
          · exact absurd h (hfed a₂ a₁.freeLand.blockPool (pg.getD 0) (by rw [ha₂]))
        rw [insertThenExclude_run] at ho
        split at ho
        · simp at ho
        · simp only at ho
          split at ho
          · simp at ho
          · simp only [Option.some.injEq, Prod.mk.injEq] at ho
            refine ⟨pg, a₁, a₂, by rw [← heq]; exact hpage, ha₂, hok, by rw [← ho.1], ?_⟩
            rw [← ho.2, he2]
            rfl

/-- **C28**, amended, on the sample arena with an empty land and no spare
node: the first insert returns `ResLIMIT`, and the run is the one of the second
case. -/
theorem arenaLandInsert_inserted_witness :
    ((arenaLandInsert simpleEnv ⟨0x101000, 0x140000⟩).run simpleArenaBare).out =
      some ((Res.OK, ⟨0x101000, 0x140000⟩), simpleArenaCreated) ∧
    ¬ ((simpleEnv.LandInsert simpleArenaBare ⟨0x101000, 0x140000⟩).1 = Res.OK) ∧
    (((simpleEnv.LandInsert simpleArenaBare ⟨0x101000, 0x140000⟩).1 = Res.OK ∧
      (⟨0x101000, 0x140000⟩ : Range) =
        (simpleEnv.LandInsert simpleArenaBare ⟨0x101000, 0x140000⟩).2.1 ∧
      simpleArenaCreated = { simpleArenaBare with
        freeLand := (simpleEnv.LandInsert simpleArenaBare ⟨0x101000, 0x140000⟩).2.2 }) ∨
    ((simpleEnv.LandInsert simpleArenaBare ⟨0x101000, 0x140000⟩).1 = Res.LIMIT ∧
      ∃ pg a₁ a₂,
        ((arenaAllocPage simpleEnv simpleEnv.cbsBlockPool).run
          { simpleArenaBare with
            freeLand := (simpleEnv.LandInsert simpleArenaBare ⟨0x101000, 0x140000⟩).2.2 }).out =
          some ((Res.OK, pg), a₁) ∧
        a₂ = { a₁ with freeLand := { a₁.freeLand with
          blockPool := simpleEnv.MFSExtend a₁.freeLand.blockPool (pg.getD 0) a₁.alignment } } ∧
        (simpleEnv.LandInsert a₂ ⟨0x101000, 0x140000⟩).1 = Res.OK ∧
        (⟨0x101000, 0x140000⟩ : Range) = (simpleEnv.LandInsert a₂ ⟨0x101000, 0x140000⟩).2.1 ∧
        simpleArenaCreated = { a₂ with freeLand :=
          (simpleEnv.LandDelete
            { a₂ with freeLand := (simpleEnv.LandInsert a₂ ⟨0x101000, 0x140000⟩).2.2 }
            ⟨pg.getD 0, pg.getD 0 + a₁.alignment⟩).2.2 })) :=
  ⟨by decide, by decide,
    arenaLandInsert_inserted simpleEnv ⟨0x101000, 0x140000⟩ simpleArenaBare
      (fun b => simpleLandInsert_codes b.freeLand _)
      (fun b mfs base hb => simpleLandInsert_fed b.freeLand _ (by
        have : b.freeLand.blockPool = simpleMFSExtend 64 mfs base b.alignment := hb
        rw [this]
        simp [simpleMFSExtend]))
      (Res.OK, ⟨0x101000, 0x140000⟩) simpleArenaCreated (by decide) rfl⟩

/-! ## The tract cache -/

theorem allocFromLandMark_keepsAll {γ : Type} {env : Env} {f : Arena → γ} (hf : Frame env f)
    (hz : ∀ a z, f { a with freeZones := z } = f a) (range : Range) (pool : Nat) :
    Post (fun a _ a' => f a' = f a) (allocFromLandMark env range pool) := by
  unfold allocFromLandMark
  refine keep_bind (keep_getArena f) (fun arena => ?_)
  split
  · exact post_abort _
  · refine keep_bind (keep_AVER f _ _) (fun _ => ?_)
    refine keep_bind (keep_mark hf _ _ _ _) (fun res => ?_)
    split
    · refine keep_bind (arenaLandInsert_keeps hf _) (fun _ => ?_)
      exact keep_bind (keep_AVER f _ _) (fun _ => keep_pure f _)
    · intro a r a' ho
      simp only [M.run_bind_out, run_getArena, run_setArena, M.run_pure, Option.some.injEq,
        Prod.mk.injEq] at ho
      rw [← ho.2]
      exact hz _ _

theorem arenaAllocFromLand_keepsAll {γ : Type} {env : Env} {f : Arena → γ} (hf : Frame env f)
    (hz : ∀ a z, f { a with freeZones := z } = f a) (zones : Nat) (high : Bool)
    (size pool : Nat) :
    Post (fun a _ a' => f a' = f a) (arenaAllocFromLand env zones high size pool) := by
  have hfound : ∀ x, Post (fun a _ a' => f a' = f a) (allocFromLandFound env x pool) := by
    intro x
    unfold allocFromLandFound
    refine keep_bind (keep_AVER f _ _) (fun _ => ?_)
    split
    · exact keep_pure f _
    · split
      · exact keep_pure f _
      · exact allocFromLandMark_keepsAll hf hz _ _
  rw [arenaAllocFromLand_eq_steps]
  unfold allocFromLandSteps
  refine keep_bind (keep_AVER f _ _) (fun _ => ?_)
  refine keep_bind (keep_getArena f) (fun arena => ?_)
  refine keep_bind (keep_AVER f _ _) (fun _ => ?_)
  refine keep_bind (keep_landFindInZones hf _ _ _) (fun x => ?_)
  split
  · refine keep_bind (arenaExtendCBSBlockPool_keeps hf) (fun e => ?_)
    split
    · exact keep_pure f _
    · refine keep_bind (arenaExcludePage_keeps hf _) (fun _ => ?_)
      refine keep_bind (keep_landFindInZones hf _ _ _) (fun y => ?_)
      exact keep_bind (keep_AVER f _ _) (fun _ => hfound y)
  · exact hfound x

theorem tryPlan_keepsAll {γ : Type} {env : Env} {f : Arena → γ} (hf : Frame env f)
    (hz : ∀ a z, f { a with freeZones := z } = f a) (p : Plan) (zones : Nat) (high : Bool)
    (size pool : Nat) :
    Post (fun a _ a' => f a' = f a) (tryPlan env p zones high size pool) := by
  unfold tryPlan
  refine keep_bind (fun a x a' ho => ?_) (fun _ => ?_)
  · simp only [run_emit, Option.some.injEq, Prod.mk.injEq] at ho
    rw [← ho.2]
  refine keep_bind (arenaAllocFromLand_keepsAll hf hz _ _ _ _) (fun r => ?_)
  refine keep_bind (fun a x a' ho => ?_) (fun _ => keep_pure f _)
  simp only [run_emit, Option.some.injEq, Prod.mk.injEq] at ho
  rw [← ho.2]

/-- What the land, `pagesMarkAllocated`, `grow` and the assignment to
`freeZones` leave alone, `arenaAllocPolicy` leaves alone. -/
theorem arenaAllocPolicy_keepsAll {γ : Type} {env : Env} {f : Arena → γ} (hf : Frame env f)
    (hz : ∀ a z, f { a with freeZones := z } = f a)
    (hg : ∀ a pref size, f (env.cls.grow a pref size).2 = f a)
    (pref : SegPref) (size pool : Nat) :
    Post (fun a _ a' => f a' = f a) (arenaAllocPolicy env pref size pool) := by
  have hE : Post (fun a _ a' => f a' = f a) (policyPlanE env pref size pool) := by
    unfold policyPlanE
    refine keep_bind (tryPlan_keepsAll hf hz _ _ _ _ _) (fun r => ?_)
    split <;> exact keep_pure f _
  have hD : ∀ mz, Post (fun a _ a' => f a' = f a) (policyPlanD env pref size pool mz) := by
    intro mz
    unfold policyPlanD
    split
    · refine keep_bind (tryPlan_keepsAll hf hz _ _ _ _ _) (fun r => ?_)
      split
      · exact keep_pure f _
      · exact hE
    · exact hE
  have hCB : ∀ z mz, Post (fun a _ a' => f a' = f a) (policyPlanCB env pref size pool z mz) := by
    intro z mz
    unfold policyPlanCB
    split
    · refine keep_bind (tryPlan_keepsAll hf hz _ _ _ _ _) (fun r => ?_)
      split
      · exact keep_pure f _
      · exact hD _
    · exact hD _
  have hCA : ∀ z mz, Post (fun a _ a' => f a' = f a) (policyPlanCA env pref size pool z mz) := by
    intro z mz
    unfold policyPlanCA
    split
    · refine keep_bind (tryPlan_keepsAll hf hz _ _ _ _ _) (fun r => ?_)
      split
      · exact keep_pure f _
      · exact hCB _ _
    · exact hCB _ _
  have hC : ∀ z mz, Post (fun a _ a' => f a' = f a) (policyPlanC env pref size pool z mz) := by
    intro z mz
    unfold policyPlanC
    split
    · refine keep_bind (fun a x a' ho => ?_) (fun res => ?_)
      · simp only [classGrow, Option.some.injEq, Prod.mk.injEq] at ho
        rw [← ho.2]; exact hg _ _ _
      split
      · exact keep_pure f _
      · exact hCA _ _
    · exact hD _
  have hB : ∀ z, Post (fun a _ a' => f a' = f a) (policyPlanB env pref size pool z) := by
    intro z
    unfold policyPlanB
    refine keep_bind (keep_getArena f) (fun arena => ?_)
    split
    · refine keep_bind (tryPlan_keepsAll hf hz _ _ _ _ _) (fun r => ?_)
      split
      · exact keep_pure f _
      · exact hC _ _
    · exact hC _ _
  rw [arenaAllocPolicy_eq_plans]
  unfold policyPlans
  refine keep_bind (keep_AVER f _ _) (fun _ => ?_)
  refine keep_bind (keep_getArena f) (fun arena => ?_)
  split
  · exact keep_pure f _
  · unfold policyPlanA
    split
    · refine keep_bind (tryPlan_keepsAll hf hz _ _ _ _ _) (fun r => ?_)
      split
      · exact keep_pure f _
      · exact hB _
    · exact hB _

/-- The tract-cache condition is a function of what `cacheView` shows. -/
theorem TractCacheCheck_of_view (sys : Sys) (a : Arena) :
    TractCacheCheck sys a =
      match (cacheView sys a).1 with
      | none => (cacheView sys a).2.1 == 0
      | some _ => (cacheView sys a).2.2 == some (cacheView sys a).2.1 := by
  unfold TractCacheCheck cacheView
  rcases a.lastTract with _ | t
  · rfl
  · simp


theorem arenaAllocFound_cache (sys : Sys)
    (hT : ∀ a t b, sys.TractBase { a with lastTract := some t, lastTractBase := b } t =
      sys.TractBase a t)
    (tract : Option Tract) :
    Post (fun a y a' => AllocCache y (cacheView sys a) (cacheView sys a'))
      (arenaAllocFound sys tract) := by
  unfold arenaAllocFound
  rcases tract with _ | t
  · exact post_abort _
  · intro a y a' ho
    simp only [M.run_bind_out, run_getArena, modifyArena, M.run_pure, Option.some.injEq,
      Prod.mk.injEq] at ho
    obtain ⟨rfl, rfl⟩ := ho
    refine ⟨fun _ => ⟨⟨t, rfl⟩, rfl, ?_⟩, fun h => absurd rfl h⟩
    simp only [cacheView, Option.map_some', hT]

theorem allocCache_fail (sys : Sys) (res : Res) (hres : res ≠ Res.OK) :
    Post (fun a y a' => AllocCache y (cacheView sys a) (cacheView sys a'))
      (pure (res, none) : M (Res × Option Nat)) :=
  post_pure _ (fun _ => ⟨fun h => absurd h hres, fun _ => ⟨rfl, rfl⟩⟩)

theorem arenaAllocTracts_cache (env : Env) (sys : Sys)
    (hT : ∀ a t b, sys.TractBase { a with lastTract := some t, lastTractBase := b } t =
      sys.TractBase a t)
    (hf : AllocFrame env sys (cacheView sys)) (pref : SegPref) (size pool : Nat)
    (permit : Bool) :
    Post (fun a y a' => AllocCache y (cacheView sys a) (cacheView sys a'))
      (arenaAllocTracts env sys pref size pool permit) := by
  unfold arenaAllocTracts
  refine post_bind_rel (R := AllocCache)
    (arenaAllocPolicy_keepsAll hf.frame hf.zones hf.grow _ _ _) (fun r => ?_)
  split
  · rename_i hr
    split
    · refine post_bind_rel (R := AllocCache) (fun a x a' ho => ?_) (fun w => ?_)
      · simp only [reservoirWithdraw, Option.some.injEq, Prod.mk.injEq] at ho
        rw [← ho.2]; exact hf.withdraw _ _ _
      · split
        · exact allocCache_fail sys _ hr
        · exact arenaAllocFound_cache sys hT _
    · exact allocCache_fail sys _ hr
  · exact arenaAllocFound_cache sys hT _

/-- `ArenaAlloc` and the tract cache: a call that returns `ResOK` has cached a
tract whose base is the cached base and the base returned; a call that returns
another code returns no base and leaves the cache as it was. -/
theorem ArenaAlloc_cache (env : Env) (sys : Sys)
    (hT : ∀ a t b, sys.TractBase { a with lastTract := some t, lastTractBase := b } t =
      sys.TractBase a t)
    (hf : AllocFrame env sys (cacheView sys)) (pref : SegPref) (size pool : Nat)
    (permit : Bool) :
    Post (fun a y a' => AllocCache y (cacheView sys a) (cacheView sys a'))
      (ArenaAlloc env sys pref size pool permit) := by
  unfold ArenaAlloc
  refine post_bind_rel (R := AllocCache) (keep_AVER _ _ _) (fun _ => ?_)
  refine post_bind_rel (R := AllocCache) (keep_AVERT_Arena _ env sys) (fun _ => ?_)
  refine post_bind_rel (R := AllocCache) (keep_getArena _) (fun arena => ?_)
  refine post_bind_rel (R := AllocCache) (keep_AVER _ _ _) (fun _ => ?_)
  refine post_bind_rel (R := AllocCache) (keep_AVER _ _ _) (fun _ => ?_)
  split
  · refine post_bind_rel (R := AllocCache) (keep_callRes _ (fun a => hf.ensureFull a))
      (fun res => ?_)
    split
    · rename_i hres
      refine post_bind_rel (R := AllocCache) (keep_AVER _ _ _) (fun _ => ?_)
      split
      · exact allocCache_fail sys _ hres
      · exact arenaAllocTracts_cache env sys hT hf _ _ _ _
    · exact arenaAllocTracts_cache env sys hT hf _ _ _ _
  · exact arenaAllocTracts_cache env sys hT hf _ _ _ _

/-- After the assignments of `ArenaInit` the cache is empty, and the functions
called afterwards do not change that. -/
theorem ArenaInit_cache (env : Env) (sys : Sys) (hi : InitKeepsCache sys)
    (alignment : Nat) (args : ArgList) :
    Post (fun _ r a' => r = Res.OK → a'.lastTract = none ∧ a'.lastTractBase = 0)
      (ArenaInit env sys alignment args) := by
  unfold ArenaInit
  intro a r a' ho
  rw [run_AVER_bind] at ho
  split at ho
  · simp at ho
  rw [run_modifyArena_bind] at ho
  have hk : ∀ {g : Arena → Arena}, KeepsCache g →
      ∀ x, (fun x : Arena => (x.lastTract, x.lastTractBase)) (g x) =
        (fun x : Arena => (x.lastTract, x.lastTractBase)) x := by
    intro g hg x
    simp only [(hg x).1, (hg x).2]
  have hpost : ∀ (m : M Res) (u : Arena), (m.run u).out = some (r, a') →
      Post (fun u (y : Res) v => y = Res.OK →
        (fun x : Arena => (x.lastTract, x.lastTractBase)) v =
          (fun x : Arena => (x.lastTract, x.lastTractBase)) u) m →
      r = Res.OK → (fun x : Arena => (x.lastTract, x.lastTractBase)) a' =
        (fun x : Arena => (x.lastTract, x.lastTractBase)) u :=
    fun m u h hp => hp u r a' h
  have key := hpost _ _ ho
  intro hr
  have h3 := key (by
    refine okKeep_bind (keep_callVoid (f := fun x : Arena => (x.lastTract, x.lastTractBase)) _ (hk hi.locus)) (fun _ => ?_)
    refine okKeep_bind (keep_callRes (f := fun x : Arena => (x.lastTract, x.lastTractBase)) _ (hk hi.globals)) (fun res => ?_)
    split
    · rename_i hres
      exact okKeep_fail res hres (post_pure res (fun _ => rfl))
    refine okKeep_bind (keep_modifyArena (f := fun x : Arena => (x.lastTract, x.lastTractBase)) (fun _ => rfl)) (fun _ => ?_)
    refine okKeep_bind (keep_AVERT_Arena _ env sys) (fun _ => ?_)
    refine okKeep_bind (keep_callRes (f := fun x : Arena => (x.lastTract, x.lastTractBase)) _ (hk hi.blockPool)) (fun res => ?_)
    refine okKeep_bind (keep_AVER _ _ _) (fun _ => ?_)
    split
    · rename_i hres
      exact okKeep_fail res hres (post_bind_val (fun _ => post_pure res (fun _ => rfl)))
    refine okKeep_bind (keep_callRes (f := fun x : Arena => (x.lastTract, x.lastTractBase)) _ (hk hi.land)) (fun res => ?_)
    refine okKeep_bind (keep_AVER _ _ _) (fun _ => ?_)
    split
    · rename_i hres
      exact okKeep_fail res hres (post_bind_val (fun _ => post_bind_val (fun _ =>
        post_pure res (fun _ => rfl))))
    refine okKeep_bind (keep_callRes (f := fun x : Arena => (x.lastTract, x.lastTractBase)) _ (hk hi.reservoir)) (fun res => ?_)
    split
    · rename_i hres
      exact okKeep_fail res hres (post_bind_val (fun _ => post_bind_val (fun _ =>
        post_bind_val (fun _ => post_pure res (fun _ => rfl)))))
    refine okKeep_bind (keep_AVERT_Arena _ env sys) (fun _ => ?_)
    exact post_pure _ (fun _ _ => rfl)) hr
  simp only [Prod.mk.injEq] at h3
  exact h3

/-- `ArenaFree` and the tract cache: afterwards the cache is empty, or it is
what it was, with the base of the cached tract. -/
theorem ArenaFree_cache (env : Env) (sys : Sys) (base size pool : Nat) (a a' : Arena)
    (hf : FreeFrame env sys (cacheView sys))
    (ho : ((ArenaFree env sys base size pool).run a).out = some ((), a')) :
    cacheView sys a' = (none, 0, none) ∨ cacheView sys a' = cacheView sys a := by
  unfold ArenaFree at ho
  rw [run_AVER_bind] at ho
  split at ho
  · simp at ho
  rw [run_AVER_bind] at ho
  split at ho
  · simp at ho
  rw [run_AVERT_Arena_bind] at ho
  split at ho
  · simp at ho
  rw [run_getArena_bind, run_AVER_bind] at ho
  split at ho
  · simp at ho
  rw [run_AVER_bind] at ho
  split at ho
  · simp at ho
  rw [run_AVER_bind] at ho
  split at ho
  · simp at ho
  by_cases hit : a.lastTractBase ≥ base ∧ a.lastTractBase < (base + size) % 2 ^ env.W
  · rw [if_pos hit, run_modifyArena_bind] at ho
    have hk := arenaFree_tail_keeps hf ((base + size) % 2 ^ env.W) base size pool _ _ _ ho
    left
    rw [hk]
    rfl
  · rw [if_neg hit, run_pure_bind] at ho
    exact Or.inr (arenaFree_tail_keeps hf ((base + size) % 2 ^ env.W) base size pool _ _ _ ho)


theorem TractCacheCheck_congr (sys : Sys) {a a' : Arena}
    (h : cacheView sys a' = cacheView sys a) :
    TractCacheCheck sys a' = TractCacheCheck sys a := by
  rw [TractCacheCheck_of_view, TractCacheCheck_of_view, h]

/-- **C27.** The tract-cache condition of `ArenaCheck` (a null `lastTract`
goes with `lastTractBase = 0`, any other with `TractBase(lastTract) =
lastTractBase`), the functions of other modules leaving the cache fields and
the base of the cached tract alone and `TractBase` not reading the cache
fields: it holds after every `ArenaInit` that returns `ResOK`, the cache being
empty; every `ArenaAlloc` that returns preserves it, one that returns `ResOK`
having cached a tract whose base is `lastTractBase` and the base returned, one
that returns another code having written no base and left both cache fields
as they were; and every `ArenaFree` that returns preserves it. -/
theorem tractCache_consistent (env : Env) (sys : Sys)
    (hT : ∀ a t b, sys.TractBase { a with lastTract := some t, lastTractBase := b } t =
      sys.TractBase a t)
    (hi : InitKeepsCache sys)
    (hfa : AllocFrame env sys (cacheView sys))
    (hff : FreeFrame env sys (cacheView sys)) :
    (∀ alignment args a a',
      ((ArenaInit env sys alignment args).run a).out = some (Res.OK, a') →
      a'.lastTract = none ∧ a'.lastTractBase = 0 ∧ TractCacheCheck sys a' = true) ∧
    (∀ pref size pool permit a r a',
      ((ArenaAlloc env sys pref size pool permit).run a).out = some (r, a') →
      (TractCacheCheck sys a = true → TractCacheCheck sys a' = true) ∧
      (r.1 = Res.OK → TractCacheCheck sys a' = true ∧
        ∃ t, a'.lastTract = some t ∧ sys.TractBase a' t = a'.lastTractBase ∧
          r.2 = some (sys.TractBase a' t)) ∧
      (r.1 ≠ Res.OK → r.2 = none ∧ a'.lastTract = a.lastTract ∧
        a'.lastTractBase = a.lastTractBase)) ∧
    (∀ base size pool a a', ((ArenaFree env sys base size pool).run a).out = some ((), a') →
      TractCacheCheck sys a = true → TractCacheCheck sys a' = true) := by
  refine ⟨fun alignment args a a' ho => ?_, fun pref size pool permit a r a' ho => ?_,
    fun base size pool a a' ho hc => ?_⟩
  · obtain ⟨h1, h2⟩ := ArenaInit_cache env sys hi alignment args a _ a' ho rfl
    refine ⟨h1, h2, ?_⟩
    unfold TractCacheCheck
    rw [h1, h2]
    rfl
  · obtain ⟨hok, hfail⟩ := ArenaAlloc_cache env sys hT hfa pref size pool permit a r a' ho
    have hgood : r.1 = Res.OK → TractCacheCheck sys a' = true ∧
        ∃ t, a'.lastTract = some t ∧ sys.TractBase a' t = a'.lastTractBase ∧
          r.2 = some (sys.TractBase a' t) := by
      intro hr
      obtain ⟨⟨t, ht⟩, hret, hbase⟩ := hok hr
      change a'.lastTract = some t at ht
      change r.2 = some a'.lastTractBase at hret
      change a'.lastTract.map (sys.TractBase a') = some a'.lastTractBase at hbase
      rw [ht] at hbase
      simp only [Option.map_some', Option.some.injEq] at hbase
      refine ⟨?_, t, ht, hbase, by rw [hbase]; exact hret⟩
      unfold TractCacheCheck
      rw [ht]
      simp [hbase]
    have hbad : r.1 ≠ Res.OK → r.2 = none ∧ cacheView sys a' = cacheView sys a := hfail
    refine ⟨fun hc => ?_, hgood, fun hr => ?_⟩
    · by_cases hr : r.1 = Res.OK
      · exact (hgood hr).1
      · rw [TractCacheCheck_congr sys (hbad hr).2]
        exact hc
    · obtain ⟨h1, h2⟩ := hbad hr
      simp only [cacheView, Prod.mk.injEq] at h2
      exact ⟨h1, h2.1, h2.2.1⟩
  · rcases ArenaFree_cache env sys base size pool a a' hff ho with h | h
    · rw [TractCacheCheck_of_view, h]
      rfl
    · rw [TractCacheCheck_congr sys h]
      exact hc

/-- The base of a tract read from the chunk's tables does not change when
pages are marked allocated. -/
theorem simpleTractBase_mark (a : Arena) (c : Chunk) (i n p : Nat) (t : Tract) :
    simpleTractBase (simplePagesMarkAllocated a c i n p).2 t = simpleTractBase a t := by
  unfold simplePagesMarkAllocated
  split
  · rfl
  · unfold simpleTractBase chunkAt
    simp only [List.find?_map]
    have hfun : ((fun c' : Chunk => c'.base == t.chunk) ∘
        fun c' : Chunk => if c'.base = c.base then
          { c' with allocTable := BTSetRange c'.allocTable i n } else c') =
        fun c' : Chunk => c'.base == t.chunk := by
      funext c'
      simp only [Function.comp]
      split <;> rfl
    rw [hfun]
    rcases a.chunkTree.find? (fun c' : Chunk => c'.base == t.chunk) with _ | c'
    · rfl
    · simp only [Option.map_some']
      split <;> rfl

theorem simpleEnv_cacheFrame : Frame simpleEnv (cacheView simpleSys) := by
  refine ⟨fun _ _ => rfl, fun a c i n p => ?_⟩
  show cacheView simpleSys (simplePagesMarkAllocated a c i n p).2 = cacheView simpleSys a
  have h1 : (simplePagesMarkAllocated a c i n p).2.lastTract = a.lastTract := by
    unfold simplePagesMarkAllocated; split <;> rfl
  have h2 : (simplePagesMarkAllocated a c i n p).2.lastTractBase = a.lastTractBase := by
    unfold simplePagesMarkAllocated; split <;> rfl
  unfold cacheView
  rw [h1, h2]
  congr 2
  rcases a.lastTract with _ | t
  · rfl
  · simp only [Option.map_some', Option.some.injEq]
    exact simpleTractBase_mark a c i n p t

/-- **C27**, on the sample arena: `ArenaAlloc` of two pages caches the tract of
the first, whose base `0x101000` it returns, and `ArenaFree` of the two pages
empties the cache. -/
theorem tractCache_consistent_witness :
    TractCacheCheck simpleSys (simpleArena 1) = true ∧
    ((ArenaAlloc simpleEnv simpleSys ⟨false, 0, 0⟩ 8192 1 false).run (simpleArena 1)).out =
      some ((Res.OK, some 0x101000), simpleArenaServed) ∧
    (TractCacheCheck simpleSys simpleArenaServed = true ∧
      ∃ t, simpleArenaServed.lastTract = some t ∧
        simpleSys.TractBase simpleArenaServed t = simpleArenaServed.lastTractBase ∧
        some 0x101000 = some (simpleSys.TractBase simpleArenaServed t)) ∧
    ((ArenaFree simpleEnv simpleSys 0x101000 8192 1).run simpleArenaServed).out =
      some ((), simpleArenaReturned) ∧
    TractCacheCheck simpleSys simpleArenaReturned = true :=
  have h := tractCache_consistent simpleEnv simpleSys (fun _ _ _ => rfl)
    ⟨fun _ => ⟨rfl, rfl⟩, fun _ => ⟨rfl, rfl⟩, fun _ => ⟨rfl, rfl⟩, fun _ => ⟨rfl, rfl⟩,
      fun _ => ⟨rfl, rfl⟩⟩
    ⟨simpleEnv_cacheFrame, fun _ _ => rfl, fun _ _ _ => rfl, fun _ => rfl, fun _ _ _ => rfl⟩
    ⟨simpleEnv_cacheFrame, fun _ _ _ _ => rfl, fun _ => rfl, fun _ _ _ => rfl, fun _ _ => rfl⟩
  have halloc : ((ArenaAlloc simpleEnv simpleSys ⟨false, 0, 0⟩ 8192 1 false).run
      (simpleArena 1)).out = some ((Res.OK, some 0x101000), simpleArenaServed) := by decide
  have hfree : ((ArenaFree simpleEnv simpleSys 0x101000 8192 1).run simpleArenaServed).out =
      some ((), simpleArenaReturned) := by decide
  have hserved := (h.2.1 _ _ _ _ _ _ _ halloc).2.1 rfl
  ⟨by decide, halloc, hserved, hfree, h.2.2 _ _ _ _ _ hfree hserved.1⟩

end MPS
